import Mathlib

/-!
# RaceTrack: the multi-lockset happens-before analyzer and the active verifier

A shallow embedding of `src/race/multilock_hb.cc` and of the scheduling part of
`src/race/verifier.cpp`, followed by the properties proved about them.

Conventions of the embedding

* thread ids, timestamps, addresses and instruction handles are natural numbers;
* a `std::map` whose iteration order matters is an association list kept in
  ascending key order (`mapFind`, `mapSet`); a `std::map` that is only looked up
  is a total function into `Option` (`none`: no entry, or a `NULL` entry);
* a `std::vector` is a `List`; a loop that erases while iterating is a structural
  recursion over the list that the iterator walks;
* each call of `ReportRace` is appended to the field `reported` of the analyzer.
-/

namespace race

/-! ## Basic types -/

abbrev thread_t := Nat

abbrev timestamp_t := Nat

abbrev address_t := Nat

/-- An instruction handle (`Inst *`). -/
abbrev Inst := Nat

/-- The two access kinds handed to `ReportRace`. -/
inductive RaceEventType where
  | RACE_EVENT_READ
  | RACE_EVENT_WRITE
deriving DecidableEq

/-- Modelled from the spec: the vector clock (`core/vector_clock.h` is not among the
sources): a mapping from thread id to logical clock in which absent entries read 0. -/
abbrev VectorClock := thread_t → timestamp_t

/-- Modelled from the spec: `VectorClock::GetClock`, total, 0 for an absent thread. -/
def VectorClock.GetClock (vc : VectorClock) (thd : thread_t) : timestamp_t := vc thd

/-- Modelled from the spec: `VectorClock::Increment`. -/
def VectorClock.Increment (vc : VectorClock) (thd : thread_t) : VectorClock :=
  Function.update vc thd (vc thd + 1)

/-- Modelled from the spec: `VectorClock::Join`, the pointwise maximum. -/
def VectorClock.Join (vc other : VectorClock) : VectorClock :=
  fun thd => max (vc thd) (other thd)

/-- Modelled from the spec: a new (or cleared) `VectorClock`: every entry reads 0. -/
def VectorClock.empty : VectorClock := fun _ => 0

/-- Modelled from the spec: the lock set (`core/lock_set.h` is not among the sources):
an unordered set of lock addresses. -/
abbrev LockSet := Finset address_t

/-- Modelled from the spec: `LockSet::Add`. -/
def LockSet.Add (ls : LockSet) (addr : address_t) : LockSet := insert addr ls

/-- Modelled from the spec: `LockSet::Remove`. -/
def LockSet.Remove (ls : LockSet) (addr : address_t) : LockSet := ls.erase addr

/-- Modelled from the spec: `LockSet::Exist` (contains). -/
def LockSet.Exist (ls : LockSet) (addr : address_t) : Bool := decide (addr ∈ ls)

/-- Modelled from the spec: `LockSet::Join` (union into the receiver). The argument is
a table slot; an empty slot (`NULL`) contributes no lock. -/
def LockSet.Join (ls : LockSet) (other : Option LockSet) : LockSet :=
  match other with
  | none => ls
  | some o => ls ∪ o

/-- Modelled from the spec: `LockSet::SubLockSet`: the receiver is a subset of the
argument (`curr_lockset->SubLockSet(&prior)` is commented in the source as "current
lockset is a sublockset of prior read's"). -/
def LockSet.SubLockSet (ls other : LockSet) : Bool := decide (ls ⊆ other)

/-- Modelled from the spec: `LockSet::Disjoint`: the intersection is empty; true when
both sides are empty. -/
def LockSet.Disjoint (ls other : LockSet) : Bool := decide (ls ∩ other = ∅)

/-- An `EpochLockSetPair`: the epoch of an access and the lock set held. -/
abbrev EpochLockSetPair := timestamp_t × LockSet

abbrev EpochLockSetPairVector := List EpochLockSetPair

/-- `std::map::find` on an association list. -/
def mapFind {V : Type} : List (thread_t × V) → thread_t → Option V
  | [], _ => none
  | (k', v) :: rest, k => if k' = k then some v else mapFind rest k

/-- `m[k] = v` on an association list in ascending key order. -/
def mapSet {V : Type} : List (thread_t × V) → thread_t → V → List (thread_t × V)
  | [], k, v => [(k, v)]
  | (k', v') :: rest, k, v =>
    if k < k' then (k, v) :: (k', v') :: rest
    else if k = k' then (k, v) :: rest
    else (k', v') :: mapSet rest k v

/-- `ThreadElspVecMap`: thread id to its history vector, iterated in ascending id. -/
abbrev ThreadElspVecMap := List (thread_t × EpochLockSetPairVector)

/-- The invariant of a `std::map`: keys strictly ascending. -/
def mapWf {V : Type} (m : List (thread_t × V)) : Prop :=
  (m.map Prod.fst).Pairwise (fun a b => a < b)

instance {V : Type} (m : List (thread_t × V)) : Decidable (mapWf m) := by
  unfold mapWf; infer_instance

/-- The history of a thread as a sequence: empty when the map has no entry. -/
def historyOf (m : ThreadElspVecMap) (thd : thread_t) : EpochLockSetPairVector :=
  (mapFind m thd).getD []

/-! # The multi-lockset happens-before analyzer (`race/multilock_hb.cc`) -/

/-- `MlMeta`: the per-unit metadata of the analyzer. -/
structure MlMeta where
  racy : Bool
  writer_elspvec_map : ThreadElspVecMap
  reader_elspvec_map : ThreadElspVecMap
  writer_inst_table : thread_t → Option Inst
  reader_inst_table : thread_t → Option Inst
  race_inst_set : Finset Inst

/-- The result of `new MlMeta(iaddr)`. -/
def MlMeta.fresh : MlMeta :=
  { racy := false, writer_elspvec_map := [], reader_elspvec_map := [],
    writer_inst_table := fun _ => none, reader_inst_table := fun _ => none,
    race_inst_set := ∅ }

/-- The arguments of one call of `ReportRace` (the meta apart). -/
structure RaceReport where
  t0 : thread_t
  i0 : Option Inst
  p0 : RaceEventType
  t1 : thread_t
  i1 : Inst
  p1 : RaceEventType
deriving DecidableEq

/-- The analyzer state read and written by the handlers of `MultiLockHb`. -/
structure MultiLockHb where
  track_racy_inst_ : Bool
  curr_vc_map_ : thread_t → VectorClock
  curr_lockset_table_ : thread_t → Option LockSet
  curr_reader_lockset_table_ : thread_t → Option LockSet
  reported : List RaceReport

/-- The analyzer after construction: no lock sets, nothing reported. -/
def MultiLockHb.init (track : Bool) (vcs : thread_t → VectorClock) : MultiLockHb :=
  { track_racy_inst_ := track, curr_vc_map_ := vcs,
    curr_lockset_table_ := fun _ => none,
    curr_reader_lockset_table_ := fun _ => none, reported := [] }

/-- The set stored in a lock set table for a thread, empty when there is no entry. -/
def locksetOf (table : thread_t → Option LockSet) (thd : thread_t) : LockSet :=
  (table thd).getD ∅

/-- `MultiLockHb::AfterPthreadMutexLock` (the lock statistics counter of the detector
framework, `LockCountIncrease`, is left out here and in the next two handlers). -/
def MultiLockHb.AfterPthreadMutexLock (self : MultiLockHb) (curr_thd_id : thread_t)
    (addr : address_t) : MultiLockHb :=
  let curr_lockset : LockSet :=
    match self.curr_lockset_table_ curr_thd_id with
    | none => ∅
    | some ls => ls
  { self with
    curr_lockset_table_ :=
      Function.update self.curr_lockset_table_ curr_thd_id (some (curr_lockset.Add addr)) }

/-- `MultiLockHb::BeforePthreadMutexUnlock`; `none` when the `DEBUG_ASSERT` fails
(no lock set for the thread, or the mutex is not in it). -/
def MultiLockHb.BeforePthreadMutexUnlock (self : MultiLockHb) (curr_thd_id : thread_t)
    (addr : address_t) : Option MultiLockHb :=
  match self.curr_lockset_table_ curr_thd_id with
  | none => none
  | some curr_lockset =>
    if curr_lockset.Exist addr then
      some { self with
        curr_lockset_table_ :=
          Function.update self.curr_lockset_table_ curr_thd_id
            (some (curr_lockset.Remove addr)) }
    else none

/-- `MultiLockHb::AfterPthreadRwlockRdlock`. -/
def MultiLockHb.AfterPthreadRwlockRdlock (self : MultiLockHb) (curr_thd_id : thread_t)
    (addr : address_t) : MultiLockHb :=
  let curr_reader_lockset : LockSet :=
    match self.curr_reader_lockset_table_ curr_thd_id with
    | none => ∅
    | some ls => ls
  { self with
    curr_reader_lockset_table_ :=
      Function.update self.curr_reader_lockset_table_ curr_thd_id
        (some (curr_reader_lockset.Add addr)) }

/-- The condition of the skip loops: an entry of the same epoch whose lock set is a
sub lock set of the current one. -/
def skipCond (curr_clk : timestamp_t) (curr_lockset : LockSet) (p : EpochLockSetPair) :
    Bool :=
  p.1 == curr_clk && p.2.SubLockSet curr_lockset

/-- The condition of the erase loops: an entry not newer than the current epoch whose
lock set contains the current one. -/
def eraseCond (curr_clk : timestamp_t) (curr_lockset : LockSet) (p : EpochLockSetPair) :
    Bool :=
  decide (p.1 ≤ curr_clk) && curr_lockset.SubLockSet p.2

/-- The erase loop `for(it=begin();it!=end();)`: every element is tested. -/
def eraseLoop (curr_clk : timestamp_t) (curr_lockset : LockSet) :
    EpochLockSetPairVector → EpochLockSetPairVector
  | [] => []
  | p :: rest =>
    if eraseCond curr_clk curr_lockset p then eraseLoop curr_clk curr_lockset rest
    else p :: eraseLoop curr_clk curr_lockset rest

/-- The erase loop `for(it=begin();it!=end()-1;)`: the last element is not tested. -/
def eraseLoopButLast (curr_clk : timestamp_t) (curr_lockset : LockSet) :
    EpochLockSetPairVector → EpochLockSetPairVector
  | [] => []
  | [p] => [p]
  | p :: q :: rest =>
    if eraseCond curr_clk curr_lockset p then
      eraseLoopButLast curr_clk curr_lockset (q :: rest)
    else p :: eraseLoopButLast curr_clk curr_lockset (q :: rest)

/-- The `find`/`new` preamble: make sure the map has a vector for the thread. -/
def ensureVec (m : ThreadElspVecMap) (thd : thread_t) : ThreadElspVecMap :=
  match mapFind m thd with
  | none => mapSet m thd []
  | some _ => m

/-- `MultiLockHb::update_on_read`. Returns the lock set left in `*curr_lockset` (the
caller's temporary) together with the meta. -/
def MultiLockHb.update_on_read (self : MultiLockHb) (curr_clk : timestamp_t)
    (curr_thd : thread_t) (curr_lockset : LockSet) (ml_meta : MlMeta) :
    LockSet × MlMeta :=
  let curr_lockset := curr_lockset.Join (self.curr_reader_lockset_table_ curr_thd)
  let ml_meta := { ml_meta with
    reader_elspvec_map := ensureVec ml_meta.reader_elspvec_map curr_thd }
  let reader_elsp_vec := historyOf ml_meta.reader_elspvec_map curr_thd
  if reader_elsp_vec.any (skipCond curr_clk curr_lockset) then (curr_lockset, ml_meta)
  else
    let ml_meta := { ml_meta with
      writer_elspvec_map := ensureVec ml_meta.writer_elspvec_map curr_thd }
    let writer_elsp_vec := historyOf ml_meta.writer_elspvec_map curr_thd
    if writer_elsp_vec.any (skipCond curr_clk curr_lockset) then (curr_lockset, ml_meta)
    else
      let reader_elsp_vec :=
        eraseLoopButLast curr_clk curr_lockset (reader_elsp_vec ++ [(curr_clk, curr_lockset)])
      (curr_lockset, { ml_meta with
        reader_elspvec_map := mapSet ml_meta.reader_elspvec_map curr_thd reader_elsp_vec })

/-- `MultiLockHb::update_on_write`. -/
def MultiLockHb.update_on_write (_self : MultiLockHb) (curr_clk : timestamp_t)
    (curr_thd : thread_t) (curr_lockset : LockSet) (ml_meta : MlMeta) : MlMeta :=
  let ml_meta := { ml_meta with
    writer_elspvec_map := ensureVec ml_meta.writer_elspvec_map curr_thd }
  let writer_elsp_vec := historyOf ml_meta.writer_elspvec_map curr_thd
  if writer_elsp_vec.any (skipCond curr_clk curr_lockset) then ml_meta
  else
    let writer_elsp_vec := writer_elsp_vec ++ [(curr_clk, curr_lockset)]
    let ml_meta :=
      match mapFind ml_meta.reader_elspvec_map curr_thd with
      | none => ml_meta
      | some reader_elsp_vec => { ml_meta with
          reader_elspvec_map := mapSet ml_meta.reader_elspvec_map curr_thd
            (eraseLoop curr_clk curr_lockset reader_elsp_vec) }
    { ml_meta with
      writer_elspvec_map := mapSet ml_meta.writer_elspvec_map curr_thd
        (eraseLoopButLast curr_clk curr_lockset writer_elsp_vec) }

/-- The race test applied to one history entry of another thread. -/
def raceCond (thd_clk : timestamp_t) (lock_set : LockSet) (p : EpochLockSetPair) : Bool :=
  decide (p.1 > thd_clk) && p.2.Disjoint lock_set

/-- The inner loop of a race scan: one history vector of another thread. The state is
the `racy` flag and the calls of `ReportRace` so far; `r` is the call made at a hit. -/
def scanVec (thd_clk : timestamp_t) (lock_set : LockSet) (r : RaceReport) :
    EpochLockSetPairVector → Bool × List RaceReport → Bool × List RaceReport
  | [], st => st
  | p :: rest, st =>
    if raceCond thd_clk lock_set p then scanVec thd_clk lock_set r rest (true, st.2 ++ [r])
    else scanVec thd_clk lock_set r rest st

/-- The outer loop of a race scan over a history map, skipping the current thread.
`inst_table` is the instruction table read for the other thread, `p0` its kind. -/
def scanMap (curr_vc : VectorClock) (curr_thd_id : thread_t) (lock_set : LockSet)
    (inst_table : thread_t → Option Inst) (p0 : RaceEventType) (inst : Inst)
    (p1 : RaceEventType) :
    ThreadElspVecMap → Bool × List RaceReport → Bool × List RaceReport
  | [], st => st
  | (thd_id, elsp_vec) :: rest, st =>
    if thd_id = curr_thd_id then
      scanMap curr_vc curr_thd_id lock_set inst_table p0 inst p1 rest st
    else
      scanMap curr_vc curr_thd_id lock_set inst_table p0 inst p1 rest
        (scanVec (curr_vc.GetClock thd_id) lock_set
          { t0 := thd_id, i0 := inst_table thd_id, p0 := p0,
            t1 := curr_thd_id, i1 := inst, p1 := p1 } elsp_vec st)

/-- The writer lock set of a thread after the "trivial lockset" preamble of the access
handlers: the table entry, created empty when missing. -/
def MultiLockHb.ensureLockset (self : MultiLockHb) (curr_thd_id : thread_t) : MultiLockHb :=
  match self.curr_lockset_table_ curr_thd_id with
  | none =>
    { self with
      curr_lockset_table_ := Function.update self.curr_lockset_table_ curr_thd_id (some ∅) }
  | some _ => self

/-- `MultiLockHb::ProcessRead`. -/
def MultiLockHb.ProcessRead (self : MultiLockHb) (curr_thd_id : thread_t) (ml_meta : MlMeta)
    (inst : Inst) : MultiLockHb × MlMeta :=
  let curr_vc := self.curr_vc_map_ curr_thd_id
  let curr_clk := curr_vc.GetClock curr_thd_id
  let self := self.ensureLockset curr_thd_id
  let lock_set : LockSet := locksetOf self.curr_lockset_table_ curr_thd_id
  let r := self.update_on_read curr_clk curr_thd_id lock_set ml_meta
  let lock_set := r.1
  let ml_meta := r.2
  let st := scanMap curr_vc curr_thd_id lock_set ml_meta.writer_inst_table
    RaceEventType.RACE_EVENT_WRITE inst RaceEventType.RACE_EVENT_READ
    ml_meta.writer_elspvec_map (ml_meta.racy, self.reported)
  let ml_meta := { ml_meta with
    racy := st.1,
    reader_inst_table := Function.update ml_meta.reader_inst_table curr_thd_id (some inst) }
  let ml_meta :=
    if self.track_racy_inst_ then
      { ml_meta with race_inst_set := insert inst ml_meta.race_inst_set }
    else ml_meta
  ({ self with reported := st.2 }, ml_meta)

/-- `MultiLockHb::ProcessWrite`. -/
def MultiLockHb.ProcessWrite (self : MultiLockHb) (curr_thd_id : thread_t) (ml_meta : MlMeta)
    (inst : Inst) : MultiLockHb × MlMeta :=
  let curr_vc := self.curr_vc_map_ curr_thd_id
  let curr_clk := curr_vc.GetClock curr_thd_id
  let self := self.ensureLockset curr_thd_id
  let lock_set : LockSet := locksetOf self.curr_lockset_table_ curr_thd_id
  let ml_meta := self.update_on_write curr_clk curr_thd_id lock_set ml_meta
  let st := scanMap curr_vc curr_thd_id lock_set ml_meta.writer_inst_table
    RaceEventType.RACE_EVENT_WRITE inst RaceEventType.RACE_EVENT_WRITE
    ml_meta.writer_elspvec_map (ml_meta.racy, self.reported)
  let st := scanMap curr_vc curr_thd_id lock_set ml_meta.reader_inst_table
    RaceEventType.RACE_EVENT_READ inst RaceEventType.RACE_EVENT_WRITE
    ml_meta.reader_elspvec_map st
  let ml_meta := { ml_meta with
    racy := st.1,
    writer_inst_table := Function.update ml_meta.writer_inst_table curr_thd_id (some inst) }
  let ml_meta :=
    if self.track_racy_inst_ then
      { ml_meta with race_inst_set := insert inst ml_meta.race_inst_set }
    else ml_meta
  ({ self with reported := st.2 }, ml_meta)

/-! ## Sequences of events -/

/-- One access event handed to the handler of its kind. -/
def MultiLockHb.ProcessAccess (self : MultiLockHb) (type : RaceEventType)
    (curr_thd_id : thread_t) (ml_meta : MlMeta) (inst : Inst) : MultiLockHb × MlMeta :=
  match type with
  | RaceEventType.RACE_EVENT_READ => self.ProcessRead curr_thd_id ml_meta inst
  | RaceEventType.RACE_EVENT_WRITE => self.ProcessWrite curr_thd_id ml_meta inst

/-- One access to a unit: the analyzer state in force (clocks and lock sets), the kind,
the accessing thread and the instruction. -/
abbrev Access := MultiLockHb × RaceEventType × thread_t × Inst

/-- The meta of a unit after a sequence of accesses, each handled by its handler. -/
def runAccesses (meta : MlMeta) : List Access → MlMeta
  | [] => meta
  | (s, k, t, inst) :: rest => runAccesses (s.ProcessAccess k t meta inst).2 rest

/-- The epochs of the accesses of thread `t`, in order. -/
def epochsOf (t : thread_t) (accs : List Access) : List timestamp_t :=
  (accs.filter (fun a => decide (a.2.2.1 = t))).map (fun a => a.1.curr_vc_map_ t t)

/-- The mutex events the analyzer receives. -/
inductive LockEvent where
  | lock (thd : thread_t) (addr : address_t)
  | unlock (thd : thread_t) (addr : address_t)
deriving DecidableEq

/-- One mutex event handed to its handler; `none` when the unlock assertion fails. -/
def MultiLockHb.lockStep (self : MultiLockHb) : LockEvent → Option MultiLockHb
  | LockEvent.lock thd addr => some (self.AfterPthreadMutexLock thd addr)
  | LockEvent.unlock thd addr => self.BeforePthreadMutexUnlock thd addr

/-- A sequence of mutex events handled in order. -/
def MultiLockHb.lockRun (self : MultiLockHb) : List LockEvent → Option MultiLockHb
  | [] => some self
  | ev :: rest =>
    match self.lockStep ev with
    | none => none
    | some s => s.lockRun rest

/-- The number of acquisitions of `addr` by `thd` in a sequence of events. -/
def acquisitions (thd : thread_t) (addr : address_t) (evs : List LockEvent) : Nat :=
  evs.count (LockEvent.lock thd addr)

/-- The number of releases of `addr` by `thd` in a sequence of events. -/
def releases (thd : thread_t) (addr : address_t) (evs : List LockEvent) : Nat :=
  evs.count (LockEvent.unlock thd addr)

/-- Thread `thd` never locks a mutex that is in its lock set at that moment. -/
def noRelock (self : MultiLockHb) (thd : thread_t) : List LockEvent → Bool
  | [] => true
  | ev :: rest =>
    (match ev with
      | LockEvent.lock t addr =>
        !(decide (t = thd) && decide (addr ∈ locksetOf self.curr_lockset_table_ thd))
      | LockEvent.unlock _ _ => true) &&
    (match self.lockStep ev with
      | none => true
      | some s => noRelock s thd rest)

/-- The calls of `ReportRace` made by the inner loop on one vector. -/
def scanVecCalls (thd_clk : timestamp_t) (lock_set : LockSet) (r : RaceReport)
    (vec : EpochLockSetPairVector) : List RaceReport :=
  List.replicate (vec.countP (raceCond thd_clk lock_set)) r

/-- The calls of `ReportRace` made by the outer loop on a history map. -/
def scanMapCalls (curr_vc : VectorClock) (curr_thd_id : thread_t) (lock_set : LockSet)
    (inst_table : thread_t → Option Inst) (p0 : RaceEventType) (inst : Inst)
    (p1 : RaceEventType) : ThreadElspVecMap → List RaceReport
  | [] => []
  | (thd_id, elsp_vec) :: rest =>
    (if thd_id = curr_thd_id then []
     else scanVecCalls (curr_vc.GetClock thd_id) lock_set
        { t0 := thd_id, i0 := inst_table thd_id, p0 := p0,
          t1 := curr_thd_id, i1 := inst, p1 := p1 } elsp_vec)
    ++ scanMapCalls curr_vc curr_thd_id lock_set inst_table p0 inst p1 rest

/-- The skip decision of `update_on_read` for the joined lock set `L`. -/
def readSkipped (meta : MlMeta) (e : timestamp_t) (t : thread_t) (L : LockSet) : Bool :=
  (historyOf meta.reader_elspvec_map t).any (skipCond e L) ||
  (historyOf meta.writer_elspvec_map t).any (skipCond e L)

/-- The meta handed to the race scan of `ProcessWrite`. -/
def writeUpdated (self : MultiLockHb) (t : thread_t) (meta : MlMeta) : MlMeta :=
  self.update_on_write (self.curr_vc_map_ t t) t (locksetOf self.curr_lockset_table_ t) meta

/-- The calls of `ReportRace` made by one `ProcessWrite`. -/
def writeCalls (self : MultiLockHb) (t : thread_t) (meta : MlMeta) (inst : Inst) :
    List RaceReport :=
  scanMapCalls (self.curr_vc_map_ t) t (locksetOf self.curr_lockset_table_ t)
      meta.writer_inst_table RaceEventType.RACE_EVENT_WRITE inst RaceEventType.RACE_EVENT_WRITE
      (writeUpdated self t meta).writer_elspvec_map ++
  scanMapCalls (self.curr_vc_map_ t) t (locksetOf self.curr_lockset_table_ t)
      meta.reader_inst_table RaceEventType.RACE_EVENT_READ inst RaceEventType.RACE_EVENT_WRITE
      (writeUpdated self t meta).reader_elspvec_map

/-- The lock set used by one `ProcessRead`. -/
def readLockset (self : MultiLockHb) (t : thread_t) : LockSet :=
  locksetOf self.curr_lockset_table_ t ∪ locksetOf self.curr_reader_lockset_table_ t

/-- The meta handed to the race scan of `ProcessRead`. -/
def readUpdated (self : MultiLockHb) (t : thread_t) (meta : MlMeta) : MlMeta :=
  (self.update_on_read (self.curr_vc_map_ t t) t (locksetOf self.curr_lockset_table_ t) meta).2

/-- The calls of `ReportRace` made by one `ProcessRead`. -/
def readCalls (self : MultiLockHb) (t : thread_t) (meta : MlMeta) (inst : Inst) :
    List RaceReport :=
  scanMapCalls (self.curr_vc_map_ t) t (readLockset self t)
      meta.writer_inst_table RaceEventType.RACE_EVENT_WRITE inst RaceEventType.RACE_EVENT_READ
      (readUpdated self t meta).writer_elspvec_map

/-- Entry `p` is dominated by entry `q`: `q` is not older and holds no more locks. -/
def dominatedBy (p q : EpochLockSetPair) : Prop := p.1 ≤ q.1 ∧ q.2 ⊆ p.2

instance (p q : EpochLockSetPair) : Decidable (dominatedBy p q) := by
  unfold dominatedBy; infer_instance

/-- No entry at one position of the history is dominated by an entry at another. -/
def nonDominated (v : EpochLockSetPairVector) : Prop :=
  v.Pairwise (fun p q => ¬ dominatedBy p q ∧ ¬ dominatedBy q p)

/-- The invariant of the two histories of one thread, with a bound on the epochs. -/
def historyInv (meta : MlMeta) (t : thread_t) (bound : timestamp_t → Prop) : Prop :=
  nonDominated (historyOf meta.writer_elspvec_map t) ∧
  nonDominated (historyOf meta.reader_elspvec_map t) ∧
  (∀ p ∈ historyOf meta.reader_elspvec_map t, ∀ q ∈ historyOf meta.writer_elspvec_map t,
    ¬ dominatedBy p q) ∧
  (∀ p ∈ historyOf meta.writer_elspvec_map t ++ historyOf meta.reader_elspvec_map t,
    bound p.1)

/-! # The verifier: scheduling sets and synchronisation handlers (`race/verifier.cpp`) -/

/-- Modelled from the spec: `MutexMeta` (declared in `race/verifier.h`, not among the
sources): the clock released by the last unlock and the owner, 0 for none. -/
structure MutexMeta where
  vc : VectorClock
  owner : thread_t

/-- Modelled from the spec: `RwlockMeta` (declared in `race/verifier.h`): the released
clock, the clock accumulated between the first and the last unlock, the reference
count, the writer owner (0 for none) and the set of reader owners. -/
structure RwlockMeta where
  vc : VectorClock
  wait_vc : VectorClock
  ref : Int
  wrlock_owner : thread_t
  rdlock_thd_set : Finset thread_t

/-- The part of the `Verifier` state used by the thread and synchronisation handlers.
`thd_smp_map_` holds the count of each registered semaphore. -/
structure Verifier where
  thd_vc_map_ : thread_t → Option VectorClock
  thd_smp_map_ : thread_t → Option Nat
  avail_thd_set_ : Finset thread_t
  pp_thd_set_ : Finset thread_t
  blk_thd_set_ : Finset thread_t
  mutex_meta_table_ : address_t → Option MutexMeta
  rwlock_meta_table_ : address_t → Option RwlockMeta

/-- The verifier after construction: all maps and sets empty. -/
def Verifier.init : Verifier :=
  { thd_vc_map_ := fun _ => none, thd_smp_map_ := fun _ => none,
    avail_thd_set_ := ∅, pp_thd_set_ := ∅, blk_thd_set_ := ∅,
    mutex_meta_table_ := fun _ => none, rwlock_meta_table_ := fun _ => none }

/-- Modelled from the spec: `Verifier::BlockThread` (defined in `race/verifier.h`):
the thread leaves the available set and is recorded as blocked. -/
def Verifier.BlockThread (self : Verifier) (curr_thd_id : thread_t) : Verifier :=
  { self with
    blk_thd_set_ := insert curr_thd_id self.blk_thd_set_
    avail_thd_set_ := self.avail_thd_set_.erase curr_thd_id }

/-- Modelled from the spec: `Verifier::UnblockThread` (defined in `race/verifier.h`):
the thread is no longer blocked and is available again. -/
def Verifier.UnblockThread (self : Verifier) (curr_thd_id : thread_t) : Verifier :=
  { self with
    blk_thd_set_ := self.blk_thd_set_.erase curr_thd_id
    avail_thd_set_ := insert curr_thd_id self.avail_thd_set_ }

/-- `Verifier::GetMutexMeta`: the meta of the mutex, created when missing. -/
def Verifier.GetMutexMeta (self : Verifier) (iaddr : address_t) : Verifier × MutexMeta :=
  match self.mutex_meta_table_ iaddr with
  | none =>
    let mutex_meta : MutexMeta := { vc := VectorClock.empty, owner := 0 }
    ({ self with
      mutex_meta_table_ := Function.update self.mutex_meta_table_ iaddr (some mutex_meta) },
      mutex_meta)
  | some mutex_meta => (self, mutex_meta)

/-- `Verifier::GetRwlockMeta`: the meta of the rwlock, created when missing. -/
def Verifier.GetRwlockMeta (self : Verifier) (iaddr : address_t) : Verifier × RwlockMeta :=
  match self.rwlock_meta_table_ iaddr with
  | none =>
    let rwlock_meta : RwlockMeta :=
      { vc := VectorClock.empty, wait_vc := VectorClock.empty, ref := 0,
        wrlock_owner := 0, rdlock_thd_set := ∅ }
    ({ self with
      rwlock_meta_table_ := Function.update self.rwlock_meta_table_ iaddr (some rwlock_meta) },
      rwlock_meta)
  | some rwlock_meta => (self, rwlock_meta)

/-- Store a mutex meta back (the source updates it through the pointer). -/
def Verifier.setMutexMeta (self : Verifier) (iaddr : address_t) (mm : MutexMeta) : Verifier :=
  { self with mutex_meta_table_ := Function.update self.mutex_meta_table_ iaddr (some mm) }

/-- Store a rwlock meta back (the source updates it through the pointer). -/
def Verifier.setRwlockMeta (self : Verifier) (iaddr : address_t) (rm : RwlockMeta) :
    Verifier :=
  { self with rwlock_meta_table_ := Function.update self.rwlock_meta_table_ iaddr (some rm) }

/-- Store the clock of a thread back (the source updates it through the pointer). -/
def Verifier.setVc (self : Verifier) (thd : thread_t) (vc : VectorClock) : Verifier :=
  { self with thd_vc_map_ := Function.update self.thd_vc_map_ thd (some vc) }

/-- `Verifier::WakeUpPostponeThread`; `none` when the thread has no semaphore (a null
pointer is dereferenced). -/
def Verifier.WakeUpPostponeThread (self : Verifier) (thd_id : thread_t) : Option Verifier :=
  match self.thd_smp_map_ thd_id with
  | none => none
  | some count =>
    some { self with
      thd_smp_map_ := Function.update self.thd_smp_map_ thd_id (some (count + 1))
      pp_thd_set_ := self.pp_thd_set_.erase thd_id
      avail_thd_set_ := insert thd_id self.avail_thd_set_ }

/-- The loop `for(iter=begin();iter!=end();iter++) WakeUpPostponeThread(*iter)` over the
elements of a thread set in iteration order. -/
def Verifier.wakeUpEach (self : Verifier) : List thread_t → Option Verifier
  | [] => some self
  | thd :: rest =>
    match self.WakeUpPostponeThread thd with
    | none => none
    | some s => s.wakeUpEach rest

/-- `Verifier::WakeUpPostponeThreadSet`. -/
def Verifier.WakeUpPostponeThreadSet (self : Verifier) (pp_thds : Finset thread_t) :
    Option Verifier :=
  self.wakeUpEach (pp_thds.sort (fun a b => a ≤ b))

/-- `Verifier::ChooseRandomThreadAfterAllUnavailable`. `RandomThread` is the random
chooser (declared in `race/verifier.h`), taken as a parameter. -/
def Verifier.ChooseRandomThreadAfterAllUnavailable (self : Verifier)
    (RandomThread : Finset thread_t → thread_t) : Option Verifier :=
  if self.pp_thd_set_ = ∅ then some self
  else self.WakeUpPostponeThread (RandomThread self.pp_thd_set_)

/-- `Verifier::ThreadStart`; the parent is `none` for `INVALID_THD_ID`. `none` when the
parent has no clock. -/
def Verifier.ThreadStart (self : Verifier) (curr_thd_id : thread_t)
    (parent_thd_id : Option thread_t) : Option Verifier :=
  let curr_vc := VectorClock.empty.Increment curr_thd_id
  let joined : Option VectorClock :=
    match parent_thd_id with
    | none => some curr_vc
    | some parent =>
      match self.thd_vc_map_ parent with
      | none => none
      | some parent_vc => some (curr_vc.Join parent_vc)
  match joined with
  | none => none
  | some curr_vc =>
    let self := self.setVc curr_thd_id curr_vc
    let self :=
      match self.thd_smp_map_ curr_thd_id with
      | none => { self with thd_smp_map_ := Function.update self.thd_smp_map_ curr_thd_id (some 0) }
      | some _ => self
    some { self with avail_thd_set_ := insert curr_thd_id self.avail_thd_set_ }

/-- `Verifier::ThreadExit`. -/
def Verifier.ThreadExit (self : Verifier) (RandomThread : Finset thread_t → thread_t)
    (curr_thd_id : thread_t) : Option Verifier :=
  let self := { self with
    thd_smp_map_ := Function.update self.thd_smp_map_ curr_thd_id none
    avail_thd_set_ := self.avail_thd_set_.erase curr_thd_id }
  let self :=
    if curr_thd_id ∈ self.pp_thd_set_ then
      { self with pp_thd_set_ := self.pp_thd_set_.erase curr_thd_id }
    else self
  if self.avail_thd_set_ = ∅ then self.ChooseRandomThreadAfterAllUnavailable RandomThread
  else some self

/-- `Verifier::BeforePthreadJoin`. -/
def Verifier.BeforePthreadJoin (self : Verifier) (RandomThread : Finset thread_t → thread_t)
    (curr_thd_id : thread_t) : Option Verifier :=
  let self := self.BlockThread curr_thd_id
  if self.avail_thd_set_ = ∅ then self.ChooseRandomThreadAfterAllUnavailable RandomThread
  else some self

/-- `Verifier::AfterPthreadJoin`; `none` when a clock is missing. -/
def Verifier.AfterPthreadJoin (self : Verifier) (curr_thd_id child_thd_id : thread_t) :
    Option Verifier :=
  match self.thd_vc_map_ curr_thd_id, self.thd_vc_map_ child_thd_id with
  | some curr_vc, some child_vc =>
    let self := self.setVc curr_thd_id ((curr_vc.Join child_vc).Increment curr_thd_id)
    some (self.UnblockThread curr_thd_id)
  | _, _ => none

/-- `Verifier::AfterPthreadCreate`; `none` when the clock is missing. -/
def Verifier.AfterPthreadCreate (self : Verifier) (curr_thd_id : thread_t) : Option Verifier :=
  match self.thd_vc_map_ curr_thd_id with
  | none => none
  | some curr_vc => some (self.setVc curr_thd_id (curr_vc.Increment curr_thd_id))

/-- `Verifier::BeforePthreadMutexLock`. -/
def Verifier.BeforePthreadMutexLock (self : Verifier) (curr_thd_id : thread_t)
    (addr : address_t) : Option Verifier :=
  let r := self.GetMutexMeta addr
  let self := r.1
  let thd_id := r.2.owner
  let self := self.BlockThread curr_thd_id
  if thd_id ≠ 0 then
    if self.avail_thd_set_ = ∅ ∧ thd_id ∈ self.pp_thd_set_ then
      self.WakeUpPostponeThread thd_id
    else some self
  else some self

/-- `Verifier::AfterPthreadMutexLock`; `none` when the clock is missing. -/
def Verifier.AfterPthreadMutexLock (self : Verifier) (curr_thd_id : thread_t)
    (addr : address_t) : Option Verifier :=
  let r := self.GetMutexMeta addr
  let self := r.1
  let mutex_meta := r.2
  match self.thd_vc_map_ curr_thd_id with
  | none => none
  | some curr_vc =>
    let self := self.setVc curr_thd_id (curr_vc.Join mutex_meta.vc)
    let self := self.setMutexMeta addr { mutex_meta with owner := curr_thd_id }
    some (self.UnblockThread curr_thd_id)

/-- `Verifier::BeforePthreadMutexUnlock`; `none` when the clock is missing. -/
def Verifier.BeforePthreadMutexUnlock (self : Verifier) (curr_thd_id : thread_t)
    (addr : address_t) : Option Verifier :=
  let r := self.GetMutexMeta addr
  let self := r.1
  let mutex_meta := r.2
  match self.thd_vc_map_ curr_thd_id with
  | none => none
  | some curr_vc =>
    let self := self.setMutexMeta addr { mutex_meta with vc := curr_vc }
    some (self.setVc curr_thd_id (curr_vc.Increment curr_thd_id))

/-- `Verifier::AfterPthreadMutexUnlock`. -/
def Verifier.AfterPthreadMutexUnlock (self : Verifier) (_curr_thd_id : thread_t)
    (addr : address_t) : Option Verifier :=
  let r := self.GetMutexMeta addr
  some (r.1.setMutexMeta addr { r.2 with owner := 0 })

/-- `Verifier::BeforePthreadMutexTryLock`. -/
def Verifier.BeforePthreadMutexTryLock (self : Verifier) (curr_thd_id : thread_t)
    (addr : address_t) : Option Verifier :=
  self.BeforePthreadMutexLock curr_thd_id addr

/-- `Verifier::AfterPthreadMutexTryLock`. -/
def Verifier.AfterPthreadMutexTryLock (self : Verifier) (curr_thd_id : thread_t)
    (addr : address_t) (ret_val : Int) : Option Verifier :=
  if ret_val = 0 then self.AfterPthreadMutexLock curr_thd_id addr else some self

/-- `Verifier::BeforePthreadRwlockRdlock`. -/
def Verifier.BeforePthreadRwlockRdlock (self : Verifier) (curr_thd_id : thread_t)
    (addr : address_t) : Option Verifier :=
  let r := self.GetRwlockMeta addr
  let self := r.1
  let wrlock_thd_id := r.2.wrlock_owner
  let self := self.BlockThread curr_thd_id
  if wrlock_thd_id ≠ 0 then
    if self.avail_thd_set_ = ∅ ∧ wrlock_thd_id ∈ self.pp_thd_set_ then
      self.WakeUpPostponeThread wrlock_thd_id
    else some self
  else some self

/-- `Verifier::AfterPthreadRwlockRdlock`; `none` when the clock is missing. -/
def Verifier.AfterPthreadRwlockRdlock (self : Verifier) (curr_thd_id : thread_t)
    (addr : address_t) : Option Verifier :=
  let r := self.GetRwlockMeta addr
  let self := r.1
  let rwlock_meta := r.2
  match self.thd_vc_map_ curr_thd_id with
  | none => none
  | some curr_vc =>
    let self := self.setVc curr_thd_id (curr_vc.Join rwlock_meta.vc)
    let self := self.UnblockThread curr_thd_id
    some (self.setRwlockMeta addr { rwlock_meta with
      rdlock_thd_set := insert curr_thd_id rwlock_meta.rdlock_thd_set
      ref := rwlock_meta.ref + 1 })

/-- `Verifier::BeforePthreadRwlockWrlock`. -/
def Verifier.BeforePthreadRwlockWrlock (self : Verifier) (curr_thd_id : thread_t)
    (addr : address_t) : Option Verifier :=
  let r := self.GetRwlockMeta addr
  let self := r.1
  let rdlock_thd_set := r.2.rdlock_thd_set
  let self := self.BlockThread curr_thd_id
  if rdlock_thd_set ≠ ∅ then
    if self.avail_thd_set_ = ∅ then
      self.wakeUpEach (rdlock_thd_set.sort (fun a b => a ≤ b))
    else some self
  else some self

/-- `Verifier::AfterPthreadRwlockWrlock`; `none` when the clock is missing. -/
def Verifier.AfterPthreadRwlockWrlock (self : Verifier) (curr_thd_id : thread_t)
    (addr : address_t) : Option Verifier :=
  let self := self.UnblockThread curr_thd_id
  let r := self.GetRwlockMeta addr
  let self := r.1
  let rwlock_meta := r.2
  match self.thd_vc_map_ curr_thd_id with
  | none => none
  | some curr_vc =>
    let self := self.setVc curr_thd_id (curr_vc.Join rwlock_meta.vc)
    some (self.setRwlockMeta addr { rwlock_meta with
      wrlock_owner := curr_thd_id
      ref := rwlock_meta.ref + 1 })

/-- `Verifier::BeforePthreadRwlockUnlock`; `none` when the clock is missing. -/
def Verifier.BeforePthreadRwlockUnlock (self : Verifier) (curr_thd_id : thread_t)
    (addr : address_t) : Option Verifier :=
  let r := self.GetRwlockMeta addr
  let self := r.1
  let rwlock_meta := r.2
  match self.thd_vc_map_ curr_thd_id with
  | none => none
  | some curr_vc =>
    let rwlock_meta := { rwlock_meta with
      ref := rwlock_meta.ref - 1
      wait_vc := rwlock_meta.wait_vc.Join curr_vc }
    let rwlock_meta :=
      if rwlock_meta.ref = 0 then
        { rwlock_meta with vc := rwlock_meta.wait_vc, wait_vc := VectorClock.empty }
      else rwlock_meta
    let self := self.setRwlockMeta addr rwlock_meta
    some (self.setVc curr_thd_id (curr_vc.Increment curr_thd_id))

/-- `Verifier::AfterPthreadRwlockUnlock`. -/
def Verifier.AfterPthreadRwlockUnlock (self : Verifier) (curr_thd_id : thread_t)
    (addr : address_t) : Option Verifier :=
  let r := self.GetRwlockMeta addr
  some (r.1.setRwlockMeta addr { r.2 with
    wrlock_owner := 0
    rdlock_thd_set := r.2.rdlock_thd_set.erase curr_thd_id })

/-- `Verifier::BeforePthreadRwlockTryRdlock`. -/
def Verifier.BeforePthreadRwlockTryRdlock (self : Verifier) (curr_thd_id : thread_t)
    (addr : address_t) : Option Verifier :=
  self.BeforePthreadRwlockRdlock curr_thd_id addr

/-- `Verifier::AfterPthreadRwlockTryRdlock`. -/
def Verifier.AfterPthreadRwlockTryRdlock (self : Verifier) (curr_thd_id : thread_t)
    (addr : address_t) (ret_val : Int) : Option Verifier :=
  if ret_val = 0 then self.AfterPthreadRwlockRdlock curr_thd_id addr else some self

/-- `Verifier::BeforePthreadRwlockTryWrlock`. -/
def Verifier.BeforePthreadRwlockTryWrlock (self : Verifier) (curr_thd_id : thread_t)
    (addr : address_t) : Option Verifier :=
  self.BeforePthreadRwlockWrlock curr_thd_id addr

/-- `Verifier::AfterPthreadRwlockTryWrlock`. -/
def Verifier.AfterPthreadRwlockTryWrlock (self : Verifier) (curr_thd_id : thread_t)
    (addr : address_t) (ret_val : Int) : Option Verifier :=
  if ret_val = 0 then self.AfterPthreadRwlockWrlock curr_thd_id addr else some self

/-- `Verifier::PostponeThread` up to the semaphore wait. The result holds the state
and whether the thread goes on to wait on its semaphore. `none` when a thread to wake,
or the thread itself, has no semaphore. -/
def Verifier.PostponeThread (self : Verifier) (RandomThread : Finset thread_t → thread_t)
    (curr_thd_id : thread_t) : Option (Verifier × Bool) :=
  if self.avail_thd_set_.card = 1 ∧ self.pp_thd_set_ = ∅ then some (self, false)
  else
    let self := { self with
      pp_thd_set_ := insert curr_thd_id self.pp_thd_set_
      avail_thd_set_ := self.avail_thd_set_.erase curr_thd_id }
    let chosen :=
      if self.avail_thd_set_ = ∅ then self.ChooseRandomThreadAfterAllUnavailable RandomThread
      else some self
    match chosen with
    | none => none
    | some self =>
      match self.thd_smp_map_ curr_thd_id with
      | none => none
      | some _ => some (self, true)

/-- The events of the verifier that touch the scheduling sets, each with the thread
that runs the handler (for the two wake-up procedures: the caller). -/
inductive VEvent where
  | ThreadStart (curr : thread_t) (parent : Option thread_t)
  | ThreadExit (curr : thread_t)
  | PostponeThread (curr : thread_t)
  | WakeUpPostponeThread (caller thd : thread_t)
  | WakeUpPostponeThreadSet (caller : thread_t) (pp_thds : Finset thread_t)
  | BeforePthreadJoin (curr child : thread_t)
  | AfterPthreadJoin (curr child : thread_t)
  | AfterPthreadCreate (curr child : thread_t)
  | BeforePthreadMutexLock (curr : thread_t) (addr : address_t)
  | AfterPthreadMutexLock (curr : thread_t) (addr : address_t)
  | BeforePthreadMutexUnlock (curr : thread_t) (addr : address_t)
  | AfterPthreadMutexUnlock (curr : thread_t) (addr : address_t)
  | BeforePthreadMutexTryLock (curr : thread_t) (addr : address_t)
  | AfterPthreadMutexTryLock (curr : thread_t) (addr : address_t) (ret_val : Int)
  | BeforePthreadRwlockRdlock (curr : thread_t) (addr : address_t)
  | AfterPthreadRwlockRdlock (curr : thread_t) (addr : address_t)
  | BeforePthreadRwlockWrlock (curr : thread_t) (addr : address_t)
  | AfterPthreadRwlockWrlock (curr : thread_t) (addr : address_t)
  | BeforePthreadRwlockUnlock (curr : thread_t) (addr : address_t)
  | AfterPthreadRwlockUnlock (curr : thread_t) (addr : address_t)
  | BeforePthreadRwlockTryRdlock (curr : thread_t) (addr : address_t)
  | AfterPthreadRwlockTryRdlock (curr : thread_t) (addr : address_t) (ret_val : Int)
  | BeforePthreadRwlockTryWrlock (curr : thread_t) (addr : address_t)
  | AfterPthreadRwlockTryWrlock (curr : thread_t) (addr : address_t) (ret_val : Int)

/-- The thread that runs the handler of an event. -/
def VEvent.thread : VEvent → thread_t
  | ThreadStart curr _ => curr
  | ThreadExit curr => curr
  | PostponeThread curr => curr
  | WakeUpPostponeThread caller _ => caller
  | WakeUpPostponeThreadSet caller _ => caller
  | BeforePthreadJoin curr _ => curr
  | AfterPthreadJoin curr _ => curr
  | AfterPthreadCreate curr _ => curr
  | BeforePthreadMutexLock curr _ => curr
  | AfterPthreadMutexLock curr _ => curr
  | BeforePthreadMutexUnlock curr _ => curr
  | AfterPthreadMutexUnlock curr _ => curr
  | BeforePthreadMutexTryLock curr _ => curr
  | AfterPthreadMutexTryLock curr _ _ => curr
  | BeforePthreadRwlockRdlock curr _ => curr
  | AfterPthreadRwlockRdlock curr _ => curr
  | BeforePthreadRwlockWrlock curr _ => curr
  | AfterPthreadRwlockWrlock curr _ => curr
  | BeforePthreadRwlockUnlock curr _ => curr
  | AfterPthreadRwlockUnlock curr _ => curr
  | BeforePthreadRwlockTryRdlock curr _ => curr
  | AfterPthreadRwlockTryRdlock curr _ _ => curr
  | BeforePthreadRwlockTryWrlock curr _ => curr
  | AfterPthreadRwlockTryWrlock curr _ _ => curr

/-- One event handled by its handler. -/
def Verifier.handle (self : Verifier) (RandomThread : Finset thread_t → thread_t) :
    VEvent → Option Verifier
  | VEvent.ThreadStart curr parent => self.ThreadStart curr parent
  | VEvent.ThreadExit curr => self.ThreadExit RandomThread curr
  | VEvent.PostponeThread curr => (self.PostponeThread RandomThread curr).map Prod.fst
  | VEvent.WakeUpPostponeThread _ thd => self.WakeUpPostponeThread thd
  | VEvent.WakeUpPostponeThreadSet _ pp_thds => self.WakeUpPostponeThreadSet pp_thds
  | VEvent.BeforePthreadJoin curr _ => self.BeforePthreadJoin RandomThread curr
  | VEvent.AfterPthreadJoin curr child => self.AfterPthreadJoin curr child
  | VEvent.AfterPthreadCreate curr _ => self.AfterPthreadCreate curr
  | VEvent.BeforePthreadMutexLock curr addr => self.BeforePthreadMutexLock curr addr
  | VEvent.AfterPthreadMutexLock curr addr => self.AfterPthreadMutexLock curr addr
  | VEvent.BeforePthreadMutexUnlock curr addr => self.BeforePthreadMutexUnlock curr addr
  | VEvent.AfterPthreadMutexUnlock curr addr => self.AfterPthreadMutexUnlock curr addr
  | VEvent.BeforePthreadMutexTryLock curr addr => self.BeforePthreadMutexTryLock curr addr
  | VEvent.AfterPthreadMutexTryLock curr addr ret_val =>
    self.AfterPthreadMutexTryLock curr addr ret_val
  | VEvent.BeforePthreadRwlockRdlock curr addr => self.BeforePthreadRwlockRdlock curr addr
  | VEvent.AfterPthreadRwlockRdlock curr addr => self.AfterPthreadRwlockRdlock curr addr
  | VEvent.BeforePthreadRwlockWrlock curr addr => self.BeforePthreadRwlockWrlock curr addr
  | VEvent.AfterPthreadRwlockWrlock curr addr => self.AfterPthreadRwlockWrlock curr addr
  | VEvent.BeforePthreadRwlockUnlock curr addr => self.BeforePthreadRwlockUnlock curr addr
  | VEvent.AfterPthreadRwlockUnlock curr addr => self.AfterPthreadRwlockUnlock curr addr
  | VEvent.BeforePthreadRwlockTryRdlock curr addr =>
    self.BeforePthreadRwlockTryRdlock curr addr
  | VEvent.AfterPthreadRwlockTryRdlock curr addr ret_val =>
    self.AfterPthreadRwlockTryRdlock curr addr ret_val
  | VEvent.BeforePthreadRwlockTryWrlock curr addr =>
    self.BeforePthreadRwlockTryWrlock curr addr
  | VEvent.AfterPthreadRwlockTryWrlock curr addr ret_val =>
    self.AfterPthreadRwlockTryWrlock curr addr ret_val

/-- No thread is both available and postponed. -/
def schedInv (s : Verifier) : Prop := ∀ x, x ∈ s.avail_thd_set_ → x ∉ s.pp_thd_set_

/-! # Concrete inputs at which the theorems are instantiated -/

/-- An analyzer in which no thread holds a lock and every clock component is 0. -/
def exAnalyzer : MultiLockHb := MultiLockHb.init false (fun _ _ => 0)

/-- An analyzer in which no thread holds a lock and every clock component is 1. -/
def exOrdered : MultiLockHb := MultiLockHb.init false (fun _ _ => 1)

/-- A unit written by thread 1 at epoch 1 with no lock held and read by thread 2 at
epoch 1 under lock 9. -/
def exMeta : MlMeta :=
  { MlMeta.fresh with
    writer_elspvec_map := [(1, [(1, ∅)])]
    reader_elspvec_map := [(2, [(1, {9})])]
    writer_inst_table := fun u => if u = 1 then some 100 else none
    reader_inst_table := fun u => if u = 2 then some 200 else none }

/-- A unit written by thread 0 at epoch 5 under the locks 1 and 2. -/
def exWritten : MlMeta :=
  { MlMeta.fresh with writer_elspvec_map := [(0, [(5, {1, 2})])] }

/-- An analyzer in which every clock component is 5 and thread 0 holds mutex 1. -/
def c5Analyzer : MultiLockHb :=
  { MultiLockHb.init false (fun _ _ => 5) with
    curr_lockset_table_ := fun u => if u = 0 then some {1} else none }

/-- A unit read by thread 0 at epoch 5 under the locks 1 and 2 and written by thread 1
at epoch 9 with no lock held. -/
def c5Meta : MlMeta :=
  { MlMeta.fresh with
    reader_elspvec_map := [(0, [(5, {1, 2})])]
    writer_elspvec_map := [(1, [(9, ∅)])] }

/-- The same unit, the read of thread 0 having been made under lock 1 alone. -/
def c5MetaSkip : MlMeta :=
  { MlMeta.fresh with
    reader_elspvec_map := [(0, [(5, {1})])]
    writer_elspvec_map := [(1, [(9, ∅)])] }

/-- Thread 0 writes at epoch 0 with no lock held and then reads at epoch 5 under lock 1. -/
def exAccesses : List Access :=
  [(exAnalyzer, RaceEventType.RACE_EVENT_WRITE, 0, 1),
   (c5Analyzer, RaceEventType.RACE_EVENT_READ, 0, 2)]

/-- Thread 1 locks 9, locks 8 and unlocks 9. -/
def exLockEvents : List LockEvent :=
  [LockEvent.lock 1 9, LockEvent.lock 1 8, LockEvent.unlock 1 9]

/-- The analyzer after thread 1 has locked 9, locked 8 and unlocked 9. -/
def exAfterLocks : MultiLockHb :=
  { MultiLockHb.init false (fun _ _ => 0) with
    curr_lockset_table_ :=
      Function.update
        (Function.update
          (Function.update (fun _ => none) 1 (some ((∅ : LockSet).Add 9)))
          1 (some (((∅ : LockSet).Add 9).Add 8)))
        1 (some ((((∅ : LockSet).Add 9).Add 8).Remove 9)) }

/-- The verifier after the main thread 1 has started. -/
def exStarted : Verifier :=
  { (Verifier.init.setVc 1 (VectorClock.empty.Increment 1)) with
    thd_smp_map_ := Function.update (fun _ => none) 1 (some 0)
    avail_thd_set_ := insert 1 ∅ }

/-! # Sequences of verifier events -/

/-- A sequence of events handled in order; `none` as soon as a handler has no result. -/
def Verifier.run (self : Verifier) (RandomThread : Finset thread_t → thread_t) :
    List VEvent → Option Verifier
  | [] => some self
  | ev :: rest =>
    match self.handle RandomThread ev with
    | none => none
    | some s => s.run RandomThread rest

/-- The clock of a thread, empty when the thread has none. -/
def Verifier.clockOf (self : Verifier) (thd : thread_t) : VectorClock :=
  (self.thd_vc_map_ thd).getD VectorClock.empty

/-- The clock stored for a mutex, empty when the mutex has no meta. -/
def Verifier.mutexClock (self : Verifier) (addr : address_t) : VectorClock :=
  match self.mutex_meta_table_ addr with
  | none => VectorClock.empty
  | some mm => mm.vc

/-- The owner stored for a mutex, 0 when the mutex has no meta. -/
def Verifier.mutexOwner (self : Verifier) (addr : address_t) : thread_t :=
  match self.mutex_meta_table_ addr with
  | none => 0
  | some mm => mm.owner

/-- A started thread that has not exited: its semaphore is registered. -/
def Verifier.live (self : Verifier) (thd : thread_t) : Prop :=
  self.thd_smp_map_ thd ≠ none

instance (self : Verifier) (thd : thread_t) : Decidable (self.live thd) := by
  unfold Verifier.live; infer_instance

/-- Every live thread is available, postponed or blocked on a native object. -/
def Verifier.covered (self : Verifier) : Prop :=
  ∀ thd, self.live thd →
    thd ∈ self.avail_thd_set_ ∨ thd ∈ self.pp_thd_set_ ∨ thd ∈ self.blk_thd_set_

/-! ## The clocks of the verifier -/

/-- Every clock of `s` is still there in `s'`, with no component smaller. -/
def clocksGrow (s s' : Verifier) : Prop :=
  ∀ t vc, s.thd_vc_map_ t = some vc →
    ∃ vc', s'.thd_vc_map_ t = some vc' ∧ ∀ x, vc x ≤ vc' x


/-- A `ThreadStart` event names a thread that has no clock yet (thread ids are never
reused); every other event passes. -/
def VEvent.startsFresh (s : Verifier) : VEvent → Bool
  | VEvent.ThreadStart curr _ => (s.thd_vc_map_ curr).isNone
  | _ => true

/-- Every `ThreadStart` of the run names a thread that has no clock when it is handled. -/
def Verifier.freshRun (self : Verifier) (RandomThread : Finset thread_t → thread_t) :
    List VEvent → Bool
  | [] => true
  | ev :: rest =>
    ev.startsFresh self &&
      match self.handle RandomThread ev with
      | none => true
      | some s => s.freshRun RandomThread rest

/-- The event is `BeforePthreadMutexUnlock` on the mutex at `addr`. -/
def VEvent.unlocks (addr : address_t) : VEvent → Bool
  | VEvent.BeforePthreadMutexUnlock _ a => decide (a = addr)
  | _ => false

/-- The synchronisation events whose handler increments the own component of the
clock of the thread: `AfterPthreadCreate`, `AfterPthreadJoin`,
`BeforePthreadMutexUnlock` and `BeforePthreadRwlockUnlock`. -/
def VEvent.increments : VEvent → Bool
  | VEvent.AfterPthreadCreate _ _ => true
  | VEvent.AfterPthreadJoin _ _ => true
  | VEvent.BeforePthreadMutexUnlock _ _ => true
  | VEvent.BeforePthreadRwlockUnlock _ _ => true
  | _ => false

/-- The synchronisation events whose handler only joins the clock of the lock into
the clock of the thread: `AfterPthreadMutexLock`, `AfterPthreadRwlockRdlock` and
`AfterPthreadRwlockWrlock`. -/
def VEvent.joinsOnly : VEvent → Bool
  | VEvent.AfterPthreadMutexLock _ _ => true
  | VEvent.AfterPthreadRwlockRdlock _ _ => true
  | VEvent.AfterPthreadRwlockWrlock _ _ => true
  | _ => false

/-- The verifier after the main thread 1 and then its child 2 have started. -/
def exTwoThreads : Verifier :=
  { ((Verifier.init.setVc 1 (VectorClock.empty.Increment 1)).setVc 2
      ((VectorClock.empty.Increment 2).Join (VectorClock.empty.Increment 1))) with
    thd_smp_map_ := Function.update (Function.update (fun _ => none) 1 (some 0)) 2 (some 0)
    avail_thd_set_ := insert 2 (insert 1 ∅) }

/-! # The verifier: memory accesses (`race/verifier.cpp`) -/

/-- A potential statement (`PStmt *`), by the identity of the object. -/
abbrev PStmt := Nat

/-- A `MetaSet`: a set of `Meta *`, each meta named by its allocation number. -/
abbrev MetaSet := Finset Nat

/-- The race kinds named by `PrintDebugRaceInfo`. -/
inductive RaceType where
  | WRITETOREAD
  | WRITETOWRITE
  | READTOWRITE
  | WRITETOREAD_OR_READTOWRITE
deriving DecidableEq

/-- The arguments of one call of `PrintDebugRaceInfo`. -/
structure DebugRaceInfo where
  addr : address_t
  race_type : RaceType
  t1 : thread_t
  i1 : Inst
  t2 : thread_t
  i2 : Inst
deriving DecidableEq

/-- Modelled from the spec: `MetaSnapshot` (declared in `race/verifier.h`, not among
the sources): the epoch, the kind and the instruction of an access. -/
structure MetaSnapshot where
  thd_clk : timestamp_t
  type : RaceEventType
  inst : Inst
deriving DecidableEq

/-- Modelled from the spec: `Verifier::Meta` (declared in `race/verifier.h`): the unit
address, per thread the vector of snapshots (`none` for a thread without a vector) and
the set of raced instruction pairs. `id` stands for the address of the object. -/
structure Verifier.Meta where
  id : Nat
  addr : address_t
  meta_ss_map : thread_t → Option (List MetaSnapshot)
  raced_inst_pairs : Finset (Inst × Inst)

/-- Modelled from the spec: `new Meta(iaddr)`. -/
def Verifier.Meta.fresh (id : Nat) (iaddr : address_t) : Verifier.Meta :=
  { id := id, addr := iaddr, meta_ss_map := fun _ => none, raced_inst_pairs := ∅ }

/-- Modelled from the spec: `Meta::AddMetaSnapshot`: the snapshot is appended to the
vector of the thread, which is created when missing. -/
def Verifier.Meta.AddMetaSnapshot (meta : Verifier.Meta) (thd : thread_t)
    (meta_ss : MetaSnapshot) : Verifier.Meta :=
  { meta with
    meta_ss_map :=
      Function.update meta.meta_ss_map thd (some ((meta.meta_ss_map thd).getD [] ++ [meta_ss])) }

/-- Modelled from the spec: `Meta::RacedInstPair`: the pair is in the raced set. -/
def Verifier.Meta.RacedInstPair (meta : Verifier.Meta) (i1 i2 : Inst) : Bool :=
  decide ((i1, i2) ∈ meta.raced_inst_pairs)

/-- Modelled from the spec: `Meta::AddRacedInstPair`. -/
def Verifier.Meta.AddRacedInstPair (meta : Verifier.Meta) (i1 i2 : Inst) : Verifier.Meta :=
  { meta with raced_inst_pairs := insert (i1, i2) meta.raced_inst_pairs }

/-- Modelled from the spec: a `Mutex` (declared in `core/sync.h`): the thread that
holds it, and the threads that called `Unlock` while not holding it, in call order. -/
structure Mutex where
  holder : Option thread_t
  misuse : List thread_t
deriving DecidableEq

/-- Modelled from the spec: `Mutex::Lock` by thread `thd`; `none` when the mutex is
held, the caller then does not get past the call in this state. -/
def Mutex.Lock (m : Mutex) (thd : thread_t) : Option Mutex :=
  match m.holder with
  | none => some { m with holder := some thd }
  | some _ => none

/-- Modelled from the spec: `Mutex::Unlock` by thread `thd`: the mutex is free
afterwards; an unlock by a thread that does not hold it is recorded. -/
def Mutex.Unlock (m : Mutex) (thd : thread_t) : Mutex :=
  if m.holder = some thd then { m with holder := none }
  else { holder := none, misuse := m.misuse ++ [thd] }

/-- Modelled from the spec: the part of `PRaceDB` (declared in
`race/potential_race.h`) the verifier uses: the statement of each instruction and the
open statement pairs. -/
structure PRaceDB where
  pstmt_of : Inst → PStmt
  relation : Finset (PStmt × PStmt)

/-- Modelled from the spec: `PRaceDB::GetPStmt` for the file and line of `inst`. -/
def PRaceDB.GetPStmt (db : PRaceDB) (inst : Inst) : PStmt := db.pstmt_of inst

/-- Modelled from the spec: `PRaceDB::SecondPotentialStatement`: `(first, second)` is
an open pair. -/
def PRaceDB.SecondPotentialStatement (db : PRaceDB) (first second : PStmt) : Bool :=
  decide ((first, second) ∈ db.relation)

/-- Modelled from the spec: `PRaceDB::RemoveRelationMapping`: the pair is removed from
the open set. -/
def PRaceDB.RemoveRelationMapping (db : PRaceDB) (first second : PStmt) : PRaceDB :=
  { db with relation := db.relation.erase (first, second) }

/-- The whole state of the `Verifier`: the scheduling and synchronisation part, and
the members used on memory accesses. `filter_` holds the registered regions (start and
size), `printed` the calls of `PrintDebugRaceInfo` made so far. -/
structure VerifierState extends Verifier where
  unit_size_ : Nat
  filter_ : List (address_t × Nat)
  meta_table_ : address_t → Option Verifier.Meta
  next_meta_id_ : Nat
  pstmt_metas_map_ : List (PStmt × Option MetaSet)
  thd_metas_map_ : List (thread_t × Option MetaSet)
  prace_db_ : PRaceDB
  internal_lock_ : Mutex
  verify_lock_ : Mutex
  printed : List DebugRaceInfo

/-- Modelled from the spec: `UNIT_DOWN_ALIGN` (a macro of `core/basictypes.h`). -/
def UNIT_DOWN_ALIGN (addr unit : Nat) : Nat := addr / unit * unit

/-- Modelled from the spec: `UNIT_UP_ALIGN` (a macro of `core/basictypes.h`). -/
def UNIT_UP_ALIGN (addr unit : Nat) : Nat := (addr + unit - 1) / unit * unit

/-- The addresses visited by `for(iaddr=start_addr;iaddr<end_addr;iaddr+=unit_size_)`,
for a positive unit size. -/
def unitAddrs (start_addr end_addr unit : Nat) : List address_t :=
  (List.range ((end_addr - start_addr + unit - 1) / unit)).map
    (fun i => start_addr + i * unit)

/-- `MAP_KEY_NOTFOUND_NEW(map,key,MetaSet)`: a new empty set is stored when the key is
not in the map. -/
def mapEnsureSet (m : List (Nat × Option MetaSet)) (k : Nat) : List (Nat × Option MetaSet) :=
  match mapFind m k with
  | none => mapSet m k (some ∅)
  | some _ => m

/-- `map[key]->insert(meta)`; `none` when the slot is missing or `NULL`. -/
def metasInsert (m : List (Nat × Option MetaSet)) (k : Nat) (id : Nat) :
    Option (List (Nat × Option MetaSet)) :=
  match mapFind m k with
  | some (some metas) => some (mapSet m k (some (insert id metas)))
  | _ => none

/-- Modelled from the spec: `Verifier::FilterAccess` (defined in `race/verifier.h`):
the address lies outside every registered region. -/
def VerifierState.FilterAccess (self : VerifierState) (addr : address_t) : Bool :=
  self.filter_.all (fun r => !(decide (r.1 ≤ addr) && decide (addr < r.1 + r.2)))

/-- `Verifier::AllocAddrRegion` (the region is added to the filter). -/
def VerifierState.AllocAddrRegion (self : VerifierState) (addr : address_t) (size : Nat) :
    VerifierState :=
  { self with filter_ := self.filter_ ++ [(addr, size)] }

/-- `Verifier::GetMeta`: the meta of the unit, created when missing. -/
def VerifierState.GetMeta (self : VerifierState) (iaddr : address_t) :
    VerifierState × Verifier.Meta :=
  match self.meta_table_ iaddr with
  | none =>
    let meta := Verifier.Meta.fresh self.next_meta_id_ iaddr
    ({ self with
      meta_table_ := Function.update self.meta_table_ iaddr (some meta)
      next_meta_id_ := self.next_meta_id_ + 1 }, meta)
  | some meta => (self, meta)

/-- Store a meta back (the source updates it through the pointer). -/
def VerifierState.setMeta (self : VerifierState) (iaddr : address_t) (meta : Verifier.Meta) :
    VerifierState :=
  { self with meta_table_ := Function.update self.meta_table_ iaddr (some meta) }

/-- The handler of a synchronisation or scheduling event on the whole state. -/
def VerifierState.sync (self : VerifierState) (RandomThread : Finset thread_t → thread_t)
    (ev : VEvent) : Option VerifierState :=
  match self.toVerifier.handle RandomThread ev with
  | none => none
  | some v => some { self with toVerifier := v }

/-- `Verifier::PostponeThread` with the two locks. The result holds the state at the
point where the thread returns or starts to wait on its semaphore, and whether it
waits. `none` when `internal_lock_` is held, or a semaphore is missing. -/
def VerifierState.PostponeThread (self : VerifierState)
    (RandomThread : Finset thread_t → thread_t) (curr_thd_id : thread_t) :
    Option (VerifierState × Bool) :=
  match self.internal_lock_.Lock curr_thd_id with
  | none => none
  | some locked =>
    let self := { self with internal_lock_ := locked }
    if self.avail_thd_set_.card = 1 ∧ self.pp_thd_set_ = ∅ then
      let self := { self with internal_lock_ := self.internal_lock_.Unlock curr_thd_id }
      let self := { self with verify_lock_ := self.verify_lock_.Unlock curr_thd_id }
      some (self, false)
    else
      let self := { self with
        pp_thd_set_ := insert curr_thd_id self.pp_thd_set_
        avail_thd_set_ := self.avail_thd_set_.erase curr_thd_id }
      let chosen :=
        if self.avail_thd_set_ = ∅ then
          self.toVerifier.ChooseRandomThreadAfterAllUnavailable RandomThread
        else some self.toVerifier
      match chosen with
      | none => none
      | some v =>
        let self := { self with toVerifier := v }
        let self := { self with internal_lock_ := self.internal_lock_.Unlock curr_thd_id }
        let self := { self with verify_lock_ := self.verify_lock_.Unlock curr_thd_id }
        match self.thd_smp_map_ curr_thd_id with
        | none => none
        | some _ => some (self, true)

/-- The loop `while(RandomThread(avail_thd_set_)!=curr_thd_id) { VerifyUnlock();
Sleep(1000); }` on the lock, for the outcomes of the successive calls of
`RandomThread`. `none` when the outcomes end before the loop does. -/
def chooseLoop (verify_lock : Mutex) (curr_thd_id : thread_t) : List thread_t → Option Mutex
  | [] => none
  | outcome :: rest =>
    if outcome ≠ curr_thd_id then chooseLoop (verify_lock.Unlock curr_thd_id) curr_thd_id rest
    else some verify_lock

/-- `Verifier::ChooseRandomThreadBeforeExecute`, for the outcomes of the successive
calls of `RandomThread`. `none` when `verify_lock_` is held on entry or the outcomes
end before the loop does. -/
def VerifierState.ChooseRandomThreadBeforeExecute (self : VerifierState)
    (outcomes : List thread_t) (addr : address_t) (curr_thd_id : thread_t) :
    Option VerifierState :=
  if self.FilterAccess addr then some self
  else
    match self.verify_lock_.Lock curr_thd_id with
    | none => none
    | some locked =>
      if self.avail_thd_set_ ≠ ∅ then
        match chooseLoop locked curr_thd_id outcomes with
        | none => none
        | some verify_lock => some { self with verify_lock_ := verify_lock }
      else some { self with verify_lock_ := locked }

/-- The locals `meta`, `flag`, `pp_thds` of `Verifier::RacedMeta` and the calls of
`PrintDebugRaceInfo`, while one unit is inspected. -/
structure ScanState where
  meta : Verifier.Meta
  flag : Bool
  pp_thds : Finset thread_t
  printed : List DebugRaceInfo

/-- A race is recorded: `flag=true`, `PrintDebugRaceInfo(...)`, `AddRacedInstPair`. -/
def ScanState.record (st : ScanState) (race_type : RaceType) (thd : thread_t) (i1 : Inst)
    (curr_thd_id : thread_t) (inst : Inst) : ScanState :=
  { st with
    flag := true
    printed := st.printed ++
      [{ addr := st.meta.addr, race_type := race_type, t1 := thd, i1 := i1,
         t2 := curr_thd_id, i2 := inst }]
    meta := st.meta.AddRacedInstPair i1 inst }

/-- `Verifier::RacedMeta`, the check of the last snapshot `meta_ss` of the postponed
thread `thd`, after the filter of raced instruction pairs. -/
def postponedCheck (type : RaceEventType) (inst : Inst) (curr_thd_id thd : thread_t)
    (meta_ss : MetaSnapshot) (st : ScanState) : ScanState :=
  if type = RaceEventType.RACE_EVENT_WRITE then
    let st := { st with pp_thds := insert thd st.pp_thds }
    if meta_ss.type = RaceEventType.RACE_EVENT_WRITE then
      st.record RaceType.WRITETOWRITE thd meta_ss.inst curr_thd_id inst
    else st.record RaceType.READTOWRITE thd meta_ss.inst curr_thd_id inst
  else if type = RaceEventType.RACE_EVENT_READ then
    if meta_ss.type = RaceEventType.RACE_EVENT_WRITE then
      let st := { st with pp_thds := insert thd st.pp_thds }
      st.record RaceType.WRITETOREAD thd meta_ss.inst curr_thd_id inst
    else st
  else st

/-- `Verifier::RacedMeta`, the body of the loop over the history snapshots of `thd`;
`thd_clk` is `thd_vc_map_[curr_thd_id]->GetClock(thd)`. -/
def historyStep (type : RaceEventType) (inst : Inst) (curr_thd_id thd : thread_t)
    (thd_clk : timestamp_t) (st : ScanState) (iiter : MetaSnapshot) : ScanState :=
  if st.meta.RacedInstPair iiter.inst inst then st
  else
    let st :=
      if type = RaceEventType.RACE_EVENT_WRITE ∧ iiter.thd_clk > thd_clk then
        if iiter.type = RaceEventType.RACE_EVENT_WRITE then
          st.record RaceType.WRITETOWRITE thd iiter.inst curr_thd_id inst
        else st.record RaceType.READTOWRITE thd iiter.inst curr_thd_id inst
      else st
    if type = RaceEventType.RACE_EVENT_READ ∧ iiter.thd_clk > thd_clk then
      if iiter.type = RaceEventType.RACE_EVENT_WRITE then
        st.record RaceType.WRITETOREAD thd iiter.inst curr_thd_id inst
      else st
    else st

/-- `Verifier::RacedMeta`, the loop over the history snapshots of `thd`. -/
def historyScan (type : RaceEventType) (inst : Inst) (curr_thd_id thd : thread_t)
    (thd_clk : timestamp_t) (st : ScanState) (meta_ss_vec : List MetaSnapshot) : ScanState :=
  meta_ss_vec.foldl (historyStep type inst curr_thd_id thd thd_clk) st

/-- `Verifier::RacedMeta`, the body of the loop over `thd_metas_map_` for one entry:
the check of a postponed thread (whose `continue` skips the rest of the body) and the
scan of the history. `none` when a snapshot vector is missing or empty. -/
def threadStep (pp_thd_set_ : Finset thread_t) (curr_vc : VectorClock)
    (type : RaceEventType) (inst : Inst) (curr_thd_id : thread_t) (st : ScanState)
    (iter : thread_t × Option MetaSet) : Option ScanState :=
  let has : Bool :=
    match iter.2 with
    | none => false
    | some metas => decide (st.meta.id ∈ metas)
  let checked : Option (ScanState × Bool) :=
    if iter.1 ∈ pp_thd_set_ ∧ has = true then
      match (st.meta.meta_ss_map iter.1).bind List.getLast? with
      | none => none
      | some meta_ss =>
        if st.meta.RacedInstPair meta_ss.inst inst then some (st, true)
        else some (postponedCheck type inst curr_thd_id iter.1 meta_ss st, false)
    else some (st, false)
  match checked with
  | none => none
  | some (st, true) => some st
  | some (st, false) =>
    if iter.1 ≠ curr_thd_id ∧ has = true then
      match st.meta.meta_ss_map iter.1 with
      | none => none
      | some meta_ss_vec =>
        some (historyScan type inst curr_thd_id iter.1 (curr_vc.GetClock iter.1) st
          meta_ss_vec)
    else some st

/-- `Verifier::RacedMeta`, the loop over `thd_metas_map_`. -/
def scanThreads (pp_thd_set_ : Finset thread_t) (curr_vc : VectorClock)
    (type : RaceEventType) (inst : Inst) (curr_thd_id : thread_t) :
    ScanState → List (thread_t × Option MetaSet) → Option ScanState
  | st, [] => some st
  | st, iter :: rest =>
    match threadStep pp_thd_set_ curr_vc type inst curr_thd_id st iter with
    | none => none
    | some st => scanThreads pp_thd_set_ curr_vc type inst curr_thd_id st rest

/-- `Verifier::RacedMeta`, the body of the loop over the units for the unit at `iaddr`,
with the locals `flag` and `pp_thds`. -/
def VerifierState.racedUnit (self : VerifierState) (first_pstmt second_pstmt : PStmt)
    (inst : Inst) (curr_thd_id : thread_t) (type : RaceEventType) (curr_vc : VectorClock)
    (flag : Bool) (pp_thds : Finset thread_t) (iaddr : address_t) :
    Option (VerifierState × Bool × Finset thread_t) :=
  let r := self.GetMeta iaddr
  let self := r.1
  let st : ScanState :=
    { meta := r.2, flag := flag, pp_thds := pp_thds, printed := self.printed }
  let first_has : Bool :=
    match mapFind self.pstmt_metas_map_ first_pstmt with
    | some (some first_metas) => decide (r.2.id ∈ first_metas)
    | _ => false
  let scanned :=
    if first_has = true then
      scanThreads self.pp_thd_set_ curr_vc type inst curr_thd_id st self.thd_metas_map_
    else some st
  match scanned with
  | none => none
  | some st =>
    let meta := st.meta.AddMetaSnapshot curr_thd_id
      { thd_clk := curr_vc.GetClock curr_thd_id, type := type, inst := inst }
    match metasInsert self.pstmt_metas_map_ second_pstmt meta.id,
      metasInsert self.thd_metas_map_ curr_thd_id meta.id with
    | some pstmt_metas, some thd_metas =>
      some ({ self.setMeta iaddr meta with
        pstmt_metas_map_ := pstmt_metas
        thd_metas_map_ := thd_metas
        printed := st.printed }, st.flag, st.pp_thds)
    | _, _ => none

/-- `Verifier::RacedMeta`, the loop over the units. -/
def VerifierState.racedUnits (first_pstmt second_pstmt : PStmt) (inst : Inst)
    (curr_thd_id : thread_t) (type : RaceEventType) (curr_vc : VectorClock) :
    VerifierState → Bool → Finset thread_t → List address_t →
      Option (VerifierState × Bool × Finset thread_t)
  | self, flag, pp_thds, [] => some (self, flag, pp_thds)
  | self, flag, pp_thds, iaddr :: rest =>
    match self.racedUnit first_pstmt second_pstmt inst curr_thd_id type curr_vc flag pp_thds
      iaddr with
    | none => none
    | some (self, flag, pp_thds) =>
      VerifierState.racedUnits first_pstmt second_pstmt inst curr_thd_id type curr_vc
        self flag pp_thds rest

/-- `Verifier::RacedMeta`; the result holds the state and `pp_thds`. `none` when the
unit size is 0, the thread has no clock or a snapshot vector is missing. -/
def VerifierState.RacedMeta (self : VerifierState) (first_pstmt : PStmt)
    (start_addr end_addr : address_t) (second_pstmt : PStmt) (inst : Inst)
    (curr_thd_id : thread_t) (type : RaceEventType) (pp_thds : Finset thread_t) :
    Option (VerifierState × Finset thread_t) :=
  match mapFind self.pstmt_metas_map_ first_pstmt with
  | none => some (self, pp_thds)
  | some none => some (self, pp_thds)
  | some (some _) =>
    let self := { self with
      pstmt_metas_map_ := mapEnsureSet self.pstmt_metas_map_ second_pstmt
      thd_metas_map_ := mapEnsureSet self.thd_metas_map_ curr_thd_id }
    match self.thd_vc_map_ curr_thd_id with
    | none => none
    | some curr_vc =>
      if self.unit_size_ = 0 then none
      else
        match VerifierState.racedUnits first_pstmt second_pstmt inst curr_thd_id type
          curr_vc self false pp_thds (unitAddrs start_addr end_addr self.unit_size_) with
        | none => none
        | some (self, flag, pp_thds) =>
          if flag = true then
            some ({ self with
              prace_db_ := self.prace_db_.RemoveRelationMapping first_pstmt second_pstmt },
              pp_thds)
          else some (self, pp_thds)

/-- `Verifier::ProcessReadOrWrite`, the loop `RacedMeta(first_pstmt,...)` over
`first_pstmts`. -/
def VerifierState.racedAll (start_addr end_addr : address_t) (pstmt : PStmt) (inst : Inst)
    (curr_thd_id : thread_t) (type : RaceEventType) :
    VerifierState → Finset thread_t → List PStmt → Option (VerifierState × Finset thread_t)
  | self, pp_thds, [] => some (self, pp_thds)
  | self, pp_thds, first_pstmt :: rest =>
    match self.RacedMeta first_pstmt start_addr end_addr pstmt inst curr_thd_id type
      pp_thds with
    | none => none
    | some (self, pp_thds) =>
      VerifierState.racedAll start_addr end_addr pstmt inst curr_thd_id type self pp_thds rest

/-- `Verifier::ProcessReadOrWrite`, the loop over the units of a first statement: a
snapshot is added and the meta is put into the sets of the statement and the thread. -/
def VerifierState.recordUnits (pstmt : PStmt) (inst : Inst) (curr_thd_id : thread_t)
    (type : RaceEventType) : VerifierState → List address_t → Option VerifierState
  | self, [] => some self
  | self, iaddr :: rest =>
    let r := self.GetMeta iaddr
    let self := r.1
    match self.thd_vc_map_ curr_thd_id with
    | none => none
    | some curr_vc =>
      let meta := r.2.AddMetaSnapshot curr_thd_id
        { thd_clk := curr_vc.GetClock curr_thd_id, type := type, inst := inst }
      match metasInsert self.pstmt_metas_map_ pstmt meta.id,
        metasInsert self.thd_metas_map_ curr_thd_id meta.id with
      | some pstmt_metas, some thd_metas =>
        VerifierState.recordUnits pstmt inst curr_thd_id type
          { self.setMeta iaddr meta with
            pstmt_metas_map_ := pstmt_metas
            thd_metas_map_ := thd_metas } rest
      | _, _ => none

/-- `Verifier::HandleNoRace`. -/
def VerifierState.HandleNoRace (self : VerifierState)
    (RandomThread : Finset thread_t → thread_t) (curr_thd_id : thread_t) :
    Option (VerifierState × Bool) :=
  self.PostponeThread RandomThread curr_thd_id

/-- `Verifier::HandleRace`; `coin` is the outcome of `RandomBool()`. -/
def VerifierState.HandleRace (self : VerifierState)
    (RandomThread : Finset thread_t → thread_t) (coin : Bool) (pp_thds : Finset thread_t)
    (curr_thd_id : thread_t) : Option (VerifierState × Bool) :=
  if coin = false then
    match self.toVerifier.WakeUpPostponeThreadSet pp_thds with
    | none => none
    | some v => ({ self with toVerifier := v }).PostponeThread RandomThread curr_thd_id
  else some ({ self with verify_lock_ := self.verify_lock_.Unlock curr_thd_id }, false)

/-- `Verifier::ProcessReadOrWrite`; `coin` is the outcome of `RandomBool()`. The result
holds the state at the point where the thread returns or starts to wait on its
semaphore, and whether it waits. `none` when the unit size is 0 (the unit loop does
not end), or a clock, a set, a snapshot vector or a semaphore is missing. -/
def VerifierState.ProcessReadOrWrite (self : VerifierState)
    (RandomThread : Finset thread_t → thread_t) (coin : Bool) (curr_thd_id : thread_t)
    (inst : Inst) (addr : address_t) (size : Nat) (type : RaceEventType) :
    Option (VerifierState × Bool) :=
  let pstmt := self.prace_db_.GetPStmt inst
  let start_addr := UNIT_DOWN_ALIGN addr self.unit_size_
  let end_addr := UNIT_UP_ALIGN (addr + size) self.unit_size_
  let first_pstmts := (self.pstmt_metas_map_.map Prod.fst).filter
    (fun first => self.prace_db_.SecondPotentialStatement first pstmt)
  if self.unit_size_ = 0 then none
  else if first_pstmts = [] then
    let self := { self with
      pstmt_metas_map_ := mapEnsureSet self.pstmt_metas_map_ pstmt
      thd_metas_map_ := mapEnsureSet self.thd_metas_map_ curr_thd_id }
    match VerifierState.recordUnits pstmt inst curr_thd_id type self
      (unitAddrs start_addr end_addr self.unit_size_) with
    | none => none
    | some self => self.PostponeThread RandomThread curr_thd_id
  else
    match VerifierState.racedAll start_addr end_addr pstmt inst curr_thd_id type self ∅
      first_pstmts with
    | none => none
    | some (self, pp_thds) =>
      if pp_thds ≠ ∅ then self.HandleRace RandomThread coin pp_thds curr_thd_id
      else self.HandleNoRace RandomThread curr_thd_id

/-- `Verifier::BeforeMemRead`; `outcomes` are the outcomes of the successive calls of
`RandomThread` in `ChooseRandomThreadBeforeExecute`. -/
def VerifierState.BeforeMemRead (self : VerifierState)
    (RandomThread : Finset thread_t → thread_t) (coin : Bool) (outcomes : List thread_t)
    (curr_thd_id : thread_t) (inst : Inst) (addr : address_t) (size : Nat) :
    Option (VerifierState × Bool) :=
  match self.ChooseRandomThreadBeforeExecute outcomes addr curr_thd_id with
  | none => none
  | some self =>
    self.ProcessReadOrWrite RandomThread coin curr_thd_id inst addr size
      RaceEventType.RACE_EVENT_READ

/-- `Verifier::BeforeMemWrite`. -/
def VerifierState.BeforeMemWrite (self : VerifierState)
    (RandomThread : Finset thread_t → thread_t) (coin : Bool) (outcomes : List thread_t)
    (curr_thd_id : thread_t) (inst : Inst) (addr : address_t) (size : Nat) :
    Option (VerifierState × Bool) :=
  match self.ChooseRandomThreadBeforeExecute outcomes addr curr_thd_id with
  | none => none
  | some self =>
    self.ProcessReadOrWrite RandomThread coin curr_thd_id inst addr size
      RaceEventType.RACE_EVENT_WRITE

/-- An event of the whole verifier: a synchronisation or scheduling event, the
registration of a region (`AllocAddrRegion`, called by `AfterMalloc`, `AfterCalloc`,
`AfterRealloc` and `ImageLoad`), or a memory access with the outcomes of the calls of
`RandomThread` in `ChooseRandomThreadBeforeExecute` and of `RandomBool`. -/
inductive Event where
  | sync (ev : VEvent)
  | AllocAddrRegion (addr : address_t) (size : Nat)
  | BeforeMemRead (curr : thread_t) (inst : Inst) (addr : address_t) (size : Nat)
      (outcomes : List thread_t) (coin : Bool)
  | BeforeMemWrite (curr : thread_t) (inst : Inst) (addr : address_t) (size : Nat)
      (outcomes : List thread_t) (coin : Bool)

/-- One event handled by its handler, up to the point where the thread returns or
starts to wait on its semaphore. -/
def VerifierState.step (self : VerifierState) (RandomThread : Finset thread_t → thread_t) :
    Event → Option VerifierState
  | Event.sync ev => self.sync RandomThread ev
  | Event.AllocAddrRegion addr size => some (self.AllocAddrRegion addr size)
  | Event.BeforeMemRead curr inst addr size outcomes coin =>
    (self.BeforeMemRead RandomThread coin outcomes curr inst addr size).map Prod.fst
  | Event.BeforeMemWrite curr inst addr size outcomes coin =>
    (self.BeforeMemWrite RandomThread coin outcomes curr inst addr size).map Prod.fst

/-- A sequence of events handled one after the other. -/
def VerifierState.runAll (self : VerifierState) (RandomThread : Finset thread_t → thread_t) :
    List Event → Option VerifierState
  | [] => some self
  | ev :: rest =>
    match self.step RandomThread ev with
    | none => none
    | some s => s.runAll RandomThread rest

/-- A `ThreadStart` event names a thread that has no clock yet; every other event
passes. -/
def Event.startsFresh (s : VerifierState) : Event → Bool
  | Event.sync ev => ev.startsFresh s.toVerifier
  | _ => true

/-- Every `ThreadStart` of the run names a thread that has no clock when it is handled. -/
def VerifierState.freshRunAll (self : VerifierState)
    (RandomThread : Finset thread_t → thread_t) : List Event → Bool
  | [] => true
  | ev :: rest =>
    ev.startsFresh self &&
      match self.step RandomThread ev with
      | none => true
      | some s => s.freshRunAll RandomThread rest

/-- The verifier after `Setup` with unit size 4 and the registration of the region of
8 bytes at 0x1000, on top of a scheduling state. Instruction `i` lies on statement `i`;
the profile holds the statement pair (17, 25). -/
def exSetup (v : Verifier) : VerifierState :=
  { toVerifier := v
    unit_size_ := 4
    filter_ := [(4096, 8)]
    meta_table_ := fun _ => none
    next_meta_id_ := 0
    pstmt_metas_map_ := []
    thd_metas_map_ := []
    prace_db_ := { pstmt_of := fun inst => inst, relation := {(17, 25)} }
    internal_lock_ := { holder := none, misuse := [] }
    verify_lock_ := { holder := none, misuse := [] }
    printed := [] }

/-- The verifier with the threads 1 and 2 started, thread 1 postponed. -/
def exOnePostponed : Verifier :=
  { exTwoThreads with
    avail_thd_set_ := {2}
    pp_thd_set_ := {1} }

/-- The meta of the unit at 0x1000 after thread 1 has written it at epoch 1 with
instruction 17. -/
def exUnitMeta : Verifier.Meta :=
  (Verifier.Meta.fresh 0 4096).AddMetaSnapshot 1
    { thd_clk := 1, type := RaceEventType.RACE_EVENT_WRITE, inst := 17 }

/-- The locals of `RacedMeta` when the inspection of that unit starts. -/
def exScan : ScanState :=
  { meta := exUnitMeta, flag := false, pp_thds := ∅, printed := [] }

/-- The handlers that make a thread available when the available set has become empty:
`ThreadExit`, `BeforePthreadJoin` and `PostponeThread` whenever a thread is postponed;
`BeforePthreadMutexLock` when the owner of the mutex is postponed,
`BeforePthreadRwlockRdlock` when the writer owner is postponed,
`BeforePthreadRwlockWrlock` when the rwlock has reader owners. -/
def VEvent.wakesWhenEmpty (s : Verifier) : VEvent → Bool
  | VEvent.ThreadExit _ => true
  | VEvent.BeforePthreadJoin _ _ => true
  | VEvent.PostponeThread _ => true
  | VEvent.BeforePthreadMutexLock _ addr =>
    decide ((s.GetMutexMeta addr).2.owner ≠ 0 ∧ (s.GetMutexMeta addr).2.owner ∈ s.pp_thd_set_)
  | VEvent.BeforePthreadRwlockRdlock _ addr =>
    decide ((s.GetRwlockMeta addr).2.wrlock_owner ≠ 0 ∧
      (s.GetRwlockMeta addr).2.wrlock_owner ∈ s.pp_thd_set_)
  | VEvent.BeforePthreadRwlockWrlock _ addr =>
    decide ((s.GetRwlockMeta addr).2.rdlock_thd_set ≠ ∅)
  | _ => false

/-- The scheduling and synchronisation part, the unit size, the regions and the two
locks of `s'` are those of `s`. -/
def memFrame (s s' : VerifierState) : Prop :=
  s'.toVerifier = s.toVerifier ∧ s'.unit_size_ = s.unit_size_ ∧ s'.filter_ = s.filter_ ∧
  s'.internal_lock_ = s.internal_lock_ ∧ s'.verify_lock_ = s.verify_lock_

/-- The verifier with unit size 4 and the pair (17, 25) after thread 1 has started,
created thread 2 (which has started), written the unit at 0x1000 with instruction 17
and been postponed there. -/
def exFirstPostponed : VerifierState :=
  ((exSetup exStarted).runAll (fun _ => 0)
    [Event.sync (VEvent.AfterPthreadCreate 1 2), Event.sync (VEvent.ThreadStart 2 (some 1)),
     Event.BeforeMemWrite 1 17 4096 4 [1] false]).getD (exSetup exStarted)

/-- The clock of thread 2 in `exFirstPostponed`. -/
def exChildClock : VectorClock :=
  (VectorClock.empty.Increment 2).Join ((VectorClock.empty.Increment 1).Increment 1)

/-- Two writes of the unit at 0x1000 ordered by the mutex 9: the threads 1 and 2 start;
thread 1 locks the mutex, writes the unit with instruction 17 and is postponed; thread 2
announces its lock, which wakes thread 1; thread 1 unlocks, thread 2 acquires the mutex;
thread 1 writes the next unit with instruction 30 and is postponed there. -/
def exOrderedWrites : List Event :=
  [Event.sync (VEvent.ThreadStart 1 none), Event.sync (VEvent.ThreadStart 2 (some 1)),
   Event.sync (VEvent.BeforePthreadMutexLock 1 9), Event.sync (VEvent.AfterPthreadMutexLock 1 9),
   Event.BeforeMemWrite 1 17 4096 4 [1] false,
   Event.sync (VEvent.BeforePthreadMutexLock 2 9),
   Event.sync (VEvent.BeforePthreadMutexUnlock 1 9),
   Event.sync (VEvent.AfterPthreadMutexUnlock 1 9),
   Event.sync (VEvent.AfterPthreadMutexLock 2 9),
   Event.BeforeMemWrite 1 30 4100 4 [1] false]

/-! # The execution control: memory hooks and profile loading
(`core/execution_control.cpp`) -/

/-- The arguments of one call of `HandleAfterMemRead` or `HandleAfterMemWrite`. -/
structure AfterMemCall where
  tid : Nat
  inst : Inst
  addr : address_t
  size : Nat
deriving DecidableEq

/-- The part of `ExecutionControl` used by the memory hooks: the values of
`desc_.HookBeforeMem()` and `desc_.HookAfterMem()`, the per-thread slots written by the
before hooks, and the calls of `HandleAfterMemRead` and `HandleAfterMemWrite` made so
far. -/
structure ExecutionControl where
  hook_before_mem : Bool
  hook_after_mem : Bool
  tls_read_addr_ : Nat → address_t
  tls_read_size_ : Nat → Nat
  tls_write_addr_ : Nat → address_t
  tls_write_size_ : Nat → Nat
  tls_read2_addr_ : Nat → address_t
  tls_read2_size_ : Nat → Nat
  after_mem_read : List AfterMemCall
  after_mem_write : List AfterMemCall

/-- `ExecutionControl::__BeforeMemRead` (the call of `HandleBeforeMemRead` touches none
of the slots). -/
def ExecutionControl.__BeforeMemRead (ctrl_ : ExecutionControl) (tid : Nat) (_inst : Inst)
    (addr : address_t) (size : Nat) : ExecutionControl :=
  if ctrl_.hook_after_mem then
    { ctrl_ with
      tls_read_addr_ := Function.update ctrl_.tls_read_addr_ tid addr
      tls_read_size_ := Function.update ctrl_.tls_read_size_ tid size }
  else ctrl_

/-- `ExecutionControl::__AfterMemRead`. -/
def ExecutionControl.__AfterMemRead (ctrl_ : ExecutionControl) (tid : Nat) (inst : Inst) :
    ExecutionControl :=
  let addr := ctrl_.tls_read_addr_ tid
  let size := ctrl_.tls_read_size_ tid
  { ctrl_ with
    after_mem_read := ctrl_.after_mem_read ++
      [{ tid := tid, inst := inst, addr := addr, size := size }] }

/-- `ExecutionControl::__BeforeMemWrite`. -/
def ExecutionControl.__BeforeMemWrite (ctrl_ : ExecutionControl) (tid : Nat) (_inst : Inst)
    (addr : address_t) (size : Nat) : ExecutionControl :=
  if ctrl_.hook_after_mem then
    { ctrl_ with
      tls_write_addr_ := Function.update ctrl_.tls_write_addr_ tid addr
      tls_write_size_ := Function.update ctrl_.tls_write_size_ tid size }
  else ctrl_

/-- `ExecutionControl::__AfterMemWrite`. -/
def ExecutionControl.__AfterMemWrite (ctrl_ : ExecutionControl) (tid : Nat) (inst : Inst) :
    ExecutionControl :=
  let addr := ctrl_.tls_write_addr_ tid
  let size := ctrl_.tls_write_size_ tid
  { ctrl_ with
    after_mem_write := ctrl_.after_mem_write ++
      [{ tid := tid, inst := inst, addr := addr, size := size }] }

/-- `ExecutionControl::__BeforeMemRead2`. -/
def ExecutionControl.__BeforeMemRead2 (ctrl_ : ExecutionControl) (tid : Nat) (_inst : Inst)
    (addr : address_t) (size : Nat) : ExecutionControl :=
  if ctrl_.hook_after_mem then
    { ctrl_ with
      tls_read2_addr_ := Function.update ctrl_.tls_read2_addr_ tid addr
      tls_read2_size_ := Function.update ctrl_.tls_read2_size_ tid size }
  else ctrl_

/-- `ExecutionControl::__AfterMemRead2`: the address is read from `tls_read2_addr_`,
the size from `tls_read_size_`. -/
def ExecutionControl.__AfterMemRead2 (ctrl_ : ExecutionControl) (tid : Nat) (inst : Inst) :
    ExecutionControl :=
  let addr := ctrl_.tls_read2_addr_ tid
  let size := ctrl_.tls_read_size_ tid
  { ctrl_ with
    after_mem_read := ctrl_.after_mem_read ++
      [{ tid := tid, inst := inst, addr := addr, size := size }] }

/-- A call of one of the six memory hooks with its arguments. -/
inductive HookCall where
  | BeforeMemRead (tid : Nat) (inst : Inst) (addr : address_t) (size : Nat)
  | BeforeMemWrite (tid : Nat) (inst : Inst) (addr : address_t) (size : Nat)
  | BeforeMemRead2 (tid : Nat) (inst : Inst) (addr : address_t) (size : Nat)
  | AfterMemRead (tid : Nat) (inst : Inst)
  | AfterMemWrite (tid : Nat) (inst : Inst)
  | AfterMemRead2 (tid : Nat) (inst : Inst)
deriving DecidableEq

/-- The thread that makes the call (`IARG_THREAD_ID`). -/
def HookCall.tid : HookCall → Nat
  | HookCall.BeforeMemRead tid _ _ _ => tid
  | HookCall.BeforeMemWrite tid _ _ _ => tid
  | HookCall.BeforeMemRead2 tid _ _ _ => tid
  | HookCall.AfterMemRead tid _ => tid
  | HookCall.AfterMemWrite tid _ => tid
  | HookCall.AfterMemRead2 tid _ => tid

/-- The hook that a call runs. -/
def ExecutionControl.call (ctrl_ : ExecutionControl) : HookCall → ExecutionControl
  | HookCall.BeforeMemRead tid inst addr size => ctrl_.__BeforeMemRead tid inst addr size
  | HookCall.BeforeMemWrite tid inst addr size => ctrl_.__BeforeMemWrite tid inst addr size
  | HookCall.BeforeMemRead2 tid inst addr size => ctrl_.__BeforeMemRead2 tid inst addr size
  | HookCall.AfterMemRead tid inst => ctrl_.__AfterMemRead tid inst
  | HookCall.AfterMemWrite tid inst => ctrl_.__AfterMemWrite tid inst
  | HookCall.AfterMemRead2 tid inst => ctrl_.__AfterMemRead2 tid inst

/-- A sequence of hook calls, run one after the other. -/
def ExecutionControl.calls (ctrl_ : ExecutionControl) (trace : List HookCall) :
    ExecutionControl :=
  trace.foldl ExecutionControl.call ctrl_

/-- The state of a `std::fstream` opened for input: the characters not yet extracted
and the two state bits the loading loops depend on. -/
structure IStream where
  rest : List Char
  failbit : Bool
  eofbit : Bool

/-- The stream after `std::fstream in(name, std::ios::in)`: `content` is the content
of the file, `none` when the file cannot be opened (the constructor then sets
`failbit`). -/
def IStream.openFile (content : Option (List Char)) : IStream :=
  match content with
  | none => { rest := [], failbit := true, eofbit := false }
  | some chars => { rest := chars, failbit := false, eofbit := false }

/-- The extraction of `std::istream::getline` with room for `room` more characters:
the characters stored, the rest of the stream, whether end-of-file was met, whether
the room ran out before a newline, and the number of characters extracted. -/
def getlineExtract : Nat → List Char → List Char × List Char × Bool × Bool × Nat
  | _, [] => ([], [], true, false, 0)
  | room, c :: cs =>
    if c = Char.ofNat 10 then ([], cs, false, false, 1)
    else
      match room with
      | 0 => ([], c :: cs, false, true, 0)
      | room + 1 =>
        let r := getlineExtract room cs
        (c :: r.1, r.2.1, r.2.2.1, r.2.2.2.1, r.2.2.2.2 + 1)

/-- `in.getline(buffer, n, '\n')` of the C++ library for `n > 0`: the stream after the
call and the string left in `buffer`. A stream that is not good extracts nothing and
sets `failbit`; otherwise characters are extracted up to a newline (extracted, not
stored), the end of the file (`eofbit`) or `n - 1` stored characters (`failbit`), and
`failbit` is set when nothing was extracted; the buffer is terminated in every case. -/
def IStream.getline (s : IStream) (n : Nat) : IStream × List Char :=
  if s.failbit || s.eofbit then ({ s with failbit := true }, [])
  else
    let r := getlineExtract (n - 1) s.rest
    ({ rest := r.2.1, failbit := r.2.2.2.1 || r.2.2.2.2 == 0, eofbit := r.2.2.1 }, r.1)

/-- `isalpha(buffer[0])` for the string left in the buffer (`buffer[0]` is the
terminator for the empty string). -/
def bufferStartsAlpha (buffer : List Char) : Bool :=
  match buffer with
  | [] => false
  | c :: _ => c.isAlpha

/-- The loop of `ExecutionControl::PostSetup` that loads `static_profile_`:
`while(!in.eof()) { in.getline(buffer,200,'\n'); if(!isalpha(buffer[0])) continue;
static_profile_.push_back(std::string(buffer)); }`, run for at most `fuel` tests of the
loop condition; `none` when the loop has not ended by then. -/
def loadStaticProfile : Nat → IStream → List (List Char) → Option (List (List Char))
  | 0, _, _ => none
  | fuel + 1, strm, static_profile_ =>
    if strm.eofbit then some static_profile_
    else
      let r := strm.getline 200
      if bufferStartsAlpha r.2 then loadStaticProfile fuel r.1 (static_profile_ ++ [r.2])
      else loadStaticProfile fuel r.1 static_profile_

/-- The meta of a rwlock as `GetRwlockMeta` returns it (a new meta when missing). -/
def Verifier.rwlockMeta (self : Verifier) (addr : address_t) : RwlockMeta :=
  (self.GetRwlockMeta addr).2

/-- The join of the clocks that the threads of the list have in the state, in the order
of the list, into the clock `start`. -/
def Verifier.joinClocks (self : Verifier) (start : VectorClock) (thds : List thread_t) :
    VectorClock :=
  thds.foldl (fun acc t => acc.Join (self.clockOf t)) start

/-- The event of the handler by which a thread acquires a rwlock, as a writer (`true`)
or as a reader. -/
def acquireEvent (addr : address_t) (a : thread_t × Bool) : VEvent :=
  if a.2 = true then VEvent.AfterPthreadRwlockWrlock a.1 addr
  else VEvent.AfterPthreadRwlockRdlock a.1 addr

/-- The own component of the clock of a thread, 0 when the thread has no clock. -/
def Verifier.ownClock (self : Verifier) (u : thread_t) : timestamp_t :=
  (self.clockOf u).GetClock u

/-- No clock of a thread, of a mutex or of a rwlock (`vc` and `wait_vc`) holds more for
a thread u than the own component of the clock of u. -/
def Verifier.knowsNoMore (self : Verifier) : Prop :=
  ∀ u, (∀ t vc, self.thd_vc_map_ t = some vc → vc.GetClock u ≤ self.ownClock u) ∧
    (∀ a, (self.mutexClock a).GetClock u ≤ self.ownClock u) ∧
    (∀ a, (self.rwlockMeta a).vc.GetClock u ≤ self.ownClock u ∧
      (self.rwlockMeta a).wait_vc.GetClock u ≤ self.ownClock u)

/-- A run from the initial state: thread 1 starts, creates thread 2, which starts;
thread 1 acquires the rwlock 7 as a writer and releases it, acquires the mutex 9 and
releases it; thread 2 acquires the mutex 9. -/
def exLockRun : List VEvent :=
  [VEvent.ThreadStart 1 none, VEvent.AfterPthreadCreate 1 2,
   VEvent.ThreadStart 2 (some 1), VEvent.AfterPthreadRwlockWrlock 1 7,
   VEvent.BeforePthreadRwlockUnlock 1 7, VEvent.AfterPthreadMutexLock 1 9,
   VEvent.BeforePthreadMutexUnlock 1 9, VEvent.AfterPthreadMutexLock 2 9]

/-- Modelled from the spec: `RegionFilter::RemoveRegion` (declared in `core/filter.h`):
the region that starts at `addr` is removed and its size is returned, 0 when no region
starts there. -/
def removeRegion (filter : List (address_t × Nat)) (addr : address_t) :
    List (address_t × Nat) × Nat :=
  match filter.find? (fun r => decide (r.1 = addr)) with
  | none => (filter, 0)
  | some r => (filter.filter (fun x => !decide (x.1 = addr)), r.2)

/-- `Verifier::FreeAddrRegion`, the loop over the units: the meta of the unit, if there
is one, is freed and erased from `meta_table_`. -/
def VerifierState.freeUnits : VerifierState → List address_t → VerifierState
  | self, [] => self
  | self, iaddr :: rest =>
    VerifierState.freeUnits
      { self with meta_table_ := Function.update self.meta_table_ iaddr none } rest

/-- `Verifier::FreeAddrRegion` (the scoped `internal_lock_` is released on return). -/
def VerifierState.FreeAddrRegion (self : VerifierState) (addr : address_t) : VerifierState :=
  if addr = 0 then self
  else
    let r := removeRegion self.filter_ addr
    let self := { self with filter_ := r.1 }
    let start_addr := UNIT_DOWN_ALIGN addr self.unit_size_
    let end_addr := UNIT_UP_ALIGN (addr + r.2) self.unit_size_
    self.freeUnits (unitAddrs start_addr end_addr self.unit_size_)

/-- Every set of the map is still there, with no member lost. -/
def setsKept (m m' : List (Nat × Option MetaSet)) : Prop :=
  ∀ k metas, mapFind m k = some (some metas) →
    ∃ metas', mapFind m' k = some (some metas') ∧ metas ⊆ metas'

/-- The meta is the same object and every snapshot vector is still there, extended at
the end at most. -/
def metaKept (m m' : Verifier.Meta) : Prop :=
  m'.id = m.id ∧
  ∀ t l, m.meta_ss_map t = some l → ∃ l', m'.meta_ss_map t = some l' ∧ l <+: l'

/-- The second meta is the same object with the same snapshot vectors as the first (the
scan of a unit rewrites the raced pairs of the meta only). -/
def sameSnaps (m m' : Verifier.Meta) : Prop :=
  m'.id = m.id ∧ m'.meta_ss_map = m.meta_ss_map

/-- Every meta of the table is still there with its snapshots. -/
def snapshotsKept (tbl tbl' : address_t → Option Verifier.Meta) : Prop :=
  ∀ a m, tbl a = some m → ∃ m', tbl' a = some m' ∧ metaKept m m'

/-- Nothing has been drained between `s` and `s'`: no member of a set of
`pstmt_metas_map_` or `thd_metas_map_`, no meta of `meta_table_` and no snapshot. -/
def historyKept (s s' : VerifierState) : Prop :=
  setsKept s.pstmt_metas_map_ s'.pstmt_metas_map_ ∧
  setsKept s.thd_metas_map_ s'.thd_metas_map_ ∧
  snapshotsKept s.meta_table_ s'.meta_table_

/-- The state after thread 2 has written the unit at 0x1000 with instruction 25 in
`exFirstPostponed` (thread 1 is postponed at instruction 17) and goes on (`RandomBool()`
true): the pair (17, 25) is confirmed. -/
def exConfirmed : VerifierState :=
  ((exFirstPostponed.ProcessReadOrWrite (fun _ => 0) true 2 25 4096 4
    RaceEventType.RACE_EVENT_WRITE).map Prod.fst).getD exFirstPostponed

theorem mapFind_mapSet_self {V : Type} (m : List (thread_t × V)) (k : thread_t) (v : V) :
    mapFind (mapSet m k v) k = some v := by
  induction m with
  | nil => simp [mapSet, mapFind]
  | cons hd tl ih =>
    obtain ⟨k', v'⟩ := hd
    by_cases h1 : k < k'
    · simp [mapSet, h1, mapFind]
    · by_cases h2 : k = k'
      · simp [mapSet, h2, mapFind]
      · have h3 : ¬ k' = k := fun h => h2 h.symm
        simp [mapSet, h1, h2, h3, mapFind, ih]

theorem mapFind_mapSet_ne {V : Type} (m : List (thread_t × V)) (k j : thread_t) (v : V)
    (h : k ≠ j) : mapFind (mapSet m k v) j = mapFind m j := by
  induction m with
  | nil => simp [mapSet, mapFind, h]
  | cons hd tl ih =>
    obtain ⟨k', v'⟩ := hd
    by_cases h1 : k < k'
    · simp [mapSet, h1, mapFind, h]
    · by_cases h2 : k = k'
      · subst h2
        simp [mapSet, mapFind, h]
      · simp only [mapSet, h1, h2, if_false, mapFind, ih]

theorem mapSet_keys_subset {V : Type} (m : List (thread_t × V)) (k : thread_t) (v : V) :
    ∀ x ∈ (mapSet m k v).map Prod.fst, x = k ∨ x ∈ m.map Prod.fst := by
  induction m with
  | nil => simp [mapSet]
  | cons hd tl ih =>
    obtain ⟨k', v'⟩ := hd
    by_cases h1 : k < k'
    · simp [mapSet, h1]
    · by_cases h2 : k = k'
      · simp [mapSet, h2]
      · intro x hx
        simp only [mapSet, h1, h2, if_false, List.map_cons, List.mem_cons] at hx
        rcases hx with hx | hx
        · right; simp [hx]
        · rcases ih x hx with h | h
          · left; exact h
          · right; simp [h]

theorem mapWf_mapSet {V : Type} (m : List (thread_t × V)) (k : thread_t) (v : V)
    (hm : mapWf m) : mapWf (mapSet m k v) := by
  induction m with
  | nil => simp [mapSet, mapWf]
  | cons hd tl ih =>
    obtain ⟨k', v'⟩ := hd
    unfold mapWf at hm ih ⊢
    simp only [List.map_cons, List.pairwise_cons] at hm
    by_cases h1 : k < k'
    · simp only [mapSet, h1, if_true, List.map_cons, List.pairwise_cons]
      refine ⟨?_, hm.1, hm.2⟩
      intro x hx
      simp only [List.mem_cons] at hx
      rcases hx with hx | hx
      · subst hx; exact h1
      · exact lt_trans h1 (hm.1 x hx)
    · by_cases h2 : k = k'
      · subst h2
        simp only [mapSet, h1, if_false, if_true, List.map_cons, List.pairwise_cons]
        exact hm
      · simp only [mapSet, h1, h2, if_false, List.map_cons, List.pairwise_cons]
        refine ⟨?_, ih hm.2⟩
        intro x hx
        rcases mapSet_keys_subset tl k v x hx with h | h
        · subst h
          exact lt_of_le_of_ne (not_lt.mp h1) (fun h => h2 h.symm)
        · exact hm.1 x h
/-! ## The race scan -/

theorem scanVec_eq (thd_clk : timestamp_t) (lock_set : LockSet) (r : RaceReport)
    (vec : EpochLockSetPairVector) (st : Bool × List RaceReport) :
    scanVec thd_clk lock_set r vec st =
      (st.1 || vec.any (raceCond thd_clk lock_set),
        st.2 ++ scanVecCalls thd_clk lock_set r vec) := by
  induction vec generalizing st with
  | nil => simp [scanVec, scanVecCalls]
  | cons p rest ih =>
    by_cases h : raceCond thd_clk lock_set p = true
    · simp [scanVec, h, ih, scanVecCalls, List.replicate_succ]
    · simp [scanVec, h, ih, scanVecCalls]

theorem scanMap_eq (curr_vc : VectorClock) (t : thread_t) (ls : LockSet)
    (tbl : thread_t → Option Inst) (p0 : RaceEventType) (inst : Inst) (p1 : RaceEventType)
    (m : ThreadElspVecMap) (st : Bool × List RaceReport) :
    scanMap curr_vc t ls tbl p0 inst p1 m st =
      (st.1 || decide (scanMapCalls curr_vc t ls tbl p0 inst p1 m ≠ []),
        st.2 ++ scanMapCalls curr_vc t ls tbl p0 inst p1 m) := by
  induction m generalizing st with
  | nil => simp [scanMap, scanMapCalls]
  | cons hd tl ih =>
    obtain ⟨u, vec⟩ := hd
    by_cases h : u = t
    · simp [scanMap, scanMapCalls, h, ih]
    · simp only [scanMap, scanMapCalls, h, if_false, ih, scanVec_eq, List.append_assoc]
      congr 1
      simp only [Bool.or_assoc]
      congr 1
      simp only [scanVecCalls]
      rcases Nat.eq_zero_or_pos (List.countP (raceCond (VectorClock.GetClock curr_vc u) ls) vec)
        with hc | hpos
      · have hany : vec.any (raceCond (VectorClock.GetClock curr_vc u) ls) = false := by
          rw [List.countP_eq_zero] at hc
          simpa using hc
        simp [hany, hc]
      · have hany : vec.any (raceCond (VectorClock.GetClock curr_vc u) ls) = true := by
          have hpos2 := List.countP_pos_iff.mp hpos
          simpa using hpos2
        have hne : List.replicate (List.countP (raceCond (VectorClock.GetClock curr_vc u) ls) vec)
            ({ t0 := u, i0 := tbl u, p0 := p0, t1 := t, i1 := inst, p1 := p1 } : RaceReport)
            ≠ [] := by
          intro e
          have hl := congrArg List.length e
          simp only [List.length_replicate, List.length_nil] at hl
          omega
        simp [hany, hne]

theorem scanMapCalls_shape (curr_vc : VectorClock) (t : thread_t) (ls : LockSet)
    (tbl : thread_t → Option Inst) (p0 : RaceEventType) (inst : Inst) (p1 : RaceEventType)
    (m : ThreadElspVecMap) :
    ∀ r ∈ scanMapCalls curr_vc t ls tbl p0 inst p1 m,
      r.t0 ∈ m.map Prod.fst ∧ r.t0 ≠ t ∧ r.i0 = tbl r.t0 ∧ r.p0 = p0 ∧
      r.t1 = t ∧ r.i1 = inst ∧ r.p1 = p1 := by
  induction m with
  | nil => simp [scanMapCalls]
  | cons hd tl ih =>
    obtain ⟨u, vec⟩ := hd
    intro r hr
    simp only [scanMapCalls, List.mem_append] at hr
    rcases hr with hr | hr
    · by_cases h : u = t
      · simp [h] at hr
      · simp only [h, if_false, scanVecCalls] at hr
        have := List.eq_of_mem_replicate hr
        subst this
        simp [h]
    · have := ih r hr
      simp only [List.map_cons, List.mem_cons]
      exact ⟨Or.inr this.1, this.2⟩

theorem historyOf_cons_self (u : thread_t) (vec : EpochLockSetPairVector)
    (tl : ThreadElspVecMap) : historyOf ((u, vec) :: tl) u = vec := by
  simp [historyOf, mapFind]

theorem historyOf_cons_ne (u k : thread_t) (vec : EpochLockSetPairVector)
    (tl : ThreadElspVecMap) (h : k ≠ u) : historyOf ((k, vec) :: tl) u = historyOf tl u := by
  simp [historyOf, mapFind, h]

theorem historyOf_not_key (m : ThreadElspVecMap) (u : thread_t)
    (h : u ∉ m.map Prod.fst) : historyOf m u = [] := by
  induction m with
  | nil => simp [historyOf, mapFind]
  | cons hd tl ih =>
    obtain ⟨k, vec⟩ := hd
    simp only [List.map_cons, List.mem_cons, not_or] at h
    rw [historyOf_cons_ne u k vec tl (fun e => h.1 e.symm)]
    exact ih h.2

/-- The calls against thread `u` are as many as the entries of `u` that pass the test. -/
theorem scanMapCalls_count (curr_vc : VectorClock) (t : thread_t) (ls : LockSet)
    (tbl : thread_t → Option Inst) (p0 : RaceEventType) (inst : Inst) (p1 : RaceEventType)
    (m : ThreadElspVecMap) (hm : mapWf m) (u : thread_t) (hu : u ≠ t) :
    (scanMapCalls curr_vc t ls tbl p0 inst p1 m).countP (fun r => decide (r.t0 = u)) =
      (historyOf m u).countP (raceCond (curr_vc u) ls) := by
  induction m with
  | nil => simp [scanMapCalls, historyOf, mapFind]
  | cons hd tl ih =>
    obtain ⟨k, vec⟩ := hd
    unfold mapWf at hm ih
    simp only [List.map_cons, List.pairwise_cons] at hm
    simp only [scanMapCalls, List.countP_append]
    by_cases hk : k = u
    · subst hk
      have htl : (scanMapCalls curr_vc t ls tbl p0 inst p1 tl).countP
          (fun r => decide (r.t0 = k)) = 0 := by
        rw [List.countP_eq_zero]
        intro r hr
        have := (scanMapCalls_shape curr_vc t ls tbl p0 inst p1 tl r hr).1
        have := hm.1 _ this
        simp only [decide_eq_true_eq]
        exact fun e => absurd (e ▸ this) (lt_irrefl _)
      rw [htl, historyOf_cons_self]
      simp [hu, scanVecCalls, List.countP_replicate, VectorClock.GetClock]
    · rw [historyOf_cons_ne u k vec tl hk, ← ih hm.2]
      by_cases hkt : k = t
      · simp [hkt]
      · simp [hkt, scanVecCalls, List.countP_replicate, hk]
/-! ## The history updates -/

theorem eraseLoop_eq_filter (e : timestamp_t) (L : LockSet) (v : EpochLockSetPairVector) :
    eraseLoop e L v = v.filter (fun p => !eraseCond e L p) := by
  induction v with
  | nil => simp [eraseLoop]
  | cons p rest ih =>
    by_cases h : eraseCond e L p = true
    · simp [eraseLoop, h, ih]
    · simp [eraseLoop, h, ih]

theorem eraseLoopButLast_append (e : timestamp_t) (L : LockSet) (v : EpochLockSetPairVector)
    (x : EpochLockSetPair) :
    eraseLoopButLast e L (v ++ [x]) = v.filter (fun p => !eraseCond e L p) ++ [x] := by
  induction v with
  | nil => simp [eraseLoopButLast]
  | cons p rest ih =>
    cases hr : rest ++ [x] with
    | nil => simp at hr
    | cons q rest2 =>
      rw [hr] at ih
      by_cases h : eraseCond e L p = true
      · simp [eraseLoopButLast, hr, h, ih]
      · simp [eraseLoopButLast, hr, h, ih]

theorem historyOf_mapSet_self (m : ThreadElspVecMap) (t : thread_t)
    (v : EpochLockSetPairVector) : historyOf (mapSet m t v) t = v := by
  simp [historyOf, mapFind_mapSet_self]

theorem historyOf_mapSet_ne (m : ThreadElspVecMap) (t u : thread_t)
    (v : EpochLockSetPairVector) (h : t ≠ u) :
    historyOf (mapSet m t v) u = historyOf m u := by
  simp [historyOf, mapFind_mapSet_ne m t u v h]

theorem historyOf_ensureVec (m : ThreadElspVecMap) (t u : thread_t) :
    historyOf (ensureVec m t) u = historyOf m u := by
  unfold ensureVec
  cases h : mapFind m t with
  | none =>
    by_cases hu : t = u
    · subst hu
      rw [historyOf_mapSet_self]
      simp [historyOf, h]
    · simp [historyOf_mapSet_ne m t u [] hu]
  | some v => rfl

theorem mapWf_ensureVec (m : ThreadElspVecMap) (t : thread_t) (hm : mapWf m) :
    mapWf (ensureVec m t) := by
  unfold ensureVec
  cases h : mapFind m t with
  | none => exact mapWf_mapSet m t [] hm
  | some v => exact hm

theorem mapFind_ensureVec_self (m : ThreadElspVecMap) (t : thread_t) :
    mapFind (ensureVec m t) t = some (historyOf m t) := by
  unfold ensureVec
  cases h : mapFind m t with
  | none => simp [mapFind_mapSet_self, historyOf, h]
  | some v => simp [historyOf, h]

/-- The writer histories after `update_on_write`. -/
theorem update_on_write_writer (self : MultiLockHb) (e : timestamp_t) (t : thread_t)
    (L : LockSet) (meta : MlMeta) (u : thread_t) :
    historyOf (self.update_on_write e t L meta).writer_elspvec_map u =
      if u = t ∧ (historyOf meta.writer_elspvec_map t).any (skipCond e L) = false then
        (historyOf meta.writer_elspvec_map t).filter (fun p => !eraseCond e L p) ++ [(e, L)]
      else historyOf meta.writer_elspvec_map u := by
  unfold MultiLockHb.update_on_write
  simp only [historyOf_ensureVec]
  by_cases hs : (historyOf meta.writer_elspvec_map t).any (skipCond e L) = true
  · simp [hs, historyOf_ensureVec]
  · simp only [hs, if_false]
    have hs2 : (historyOf meta.writer_elspvec_map t).any (skipCond e L) = false := by
      simpa using hs
    by_cases hu : u = t
    · subst hu
      simp only [hs2, and_self, if_true]
      cases hr : mapFind meta.reader_elspvec_map u <;>
        simp [historyOf_mapSet_self, eraseLoopButLast_append]
    · have hu2 : t ≠ u := fun h => hu h.symm
      simp only [hu, false_and, if_false]
      cases hr : mapFind meta.reader_elspvec_map t <;>
        simp [historyOf_mapSet_ne _ t u _ hu2, historyOf_ensureVec]

/-- The reader histories after `update_on_write`. -/
theorem update_on_write_reader (self : MultiLockHb) (e : timestamp_t) (t : thread_t)
    (L : LockSet) (meta : MlMeta) (u : thread_t) :
    historyOf (self.update_on_write e t L meta).reader_elspvec_map u =
      if u = t ∧ (historyOf meta.writer_elspvec_map t).any (skipCond e L) = false then
        (historyOf meta.reader_elspvec_map t).filter (fun p => !eraseCond e L p)
      else historyOf meta.reader_elspvec_map u := by
  unfold MultiLockHb.update_on_write
  simp only [historyOf_ensureVec]
  by_cases hs : (historyOf meta.writer_elspvec_map t).any (skipCond e L) = true
  · simp [hs]
  · simp only [hs, if_false]
    have hs2 : (historyOf meta.writer_elspvec_map t).any (skipCond e L) = false := by
      simpa using hs
    by_cases hu : u = t
    · subst hu
      simp only [hs2, and_self, if_true]
      cases hr : mapFind meta.reader_elspvec_map u with
      | none => simp [historyOf, hr]
      | some v =>
        simp [historyOf, hr, mapFind_mapSet_self, eraseLoop_eq_filter]
    · have hu2 : t ≠ u := fun h => hu h.symm
      simp only [hu, false_and, if_false]
      cases hr : mapFind meta.reader_elspvec_map t <;>
        simp [historyOf_mapSet_ne _ t u _ hu2]

theorem update_on_write_wf (self : MultiLockHb) (e : timestamp_t) (t : thread_t)
    (L : LockSet) (meta : MlMeta) (hw : mapWf meta.writer_elspvec_map)
    (hr : mapWf meta.reader_elspvec_map) :
    mapWf (self.update_on_write e t L meta).writer_elspvec_map ∧
    mapWf (self.update_on_write e t L meta).reader_elspvec_map := by
  unfold MultiLockHb.update_on_write
  by_cases hs : (historyOf (ensureVec meta.writer_elspvec_map t) t).any (skipCond e L) = true
  · simp only [hs, if_true]
    exact ⟨mapWf_ensureVec _ _ hw, hr⟩
  · simp only [hs, if_false]
    cases hf : mapFind meta.reader_elspvec_map t with
    | none => exact ⟨mapWf_mapSet _ _ _ (mapWf_ensureVec _ _ hw), hr⟩
    | some v => exact ⟨mapWf_mapSet _ _ _ (mapWf_ensureVec _ _ hw), mapWf_mapSet _ _ _ hr⟩

theorem update_on_write_fields (self : MultiLockHb) (e : timestamp_t) (t : thread_t)
    (L : LockSet) (meta : MlMeta) :
    (self.update_on_write e t L meta).racy = meta.racy ∧
    (self.update_on_write e t L meta).writer_inst_table = meta.writer_inst_table ∧
    (self.update_on_write e t L meta).reader_inst_table = meta.reader_inst_table ∧
    (self.update_on_write e t L meta).race_inst_set = meta.race_inst_set := by
  unfold MultiLockHb.update_on_write
  by_cases hs : (historyOf (ensureVec meta.writer_elspvec_map t) t).any (skipCond e L) = true
  · simp only [hs, if_true, and_self]
  · simp only [hs, if_false]
    cases hf : mapFind meta.reader_elspvec_map t <;> simp
theorem update_on_read_lockset (self : MultiLockHb) (e : timestamp_t) (t : thread_t)
    (L : LockSet) (meta : MlMeta) :
    (self.update_on_read e t L meta).1 = L ∪ locksetOf self.curr_reader_lockset_table_ t := by
  have hj : L.Join (self.curr_reader_lockset_table_ t)
      = L ∪ locksetOf self.curr_reader_lockset_table_ t := by
    unfold LockSet.Join locksetOf
    cases self.curr_reader_lockset_table_ t <;> simp
  unfold MultiLockHb.update_on_read
  simp only [hj]
  split
  · rfl
  · split <;> rfl

/-- The reader histories after `update_on_read`, `L` being the joined lock set. -/
theorem update_on_read_reader (self : MultiLockHb) (e : timestamp_t) (t : thread_t)
    (L0 : LockSet) (meta : MlMeta) (u : thread_t) :
    historyOf (self.update_on_read e t L0 meta).2.reader_elspvec_map u =
      if u = t ∧ readSkipped meta e t
          (L0 ∪ locksetOf self.curr_reader_lockset_table_ t) = false then
        (historyOf meta.reader_elspvec_map t).filter
          (fun p => !eraseCond e (L0 ∪ locksetOf self.curr_reader_lockset_table_ t) p)
          ++ [(e, L0 ∪ locksetOf self.curr_reader_lockset_table_ t)]
      else historyOf meta.reader_elspvec_map u := by
  have hj : L0.Join (self.curr_reader_lockset_table_ t)
      = L0 ∪ locksetOf self.curr_reader_lockset_table_ t := by
    unfold LockSet.Join locksetOf
    cases self.curr_reader_lockset_table_ t <;> simp
  unfold MultiLockHb.update_on_read readSkipped
  simp only [hj, historyOf_ensureVec]
  generalize L0 ∪ locksetOf self.curr_reader_lockset_table_ t = L
  by_cases h1 : (historyOf meta.reader_elspvec_map t).any (skipCond e L) = true
  · simp [h1, historyOf_ensureVec]
  · by_cases h2 : (historyOf meta.writer_elspvec_map t).any (skipCond e L) = true
    · simp [h1, h2, historyOf_ensureVec]
    · simp only [h1, h2, if_false]
      have h1f : (historyOf meta.reader_elspvec_map t).any (skipCond e L) = false := by
        simpa using h1
      have h2f : (historyOf meta.writer_elspvec_map t).any (skipCond e L) = false := by
        simpa using h2
      by_cases hu : u = t
      · subst hu
        simp [h1f, h2f, historyOf_mapSet_self, eraseLoopButLast_append]
      · have hu2 : t ≠ u := fun h => hu h.symm
        simp [hu, historyOf_mapSet_ne _ t u _ hu2, historyOf_ensureVec]

/-- The writer histories are not changed by `update_on_read`. -/
theorem update_on_read_writer (self : MultiLockHb) (e : timestamp_t) (t : thread_t)
    (L0 : LockSet) (meta : MlMeta) (u : thread_t) :
    historyOf (self.update_on_read e t L0 meta).2.writer_elspvec_map u =
      historyOf meta.writer_elspvec_map u := by
  unfold MultiLockHb.update_on_read
  simp only []
  split
  · rfl
  · split <;> simp [historyOf_ensureVec]

theorem update_on_read_wf (self : MultiLockHb) (e : timestamp_t) (t : thread_t)
    (L0 : LockSet) (meta : MlMeta) (hw : mapWf meta.writer_elspvec_map)
    (hr : mapWf meta.reader_elspvec_map) :
    mapWf (self.update_on_read e t L0 meta).2.writer_elspvec_map ∧
    mapWf (self.update_on_read e t L0 meta).2.reader_elspvec_map := by
  unfold MultiLockHb.update_on_read
  simp only []
  split
  · exact ⟨hw, mapWf_ensureVec _ _ hr⟩
  · split
    · exact ⟨mapWf_ensureVec _ _ hw, mapWf_ensureVec _ _ hr⟩
    · exact ⟨mapWf_ensureVec _ _ hw, mapWf_mapSet _ _ _ (mapWf_ensureVec _ _ hr)⟩

theorem update_on_read_fields (self : MultiLockHb) (e : timestamp_t) (t : thread_t)
    (L0 : LockSet) (meta : MlMeta) :
    (self.update_on_read e t L0 meta).2.racy = meta.racy ∧
    (self.update_on_read e t L0 meta).2.writer_inst_table = meta.writer_inst_table ∧
    (self.update_on_read e t L0 meta).2.reader_inst_table = meta.reader_inst_table ∧
    (self.update_on_read e t L0 meta).2.race_inst_set = meta.race_inst_set := by
  unfold MultiLockHb.update_on_read
  simp only []
  split
  · simp
  · split <;> simp

/-! ## The access handlers -/

theorem locksetOf_ensureLockset (self : MultiLockHb) (t u : thread_t) :
    locksetOf (self.ensureLockset t).curr_lockset_table_ u =
      locksetOf self.curr_lockset_table_ u := by
  unfold MultiLockHb.ensureLockset
  cases h : self.curr_lockset_table_ t with
  | none =>
    by_cases hu : u = t
    · subst hu; simp [locksetOf, h]
    · simp [locksetOf, Function.update, hu]
  | some v => rfl

theorem ensureLockset_fields (self : MultiLockHb) (t : thread_t) :
    (self.ensureLockset t).curr_vc_map_ = self.curr_vc_map_ ∧
    (self.ensureLockset t).curr_reader_lockset_table_ = self.curr_reader_lockset_table_ ∧
    (self.ensureLockset t).reported = self.reported ∧
    (self.ensureLockset t).track_racy_inst_ = self.track_racy_inst_ := by
  unfold MultiLockHb.ensureLockset
  cases h : self.curr_lockset_table_ t <;> simp

theorem update_on_write_self_irrel (s1 s2 : MultiLockHb) (e : timestamp_t) (t : thread_t)
    (L : LockSet) (meta : MlMeta) :
    s1.update_on_write e t L meta = s2.update_on_write e t L meta := rfl

theorem ProcessWrite_reported (self : MultiLockHb) (t : thread_t) (meta : MlMeta)
    (inst : Inst) :
    (self.ProcessWrite t meta inst).1.reported = self.reported ++ writeCalls self t meta inst := by
  unfold MultiLockHb.ProcessWrite writeCalls writeUpdated
  simp only [scanMap_eq, locksetOf_ensureLockset, (ensureLockset_fields self t).1,
    (ensureLockset_fields self t).2.2.1, VectorClock.GetClock, List.append_assoc,
    (update_on_write_fields _ _ _ _ _).2.1, (update_on_write_fields _ _ _ _ _).2.2.1]
  rfl

theorem ProcessWrite_meta (self : MultiLockHb) (t : thread_t) (meta : MlMeta) (inst : Inst) :
    (self.ProcessWrite t meta inst).2.writer_elspvec_map =
      (writeUpdated self t meta).writer_elspvec_map ∧
    (self.ProcessWrite t meta inst).2.reader_elspvec_map =
      (writeUpdated self t meta).reader_elspvec_map ∧
    (self.ProcessWrite t meta inst).2.racy =
      (meta.racy || decide (writeCalls self t meta inst ≠ [])) ∧
    (self.ProcessWrite t meta inst).2.writer_inst_table =
      Function.update meta.writer_inst_table t (some inst) ∧
    (self.ProcessWrite t meta inst).2.reader_inst_table = meta.reader_inst_table := by
  unfold MultiLockHb.ProcessWrite writeCalls writeUpdated
  simp only [scanMap_eq, locksetOf_ensureLockset, (ensureLockset_fields self t).1,
    (ensureLockset_fields self t).2.2.1, VectorClock.GetClock,
    (update_on_write_fields _ _ _ _ _).2.1, (update_on_write_fields _ _ _ _ _).2.2.1,
    (update_on_write_fields _ _ _ _ _).1]
  cases (self.ensureLockset t).track_racy_inst_ <;>
    simp [update_on_write_self_irrel (self.ensureLockset t) self, Bool.or_assoc]
theorem update_on_read_congr (s1 s2 : MultiLockHb) (e : timestamp_t) (t : thread_t)
    (L : LockSet) (meta : MlMeta)
    (h : s1.curr_reader_lockset_table_ = s2.curr_reader_lockset_table_) :
    s1.update_on_read e t L meta = s2.update_on_read e t L meta := by
  unfold MultiLockHb.update_on_read
  rw [h]

theorem ProcessRead_reported (self : MultiLockHb) (t : thread_t) (meta : MlMeta)
    (inst : Inst) :
    (self.ProcessRead t meta inst).1.reported = self.reported ++ readCalls self t meta inst := by
  unfold MultiLockHb.ProcessRead readCalls readUpdated readLockset
  simp only [scanMap_eq, locksetOf_ensureLockset, (ensureLockset_fields self t).1,
    (ensureLockset_fields self t).2.2.1, VectorClock.GetClock,
    update_on_read_congr (self.ensureLockset t) self _ _ _ _ (ensureLockset_fields self t).2.1,
    (update_on_read_fields _ _ _ _ _).2.1, update_on_read_lockset]

theorem ProcessRead_meta (self : MultiLockHb) (t : thread_t) (meta : MlMeta) (inst : Inst) :
    (self.ProcessRead t meta inst).2.writer_elspvec_map =
      (readUpdated self t meta).writer_elspvec_map ∧
    (self.ProcessRead t meta inst).2.reader_elspvec_map =
      (readUpdated self t meta).reader_elspvec_map ∧
    (self.ProcessRead t meta inst).2.racy =
      (meta.racy || decide (readCalls self t meta inst ≠ [])) ∧
    (self.ProcessRead t meta inst).2.reader_inst_table =
      Function.update meta.reader_inst_table t (some inst) ∧
    (self.ProcessRead t meta inst).2.writer_inst_table = meta.writer_inst_table := by
  unfold MultiLockHb.ProcessRead readCalls readUpdated readLockset
  simp only [scanMap_eq, locksetOf_ensureLockset, (ensureLockset_fields self t).1,
    (ensureLockset_fields self t).2.2.1, VectorClock.GetClock,
    update_on_read_congr (self.ensureLockset t) self _ _ _ _ (ensureLockset_fields self t).2.1,
    (update_on_read_fields _ _ _ _ _).2.1, (update_on_read_fields _ _ _ _ _).2.2.1,
    (update_on_read_fields _ _ _ _ _).1, update_on_read_lockset]
  cases (self.ensureLockset t).track_racy_inst_ <;> simp

theorem ProcessRead_tables (self : MultiLockHb) (t : thread_t) (meta : MlMeta) (inst : Inst)
    (u : thread_t) :
    locksetOf (self.ProcessRead t meta inst).1.curr_lockset_table_ u =
      locksetOf self.curr_lockset_table_ u ∧
    (self.ProcessRead t meta inst).1.curr_reader_lockset_table_ =
      self.curr_reader_lockset_table_ ∧
    (self.ProcessRead t meta inst).1.curr_vc_map_ = self.curr_vc_map_ := by
  unfold MultiLockHb.ProcessRead
  simp only [locksetOf_ensureLockset, (ensureLockset_fields self t).1,
    (ensureLockset_fields self t).2.1, and_self]
theorem raceCond_eq (c : timestamp_t) (ls : LockSet) (p : EpochLockSetPair) :
    raceCond c ls p = decide (p.1 > c ∧ p.2 ∩ ls = ∅) := by
  simp [raceCond, LockSet.Disjoint, Bool.decide_and]

/-- The calls of one scan against thread `u` with first kind `q`. -/
theorem scanMapCalls_count_kind (curr_vc : VectorClock) (t : thread_t) (ls : LockSet)
    (tbl : thread_t → Option Inst) (p0 : RaceEventType) (inst : Inst) (p1 : RaceEventType)
    (m : ThreadElspVecMap) (hm : mapWf m) (u : thread_t) (hu : u ≠ t) (q : RaceEventType) :
    (scanMapCalls curr_vc t ls tbl p0 inst p1 m).countP
        (fun r => decide (r.t0 = u ∧ r.p0 = q)) =
      if q = p0 then
        (historyOf m u).countP (fun p => decide (p.1 > curr_vc u ∧ p.2 ∩ ls = ∅))
      else 0 := by
  by_cases hq : q = p0
  · subst hq
    simp only [if_true]
    rw [← funext (raceCond_eq (curr_vc u) ls),
      ← scanMapCalls_count curr_vc t ls tbl q inst p1 m hm u hu]
    apply List.countP_congr
    intro r hr
    have := (scanMapCalls_shape curr_vc t ls tbl q inst p1 m r hr).2.2.2.1
    simp [this]
  · simp only [hq, if_false]
    rw [List.countP_eq_zero]
    intro r hr
    have := (scanMapCalls_shape curr_vc t ls tbl p0 inst p1 m r hr).2.2.2.1
    simp only [decide_eq_true_eq, not_and]
    intro _ h
    exact hq (h.symm.trans this)

theorem writeUpdated_writer_ne (self : MultiLockHb) (t u : thread_t) (meta : MlMeta)
    (hu : u ≠ t) :
    historyOf (writeUpdated self t meta).writer_elspvec_map u =
      historyOf meta.writer_elspvec_map u := by
  unfold writeUpdated
  rw [update_on_write_writer]
  simp [hu]

theorem writeUpdated_reader_ne (self : MultiLockHb) (t u : thread_t) (meta : MlMeta)
    (hu : u ≠ t) :
    historyOf (writeUpdated self t meta).reader_elspvec_map u =
      historyOf meta.reader_elspvec_map u := by
  unfold writeUpdated
  rw [update_on_write_reader]
  simp [hu]

theorem readUpdated_writer (self : MultiLockHb) (t u : thread_t) (meta : MlMeta) :
    historyOf (readUpdated self t meta).writer_elspvec_map u =
      historyOf meta.writer_elspvec_map u := by
  unfold readUpdated
  rw [update_on_read_writer]

/-- The calls of one `ProcessWrite` against thread `u`, by kind. -/
theorem writeCalls_count (self : MultiLockHb) (t : thread_t) (meta : MlMeta) (inst : Inst)
    (hw : mapWf meta.writer_elspvec_map) (hr : mapWf meta.reader_elspvec_map)
    (u : thread_t) (hu : u ≠ t) :
    (writeCalls self t meta inst).countP
        (fun r => decide (r.t0 = u ∧ r.p0 = RaceEventType.RACE_EVENT_WRITE)) =
      (historyOf meta.writer_elspvec_map u).countP
        (fun p => decide (p.1 > self.curr_vc_map_ t u ∧
          p.2 ∩ locksetOf self.curr_lockset_table_ t = ∅)) ∧
    (writeCalls self t meta inst).countP
        (fun r => decide (r.t0 = u ∧ r.p0 = RaceEventType.RACE_EVENT_READ)) =
      (historyOf meta.reader_elspvec_map u).countP
        (fun p => decide (p.1 > self.curr_vc_map_ t u ∧
          p.2 ∩ locksetOf self.curr_lockset_table_ t = ∅)) := by
  have hwf : mapWf (writeUpdated self t meta).writer_elspvec_map ∧
      mapWf (writeUpdated self t meta).reader_elspvec_map :=
    update_on_write_wf self (self.curr_vc_map_ t t) t
      (locksetOf self.curr_lockset_table_ t) meta hw hr
  unfold writeCalls
  simp only [List.countP_append]
  rw [scanMapCalls_count_kind _ _ _ _ _ _ _ _ hwf.1 u hu,
    scanMapCalls_count_kind _ _ _ _ _ _ _ _ hwf.2 u hu,
    scanMapCalls_count_kind _ _ _ _ _ _ _ _ hwf.1 u hu,
    scanMapCalls_count_kind _ _ _ _ _ _ _ _ hwf.2 u hu,
    writeUpdated_writer_ne self t u meta hu, writeUpdated_reader_ne self t u meta hu]
  simp

/-- The calls of one `ProcessRead` against thread `u`. -/
theorem readCalls_count (self : MultiLockHb) (t : thread_t) (meta : MlMeta) (inst : Inst)
    (hw : mapWf meta.writer_elspvec_map) (hr : mapWf meta.reader_elspvec_map)
    (u : thread_t) (hu : u ≠ t) :
    (readCalls self t meta inst).countP
        (fun r => decide (r.t0 = u ∧ r.p0 = RaceEventType.RACE_EVENT_WRITE)) =
      (historyOf meta.writer_elspvec_map u).countP
        (fun p => decide (p.1 > self.curr_vc_map_ t u ∧
          p.2 ∩ readLockset self t = ∅)) := by
  have hwf : mapWf (readUpdated self t meta).writer_elspvec_map ∧
      mapWf (readUpdated self t meta).reader_elspvec_map :=
    update_on_read_wf self (self.curr_vc_map_ t t) t
      (locksetOf self.curr_lockset_table_ t) meta hw hr
  unfold readCalls
  rw [scanMapCalls_count_kind _ _ _ _ _ _ _ _ hwf.1 u hu, readUpdated_writer]
  simp

theorem writeCalls_shape (self : MultiLockHb) (t : thread_t) (meta : MlMeta) (inst : Inst) :
    ∀ r ∈ writeCalls self t meta inst,
      r.t0 ≠ t ∧ r.t1 = t ∧ r.i1 = inst ∧ r.p1 = RaceEventType.RACE_EVENT_WRITE ∧
      (r.p0 = RaceEventType.RACE_EVENT_WRITE → r.i0 = meta.writer_inst_table r.t0) ∧
      (r.p0 = RaceEventType.RACE_EVENT_READ → r.i0 = meta.reader_inst_table r.t0) := by
  intro r hr
  unfold writeCalls at hr
  rw [List.mem_append] at hr
  rcases hr with hr | hr
  · have h := scanMapCalls_shape _ _ _ _ _ _ _ _ r hr
    refine ⟨h.2.1, h.2.2.2.2.1, h.2.2.2.2.2.1, h.2.2.2.2.2.2, fun _ => h.2.2.1, ?_⟩
    intro hp
    rw [h.2.2.2.1] at hp
    cases hp
  · have h := scanMapCalls_shape _ _ _ _ _ _ _ _ r hr
    refine ⟨h.2.1, h.2.2.2.2.1, h.2.2.2.2.2.1, h.2.2.2.2.2.2, ?_, fun _ => h.2.2.1⟩
    intro hp
    rw [h.2.2.2.1] at hp
    cases hp

theorem readCalls_shape (self : MultiLockHb) (t : thread_t) (meta : MlMeta) (inst : Inst) :
    ∀ r ∈ readCalls self t meta inst,
      r.t0 ≠ t ∧ r.t1 = t ∧ r.i1 = inst ∧ r.p1 = RaceEventType.RACE_EVENT_READ ∧
      r.p0 = RaceEventType.RACE_EVENT_WRITE ∧ r.i0 = meta.writer_inst_table r.t0 := by
  intro r hr
  have h := scanMapCalls_shape _ _ _ _ _ _ _ _ r hr
  exact ⟨h.2.1, h.2.2.2.2.1, h.2.2.2.2.2.1, h.2.2.2.2.2.2, h.2.2.2.1, h.2.2.1⟩
/-! ## C1, C2: which history entries are reported -/

/-- C1: an access by `t2` never reports a history entry of another thread `t1` whose
epoch is at most `curr_vc[t2].get(t1)`: the calls of `ReportRace` against `t1` are at
most as many as the entries of `t1` with a larger epoch, whatever the lock sets, so
that none is made when every entry of `t1` is ordered before the access. A read only
ever reports writer entries. -/
theorem C1_ordered_entry_not_reported (self : MultiLockHb) (t2 : thread_t) (meta : MlMeta)
    (inst : Inst) (hw : mapWf meta.writer_elspvec_map) (hr : mapWf meta.reader_elspvec_map) :
    (∃ new, (self.ProcessWrite t2 meta inst).1.reported = self.reported ++ new ∧
      ∀ t1, t1 ≠ t2 →
        new.countP (fun r => decide (r.t0 = t1 ∧ r.p0 = RaceEventType.RACE_EVENT_WRITE)) ≤
          (historyOf meta.writer_elspvec_map t1).countP
            (fun p => decide (p.1 > self.curr_vc_map_ t2 t1)) ∧
        new.countP (fun r => decide (r.t0 = t1 ∧ r.p0 = RaceEventType.RACE_EVENT_READ)) ≤
          (historyOf meta.reader_elspvec_map t1).countP
            (fun p => decide (p.1 > self.curr_vc_map_ t2 t1)) ∧
        ((∀ p ∈ historyOf meta.writer_elspvec_map t1, p.1 ≤ self.curr_vc_map_ t2 t1) →
          ∀ r ∈ new, r.t0 = t1 → r.p0 ≠ RaceEventType.RACE_EVENT_WRITE) ∧
        ((∀ p ∈ historyOf meta.reader_elspvec_map t1, p.1 ≤ self.curr_vc_map_ t2 t1) →
          ∀ r ∈ new, r.t0 = t1 → r.p0 ≠ RaceEventType.RACE_EVENT_READ)) ∧
    (∃ new, (self.ProcessRead t2 meta inst).1.reported = self.reported ++ new ∧
      (∀ r ∈ new, r.p0 = RaceEventType.RACE_EVENT_WRITE) ∧
      ∀ t1, t1 ≠ t2 →
        new.countP (fun r => decide (r.t0 = t1 ∧ r.p0 = RaceEventType.RACE_EVENT_WRITE)) ≤
          (historyOf meta.writer_elspvec_map t1).countP
            (fun p => decide (p.1 > self.curr_vc_map_ t2 t1)) ∧
        ((∀ p ∈ historyOf meta.writer_elspvec_map t1, p.1 ≤ self.curr_vc_map_ t2 t1) →
          ∀ r ∈ new, r.t0 ≠ t1)) := by
  have mono : ∀ (c : timestamp_t) (ls : LockSet) (v : EpochLockSetPairVector),
      v.countP (fun p => decide (p.1 > c ∧ p.2 ∩ ls = ∅)) ≤
        v.countP (fun p => decide (p.1 > c)) := by
    intro c ls v
    apply List.countP_mono_left
    intro p _ hp
    simp only [decide_eq_true_eq] at hp ⊢
    exact hp.1
  have zero : ∀ (c : timestamp_t) (v : EpochLockSetPairVector), (∀ p ∈ v, p.1 ≤ c) →
      v.countP (fun p => decide (p.1 > c)) = 0 := by
    intro c v hv
    rw [List.countP_eq_zero]
    intro p hp
    have := hv p hp
    simp only [decide_eq_true_eq, not_lt, gt_iff_lt]
    exact this
  refine ⟨⟨writeCalls self t2 meta inst, ProcessWrite_reported self t2 meta inst, ?_⟩,
    ⟨readCalls self t2 meta inst, ProcessRead_reported self t2 meta inst, ?_, ?_⟩⟩
  · intro t1 h1
    have hc := writeCalls_count self t2 meta inst hw hr t1 h1
    refine ⟨?_, ?_, ?_, ?_⟩
    · rw [hc.1]; exact mono _ _ _
    · rw [hc.2]; exact mono _ _ _
    · intro hall r hr0 ht hp
      have hz := zero _ _ hall
      have hle := mono (self.curr_vc_map_ t2 t1) (locksetOf self.curr_lockset_table_ t2)
        (historyOf meta.writer_elspvec_map t1)
      rw [← hc.1, hz] at hle
      have hpos : 0 < (writeCalls self t2 meta inst).countP
          (fun r => decide (r.t0 = t1 ∧ r.p0 = RaceEventType.RACE_EVENT_WRITE)) :=
        List.countP_pos_iff.mpr ⟨r, hr0, by simp [ht, hp]⟩
      omega
    · intro hall r hr0 ht hp
      have hz := zero _ _ hall
      have hle := mono (self.curr_vc_map_ t2 t1) (locksetOf self.curr_lockset_table_ t2)
        (historyOf meta.reader_elspvec_map t1)
      rw [← hc.2, hz] at hle
      have hpos : 0 < (writeCalls self t2 meta inst).countP
          (fun r => decide (r.t0 = t1 ∧ r.p0 = RaceEventType.RACE_EVENT_READ)) :=
        List.countP_pos_iff.mpr ⟨r, hr0, by simp [ht, hp]⟩
      omega
  · intro r hr0
    exact (readCalls_shape self t2 meta inst r hr0).2.2.2.2.1
  · intro t1 h1
    have hc := readCalls_count self t2 meta inst hw hr t1 h1
    refine ⟨?_, ?_⟩
    · rw [hc]; exact mono _ _ _
    · intro hall r hr0 ht
      have hz := zero _ _ hall
      have hle := mono (self.curr_vc_map_ t2 t1) (readLockset self t2)
        (historyOf meta.writer_elspvec_map t1)
      rw [← hc, hz] at hle
      have hp := (readCalls_shape self t2 meta inst r hr0).2.2.2.2.1
      have hpos : 0 < (readCalls self t2 meta inst).countP
          (fun r => decide (r.t0 = t1 ∧ r.p0 = RaceEventType.RACE_EVENT_WRITE)) :=
        List.countP_pos_iff.mpr ⟨r, hr0, by simp [ht, hp]⟩
      omega
/-- C2: a write by `t` with writer lock set `W` calls `ReportRace` once for every entry
`(e',L')` of another thread `u` with `e' > curr_vc[t].get(u)` and `L' ∩ W = ∅`, as
write/write for a writer entry and read/write for a reader entry, and sets `racy`; a
read with full lock set `L` (writer set joined with reader set) does so for every such
writer entry. Lock sets that are both empty are disjoint, so such a pair is reported. -/
theorem C2_unordered_disjoint_entry_reported_once (self : MultiLockHb) (t : thread_t)
    (meta : MlMeta) (inst : Inst) (hw : mapWf meta.writer_elspvec_map)
    (hr : mapWf meta.reader_elspvec_map) :
    (∃ new, (self.ProcessWrite t meta inst).1.reported = self.reported ++ new ∧
      (∀ r ∈ new, r.t0 ≠ t ∧ r.t1 = t ∧ r.i1 = inst ∧
        r.p1 = RaceEventType.RACE_EVENT_WRITE) ∧
      ∀ u, u ≠ t →
        new.countP (fun r => decide (r.t0 = u ∧ r.p0 = RaceEventType.RACE_EVENT_WRITE)) =
          (historyOf meta.writer_elspvec_map u).countP
            (fun p => decide (p.1 > self.curr_vc_map_ t u ∧
              p.2 ∩ locksetOf self.curr_lockset_table_ t = ∅)) ∧
        new.countP (fun r => decide (r.t0 = u ∧ r.p0 = RaceEventType.RACE_EVENT_READ)) =
          (historyOf meta.reader_elspvec_map u).countP
            (fun p => decide (p.1 > self.curr_vc_map_ t u ∧
              p.2 ∩ locksetOf self.curr_lockset_table_ t = ∅)) ∧
        ((∃ p ∈ historyOf meta.writer_elspvec_map u ++ historyOf meta.reader_elspvec_map u,
            p.1 > self.curr_vc_map_ t u ∧ p.2 ∩ locksetOf self.curr_lockset_table_ t = ∅) →
          (self.ProcessWrite t meta inst).2.racy = true)) ∧
    (∃ new, (self.ProcessRead t meta inst).1.reported = self.reported ++ new ∧
      (∀ r ∈ new, r.t0 ≠ t ∧ r.t1 = t ∧ r.i1 = inst ∧
        r.p1 = RaceEventType.RACE_EVENT_READ ∧ r.p0 = RaceEventType.RACE_EVENT_WRITE) ∧
      ∀ u, u ≠ t →
        new.countP (fun r => decide (r.t0 = u ∧ r.p0 = RaceEventType.RACE_EVENT_WRITE)) =
          (historyOf meta.writer_elspvec_map u).countP
            (fun p => decide (p.1 > self.curr_vc_map_ t u ∧
              p.2 ∩ (locksetOf self.curr_lockset_table_ t ∪
                locksetOf self.curr_reader_lockset_table_ t) = ∅)) ∧
        ((∃ p ∈ historyOf meta.writer_elspvec_map u,
            p.1 > self.curr_vc_map_ t u ∧
              p.2 ∩ (locksetOf self.curr_lockset_table_ t ∪
                locksetOf self.curr_reader_lockset_table_ t) = ∅) →
          (self.ProcessRead t meta inst).2.racy = true)) := by
  have nonempty : ∀ (calls : List RaceReport) (q : RaceReport → Bool),
      0 < calls.countP q → decide (calls ≠ []) = true := by
    intro calls q hq
    obtain ⟨r, hr0, _⟩ := List.countP_pos_iff.mp hq
    simp only [decide_eq_true_eq]
    intro e
    rw [e] at hr0
    cases hr0
  refine ⟨⟨writeCalls self t meta inst, ProcessWrite_reported self t meta inst, ?_, ?_⟩,
    ⟨readCalls self t meta inst, ProcessRead_reported self t meta inst, ?_, ?_⟩⟩
  · intro r hr0
    have h := writeCalls_shape self t meta inst r hr0
    exact ⟨h.1, h.2.1, h.2.2.1, h.2.2.2.1⟩
  · intro u hu
    have hc := writeCalls_count self t meta inst hw hr u hu
    refine ⟨hc.1, hc.2, ?_⟩
    rintro ⟨p, hp, hcond⟩
    rw [(ProcessWrite_meta self t meta inst).2.2.1]
    rw [List.mem_append] at hp
    have hd : decide (p.1 > self.curr_vc_map_ t u ∧
        p.2 ∩ locksetOf self.curr_lockset_table_ t = ∅) = true := by
      simpa using hcond
    rcases hp with hp | hp
    · have hpos : 0 < (writeCalls self t meta inst).countP
          (fun r => decide (r.t0 = u ∧ r.p0 = RaceEventType.RACE_EVENT_WRITE)) := by
        rw [hc.1]; exact List.countP_pos_iff.mpr ⟨p, hp, hd⟩
      rw [nonempty _ _ hpos]; simp
    · have hpos : 0 < (writeCalls self t meta inst).countP
          (fun r => decide (r.t0 = u ∧ r.p0 = RaceEventType.RACE_EVENT_READ)) := by
        rw [hc.2]; exact List.countP_pos_iff.mpr ⟨p, hp, hd⟩
      rw [nonempty _ _ hpos]; simp
  · intro r hr0
    have h := readCalls_shape self t meta inst r hr0
    exact ⟨h.1, h.2.1, h.2.2.1, h.2.2.2.1, h.2.2.2.2.1⟩
  · intro u hu
    have hc := readCalls_count self t meta inst hw hr u hu
    unfold readLockset at hc
    refine ⟨hc, ?_⟩
    rintro ⟨p, hp, hcond⟩
    rw [(ProcessRead_meta self t meta inst).2.2.1]
    have hd : decide (p.1 > self.curr_vc_map_ t u ∧
        p.2 ∩ (locksetOf self.curr_lockset_table_ t ∪
          locksetOf self.curr_reader_lockset_table_ t) = ∅) = true := by
      simpa using hcond
    have hpos : 0 < (readCalls self t meta inst).countP
        (fun r => decide (r.t0 = u ∧ r.p0 = RaceEventType.RACE_EVENT_WRITE)) := by
      rw [hc]; exact List.countP_pos_iff.mpr ⟨p, hp, hd⟩
    rw [nonempty _ _ hpos]; simp
/-! ## C3: accesses under a common mutex -/

theorem AfterPthreadMutexLock_lockset (s : MultiLockHb) (t : thread_t) (m : address_t)
    (u : thread_t) :
    locksetOf (s.AfterPthreadMutexLock t m).curr_lockset_table_ u =
      if u = t then insert m (locksetOf s.curr_lockset_table_ t)
      else locksetOf s.curr_lockset_table_ u := by
  unfold MultiLockHb.AfterPthreadMutexLock locksetOf
  by_cases hu : u = t
  · subst hu
    cases h : s.curr_lockset_table_ u <;> simp [LockSet.Add]
  · simp [Function.update, hu]

theorem BeforePthreadMutexUnlock_some (s : MultiLockHb) (t : thread_t) (m : address_t)
    (h : m ∈ locksetOf s.curr_lockset_table_ t) :
    ∃ s', s.BeforePthreadMutexUnlock t m = some s' ∧ s'.reported = s.reported ∧
      s'.curr_reader_lockset_table_ = s.curr_reader_lockset_table_ ∧
      ∀ u, locksetOf s'.curr_lockset_table_ u =
        if u = t then (locksetOf s.curr_lockset_table_ t).erase m
        else locksetOf s.curr_lockset_table_ u := by
  unfold MultiLockHb.BeforePthreadMutexUnlock
  cases hl : s.curr_lockset_table_ t with
  | none => simp [locksetOf, hl] at h
  | some ls =>
    have hmem : m ∈ ls := by simpa [locksetOf, hl] using h
    refine ⟨{ s with
      curr_lockset_table_ := Function.update s.curr_lockset_table_ t (some (ls.Remove m)) },
      by simp [LockSet.Exist, hmem], rfl, rfl, ?_⟩
    intro u
    by_cases hu : u = t
    · subst hu
      simp [locksetOf, hl, LockSet.Remove]
    · simp [locksetOf, Function.update, hu]
theorem skipCond_iff (e : timestamp_t) (L : LockSet) (p : EpochLockSetPair) :
    skipCond e L p = true ↔ p.1 = e ∧ p.2 ⊆ L := by
  simp [skipCond, LockSet.SubLockSet]

theorem eraseCond_eq (e : timestamp_t) (L : LockSet) (p : EpochLockSetPair) :
    eraseCond e L p = decide (p.1 ≤ e ∧ L ⊆ p.2) := by
  simp [eraseCond, LockSet.SubLockSet, Bool.decide_and]

theorem any_skipCond_false (e : timestamp_t) (L : LockSet) (v : EpochLockSetPairVector) :
    v.any (skipCond e L) = false ↔ ∀ p ∈ v, ¬ (p.1 = e ∧ p.2 ⊆ L) := by
  rw [← Bool.not_eq_true, List.any_eq_true]
  constructor
  · intro h p hp hc
    exact h ⟨p, hp, (skipCond_iff e L p).mpr hc⟩
  · rintro h ⟨p, hp, hc⟩
    exact h p hp ((skipCond_iff e L p).mp hc)

/-- C4: after a write of thread `t` at epoch `e` with lock set `W` that is not skipped
(no writer entry of `t` has the same epoch and a lock set contained in `W`), the writer
history of `t` is the old one without the entries `(e',L')` with `e' ≤ e ∧ W ⊆ L'`, in
the old order, followed by `(e,W)`; the reader history of `t` is the old one without
such entries; the histories of the other threads are unchanged. Writes `(5,{a,b})` then
`(7,{a})` of one thread leave `[(7,{a})]`. -/
theorem C4_update_on_write_prunes_dominated (self : MultiLockHb) (e : timestamp_t)
    (t : thread_t) (W : LockSet) (meta : MlMeta)
    (hns : ∀ p ∈ historyOf meta.writer_elspvec_map t, ¬ (p.1 = e ∧ p.2 ⊆ W)) :
    historyOf (self.update_on_write e t W meta).writer_elspvec_map t =
      (historyOf meta.writer_elspvec_map t).filter (fun p => !decide (p.1 ≤ e ∧ W ⊆ p.2))
        ++ [(e, W)] ∧
    historyOf (self.update_on_write e t W meta).reader_elspvec_map t =
      (historyOf meta.reader_elspvec_map t).filter (fun p => !decide (p.1 ≤ e ∧ W ⊆ p.2)) ∧
    (∀ u, u ≠ t →
      historyOf (self.update_on_write e t W meta).writer_elspvec_map u =
        historyOf meta.writer_elspvec_map u ∧
      historyOf (self.update_on_write e t W meta).reader_elspvec_map u =
        historyOf meta.reader_elspvec_map u) ∧
    (∀ a b : address_t,
      historyOf (self.update_on_write 7 t {a}
        (self.update_on_write 5 t {a, b} MlMeta.fresh)).writer_elspvec_map t = [(7, {a})]) := by
  have hs := (any_skipCond_false e W _).mpr hns
  refine ⟨?_, ?_, ?_, ?_⟩
  · rw [update_on_write_writer]
    simp only [hs, and_self, if_true, eraseCond_eq]
  · rw [update_on_write_reader]
    simp only [hs, and_self, if_true, eraseCond_eq]
  · intro u hu
    rw [update_on_write_writer, update_on_write_reader]
    simp [hu]
  · intro a b
    rw [update_on_write_writer, update_on_write_writer]
    simp [MlMeta.fresh, historyOf, mapFind, skipCond, eraseCond, LockSet.SubLockSet]
/-- C5, as stated, fails: thread 0 reads at epoch 5 with full lock set `{1}` while its
reader history holds `(5,{1,2})`, an entry of the same epoch whose lock set contains
`{1}`. The read is not skipped: `(5,{1})` is appended, `(5,{1,2})` is pruned, the write
of thread 1 is reported and `reader_inst[0]` is set. -/
theorem C5_counterexample :
    ((5, {1, 2}) ∈ historyOf c5Meta.reader_elspvec_map 0 ∧
      c5Analyzer.curr_vc_map_ 0 0 = 5 ∧
      locksetOf c5Analyzer.curr_lockset_table_ 0 ∪
        locksetOf c5Analyzer.curr_reader_lockset_table_ 0 ⊆ ({1, 2} : LockSet)) ∧
    historyOf (c5Analyzer.ProcessRead 0 c5Meta 7).2.reader_elspvec_map 0 = [(5, {1})] ∧
    (c5Analyzer.ProcessRead 0 c5Meta 7).1.reported =
      c5Analyzer.reported ++
        [{ t0 := 1, i0 := none, p0 := RaceEventType.RACE_EVENT_WRITE,
           t1 := 0, i1 := 7, p1 := RaceEventType.RACE_EVENT_READ }] ∧
    c5Meta.reader_inst_table 0 = none ∧
    (c5Analyzer.ProcessRead 0 c5Meta 7).2.reader_inst_table 0 = some 7 := by
  decide

/-- C5, amended: when a reader or writer entry `(e',L')` of `t` has `e' = e` and
`L' ⊆ L` (the lock set of the entry is contained in the full lock set of the read),
`update_on_read` returns at once: no history of any thread is changed, so nothing is
appended and nothing is pruned. `ProcessRead` goes on: it makes the race check against
the writer entries of the other threads and sets `reader_inst[t]`. -/
theorem C5_dominated_read_keeps_histories (self : MultiLockHb) (t : thread_t)
    (meta : MlMeta) (inst : Inst)
    (hw : mapWf meta.writer_elspvec_map) (hr : mapWf meta.reader_elspvec_map)
    (h : ∃ p ∈ historyOf meta.reader_elspvec_map t ++ historyOf meta.writer_elspvec_map t,
      p.1 = self.curr_vc_map_ t t ∧
      p.2 ⊆ locksetOf self.curr_lockset_table_ t ∪
        locksetOf self.curr_reader_lockset_table_ t) :
    (∀ u,
      historyOf (self.ProcessRead t meta inst).2.reader_elspvec_map u =
        historyOf meta.reader_elspvec_map u ∧
      historyOf (self.ProcessRead t meta inst).2.writer_elspvec_map u =
        historyOf meta.writer_elspvec_map u) ∧
    (self.ProcessRead t meta inst).2.reader_inst_table t = some inst ∧
    (∃ new, (self.ProcessRead t meta inst).1.reported = self.reported ++ new ∧
      ∀ u, u ≠ t →
        new.countP (fun r => decide (r.t0 = u)) =
          (historyOf meta.writer_elspvec_map u).countP
            (fun p => decide (p.1 > self.curr_vc_map_ t u ∧
              p.2 ∩ (locksetOf self.curr_lockset_table_ t ∪
                locksetOf self.curr_reader_lockset_table_ t) = ∅))) := by
  have hskip : readSkipped meta (self.curr_vc_map_ t t) t
      (locksetOf self.curr_lockset_table_ t ∪
        locksetOf self.curr_reader_lockset_table_ t) = true := by
    obtain ⟨p, hp, hc⟩ := h
    unfold readSkipped
    rw [Bool.or_eq_true, List.any_eq_true, List.any_eq_true]
    rw [List.mem_append] at hp
    rcases hp with hp | hp
    · exact Or.inl ⟨p, hp, (skipCond_iff _ _ p).mpr hc⟩
    · exact Or.inr ⟨p, hp, (skipCond_iff _ _ p).mpr hc⟩
  refine ⟨?_, ?_, readCalls self t meta inst, ProcessRead_reported self t meta inst, ?_⟩
  · intro u
    rw [(ProcessRead_meta self t meta inst).1, (ProcessRead_meta self t meta inst).2.1]
    unfold readUpdated
    rw [update_on_read_writer, update_on_read_reader]
    simp [hskip]
  · rw [(ProcessRead_meta self t meta inst).2.2.2.1]
    simp
  · intro u hu
    have hc := readCalls_count self t meta inst hw hr u hu
    unfold readLockset at hc
    rw [← hc]
    apply List.countP_congr
    intro r hr0
    have := (readCalls_shape self t meta inst r hr0).2.2.2.2.1
    simp [this]

/-! ## C6: the histories hold mutually non-dominated entries -/

theorem nonDominated_filter (q : EpochLockSetPair → Bool) (v : EpochLockSetPairVector)
    (h : nonDominated v) : nonDominated (v.filter q) :=
  List.Pairwise.sublist (List.filter_sublist v) h

/-- Appending a non-skipped entry after pruning keeps the history non-dominated. -/
theorem nonDominated_push (e : timestamp_t) (L : LockSet) (v : EpochLockSetPairVector)
    (h : nonDominated v) (hle : ∀ p ∈ v, p.1 ≤ e)
    (hs : v.any (skipCond e L) = false) :
    nonDominated (v.filter (fun p => !eraseCond e L p) ++ [(e, L)]) := by
  unfold nonDominated
  rw [List.pairwise_append]
  refine ⟨nonDominated_filter _ v h, List.pairwise_singleton _ _, ?_⟩
  intro p hp q hq
  rw [List.mem_singleton] at hq
  subst hq
  rw [List.mem_filter] at hp
  have hne : ¬ (p.1 ≤ e ∧ L ⊆ p.2) := by
    have := hp.2
    rw [eraseCond_eq, Bool.not_eq_true', decide_eq_false_iff_not] at this
    exact this
  have hsk := (any_skipCond_false e L v).mp hs p hp.1
  refine ⟨hne, ?_⟩
  rintro ⟨h1, h2⟩
  exact hsk ⟨le_antisymm (hle p hp.1) h1, h2⟩

theorem historyInv_step_other (s : MultiLockHb) (k : RaceEventType) (u t : thread_t)
    (meta : MlMeta) (inst : Inst) (hu : t ≠ u) :
    historyOf (s.ProcessAccess k u meta inst).2.writer_elspvec_map t =
      historyOf meta.writer_elspvec_map t ∧
    historyOf (s.ProcessAccess k u meta inst).2.reader_elspvec_map t =
      historyOf meta.reader_elspvec_map t := by
  cases k with
  | RACE_EVENT_READ =>
    simp only [MultiLockHb.ProcessAccess]
    rw [(ProcessRead_meta s u meta inst).1, (ProcessRead_meta s u meta inst).2.1]
    unfold readUpdated
    rw [update_on_read_writer, update_on_read_reader]
    simp [hu]
  | RACE_EVENT_WRITE =>
    simp only [MultiLockHb.ProcessAccess]
    rw [(ProcessWrite_meta s u meta inst).1, (ProcessWrite_meta s u meta inst).2.1]
    unfold writeUpdated
    rw [update_on_write_writer, update_on_write_reader]
    simp [hu]

/-- One access of `t` at an epoch not below the recorded ones keeps the invariant, and
the recorded epochs stay below every bound that the access epoch respects. -/
theorem historyInv_step_self (s : MultiLockHb) (k : RaceEventType) (t : thread_t)
    (meta : MlMeta) (inst : Inst) (bound : timestamp_t → Prop)
    (hinv : historyInv meta t (fun x => x ≤ s.curr_vc_map_ t t ∧ bound x))
    (hb : bound (s.curr_vc_map_ t t)) :
    historyInv (s.ProcessAccess k t meta inst).2 t bound := by
  obtain ⟨hw, hr, hrw, hbd⟩ := hinv
  have hwle : ∀ p ∈ historyOf meta.writer_elspvec_map t, p.1 ≤ s.curr_vc_map_ t t :=
    fun p hp => (hbd p (List.mem_append_left _ hp)).1
  have hrle : ∀ p ∈ historyOf meta.reader_elspvec_map t, p.1 ≤ s.curr_vc_map_ t t :=
    fun p hp => (hbd p (List.mem_append_right _ hp)).1
  have hwb : ∀ p ∈ historyOf meta.writer_elspvec_map t, bound p.1 :=
    fun p hp => (hbd p (List.mem_append_left _ hp)).2
  have hrb : ∀ p ∈ historyOf meta.reader_elspvec_map t, bound p.1 :=
    fun p hp => (hbd p (List.mem_append_right _ hp)).2
  cases k with
  | RACE_EVENT_READ =>
    simp only [MultiLockHb.ProcessAccess]
    unfold historyInv
    rw [(ProcessRead_meta s t meta inst).1, (ProcessRead_meta s t meta inst).2.1]
    unfold readUpdated
    rw [update_on_read_writer, update_on_read_reader]
    generalize locksetOf s.curr_lockset_table_ t ∪
      locksetOf s.curr_reader_lockset_table_ t = L
    by_cases hsk : readSkipped meta (s.curr_vc_map_ t t) t L = true
    · simp only [hsk, Bool.true_eq_false, and_false, if_false]
      exact ⟨hw, hr, hrw, fun p hp => (hbd p hp).2⟩
    · have hsk2 : readSkipped meta (s.curr_vc_map_ t t) t L = false := by simpa using hsk
      simp only [hsk2, and_self, if_true]
      unfold readSkipped at hsk2
      rw [Bool.or_eq_false_iff] at hsk2
      refine ⟨hw, nonDominated_push _ L _ hr hrle hsk2.1, ?_, ?_⟩
      · intro p hp q hq
        rw [List.mem_append, List.mem_singleton] at hp
        rcases hp with hp | hp
        · exact hrw p (List.mem_filter.mp hp).1 q hq
        · subst hp
          rintro ⟨h1, h2⟩
          exact (any_skipCond_false _ L _).mp hsk2.2 q hq ⟨le_antisymm (hwle q hq) h1, h2⟩
      · intro p hp
        rw [List.mem_append, List.mem_append, List.mem_singleton] at hp
        rcases hp with hp | hp | hp
        · exact hwb p hp
        · exact hrb p (List.mem_filter.mp hp).1
        · subst hp; exact hb
  | RACE_EVENT_WRITE =>
    simp only [MultiLockHb.ProcessAccess]
    unfold historyInv
    rw [(ProcessWrite_meta s t meta inst).1, (ProcessWrite_meta s t meta inst).2.1]
    unfold writeUpdated
    rw [update_on_write_writer, update_on_write_reader]
    generalize locksetOf s.curr_lockset_table_ t = L
    by_cases hsk : (historyOf meta.writer_elspvec_map t).any
        (skipCond (s.curr_vc_map_ t t) L) = true
    · simp only [hsk, Bool.true_eq_false, and_false, if_false]
      exact ⟨hw, hr, hrw, fun p hp => (hbd p hp).2⟩
    · have hsk2 : (historyOf meta.writer_elspvec_map t).any
          (skipCond (s.curr_vc_map_ t t) L) = false := by simpa using hsk
      simp only [hsk2, and_self, if_true]
      refine ⟨nonDominated_push _ L _ hw hwle hsk2, nonDominated_filter _ _ hr, ?_, ?_⟩
      · intro p hp q hq
        rw [List.mem_filter] at hp
        rw [List.mem_append, List.mem_singleton] at hq
        rcases hq with hq | hq
        · exact hrw p hp.1 q (List.mem_filter.mp hq).1
        · subst hq
          have := hp.2
          rw [eraseCond_eq, Bool.not_eq_true', decide_eq_false_iff_not] at this
          exact this
      · intro p hp
        rw [List.mem_append, List.mem_append, List.mem_singleton] at hp
        rcases hp with (hp | hp) | hp
        · exact hwb p (List.mem_filter.mp hp).1
        · subst hp; exact hb
        · exact hrb p (List.mem_filter.mp hp).1
theorem historyInv_mono (meta : MlMeta) (t : thread_t) (b b' : timestamp_t → Prop)
    (hbb : ∀ x, b x → b' x) (h : historyInv meta t b) : historyInv meta t b' :=
  ⟨h.1, h.2.1, h.2.2.1, fun p hp => hbb _ (h.2.2.2 p hp)⟩

theorem historyInv_run (t : thread_t) (accs : List Access) :
    ∀ meta : MlMeta, historyInv meta t (fun x => ∀ e ∈ epochsOf t accs, x ≤ e) →
      (epochsOf t accs).Pairwise (fun a b => a ≤ b) →
      historyInv (runAccesses meta accs) t (fun _ => True) := by
  induction accs with
  | nil =>
    intro meta h _
    exact historyInv_mono meta t _ _ (fun _ _ => trivial) h
  | cons a rest ih =>
    obtain ⟨s, k, u, inst⟩ := a
    intro meta h hp
    simp only [runAccesses]
    by_cases hu : u = t
    · subst hu
      have he : epochsOf u ((s, k, u, inst) :: rest) = s.curr_vc_map_ u u :: epochsOf u rest := by
        simp [epochsOf]
      rw [he] at h hp
      rw [List.pairwise_cons] at hp
      apply ih _ _ hp.2
      apply historyInv_step_self s k u meta inst _ _ hp.1
      apply historyInv_mono meta u _ _ _ h
      intro x hx
      exact ⟨hx _ (List.mem_cons_self _ _), fun e he => hx e (List.mem_cons_of_mem _ he)⟩
    · have he : epochsOf t ((s, k, u, inst) :: rest) = epochsOf t rest := by
        simp [epochsOf, hu]
      rw [he] at h hp
      apply ih _ _ hp
      have hso := historyInv_step_other s k u t meta inst (fun e => hu e.symm)
      unfold historyInv at h ⊢
      rw [hso.1, hso.2]
      exact h

/-- C6: on a unit that starts with empty histories, after any sequence of reads and
writes in which the epochs of thread `t` do not decrease, no entry of the writer
history of `t` is dominated by an entry at another position (`e1 ≤ e2 ∧ L2 ⊆ L1`), the
same holds in the reader history of `t`, and no reader entry of `t` is dominated by a
writer entry of `t`. -/
theorem C6_histories_non_dominated (accs : List Access) (t : thread_t)
    (hmono : (epochsOf t accs).Pairwise (fun a b => a ≤ b)) :
    (historyOf (runAccesses MlMeta.fresh accs).writer_elspvec_map t).Pairwise
      (fun p q => ¬ (p.1 ≤ q.1 ∧ q.2 ⊆ p.2) ∧ ¬ (q.1 ≤ p.1 ∧ p.2 ⊆ q.2)) ∧
    (historyOf (runAccesses MlMeta.fresh accs).reader_elspvec_map t).Pairwise
      (fun p q => ¬ (p.1 ≤ q.1 ∧ q.2 ⊆ p.2) ∧ ¬ (q.1 ≤ p.1 ∧ p.2 ⊆ q.2)) ∧
    (∀ p ∈ historyOf (runAccesses MlMeta.fresh accs).reader_elspvec_map t,
      ∀ q ∈ historyOf (runAccesses MlMeta.fresh accs).writer_elspvec_map t,
        ¬ (p.1 ≤ q.1 ∧ q.2 ⊆ p.2)) := by
  have h0 : historyInv MlMeta.fresh t (fun x => ∀ e ∈ epochsOf t accs, x ≤ e) := by
    unfold historyInv nonDominated
    simp [MlMeta.fresh, historyOf, mapFind]
  have h := historyInv_run t accs MlMeta.fresh h0 hmono
  exact ⟨h.1, h.2.1, h.2.2.1⟩
/-! ## C7: the prune step is idempotent -/

/-- C7: for every history vector `v`, epoch `e` and lock set `L`, pruning once more
after the insertion of `(e,L)` and the prune of `update_on_read` / `update_on_write`
(the loop that spares the last element) changes nothing, and neither does a second run
of the prune of the reader history in `update_on_write` (the loop over all elements). -/
theorem C7_prune_idempotent (v : EpochLockSetPairVector) (e : timestamp_t) (L : LockSet) :
    eraseLoopButLast e L (eraseLoopButLast e L (v ++ [(e, L)])) =
      eraseLoopButLast e L (v ++ [(e, L)]) ∧
    eraseLoop e L (eraseLoop e L v) = eraseLoop e L v := by
  constructor
  · rw [eraseLoopButLast_append, eraseLoopButLast_append, List.filter_filter]
    simp
  · rw [eraseLoop_eq_filter, eraseLoop_eq_filter, List.filter_filter]
    simp
/-! ## C8: the writer lock set follows the mutex events -/

/-- C8, as stated, fails when a held mutex is acquired again: after lock, lock, unlock
of mutex 9 by thread 1 (each unlock is of a mutex in the lock set) the acquisitions
outnumber the releases but the lock set of thread 1 is empty. -/
theorem C8_counterexample :
    ((MultiLockHb.init false (fun _ _ => 0)).lockRun
        [LockEvent.lock 1 9, LockEvent.lock 1 9, LockEvent.unlock 1 9]).map
      (fun s => locksetOf s.curr_lockset_table_ 1) = some ∅ ∧
    releases 1 9 [LockEvent.lock 1 9, LockEvent.lock 1 9, LockEvent.unlock 1 9] <
      acquisitions 1 9 [LockEvent.lock 1 9, LockEvent.lock 1 9, LockEvent.unlock 1 9] := by
  decide

theorem lockStep_balance (s s' : MultiLockHb) (t : thread_t) (m : address_t) (ev : LockEvent)
    (hstep : s.lockStep ev = some s')
    (hno : ∀ addr, ev = LockEvent.lock t addr → addr ∉ locksetOf s.curr_lockset_table_ t) :
    (if m ∈ locksetOf s'.curr_lockset_table_ t then 1 else 0) + releases t m [ev] =
      (if m ∈ locksetOf s.curr_lockset_table_ t then 1 else 0) + acquisitions t m [ev] := by
  cases ev with
  | lock thd addr =>
    simp only [MultiLockHb.lockStep, Option.some.injEq] at hstep
    subst hstep
    rw [AfterPthreadMutexLock_lockset]
    by_cases h1 : thd = t
    · subst h1
      by_cases h2 : addr = m
      · subst h2
        have := hno addr rfl
        simp [releases, acquisitions, this]
      · have h3 : ¬ m = addr := fun e => h2 e.symm
        simp [releases, acquisitions, h2, h3]
    · have h3 : ¬ t = thd := fun e => h1 e.symm
      simp [releases, acquisitions, h1, h3]
  | unlock thd addr =>
    simp only [MultiLockHb.lockStep] at hstep
    have hheld : addr ∈ locksetOf s.curr_lockset_table_ thd := by
      unfold MultiLockHb.BeforePthreadMutexUnlock at hstep
      cases hl : s.curr_lockset_table_ thd with
      | none => simp [hl] at hstep
      | some ls =>
        simp only [hl] at hstep
        by_cases hex : ls.Exist addr = true
        · simpa [locksetOf, hl, LockSet.Exist] using hex
        · simp [hex] at hstep
    obtain ⟨s2, hs2, -, -, hl2⟩ := BeforePthreadMutexUnlock_some s thd addr hheld
    rw [hs2, Option.some.injEq] at hstep
    subst hstep
    rw [hl2]
    by_cases h1 : thd = t
    · subst h1
      by_cases h2 : addr = m
      · subst h2
        simp [releases, acquisitions, hheld]
      · have h3 : ¬ m = addr := fun e => h2 e.symm
        simp [releases, acquisitions, h2, h3]
    · have h3 : ¬ t = thd := fun e => h1 e.symm
      simp [releases, acquisitions, h1, h3]

theorem lockRun_balance (t : thread_t) (m : address_t) (evs : List LockEvent) :
    ∀ s s' : MultiLockHb, s.lockRun evs = some s' → noRelock s t evs = true →
      (if m ∈ locksetOf s'.curr_lockset_table_ t then 1 else 0) + releases t m evs =
        (if m ∈ locksetOf s.curr_lockset_table_ t then 1 else 0) + acquisitions t m evs := by
  induction evs with
  | nil =>
    intro s s' h _
    simp only [MultiLockHb.lockRun, Option.some.injEq] at h
    subst h
    simp [releases, acquisitions]
  | cons ev rest ih =>
    intro s s' h hno
    simp only [MultiLockHb.lockRun] at h
    cases hstep : s.lockStep ev with
    | none => simp [hstep] at h
    | some s1 =>
      simp only [hstep] at h
      simp only [noRelock, hstep, Bool.and_eq_true] at hno
      have hno1 : ∀ addr, ev = LockEvent.lock t addr →
          addr ∉ locksetOf s.curr_lockset_table_ t := by
        intro addr he
        subst he
        simpa using hno.1
      have h1 := lockStep_balance s s1 t m ev hstep hno1
      have h2 := ih s1 s' h hno.2
      have ha : acquisitions t m (ev :: rest) = acquisitions t m [ev] + acquisitions t m rest := by
        simp [acquisitions, List.count_cons, Nat.add_comm]
      have hr : releases t m (ev :: rest) = releases t m [ev] + releases t m rest := by
        simp [releases, List.count_cons, Nat.add_comm]
      rw [ha, hr]
      omega

/-- C8, amended: for a sequence of mutex events from the initial analyzer in which every
unlock is of a mutex in the lock set of the unlocking thread (the run is defined) and
thread `t` never locks a mutex that is already in its lock set, the writer lock set of
`t` afterwards is the set of mutexes that `t` acquired more often than it released; an
event of one thread leaves the lock set of every other thread unchanged. -/
theorem C8_lockset_tracks_acquisitions (track : Bool) (vcs : thread_t → VectorClock)
    (evs : List LockEvent) (t : thread_t) (s' : MultiLockHb)
    (hrun : (MultiLockHb.init track vcs).lockRun evs = some s')
    (hno : noRelock (MultiLockHb.init track vcs) t evs = true) :
    (∀ m, m ∈ locksetOf s'.curr_lockset_table_ t ↔
      releases t m evs < acquisitions t m evs) ∧
    (∀ (s : MultiLockHb) (thd u : thread_t) (m : address_t), u ≠ thd →
      locksetOf (s.AfterPthreadMutexLock thd m).curr_lockset_table_ u =
        locksetOf s.curr_lockset_table_ u ∧
      ∀ s2, s.BeforePthreadMutexUnlock thd m = some s2 →
        locksetOf s2.curr_lockset_table_ u = locksetOf s.curr_lockset_table_ u) := by
  constructor
  · intro m
    have h := lockRun_balance t m evs _ s' hrun hno
    have h0 : m ∉ locksetOf (MultiLockHb.init track vcs).curr_lockset_table_ t := by
      simp [MultiLockHb.init, locksetOf]
    rw [if_neg h0] at h
    by_cases hm : m ∈ locksetOf s'.curr_lockset_table_ t
    · rw [if_pos hm] at h
      constructor
      · intro _; omega
      · intro _; exact hm
    · rw [if_neg hm] at h
      constructor
      · intro h'; exact absurd h' hm
      · intro h'; omega
  · intro s thd u m hu
    constructor
    · rw [AfterPthreadMutexLock_lockset]
      simp [hu]
    · intro s2 hs2
      unfold MultiLockHb.BeforePthreadMutexUnlock at hs2
      cases hl : s.curr_lockset_table_ thd with
      | none => simp [hl] at hs2
      | some ls =>
        simp only [hl] at hs2
        by_cases hex : ls.Exist m = true
        · simp only [hex, if_true, Option.some.injEq] at hs2
          subst hs2
          simp [locksetOf, Function.update, hu]
        · simp [hex] at hs2
/-! ## C9: the lock set of a read and of a write -/

theorem countP_kind_split (l : List RaceReport) (u : thread_t) :
    l.countP (fun r => decide (r.t0 = u)) =
      l.countP (fun r => decide (r.t0 = u ∧ r.p0 = RaceEventType.RACE_EVENT_WRITE)) +
      l.countP (fun r => decide (r.t0 = u ∧ r.p0 = RaceEventType.RACE_EVENT_READ)) := by
  induction l with
  | nil => simp
  | cons r rest ih =>
    simp only [List.countP_cons, ih]
    by_cases h : r.t0 = u
    · cases hp : r.p0 <;> simp [h, hp] <;> omega
    · simp [h]

/-- C9: a read of thread `t` is recorded and checked with the union of the writer and
the reader lock set of `t`: when it is not skipped the reader history of `t` ends with
`(e, W ∪ R)`, and the writer entries of another thread it reports are those with a
larger epoch and a lock set disjoint from `W ∪ R`. A write is recorded and checked with
the writer lock set `W` alone. Processing a read leaves the stored writer set and
reader set of every thread as they were. -/
theorem C9_read_uses_union_write_uses_writer_set (self : MultiLockHb) (t : thread_t)
    (meta : MlMeta) (inst : Inst) (hw : mapWf meta.writer_elspvec_map)
    (hr : mapWf meta.reader_elspvec_map) :
    ((∀ p ∈ historyOf meta.reader_elspvec_map t ++ historyOf meta.writer_elspvec_map t,
        ¬ (p.1 = self.curr_vc_map_ t t ∧
          p.2 ⊆ locksetOf self.curr_lockset_table_ t ∪
            locksetOf self.curr_reader_lockset_table_ t)) →
      (historyOf (self.ProcessRead t meta inst).2.reader_elspvec_map t).getLast? =
        some (self.curr_vc_map_ t t,
          locksetOf self.curr_lockset_table_ t ∪
            locksetOf self.curr_reader_lockset_table_ t)) ∧
    (∀ u, u ≠ t →
      ((self.ProcessRead t meta inst).1.reported.drop self.reported.length).countP
          (fun r => decide (r.t0 = u)) =
        (historyOf meta.writer_elspvec_map u).countP
          (fun p => decide (p.1 > self.curr_vc_map_ t u ∧
            p.2 ∩ (locksetOf self.curr_lockset_table_ t ∪
              locksetOf self.curr_reader_lockset_table_ t) = ∅))) ∧
    ((∀ p ∈ historyOf meta.writer_elspvec_map t,
        ¬ (p.1 = self.curr_vc_map_ t t ∧ p.2 ⊆ locksetOf self.curr_lockset_table_ t)) →
      (historyOf (self.ProcessWrite t meta inst).2.writer_elspvec_map t).getLast? =
        some (self.curr_vc_map_ t t, locksetOf self.curr_lockset_table_ t)) ∧
    (∀ u, u ≠ t →
      ((self.ProcessWrite t meta inst).1.reported.drop self.reported.length).countP
          (fun r => decide (r.t0 = u)) =
        (historyOf meta.writer_elspvec_map u ++ historyOf meta.reader_elspvec_map u).countP
          (fun p => decide (p.1 > self.curr_vc_map_ t u ∧
            p.2 ∩ locksetOf self.curr_lockset_table_ t = ∅))) ∧
    (∀ u,
      locksetOf (self.ProcessRead t meta inst).1.curr_lockset_table_ u =
        locksetOf self.curr_lockset_table_ u ∧
      locksetOf (self.ProcessRead t meta inst).1.curr_reader_lockset_table_ u =
        locksetOf self.curr_reader_lockset_table_ u) := by
  refine ⟨?_, ?_, ?_, ?_, ?_⟩
  · intro hns
    have hskip : readSkipped meta (self.curr_vc_map_ t t) t
        (locksetOf self.curr_lockset_table_ t ∪
          locksetOf self.curr_reader_lockset_table_ t) = false := by
      unfold readSkipped
      rw [Bool.or_eq_false_iff, any_skipCond_false, any_skipCond_false]
      exact ⟨fun p hp => hns p (List.mem_append_left _ hp),
        fun p hp => hns p (List.mem_append_right _ hp)⟩
    rw [(ProcessRead_meta self t meta inst).2.1]
    unfold readUpdated
    rw [update_on_read_reader]
    simp [hskip]
  · intro u hu
    rw [ProcessRead_reported, List.drop_left]
    have hc := readCalls_count self t meta inst hw hr u hu
    unfold readLockset at hc
    rw [← hc]
    apply List.countP_congr
    intro r hr0
    have := (readCalls_shape self t meta inst r hr0).2.2.2.2.1
    simp [this]
  · intro hns
    have hs := (any_skipCond_false _ _ _).mpr hns
    rw [(ProcessWrite_meta self t meta inst).1]
    unfold writeUpdated
    rw [update_on_write_writer]
    simp [hs]
  · intro u hu
    rw [ProcessWrite_reported, List.drop_left, List.countP_append]
    have hc := writeCalls_count self t meta inst hw hr u hu
    rw [← hc.1, ← hc.2]
    exact countP_kind_split _ u
  · intro u
    have h := ProcessRead_tables self t meta inst u
    exact ⟨h.1, by rw [h.2.1]⟩
/-! ## C10: available and postponed threads are disjoint -/

theorem schedInv_iff (s : Verifier) :
    schedInv s ↔ s.avail_thd_set_ ∩ s.pp_thd_set_ = ∅ := by
  unfold schedInv
  rw [Finset.eq_empty_iff_forall_not_mem]
  constructor
  · intro h x hx
    rw [Finset.mem_inter] at hx
    exact h x hx.1 hx.2
  · intro h x h1 h2
    exact h x (Finset.mem_inter.mpr ⟨h1, h2⟩)

theorem schedInv_of_sets (s s' : Verifier) (ha : s'.avail_thd_set_ = s.avail_thd_set_)
    (hp : s'.pp_thd_set_ = s.pp_thd_set_) (h : schedInv s) : schedInv s' := by
  unfold schedInv at h ⊢
  rw [ha, hp]
  exact h

theorem GetMutexMeta_sets (s : Verifier) (addr : address_t) :
    (s.GetMutexMeta addr).1.avail_thd_set_ = s.avail_thd_set_ ∧
    (s.GetMutexMeta addr).1.pp_thd_set_ = s.pp_thd_set_ ∧
    (s.GetMutexMeta addr).1.thd_vc_map_ = s.thd_vc_map_ ∧
    (s.GetMutexMeta addr).1.thd_smp_map_ = s.thd_smp_map_ := by
  unfold Verifier.GetMutexMeta
  cases s.mutex_meta_table_ addr <;> simp

theorem GetRwlockMeta_sets (s : Verifier) (addr : address_t) :
    (s.GetRwlockMeta addr).1.avail_thd_set_ = s.avail_thd_set_ ∧
    (s.GetRwlockMeta addr).1.pp_thd_set_ = s.pp_thd_set_ ∧
    (s.GetRwlockMeta addr).1.thd_vc_map_ = s.thd_vc_map_ ∧
    (s.GetRwlockMeta addr).1.thd_smp_map_ = s.thd_smp_map_ := by
  unfold Verifier.GetRwlockMeta
  cases s.rwlock_meta_table_ addr <;> simp

theorem schedInv_GetMutexMeta (s : Verifier) (addr : address_t) (h : schedInv s) :
    schedInv (s.GetMutexMeta addr).1 :=
  schedInv_of_sets s _ (GetMutexMeta_sets s addr).1 (GetMutexMeta_sets s addr).2.1 h

theorem schedInv_GetRwlockMeta (s : Verifier) (addr : address_t) (h : schedInv s) :
    schedInv (s.GetRwlockMeta addr).1 :=
  schedInv_of_sets s _ (GetRwlockMeta_sets s addr).1 (GetRwlockMeta_sets s addr).2.1 h

theorem schedInv_setVc (s : Verifier) (t : thread_t) (vc : VectorClock) (h : schedInv s) :
    schedInv (s.setVc t vc) := h

theorem schedInv_setMutexMeta (s : Verifier) (a : address_t) (mm : MutexMeta)
    (h : schedInv s) : schedInv (s.setMutexMeta a mm) := h

theorem schedInv_setRwlockMeta (s : Verifier) (a : address_t) (rm : RwlockMeta)
    (h : schedInv s) : schedInv (s.setRwlockMeta a rm) := h

theorem schedInv_BlockThread (s : Verifier) (t : thread_t) (h : schedInv s) :
    schedInv (s.BlockThread t) := by
  intro x hx
  simp only [Verifier.BlockThread, Finset.mem_erase] at hx ⊢
  exact h x hx.2

theorem schedInv_UnblockThread (s : Verifier) (t : thread_t) (h : schedInv s)
    (ht : t ∉ s.pp_thd_set_) : schedInv (s.UnblockThread t) := by
  intro x hx
  simp only [Verifier.UnblockThread, Finset.mem_insert] at hx ⊢
  rcases hx with hx | hx
  · rw [hx]; exact ht
  · exact h x hx

theorem schedInv_WakeUpPostponeThread (s s' : Verifier) (t : thread_t) (h : schedInv s)
    (hs : s.WakeUpPostponeThread t = some s') : schedInv s' := by
  unfold Verifier.WakeUpPostponeThread at hs
  cases hc : s.thd_smp_map_ t with
  | none => simp [hc] at hs
  | some c =>
    simp only [hc, Option.some.injEq] at hs
    subst hs
    intro x hx
    simp only [Finset.mem_insert, Finset.mem_erase, not_and] at hx ⊢
    intro hne
    rcases hx with hx | hx
    · exact absurd hx hne
    · exact h x hx

theorem schedInv_wakeUpEach (l : List thread_t) :
    ∀ s s' : Verifier, schedInv s → s.wakeUpEach l = some s' → schedInv s' := by
  induction l with
  | nil =>
    intro s s' h hs
    simp only [Verifier.wakeUpEach, Option.some.injEq] at hs
    subst hs
    exact h
  | cons t rest ih =>
    intro s s' h hs
    simp only [Verifier.wakeUpEach] at hs
    cases hw : s.WakeUpPostponeThread t with
    | none => simp [hw] at hs
    | some s1 =>
      simp only [hw] at hs
      exact ih s1 s' (schedInv_WakeUpPostponeThread s s1 t h hw) hs

theorem schedInv_Choose (s s' : Verifier) (rnd : Finset thread_t → thread_t)
    (h : schedInv s) (hs : s.ChooseRandomThreadAfterAllUnavailable rnd = some s') :
    schedInv s' := by
  unfold Verifier.ChooseRandomThreadAfterAllUnavailable at hs
  split at hs
  · simp only [Option.some.injEq] at hs
    subst hs
    exact h
  · exact schedInv_WakeUpPostponeThread s s' _ h hs

theorem schedInv_ite_Choose (s s' : Verifier) (rnd : Finset thread_t → thread_t)
    (h : schedInv s)
    (hs : (if s.avail_thd_set_ = ∅ then s.ChooseRandomThreadAfterAllUnavailable rnd
      else some s) = some s') : schedInv s' := by
  split at hs
  · exact schedInv_Choose s s' rnd h hs
  · simp only [Option.some.injEq] at hs
    subst hs
    exact h
theorem schedInv_ThreadStart (s s' : Verifier) (curr : thread_t) (parent : Option thread_t)
    (h : schedInv s) (hc : curr ∉ s.pp_thd_set_) (hs : s.ThreadStart curr parent = some s') :
    schedInv s' := by
  unfold Verifier.ThreadStart at hs
  simp only [] at hs
  split at hs
  · simp at hs
  · simp only [Option.some.injEq] at hs
    subst hs
    intro x hx
    have hpp : ∀ (a b : Verifier), (match a.thd_smp_map_ curr with
        | none => { a with thd_smp_map_ := Function.update a.thd_smp_map_ curr (some 0) }
        | some _ => a) = b → b.pp_thd_set_ = a.pp_thd_set_ ∧
          b.avail_thd_set_ = a.avail_thd_set_ := by
      intro a b hab
      cases hm : a.thd_smp_map_ curr <;> simp only [hm] at hab <;> subst hab <;> simp
    simp only [Finset.mem_insert] at hx
    rw [(hpp _ _ rfl).1]
    rw [(hpp _ _ rfl).2] at hx
    rcases hx with hx | hx
    · rw [hx]; exact hc
    · exact h x hx

theorem schedInv_ThreadExit (s s' : Verifier) (rnd : Finset thread_t → thread_t)
    (curr : thread_t) (h : schedInv s) (hs : s.ThreadExit rnd curr = some s') :
    schedInv s' := by
  unfold Verifier.ThreadExit at hs
  simp only [] at hs
  apply schedInv_ite_Choose _ s' rnd _ hs
  intro x hx
  by_cases hc : curr ∈ s.pp_thd_set_
  · simp only [hc, if_true, Finset.mem_erase] at hx ⊢
    intro hp
    exact h x hx.2 hp.2
  · simp only [hc, if_false, Finset.mem_erase] at hx ⊢
    exact h x hx.2

theorem schedInv_PostponeThread (s : Verifier) (r : Verifier × Bool)
    (rnd : Finset thread_t → thread_t) (curr : thread_t) (h : schedInv s)
    (hs : s.PostponeThread rnd curr = some r) : schedInv r.1 := by
  unfold Verifier.PostponeThread at hs
  split at hs
  · simp only [Option.some.injEq] at hs
    subst hs
    exact h
  · simp only [] at hs
    split at hs
    · simp at hs
    · next s1 hch =>
      split at hs
      · simp at hs
      · simp only [Option.some.injEq] at hs
        subst hs
        refine schedInv_ite_Choose
          { s with
            pp_thd_set_ := insert curr s.pp_thd_set_
            avail_thd_set_ := s.avail_thd_set_.erase curr } s1 rnd ?_ hch
        intro x hx
        simp only [Finset.mem_erase, Finset.mem_insert, not_or] at hx ⊢
        exact ⟨hx.1, h x hx.2⟩

theorem schedInv_BeforePthreadJoin (s s' : Verifier) (rnd : Finset thread_t → thread_t)
    (curr : thread_t) (h : schedInv s) (hs : s.BeforePthreadJoin rnd curr = some s') :
    schedInv s' := by
  unfold Verifier.BeforePthreadJoin at hs
  exact schedInv_ite_Choose _ s' rnd (schedInv_BlockThread s curr h) hs

theorem schedInv_AfterPthreadJoin (s s' : Verifier) (curr child : thread_t)
    (h : schedInv s) (hc : curr ∉ s.pp_thd_set_)
    (hs : s.AfterPthreadJoin curr child = some s') : schedInv s' := by
  unfold Verifier.AfterPthreadJoin at hs
  split at hs
  · simp only [Option.some.injEq] at hs
    subst hs
    exact schedInv_UnblockThread _ curr (schedInv_setVc s _ _ h) hc
  · simp at hs

theorem schedInv_AfterPthreadCreate (s s' : Verifier) (curr : thread_t)
    (h : schedInv s) (hs : s.AfterPthreadCreate curr = some s') : schedInv s' := by
  unfold Verifier.AfterPthreadCreate at hs
  split at hs
  · simp at hs
  · simp only [Option.some.injEq] at hs
    subst hs
    exact schedInv_setVc s _ _ h

theorem schedInv_BeforePthreadMutexLock (s s' : Verifier) (curr : thread_t)
    (addr : address_t) (h : schedInv s)
    (hs : s.BeforePthreadMutexLock curr addr = some s') : schedInv s' := by
  unfold Verifier.BeforePthreadMutexLock at hs
  simp only [] at hs
  have hb := schedInv_BlockThread _ curr (schedInv_GetMutexMeta s addr h)
  split at hs
  · split at hs
    · exact schedInv_WakeUpPostponeThread _ s' _ hb hs
    · simp only [Option.some.injEq] at hs
      subst hs
      exact hb
  · simp only [Option.some.injEq] at hs
    subst hs
    exact hb

theorem schedInv_AfterPthreadMutexLock (s s' : Verifier) (curr : thread_t)
    (addr : address_t) (h : schedInv s) (hc : curr ∉ s.pp_thd_set_)
    (hs : s.AfterPthreadMutexLock curr addr = some s') : schedInv s' := by
  unfold Verifier.AfterPthreadMutexLock at hs
  simp only [] at hs
  split at hs
  · simp at hs
  · simp only [Option.some.injEq] at hs
    subst hs
    apply schedInv_UnblockThread
    · exact schedInv_setMutexMeta _ _ _ (schedInv_setVc _ _ _ (schedInv_GetMutexMeta s addr h))
    · show curr ∉ (s.GetMutexMeta addr).1.pp_thd_set_
      rw [(GetMutexMeta_sets s addr).2.1]
      exact hc

theorem schedInv_BeforePthreadMutexUnlock (s s' : Verifier) (curr : thread_t)
    (addr : address_t) (h : schedInv s)
    (hs : s.BeforePthreadMutexUnlock curr addr = some s') : schedInv s' := by
  unfold Verifier.BeforePthreadMutexUnlock at hs
  simp only [] at hs
  split at hs
  · simp at hs
  · simp only [Option.some.injEq] at hs
    subst hs
    exact schedInv_setVc _ _ _ (schedInv_setMutexMeta _ _ _ (schedInv_GetMutexMeta s addr h))

theorem schedInv_AfterPthreadMutexUnlock (s s' : Verifier) (curr : thread_t)
    (addr : address_t) (h : schedInv s)
    (hs : s.AfterPthreadMutexUnlock curr addr = some s') : schedInv s' := by
  unfold Verifier.AfterPthreadMutexUnlock at hs
  simp only [Option.some.injEq] at hs
  subst hs
  exact schedInv_setMutexMeta _ _ _ (schedInv_GetMutexMeta s addr h)

theorem schedInv_BeforePthreadRwlockRdlock (s s' : Verifier) (curr : thread_t)
    (addr : address_t) (h : schedInv s)
    (hs : s.BeforePthreadRwlockRdlock curr addr = some s') : schedInv s' := by
  unfold Verifier.BeforePthreadRwlockRdlock at hs
  simp only [] at hs
  have hb := schedInv_BlockThread _ curr (schedInv_GetRwlockMeta s addr h)
  split at hs
  · split at hs
    · exact schedInv_WakeUpPostponeThread _ s' _ hb hs
    · simp only [Option.some.injEq] at hs
      subst hs
      exact hb
  · simp only [Option.some.injEq] at hs
    subst hs
    exact hb

theorem schedInv_AfterPthreadRwlockRdlock (s s' : Verifier) (curr : thread_t)
    (addr : address_t) (h : schedInv s) (hc : curr ∉ s.pp_thd_set_)
    (hs : s.AfterPthreadRwlockRdlock curr addr = some s') : schedInv s' := by
  unfold Verifier.AfterPthreadRwlockRdlock at hs
  simp only [] at hs
  split at hs
  · simp at hs
  · simp only [Option.some.injEq] at hs
    subst hs
    apply schedInv_setRwlockMeta
    apply schedInv_UnblockThread
    · exact schedInv_setVc _ _ _ (schedInv_GetRwlockMeta s addr h)
    · show curr ∉ (s.GetRwlockMeta addr).1.pp_thd_set_
      rw [(GetRwlockMeta_sets s addr).2.1]
      exact hc

theorem schedInv_BeforePthreadRwlockWrlock (s s' : Verifier) (curr : thread_t)
    (addr : address_t) (h : schedInv s)
    (hs : s.BeforePthreadRwlockWrlock curr addr = some s') : schedInv s' := by
  unfold Verifier.BeforePthreadRwlockWrlock at hs
  simp only [] at hs
  have hb := schedInv_BlockThread _ curr (schedInv_GetRwlockMeta s addr h)
  split at hs
  · split at hs
    · exact schedInv_wakeUpEach _ _ s' hb hs
    · simp only [Option.some.injEq] at hs
      subst hs
      exact hb
  · simp only [Option.some.injEq] at hs
    subst hs
    exact hb

theorem schedInv_AfterPthreadRwlockWrlock (s s' : Verifier) (curr : thread_t)
    (addr : address_t) (h : schedInv s) (hc : curr ∉ s.pp_thd_set_)
    (hs : s.AfterPthreadRwlockWrlock curr addr = some s') : schedInv s' := by
  unfold Verifier.AfterPthreadRwlockWrlock at hs
  simp only [] at hs
  split at hs
  · simp at hs
  · simp only [Option.some.injEq] at hs
    subst hs
    apply schedInv_setRwlockMeta
    apply schedInv_setVc
    exact schedInv_GetRwlockMeta _ addr (schedInv_UnblockThread s curr h hc)

theorem schedInv_BeforePthreadRwlockUnlock (s s' : Verifier) (curr : thread_t)
    (addr : address_t) (h : schedInv s)
    (hs : s.BeforePthreadRwlockUnlock curr addr = some s') : schedInv s' := by
  unfold Verifier.BeforePthreadRwlockUnlock at hs
  simp only [] at hs
  split at hs
  · simp at hs
  · simp only [Option.some.injEq] at hs
    subst hs
    exact schedInv_setVc _ _ _ (schedInv_setRwlockMeta _ _ _ (schedInv_GetRwlockMeta s addr h))

theorem schedInv_AfterPthreadRwlockUnlock (s s' : Verifier) (curr : thread_t)
    (addr : address_t) (h : schedInv s)
    (hs : s.AfterPthreadRwlockUnlock curr addr = some s') : schedInv s' := by
  unfold Verifier.AfterPthreadRwlockUnlock at hs
  simp only [Option.some.injEq] at hs
  subst hs
  exact schedInv_setRwlockMeta _ _ _ (schedInv_GetRwlockMeta s addr h)

/-- C10: no thread is both in `avail_thd_set_` and in `pp_thd_set_` after construction,
and every thread, mutex, rwlock and join handler, `PostponeThread` and the two wake-up
procedures keep it so when the thread that runs the handler is not itself postponed
(for `ThreadStart`: the started thread, which was never used, is not postponed). -/
theorem C10_avail_postponed_disjoint (s s' : Verifier)
    (RandomThread : Finset thread_t → thread_t) (ev : VEvent)
    (hinv : s.avail_thd_set_ ∩ s.pp_thd_set_ = ∅)
    (hcaller : ev.thread ∉ s.pp_thd_set_)
    (hstep : s.handle RandomThread ev = some s') :
    Verifier.init.avail_thd_set_ ∩ Verifier.init.pp_thd_set_ = ∅ ∧
    s'.avail_thd_set_ ∩ s'.pp_thd_set_ = ∅ := by
  refine ⟨by simp [Verifier.init], ?_⟩
  rw [← schedInv_iff] at hinv ⊢
  cases ev with
  | ThreadStart curr parent => exact schedInv_ThreadStart s s' curr parent hinv hcaller hstep
  | ThreadExit curr => exact schedInv_ThreadExit s s' RandomThread curr hinv hstep
  | PostponeThread curr =>
    simp only [Verifier.handle, Option.map_eq_some'] at hstep
    obtain ⟨r, hr, hr1⟩ := hstep
    rw [← hr1]
    exact schedInv_PostponeThread s r RandomThread curr hinv hr
  | WakeUpPostponeThread caller thd => exact schedInv_WakeUpPostponeThread s s' thd hinv hstep
  | WakeUpPostponeThreadSet caller pp_thds => exact schedInv_wakeUpEach _ s s' hinv hstep
  | BeforePthreadJoin curr child =>
    exact schedInv_BeforePthreadJoin s s' RandomThread curr hinv hstep
  | AfterPthreadJoin curr child =>
    exact schedInv_AfterPthreadJoin s s' curr child hinv hcaller hstep
  | AfterPthreadCreate curr child => exact schedInv_AfterPthreadCreate s s' curr hinv hstep
  | BeforePthreadMutexLock curr addr =>
    exact schedInv_BeforePthreadMutexLock s s' curr addr hinv hstep
  | AfterPthreadMutexLock curr addr =>
    exact schedInv_AfterPthreadMutexLock s s' curr addr hinv hcaller hstep
  | BeforePthreadMutexUnlock curr addr =>
    exact schedInv_BeforePthreadMutexUnlock s s' curr addr hinv hstep
  | AfterPthreadMutexUnlock curr addr =>
    exact schedInv_AfterPthreadMutexUnlock s s' curr addr hinv hstep
  | BeforePthreadMutexTryLock curr addr =>
    exact schedInv_BeforePthreadMutexLock s s' curr addr hinv hstep
  | AfterPthreadMutexTryLock curr addr ret_val =>
    simp only [Verifier.handle, Verifier.AfterPthreadMutexTryLock] at hstep
    split at hstep
    · exact schedInv_AfterPthreadMutexLock s s' curr addr hinv hcaller hstep
    · simp only [Option.some.injEq] at hstep
      subst hstep
      exact hinv
  | BeforePthreadRwlockRdlock curr addr =>
    exact schedInv_BeforePthreadRwlockRdlock s s' curr addr hinv hstep
  | AfterPthreadRwlockRdlock curr addr =>
    exact schedInv_AfterPthreadRwlockRdlock s s' curr addr hinv hcaller hstep
  | BeforePthreadRwlockWrlock curr addr =>
    exact schedInv_BeforePthreadRwlockWrlock s s' curr addr hinv hstep
  | AfterPthreadRwlockWrlock curr addr =>
    exact schedInv_AfterPthreadRwlockWrlock s s' curr addr hinv hcaller hstep
  | BeforePthreadRwlockUnlock curr addr =>
    exact schedInv_BeforePthreadRwlockUnlock s s' curr addr hinv hstep
  | AfterPthreadRwlockUnlock curr addr =>
    exact schedInv_AfterPthreadRwlockUnlock s s' curr addr hinv hstep
  | BeforePthreadRwlockTryRdlock curr addr =>
    exact schedInv_BeforePthreadRwlockRdlock s s' curr addr hinv hstep
  | AfterPthreadRwlockTryRdlock curr addr ret_val =>
    simp only [Verifier.handle, Verifier.AfterPthreadRwlockTryRdlock] at hstep
    split at hstep
    · exact schedInv_AfterPthreadRwlockRdlock s s' curr addr hinv hcaller hstep
    · simp only [Option.some.injEq] at hstep
      subst hstep
      exact hinv
  | BeforePthreadRwlockTryWrlock curr addr =>
    exact schedInv_BeforePthreadRwlockWrlock s s' curr addr hinv hstep
  | AfterPthreadRwlockTryWrlock curr addr ret_val =>
    simp only [Verifier.handle, Verifier.AfterPthreadRwlockTryWrlock] at hstep
    split at hstep
    · exact schedInv_AfterPthreadRwlockWrlock s s' curr addr hinv hcaller hstep
    · simp only [Option.some.injEq] at hstep
      subst hstep
      exact hinv

/-! ## The theorems at concrete inputs -/

/-- C1 at a concrete input: thread 0 accesses, its clock being 1 for every thread, a
unit whose entries of the threads 1 and 2 have epoch 1. -/
theorem C1_ordered_entry_not_reported_witness :
    mapWf exMeta.writer_elspvec_map ∧ mapWf exMeta.reader_elspvec_map ∧
    ((∃ new, (exOrdered.ProcessWrite 0 exMeta 7).1.reported = exOrdered.reported ++ new ∧
      ∀ t1, t1 ≠ 0 →
        new.countP (fun r => decide (r.t0 = t1 ∧ r.p0 = RaceEventType.RACE_EVENT_WRITE)) ≤
          (historyOf exMeta.writer_elspvec_map t1).countP
            (fun p => decide (p.1 > exOrdered.curr_vc_map_ 0 t1)) ∧
        new.countP (fun r => decide (r.t0 = t1 ∧ r.p0 = RaceEventType.RACE_EVENT_READ)) ≤
          (historyOf exMeta.reader_elspvec_map t1).countP
            (fun p => decide (p.1 > exOrdered.curr_vc_map_ 0 t1)) ∧
        ((∀ p ∈ historyOf exMeta.writer_elspvec_map t1, p.1 ≤ exOrdered.curr_vc_map_ 0 t1) →
          ∀ r ∈ new, r.t0 = t1 → r.p0 ≠ RaceEventType.RACE_EVENT_WRITE) ∧
        ((∀ p ∈ historyOf exMeta.reader_elspvec_map t1, p.1 ≤ exOrdered.curr_vc_map_ 0 t1) →
          ∀ r ∈ new, r.t0 = t1 → r.p0 ≠ RaceEventType.RACE_EVENT_READ)) ∧
    (∃ new, (exOrdered.ProcessRead 0 exMeta 7).1.reported = exOrdered.reported ++ new ∧
      (∀ r ∈ new, r.p0 = RaceEventType.RACE_EVENT_WRITE) ∧
      ∀ t1, t1 ≠ 0 →
        new.countP (fun r => decide (r.t0 = t1 ∧ r.p0 = RaceEventType.RACE_EVENT_WRITE)) ≤
          (historyOf exMeta.writer_elspvec_map t1).countP
            (fun p => decide (p.1 > exOrdered.curr_vc_map_ 0 t1)) ∧
        ((∀ p ∈ historyOf exMeta.writer_elspvec_map t1, p.1 ≤ exOrdered.curr_vc_map_ 0 t1) →
          ∀ r ∈ new, r.t0 ≠ t1))) :=
  ⟨by decide, by decide,
    C1_ordered_entry_not_reported exOrdered 0 exMeta 7 (by decide) (by decide)⟩

/-- C2 at a concrete input: thread 0, holding no lock and with clock 0 for every thread,
accesses a unit written by thread 1 with no lock held and read by thread 2. -/
theorem C2_unordered_disjoint_entry_reported_once_witness :
    mapWf exMeta.writer_elspvec_map ∧ mapWf exMeta.reader_elspvec_map ∧
    ((∃ new, (exAnalyzer.ProcessWrite 0 exMeta 7).1.reported = exAnalyzer.reported ++ new ∧
      (∀ r ∈ new, r.t0 ≠ 0 ∧ r.t1 = 0 ∧ r.i1 = 7 ∧
        r.p1 = RaceEventType.RACE_EVENT_WRITE) ∧
      ∀ u, u ≠ 0 →
        new.countP (fun r => decide (r.t0 = u ∧ r.p0 = RaceEventType.RACE_EVENT_WRITE)) =
          (historyOf exMeta.writer_elspvec_map u).countP
            (fun p => decide (p.1 > exAnalyzer.curr_vc_map_ 0 u ∧
              p.2 ∩ locksetOf exAnalyzer.curr_lockset_table_ 0 = ∅)) ∧
        new.countP (fun r => decide (r.t0 = u ∧ r.p0 = RaceEventType.RACE_EVENT_READ)) =
          (historyOf exMeta.reader_elspvec_map u).countP
            (fun p => decide (p.1 > exAnalyzer.curr_vc_map_ 0 u ∧
              p.2 ∩ locksetOf exAnalyzer.curr_lockset_table_ 0 = ∅)) ∧
        ((∃ p ∈ historyOf exMeta.writer_elspvec_map u ++ historyOf exMeta.reader_elspvec_map u,
            p.1 > exAnalyzer.curr_vc_map_ 0 u ∧
              p.2 ∩ locksetOf exAnalyzer.curr_lockset_table_ 0 = ∅) →
          (exAnalyzer.ProcessWrite 0 exMeta 7).2.racy = true)) ∧
    (∃ new, (exAnalyzer.ProcessRead 0 exMeta 7).1.reported = exAnalyzer.reported ++ new ∧
      (∀ r ∈ new, r.t0 ≠ 0 ∧ r.t1 = 0 ∧ r.i1 = 7 ∧
        r.p1 = RaceEventType.RACE_EVENT_READ ∧ r.p0 = RaceEventType.RACE_EVENT_WRITE) ∧
      ∀ u, u ≠ 0 →
        new.countP (fun r => decide (r.t0 = u ∧ r.p0 = RaceEventType.RACE_EVENT_WRITE)) =
          (historyOf exMeta.writer_elspvec_map u).countP
            (fun p => decide (p.1 > exAnalyzer.curr_vc_map_ 0 u ∧
              p.2 ∩ (locksetOf exAnalyzer.curr_lockset_table_ 0 ∪
                locksetOf exAnalyzer.curr_reader_lockset_table_ 0) = ∅)) ∧
        ((∃ p ∈ historyOf exMeta.writer_elspvec_map u,
            p.1 > exAnalyzer.curr_vc_map_ 0 u ∧
              p.2 ∩ (locksetOf exAnalyzer.curr_lockset_table_ 0 ∪
                locksetOf exAnalyzer.curr_reader_lockset_table_ 0) = ∅) →
          (exAnalyzer.ProcessRead 0 exMeta 7).2.racy = true))) :=
  ⟨by decide, by decide,
    C2_unordered_disjoint_entry_reported_once exAnalyzer 0 exMeta 7 (by decide) (by decide)⟩

/-- C4 at a concrete input: thread 0 writes at epoch 7 under lock 1 a unit it wrote at
epoch 5 under the locks 1 and 2. -/
theorem C4_update_on_write_prunes_dominated_witness :
    (∀ p ∈ historyOf exWritten.writer_elspvec_map 0,
      ¬ (p.1 = 7 ∧ p.2 ⊆ ({1} : LockSet))) ∧
    (historyOf (exAnalyzer.update_on_write 7 0 {1} exWritten).writer_elspvec_map 0 =
      (historyOf exWritten.writer_elspvec_map 0).filter
        (fun p => !decide (p.1 ≤ 7 ∧ {1} ⊆ p.2))
        ++ [(7, {1})] ∧
    historyOf (exAnalyzer.update_on_write 7 0 {1} exWritten).reader_elspvec_map 0 =
      (historyOf exWritten.reader_elspvec_map 0).filter
        (fun p => !decide (p.1 ≤ 7 ∧ {1} ⊆ p.2)) ∧
    (∀ u, u ≠ 0 →
      historyOf (exAnalyzer.update_on_write 7 0 {1} exWritten).writer_elspvec_map u =
        historyOf exWritten.writer_elspvec_map u ∧
      historyOf (exAnalyzer.update_on_write 7 0 {1} exWritten).reader_elspvec_map u =
        historyOf exWritten.reader_elspvec_map u) ∧
    (∀ a b : address_t,
      historyOf (exAnalyzer.update_on_write 7 0 {a}
        (exAnalyzer.update_on_write 5 0 {a, b} MlMeta.fresh)).writer_elspvec_map 0 = [(7, {a})])) :=
  ⟨by decide, C4_update_on_write_prunes_dominated exAnalyzer 7 0 {1} exWritten (by decide)⟩

/-- C5 (amended) at a concrete input: thread 0 reads at epoch 5 under lock 1 a unit it
read at epoch 5 under lock 1. -/
theorem C5_dominated_read_keeps_histories_witness :
    mapWf c5MetaSkip.writer_elspvec_map ∧ mapWf c5MetaSkip.reader_elspvec_map ∧
    (∃ p ∈ historyOf c5MetaSkip.reader_elspvec_map 0 ++
        historyOf c5MetaSkip.writer_elspvec_map 0,
      p.1 = c5Analyzer.curr_vc_map_ 0 0 ∧
      p.2 ⊆ locksetOf c5Analyzer.curr_lockset_table_ 0 ∪
        locksetOf c5Analyzer.curr_reader_lockset_table_ 0) ∧
    ((∀ u,
      historyOf (c5Analyzer.ProcessRead 0 c5MetaSkip 7).2.reader_elspvec_map u =
        historyOf c5MetaSkip.reader_elspvec_map u ∧
      historyOf (c5Analyzer.ProcessRead 0 c5MetaSkip 7).2.writer_elspvec_map u =
        historyOf c5MetaSkip.writer_elspvec_map u) ∧
    (c5Analyzer.ProcessRead 0 c5MetaSkip 7).2.reader_inst_table 0 = some 7 ∧
    (∃ new, (c5Analyzer.ProcessRead 0 c5MetaSkip 7).1.reported = c5Analyzer.reported ++ new ∧
      ∀ u, u ≠ 0 →
        new.countP (fun r => decide (r.t0 = u)) =
          (historyOf c5MetaSkip.writer_elspvec_map u).countP
            (fun p => decide (p.1 > c5Analyzer.curr_vc_map_ 0 u ∧
              p.2 ∩ (locksetOf c5Analyzer.curr_lockset_table_ 0 ∪
                locksetOf c5Analyzer.curr_reader_lockset_table_ 0) = ∅)))) :=
  ⟨by decide, by decide, by decide,
    C5_dominated_read_keeps_histories c5Analyzer 0 c5MetaSkip 7 (by decide) (by decide)
      (by decide)⟩

/-- C6 at a concrete input: thread 0 writes at epoch 0 with no lock and then reads at
epoch 5 under lock 1. -/
theorem C6_histories_non_dominated_witness :
    (epochsOf 0 exAccesses).Pairwise (fun a b => a ≤ b) ∧
    ((historyOf (runAccesses MlMeta.fresh exAccesses).writer_elspvec_map 0).Pairwise
      (fun p q => ¬ (p.1 ≤ q.1 ∧ q.2 ⊆ p.2) ∧ ¬ (q.1 ≤ p.1 ∧ p.2 ⊆ q.2)) ∧
    (historyOf (runAccesses MlMeta.fresh exAccesses).reader_elspvec_map 0).Pairwise
      (fun p q => ¬ (p.1 ≤ q.1 ∧ q.2 ⊆ p.2) ∧ ¬ (q.1 ≤ p.1 ∧ p.2 ⊆ q.2)) ∧
    (∀ p ∈ historyOf (runAccesses MlMeta.fresh exAccesses).reader_elspvec_map 0,
      ∀ q ∈ historyOf (runAccesses MlMeta.fresh exAccesses).writer_elspvec_map 0,
        ¬ (p.1 ≤ q.1 ∧ q.2 ⊆ p.2))) :=
  ⟨by decide, C6_histories_non_dominated exAccesses 0 (by decide)⟩

/-- C8 (amended) at a concrete input: thread 1 locks 9, locks 8 and unlocks 9. -/
theorem C8_lockset_tracks_acquisitions_witness :
    (MultiLockHb.init false (fun _ _ => 0)).lockRun exLockEvents = some exAfterLocks ∧
    noRelock (MultiLockHb.init false (fun _ _ => 0)) 1 exLockEvents = true ∧
    ((∀ m, m ∈ locksetOf exAfterLocks.curr_lockset_table_ 1 ↔
      releases 1 m exLockEvents < acquisitions 1 m exLockEvents) ∧
    (∀ (s : MultiLockHb) (thd u : thread_t) (m : address_t), u ≠ thd →
      locksetOf (s.AfterPthreadMutexLock thd m).curr_lockset_table_ u =
        locksetOf s.curr_lockset_table_ u ∧
      ∀ s2, s.BeforePthreadMutexUnlock thd m = some s2 →
        locksetOf s2.curr_lockset_table_ u = locksetOf s.curr_lockset_table_ u)) :=
  ⟨rfl, by decide,
    C8_lockset_tracks_acquisitions false (fun _ _ => 0) exLockEvents 1 exAfterLocks rfl
      (by decide)⟩

/-- C9 at a concrete input: thread 0, holding mutex 1, accesses a unit it read under
the locks 1 and 2 and that thread 1 wrote with no lock held. -/
theorem C9_read_uses_union_write_uses_writer_set_witness :
    mapWf c5Meta.writer_elspvec_map ∧ mapWf c5Meta.reader_elspvec_map ∧
    (((∀ p ∈ historyOf c5Meta.reader_elspvec_map 0 ++ historyOf c5Meta.writer_elspvec_map 0,
        ¬ (p.1 = c5Analyzer.curr_vc_map_ 0 0 ∧
          p.2 ⊆ locksetOf c5Analyzer.curr_lockset_table_ 0 ∪
            locksetOf c5Analyzer.curr_reader_lockset_table_ 0)) →
      (historyOf (c5Analyzer.ProcessRead 0 c5Meta 7).2.reader_elspvec_map 0).getLast? =
        some (c5Analyzer.curr_vc_map_ 0 0,
          locksetOf c5Analyzer.curr_lockset_table_ 0 ∪
            locksetOf c5Analyzer.curr_reader_lockset_table_ 0)) ∧
    (∀ u, u ≠ 0 →
      ((c5Analyzer.ProcessRead 0 c5Meta 7).1.reported.drop c5Analyzer.reported.length).countP
          (fun r => decide (r.t0 = u)) =
        (historyOf c5Meta.writer_elspvec_map u).countP
          (fun p => decide (p.1 > c5Analyzer.curr_vc_map_ 0 u ∧
            p.2 ∩ (locksetOf c5Analyzer.curr_lockset_table_ 0 ∪
              locksetOf c5Analyzer.curr_reader_lockset_table_ 0) = ∅))) ∧
    ((∀ p ∈ historyOf c5Meta.writer_elspvec_map 0,
        ¬ (p.1 = c5Analyzer.curr_vc_map_ 0 0 ∧
          p.2 ⊆ locksetOf c5Analyzer.curr_lockset_table_ 0)) →
      (historyOf (c5Analyzer.ProcessWrite 0 c5Meta 7).2.writer_elspvec_map 0).getLast? =
        some (c5Analyzer.curr_vc_map_ 0 0, locksetOf c5Analyzer.curr_lockset_table_ 0)) ∧
    (∀ u, u ≠ 0 →
      ((c5Analyzer.ProcessWrite 0 c5Meta 7).1.reported.drop c5Analyzer.reported.length).countP
          (fun r => decide (r.t0 = u)) =
        (historyOf c5Meta.writer_elspvec_map u ++ historyOf c5Meta.reader_elspvec_map u).countP
          (fun p => decide (p.1 > c5Analyzer.curr_vc_map_ 0 u ∧
            p.2 ∩ locksetOf c5Analyzer.curr_lockset_table_ 0 = ∅))) ∧
    (∀ u,
      locksetOf (c5Analyzer.ProcessRead 0 c5Meta 7).1.curr_lockset_table_ u =
        locksetOf c5Analyzer.curr_lockset_table_ u ∧
      locksetOf (c5Analyzer.ProcessRead 0 c5Meta 7).1.curr_reader_lockset_table_ u =
        locksetOf c5Analyzer.curr_reader_lockset_table_ u)) :=
  ⟨by decide, by decide,
    C9_read_uses_union_write_uses_writer_set c5Analyzer 0 c5Meta 7 (by decide) (by decide)⟩

/-- C10 at a concrete input: the main thread 1 starts in the initial verifier. -/
theorem C10_avail_postponed_disjoint_witness :
    Verifier.init.avail_thd_set_ ∩ Verifier.init.pp_thd_set_ = ∅ ∧
    (VEvent.ThreadStart 1 none).thread ∉ Verifier.init.pp_thd_set_ ∧
    Verifier.init.handle (fun _ => 0) (VEvent.ThreadStart 1 none) = some exStarted ∧
    (Verifier.init.avail_thd_set_ ∩ Verifier.init.pp_thd_set_ = ∅ ∧
    exStarted.avail_thd_set_ ∩ exStarted.pp_thd_set_ = ∅) :=
  ⟨by decide, by decide, rfl,
    C10_avail_postponed_disjoint Verifier.init exStarted (fun _ => 0)
      (VEvent.ThreadStart 1 none) (by decide) (by decide) rfl⟩

/-! ## The clocks and the mutex metas of the verifier -/

theorem clocksGrow_of_eq (s s' : Verifier) (h : s'.thd_vc_map_ = s.thd_vc_map_) :
    clocksGrow s s' := by
  intro t vc hvc
  exact ⟨vc, by rw [h]; exact hvc, fun _ => le_refl _⟩

theorem clocksGrow_trans (a b c : Verifier) (h1 : clocksGrow a b) (h2 : clocksGrow b c) :
    clocksGrow a c := by
  intro t vc hvc
  obtain ⟨vc1, h1a, h1b⟩ := h1 t vc hvc
  obtain ⟨vc2, h2a, h2b⟩ := h2 t vc1 h1a
  exact ⟨vc2, h2a, fun x => le_trans (h1b x) (h2b x)⟩

theorem clocksGrow_setVc (s : Verifier) (t : thread_t) (old new : VectorClock)
    (hold : s.thd_vc_map_ t = some old) (hle : ∀ x, old x ≤ new x) :
    clocksGrow s (s.setVc t new) := by
  intro u vc hvc
  by_cases hu : u = t
  · subst hu
    rw [hold] at hvc
    cases hvc
    exact ⟨new, by simp [Verifier.setVc], hle⟩
  · exact ⟨vc, by simp [Verifier.setVc, Function.update, hu, hvc], fun _ => le_refl _⟩

theorem clocksGrow_setVc_new (s : Verifier) (t : thread_t) (new : VectorClock)
    (hnone : s.thd_vc_map_ t = none) : clocksGrow s (s.setVc t new) := by
  intro u vc hvc
  by_cases hu : u = t
  · subst hu
    rw [hnone] at hvc
    cases hvc
  · exact ⟨vc, by simp [Verifier.setVc, Function.update, hu, hvc], fun _ => le_refl _⟩

theorem Increment_le (vc : VectorClock) (t x : thread_t) : vc x ≤ vc.Increment t x := by
  unfold VectorClock.Increment
  by_cases h : x = t
  · subst h; simp
  · simp [Function.update, h]

theorem Increment_self (vc : VectorClock) (t : thread_t) : vc.Increment t t = vc t + 1 := by
  simp [VectorClock.Increment]

theorem Increment_other (vc : VectorClock) (t x : thread_t) (h : x ≠ t) :
    vc.Increment t x = vc x := by
  simp [VectorClock.Increment, Function.update, h]

theorem Join_le_left (vc other : VectorClock) (x : thread_t) : vc x ≤ vc.Join other x :=
  le_max_left _ _

theorem Join_apply (vc other : VectorClock) (x : thread_t) :
    vc.Join other x = max (vc x) (other x) := rfl

theorem WakeUpPostponeThread_frame (s s' : Verifier) (t : thread_t)
    (h : s.WakeUpPostponeThread t = some s') :
    s'.thd_vc_map_ = s.thd_vc_map_ ∧ s'.mutex_meta_table_ = s.mutex_meta_table_ ∧
    s'.rwlock_meta_table_ = s.rwlock_meta_table_ ∧ s'.blk_thd_set_ = s.blk_thd_set_ ∧
    s'.avail_thd_set_ = insert t s.avail_thd_set_ ∧ s'.pp_thd_set_ = s.pp_thd_set_.erase t ∧
    ∃ c, s.thd_smp_map_ t = some c ∧
      s'.thd_smp_map_ = Function.update s.thd_smp_map_ t (some (c + 1)) := by
  unfold Verifier.WakeUpPostponeThread at h
  cases hc : s.thd_smp_map_ t with
  | none => simp [hc] at h
  | some c =>
    simp only [hc, Option.some.injEq] at h
    subst h
    exact ⟨rfl, rfl, rfl, rfl, rfl, rfl, c, rfl, rfl⟩

theorem wakeUpEach_frame (l : List thread_t) :
    ∀ s s' : Verifier, s.wakeUpEach l = some s' →
      s'.thd_vc_map_ = s.thd_vc_map_ ∧ s'.mutex_meta_table_ = s.mutex_meta_table_ ∧
      s'.rwlock_meta_table_ = s.rwlock_meta_table_ ∧ s'.blk_thd_set_ = s.blk_thd_set_ := by
  induction l with
  | nil =>
    intro s s' h
    simp only [Verifier.wakeUpEach, Option.some.injEq] at h
    subst h
    exact ⟨rfl, rfl, rfl, rfl⟩
  | cons t rest ih =>
    intro s s' h
    simp only [Verifier.wakeUpEach] at h
    cases hw : s.WakeUpPostponeThread t with
    | none => simp [hw] at h
    | some s1 =>
      simp only [hw] at h
      have f1 := WakeUpPostponeThread_frame s s1 t hw
      have f2 := ih s1 s' h
      exact ⟨f2.1.trans f1.1, f2.2.1.trans f1.2.1, f2.2.2.1.trans f1.2.2.1,
        f2.2.2.2.trans f1.2.2.2.1⟩

theorem Choose_frame (s s' : Verifier) (rnd : Finset thread_t → thread_t)
    (h : s.ChooseRandomThreadAfterAllUnavailable rnd = some s') :
    s'.thd_vc_map_ = s.thd_vc_map_ ∧ s'.mutex_meta_table_ = s.mutex_meta_table_ ∧
    s'.rwlock_meta_table_ = s.rwlock_meta_table_ ∧ s'.blk_thd_set_ = s.blk_thd_set_ := by
  unfold Verifier.ChooseRandomThreadAfterAllUnavailable at h
  split at h
  · simp only [Option.some.injEq] at h
    subst h
    exact ⟨rfl, rfl, rfl, rfl⟩
  · have f := WakeUpPostponeThread_frame s s' _ h
    exact ⟨f.1, f.2.1, f.2.2.1, f.2.2.2.1⟩

theorem ite_Choose_frame (s s' : Verifier) (rnd : Finset thread_t → thread_t)
    (h : (if s.avail_thd_set_ = ∅ then s.ChooseRandomThreadAfterAllUnavailable rnd
      else some s) = some s') :
    s'.thd_vc_map_ = s.thd_vc_map_ ∧ s'.mutex_meta_table_ = s.mutex_meta_table_ ∧
    s'.rwlock_meta_table_ = s.rwlock_meta_table_ ∧ s'.blk_thd_set_ = s.blk_thd_set_ := by
  split at h
  · exact Choose_frame s s' rnd h
  · simp only [Option.some.injEq] at h
    subst h
    exact ⟨rfl, rfl, rfl, rfl⟩

theorem GetMutexMeta_clock (s : Verifier) (addr : address_t) :
    (s.GetMutexMeta addr).2.vc = s.mutexClock addr ∧
    (s.GetMutexMeta addr).2.owner = s.mutexOwner addr ∧
    ∀ a, (s.GetMutexMeta addr).1.mutexClock a = s.mutexClock a := by
  unfold Verifier.GetMutexMeta Verifier.mutexClock Verifier.mutexOwner
  cases h : s.mutex_meta_table_ addr with
  | none =>
    refine ⟨rfl, rfl, ?_⟩
    intro a
    by_cases ha : a = addr
    · subst ha; simp [h, VectorClock.empty]
    · simp [Function.update, ha]
  | some mm => exact ⟨rfl, rfl, fun _ => rfl⟩

theorem GetRwlockMeta_frame (s : Verifier) (addr : address_t) :
    (s.GetRwlockMeta addr).1.mutex_meta_table_ = s.mutex_meta_table_ ∧
    (s.GetRwlockMeta addr).1.blk_thd_set_ = s.blk_thd_set_ := by
  unfold Verifier.GetRwlockMeta
  cases s.rwlock_meta_table_ addr <;> simp

theorem GetMutexMeta_frame (s : Verifier) (addr : address_t) :
    (s.GetMutexMeta addr).1.rwlock_meta_table_ = s.rwlock_meta_table_ ∧
    (s.GetMutexMeta addr).1.blk_thd_set_ = s.blk_thd_set_ := by
  unfold Verifier.GetMutexMeta
  cases s.mutex_meta_table_ addr <;> simp

theorem mutexClock_setMutexMeta (s : Verifier) (addr a : address_t) (mm : MutexMeta) :
    (s.setMutexMeta addr mm).mutexClock a =
      if a = addr then mm.vc else s.mutexClock a := by
  unfold Verifier.setMutexMeta Verifier.mutexClock
  by_cases ha : a = addr
  · subst ha; simp
  · simp [Function.update, ha]

theorem mutexClock_of_table (s s' : Verifier) (h : s'.mutex_meta_table_ = s.mutex_meta_table_)
    (a : address_t) : s'.mutexClock a = s.mutexClock a := by
  unfold Verifier.mutexClock
  rw [h]

/-- The exact result of `BeforePthreadMutexUnlock` for a thread that has a clock. -/
theorem BeforePthreadMutexUnlock_eq (s : Verifier) (curr : thread_t) (addr : address_t)
    (vc : VectorClock) (h : s.thd_vc_map_ curr = some vc) :
    s.BeforePthreadMutexUnlock curr addr =
      some (((s.GetMutexMeta addr).1.setMutexMeta addr
        { (s.GetMutexMeta addr).2 with vc := vc }).setVc curr (vc.Increment curr)) := by
  unfold Verifier.BeforePthreadMutexUnlock
  simp only [(GetMutexMeta_sets s addr).2.2.1, h]

/-- The exact result of `AfterPthreadMutexLock` for a thread that has a clock. -/
theorem AfterPthreadMutexLock_eq (s : Verifier) (curr : thread_t) (addr : address_t)
    (vc : VectorClock) (h : s.thd_vc_map_ curr = some vc) :
    s.AfterPthreadMutexLock curr addr =
      some ((((s.GetMutexMeta addr).1.setVc curr (vc.Join (s.GetMutexMeta addr).2.vc)).setMutexMeta
        addr { (s.GetMutexMeta addr).2 with owner := curr }).UnblockThread curr) := by
  unfold Verifier.AfterPthreadMutexLock
  simp only [(GetMutexMeta_sets s addr).2.2.1, h]

theorem AfterPthreadMutexLock_none (s : Verifier) (curr : thread_t) (addr : address_t)
    (h : s.thd_vc_map_ curr = none) : s.AfterPthreadMutexLock curr addr = none := by
  unfold Verifier.AfterPthreadMutexLock
  simp only [(GetMutexMeta_sets s addr).2.2.1, h]

theorem BeforePthreadMutexUnlock_none (s : Verifier) (curr : thread_t) (addr : address_t)
    (h : s.thd_vc_map_ curr = none) : s.BeforePthreadMutexUnlock curr addr = none := by
  unfold Verifier.BeforePthreadMutexUnlock
  simp only [(GetMutexMeta_sets s addr).2.2.1, h]

/-- The exact result of `AfterPthreadRwlockRdlock` for a thread that has a clock. -/
theorem AfterPthreadRwlockRdlock_eq (s : Verifier) (curr : thread_t) (addr : address_t)
    (vc : VectorClock) (h : s.thd_vc_map_ curr = some vc) :
    s.AfterPthreadRwlockRdlock curr addr =
      some ((((s.GetRwlockMeta addr).1.setVc curr
        (vc.Join (s.GetRwlockMeta addr).2.vc)).UnblockThread curr).setRwlockMeta addr
          { (s.GetRwlockMeta addr).2 with
            rdlock_thd_set := insert curr (s.GetRwlockMeta addr).2.rdlock_thd_set
            ref := (s.GetRwlockMeta addr).2.ref + 1 }) := by
  unfold Verifier.AfterPthreadRwlockRdlock
  simp only [(GetRwlockMeta_sets s addr).2.2.1, h]

theorem AfterPthreadRwlockRdlock_none (s : Verifier) (curr : thread_t) (addr : address_t)
    (h : s.thd_vc_map_ curr = none) : s.AfterPthreadRwlockRdlock curr addr = none := by
  unfold Verifier.AfterPthreadRwlockRdlock
  simp only [(GetRwlockMeta_sets s addr).2.2.1, h]

/-- The exact result of `AfterPthreadRwlockWrlock` for a thread that has a clock. -/
theorem AfterPthreadRwlockWrlock_eq (s : Verifier) (curr : thread_t) (addr : address_t)
    (vc : VectorClock) (h : s.thd_vc_map_ curr = some vc) :
    s.AfterPthreadRwlockWrlock curr addr =
      some ((((s.UnblockThread curr).GetRwlockMeta addr).1.setVc curr
        (vc.Join ((s.UnblockThread curr).GetRwlockMeta addr).2.vc)).setRwlockMeta addr
          { ((s.UnblockThread curr).GetRwlockMeta addr).2 with
            wrlock_owner := curr
            ref := ((s.UnblockThread curr).GetRwlockMeta addr).2.ref + 1 }) := by
  unfold Verifier.AfterPthreadRwlockWrlock
  have h2 : ((s.UnblockThread curr).GetRwlockMeta addr).1.thd_vc_map_ curr = some vc := by
    rw [(GetRwlockMeta_sets _ addr).2.2.1]; exact h
  simp only [h2]

theorem AfterPthreadRwlockWrlock_none (s : Verifier) (curr : thread_t) (addr : address_t)
    (h : s.thd_vc_map_ curr = none) : s.AfterPthreadRwlockWrlock curr addr = none := by
  unfold Verifier.AfterPthreadRwlockWrlock
  have h2 : ((s.UnblockThread curr).GetRwlockMeta addr).1.thd_vc_map_ curr = none := by
    rw [(GetRwlockMeta_sets _ addr).2.2.1]; exact h
  simp only [h2]

/-- The exact result of `BeforePthreadRwlockUnlock` for a thread that has a clock. -/
theorem BeforePthreadRwlockUnlock_vc (s s' : Verifier) (curr : thread_t) (addr : address_t)
    (h : s.BeforePthreadRwlockUnlock curr addr = some s') :
    ∃ vc, s.thd_vc_map_ curr = some vc ∧
      s'.thd_vc_map_ = Function.update s.thd_vc_map_ curr (some (vc.Increment curr)) ∧
      s'.mutex_meta_table_ = s.mutex_meta_table_ ∧
      s'.avail_thd_set_ = s.avail_thd_set_ ∧ s'.pp_thd_set_ = s.pp_thd_set_ ∧
      s'.blk_thd_set_ = s.blk_thd_set_ ∧ s'.thd_smp_map_ = s.thd_smp_map_ := by
  unfold Verifier.BeforePthreadRwlockUnlock at h
  simp only [(GetRwlockMeta_sets s addr).2.2.1] at h
  cases hv : s.thd_vc_map_ curr with
  | none => simp [hv] at h
  | some vc =>
    simp only [hv, Option.some.injEq] at h
    subst h
    refine ⟨vc, rfl, ?_, ?_, ?_, ?_, ?_, ?_⟩
    · simp [Verifier.setVc, Verifier.setRwlockMeta, (GetRwlockMeta_sets s addr).2.2.1]
    · simp [Verifier.setVc, Verifier.setRwlockMeta, (GetRwlockMeta_frame s addr).1]
    · simp [Verifier.setVc, Verifier.setRwlockMeta, (GetRwlockMeta_sets s addr).1]
    · simp [Verifier.setVc, Verifier.setRwlockMeta, (GetRwlockMeta_sets s addr).2.1]
    · simp [Verifier.setVc, Verifier.setRwlockMeta, (GetRwlockMeta_frame s addr).2]
    · simp [Verifier.setVc, Verifier.setRwlockMeta, (GetRwlockMeta_sets s addr).2.2.2]
theorem ThreadStart_vc (s s' : Verifier) (curr : thread_t) (parent : Option thread_t)
    (h : s.ThreadStart curr parent = some s') :
    (∃ new, s'.thd_vc_map_ = Function.update s.thd_vc_map_ curr (some new)) ∧
    s'.mutex_meta_table_ = s.mutex_meta_table_ := by
  unfold Verifier.ThreadStart at h
  cases parent with
  | none =>
    simp only [Option.some.injEq] at h
    subst h
    refine ⟨⟨VectorClock.empty.Increment curr, ?_⟩, ?_⟩
    · cases hs : (s.setVc curr (VectorClock.empty.Increment curr)).thd_smp_map_ curr <;>
        simp [Verifier.setVc]
    · cases hs : (s.setVc curr (VectorClock.empty.Increment curr)).thd_smp_map_ curr <;>
        simp [Verifier.setVc]
  | some p =>
    cases hp : s.thd_vc_map_ p with
    | none => simp [hp] at h
    | some pvc =>
      simp only [hp, Option.some.injEq] at h
      subst h
      refine ⟨⟨(VectorClock.empty.Increment curr).Join pvc, ?_⟩, ?_⟩
      · cases hs : (s.setVc curr ((VectorClock.empty.Increment curr).Join pvc)).thd_smp_map_
          curr <;> simp [Verifier.setVc]
      · cases hs : (s.setVc curr ((VectorClock.empty.Increment curr).Join pvc)).thd_smp_map_
          curr <;> simp [Verifier.setVc]

theorem ThreadExit_frame (s s' : Verifier) (rnd : Finset thread_t → thread_t)
    (curr : thread_t) (h : s.ThreadExit rnd curr = some s') :
    s'.thd_vc_map_ = s.thd_vc_map_ ∧ s'.mutex_meta_table_ = s.mutex_meta_table_ := by
  unfold Verifier.ThreadExit at h
  by_cases hc : curr ∈ s.pp_thd_set_
  · simp only [hc, if_true] at h
    have f := ite_Choose_frame
      { s with
        thd_smp_map_ := Function.update s.thd_smp_map_ curr none
        avail_thd_set_ := s.avail_thd_set_.erase curr
        pp_thd_set_ := s.pp_thd_set_.erase curr } s' rnd h
    exact ⟨f.1, f.2.1⟩
  · simp only [hc, if_false] at h
    have f := ite_Choose_frame
      { s with
        thd_smp_map_ := Function.update s.thd_smp_map_ curr none
        avail_thd_set_ := s.avail_thd_set_.erase curr } s' rnd h
    exact ⟨f.1, f.2.1⟩

theorem PostponeThread_frame (s s' : Verifier) (rnd : Finset thread_t → thread_t)
    (curr : thread_t) (b : Bool) (h : s.PostponeThread rnd curr = some (s', b)) :
    s'.thd_vc_map_ = s.thd_vc_map_ ∧ s'.mutex_meta_table_ = s.mutex_meta_table_ := by
  unfold Verifier.PostponeThread at h
  split at h
  · simp only [Option.some.injEq, Prod.mk.injEq] at h
    rw [← h.1]
    exact ⟨rfl, rfl⟩
  · simp only [] at h
    split at h
    · simp at h
    · next s1 hs1 =>
      have f := ite_Choose_frame
        { s with
          pp_thd_set_ := insert curr s.pp_thd_set_
          avail_thd_set_ := s.avail_thd_set_.erase curr } s1 rnd hs1
      split at h
      · simp at h
      · simp only [Option.some.injEq, Prod.mk.injEq] at h
        rw [← h.1]
        exact ⟨f.1, f.2.1⟩

theorem BeforePthreadJoin_frame (s s' : Verifier) (rnd : Finset thread_t → thread_t)
    (curr : thread_t) (h : s.BeforePthreadJoin rnd curr = some s') :
    s'.thd_vc_map_ = s.thd_vc_map_ ∧ s'.mutex_meta_table_ = s.mutex_meta_table_ := by
  unfold Verifier.BeforePthreadJoin at h
  have f := ite_Choose_frame (s.BlockThread curr) s' rnd h
  exact ⟨f.1, f.2.1⟩

theorem BeforePthreadMutexLock_frame (s s' : Verifier) (curr : thread_t) (addr : address_t)
    (h : s.BeforePthreadMutexLock curr addr = some s') :
    s'.thd_vc_map_ = s.thd_vc_map_ ∧ ∀ a, s'.mutexClock a = s.mutexClock a := by
  unfold Verifier.BeforePthreadMutexLock at h
  have g := GetMutexMeta_sets s addr
  have gc := GetMutexMeta_clock s addr
  have key : ∀ s1 : Verifier, s1 = (s.GetMutexMeta addr).1.BlockThread curr →
      s1.thd_vc_map_ = s.thd_vc_map_ ∧ ∀ a, s1.mutexClock a = s.mutexClock a := by
    intro s1 hs1
    subst hs1
    exact ⟨g.2.2.1, fun a => gc.2.2 a⟩
  simp only [] at h
  split at h
  · split at h
    · have f := WakeUpPostponeThread_frame _ s' _ h
      have k := key _ rfl
      exact ⟨f.1.trans k.1, fun a => (mutexClock_of_table _ _ f.2.1 a).trans (k.2 a)⟩
    · simp only [Option.some.injEq] at h
      exact key s' h.symm
  · simp only [Option.some.injEq] at h
    exact key s' h.symm

theorem BeforePthreadRwlockRdlock_frame (s s' : Verifier) (curr : thread_t) (addr : address_t)
    (h : s.BeforePthreadRwlockRdlock curr addr = some s') :
    s'.thd_vc_map_ = s.thd_vc_map_ ∧ s'.mutex_meta_table_ = s.mutex_meta_table_ := by
  unfold Verifier.BeforePthreadRwlockRdlock at h
  have g := GetRwlockMeta_sets s addr
  have gf := GetRwlockMeta_frame s addr
  have key : ∀ s1 : Verifier, s1 = (s.GetRwlockMeta addr).1.BlockThread curr →
      s1.thd_vc_map_ = s.thd_vc_map_ ∧ s1.mutex_meta_table_ = s.mutex_meta_table_ := by
    intro s1 hs1
    subst hs1
    exact ⟨g.2.2.1, gf.1⟩
  simp only [] at h
  split at h
  · split at h
    · have f := WakeUpPostponeThread_frame _ s' _ h
      have k := key _ rfl
      exact ⟨f.1.trans k.1, f.2.1.trans k.2⟩
    · simp only [Option.some.injEq] at h
      exact key s' h.symm
  · simp only [Option.some.injEq] at h
    exact key s' h.symm

theorem BeforePthreadRwlockWrlock_frame (s s' : Verifier) (curr : thread_t) (addr : address_t)
    (h : s.BeforePthreadRwlockWrlock curr addr = some s') :
    s'.thd_vc_map_ = s.thd_vc_map_ ∧ s'.mutex_meta_table_ = s.mutex_meta_table_ := by
  unfold Verifier.BeforePthreadRwlockWrlock at h
  have g := GetRwlockMeta_sets s addr
  have gf := GetRwlockMeta_frame s addr
  have key : ∀ s1 : Verifier, s1 = (s.GetRwlockMeta addr).1.BlockThread curr →
      s1.thd_vc_map_ = s.thd_vc_map_ ∧ s1.mutex_meta_table_ = s.mutex_meta_table_ := by
    intro s1 hs1
    subst hs1
    exact ⟨g.2.2.1, gf.1⟩
  simp only [] at h
  split at h
  · split at h
    · have f := wakeUpEach_frame _ _ s' h
      have k := key _ rfl
      exact ⟨f.1.trans k.1, f.2.1.trans k.2⟩
    · simp only [Option.some.injEq] at h
      exact key s' h.symm
  · simp only [Option.some.injEq] at h
    exact key s' h.symm

theorem AfterPthreadMutexUnlock_frame (s s' : Verifier) (curr : thread_t) (addr : address_t)
    (h : s.AfterPthreadMutexUnlock curr addr = some s') :
    s'.thd_vc_map_ = s.thd_vc_map_ ∧ ∀ a, s'.mutexClock a = s.mutexClock a := by
  unfold Verifier.AfterPthreadMutexUnlock at h
  simp only [Option.some.injEq] at h
  subst h
  have gc := GetMutexMeta_clock s addr
  refine ⟨(GetMutexMeta_sets s addr).2.2.1, ?_⟩
  intro a
  rw [mutexClock_setMutexMeta]
  by_cases ha : a = addr
  · subst ha; simp [gc.1]
  · simp [ha, gc.2.2 a]

theorem AfterPthreadRwlockUnlock_frame (s s' : Verifier) (curr : thread_t) (addr : address_t)
    (h : s.AfterPthreadRwlockUnlock curr addr = some s') :
    s'.thd_vc_map_ = s.thd_vc_map_ ∧ s'.mutex_meta_table_ = s.mutex_meta_table_ := by
  unfold Verifier.AfterPthreadRwlockUnlock at h
  simp only [Option.some.injEq] at h
  subst h
  exact ⟨(GetRwlockMeta_sets s addr).2.2.1, (GetRwlockMeta_frame s addr).1⟩
theorem AfterPthreadJoin_eq (s s' : Verifier) (curr child : thread_t)
    (h : s.AfterPthreadJoin curr child = some s') :
    ∃ vc cvc, s.thd_vc_map_ curr = some vc ∧ s.thd_vc_map_ child = some cvc ∧
      s' = (s.setVc curr ((vc.Join cvc).Increment curr)).UnblockThread curr := by
  unfold Verifier.AfterPthreadJoin at h
  split at h
  · next vc cvc h1 h2 =>
    simp only [Option.some.injEq] at h
    exact ⟨vc, cvc, h1, h2, h.symm⟩
  · simp at h

theorem AfterPthreadCreate_eq (s s' : Verifier) (curr : thread_t)
    (h : s.AfterPthreadCreate curr = some s') :
    ∃ vc, s.thd_vc_map_ curr = some vc ∧ s' = s.setVc curr (vc.Increment curr) := by
  unfold Verifier.AfterPthreadCreate at h
  cases hv : s.thd_vc_map_ curr with
  | none => simp [hv] at h
  | some vc =>
    simp only [hv, Option.some.injEq] at h
    exact ⟨vc, rfl, h.symm⟩

theorem clocksGrow_update (s s' : Verifier) (t : thread_t) (old new : VectorClock)
    (hold : s.thd_vc_map_ t = some old) (hle : ∀ x, old x ≤ new x)
    (h : s'.thd_vc_map_ = Function.update s.thd_vc_map_ t (some new)) : clocksGrow s s' := by
  intro u vc hvc
  by_cases hu : u = t
  · subst hu
    rw [hold] at hvc
    cases hvc
    exact ⟨new, by rw [h]; simp, hle⟩
  · exact ⟨vc, by rw [h]; simp [Function.update, hu, hvc], fun _ => le_refl _⟩

theorem clocksGrow_update_new (s s' : Verifier) (t : thread_t) (new : VectorClock)
    (hnone : s.thd_vc_map_ t = none)
    (h : s'.thd_vc_map_ = Function.update s.thd_vc_map_ t (some new)) : clocksGrow s s' := by
  intro u vc hvc
  by_cases hu : u = t
  · subst hu
    rw [hnone] at hvc
    cases hvc
  · exact ⟨vc, by rw [h]; simp [Function.update, hu, hvc], fun _ => le_refl _⟩

/-- The clock map after `AfterPthreadMutexLock`. -/
theorem AfterPthreadMutexLock_vc (s s' : Verifier) (curr : thread_t) (addr : address_t)
    (h : s.AfterPthreadMutexLock curr addr = some s') :
    ∃ vc, s.thd_vc_map_ curr = some vc ∧
      s'.thd_vc_map_ =
        Function.update s.thd_vc_map_ curr (some (vc.Join (s.mutexClock addr))) ∧
      (∀ a, s'.mutexClock a = s.mutexClock a) ∧ s'.mutexOwner addr = curr := by
  cases hv : s.thd_vc_map_ curr with
  | none => rw [AfterPthreadMutexLock_none s curr addr hv] at h; simp at h
  | some vc =>
    rw [AfterPthreadMutexLock_eq s curr addr vc hv] at h
    simp only [Option.some.injEq] at h
    subst h
    have gc := GetMutexMeta_clock s addr
    refine ⟨vc, rfl, ?_, ?_, ?_⟩
    · simp [Verifier.UnblockThread, Verifier.setMutexMeta, Verifier.setVc,
        (GetMutexMeta_sets s addr).2.2.1, gc.1]
    · intro a
      have e : ∀ (x : Verifier) (t : thread_t), (x.UnblockThread t).mutexClock a =
          x.mutexClock a := fun _ _ => rfl
      have e2 : ∀ (x : Verifier) (t : thread_t) (v : VectorClock),
          (x.setVc t v).mutexClock a = x.mutexClock a := fun _ _ _ => rfl
      rw [e, mutexClock_setMutexMeta, e2]
      by_cases ha : a = addr
      · subst ha; simp [gc.1]
      · simp [ha, gc.2.2 a]
    · simp [Verifier.mutexOwner, Verifier.UnblockThread, Verifier.setMutexMeta]

/-- The clock map and the released clock after `BeforePthreadMutexUnlock`. -/
theorem BeforePthreadMutexUnlock_vc (s s' : Verifier) (curr : thread_t) (addr : address_t)
    (h : s.BeforePthreadMutexUnlock curr addr = some s') :
    ∃ vc, s.thd_vc_map_ curr = some vc ∧
      s'.thd_vc_map_ = Function.update s.thd_vc_map_ curr (some (vc.Increment curr)) ∧
      s'.mutexClock addr = vc ∧ (∀ a, a ≠ addr → s'.mutexClock a = s.mutexClock a) ∧
      s'.mutexOwner addr = s.mutexOwner addr := by
  cases hv : s.thd_vc_map_ curr with
  | none => rw [BeforePthreadMutexUnlock_none s curr addr hv] at h; simp at h
  | some vc =>
    rw [BeforePthreadMutexUnlock_eq s curr addr vc hv] at h
    simp only [Option.some.injEq] at h
    subst h
    have gc := GetMutexMeta_clock s addr
    have e2 : ∀ (a : address_t) (x : Verifier) (t : thread_t) (v : VectorClock),
        (x.setVc t v).mutexClock a = x.mutexClock a := fun _ _ _ _ => rfl
    refine ⟨vc, rfl, ?_, ?_, ?_, ?_⟩
    · simp [Verifier.setMutexMeta, Verifier.setVc, (GetMutexMeta_sets s addr).2.2.1]
    · rw [e2, mutexClock_setMutexMeta]; simp
    · intro a ha
      rw [e2, mutexClock_setMutexMeta]
      simp [ha, gc.2.2 a]
    · simp [Verifier.mutexOwner, Verifier.setVc, Verifier.setMutexMeta, gc.2.1]

theorem AfterPthreadRwlockRdlock_vc (s s' : Verifier) (curr : thread_t) (addr : address_t)
    (h : s.AfterPthreadRwlockRdlock curr addr = some s') :
    ∃ vc new, s.thd_vc_map_ curr = some vc ∧ (∀ x, vc x ≤ new x) ∧
      s'.thd_vc_map_ = Function.update s.thd_vc_map_ curr (some new) ∧
      s'.mutex_meta_table_ = s.mutex_meta_table_ := by
  cases hv : s.thd_vc_map_ curr with
  | none => rw [AfterPthreadRwlockRdlock_none s curr addr hv] at h; simp at h
  | some vc =>
    rw [AfterPthreadRwlockRdlock_eq s curr addr vc hv] at h
    simp only [Option.some.injEq] at h
    subst h
    refine ⟨vc, vc.Join (s.GetRwlockMeta addr).2.vc, rfl, fun x => Join_le_left _ _ x, ?_, ?_⟩
    · simp [Verifier.UnblockThread, Verifier.setRwlockMeta, Verifier.setVc,
        (GetRwlockMeta_sets s addr).2.2.1]
    · simp [Verifier.UnblockThread, Verifier.setRwlockMeta, Verifier.setVc,
        (GetRwlockMeta_frame s addr).1]

theorem AfterPthreadRwlockWrlock_vc (s s' : Verifier) (curr : thread_t) (addr : address_t)
    (h : s.AfterPthreadRwlockWrlock curr addr = some s') :
    ∃ vc new, s.thd_vc_map_ curr = some vc ∧ (∀ x, vc x ≤ new x) ∧
      s'.thd_vc_map_ = Function.update s.thd_vc_map_ curr (some new) ∧
      s'.mutex_meta_table_ = s.mutex_meta_table_ := by
  cases hv : s.thd_vc_map_ curr with
  | none => rw [AfterPthreadRwlockWrlock_none s curr addr hv] at h; simp at h
  | some vc =>
    rw [AfterPthreadRwlockWrlock_eq s curr addr vc hv] at h
    simp only [Option.some.injEq] at h
    subst h
    refine ⟨vc, vc.Join ((s.UnblockThread curr).GetRwlockMeta addr).2.vc, rfl,
      fun x => Join_le_left _ _ x, ?_, ?_⟩
    · have e := (GetRwlockMeta_sets (s.UnblockThread curr) addr).2.2.1
      simp only [Verifier.setRwlockMeta, Verifier.setVc, e]
      rfl
    · have e := (GetRwlockMeta_frame (s.UnblockThread curr) addr).1
      simp only [Verifier.setRwlockMeta, Verifier.setVc, e]
      rfl
theorem WakeUpPostponeThreadSet_frame (s s' : Verifier) (pp_thds : Finset thread_t)
    (h : s.WakeUpPostponeThreadSet pp_thds = some s') :
    s'.thd_vc_map_ = s.thd_vc_map_ ∧ s'.mutex_meta_table_ = s.mutex_meta_table_ := by
  unfold Verifier.WakeUpPostponeThreadSet at h
  have f := wakeUpEach_frame _ s s' h
  exact ⟨f.1, f.2.1⟩

/-- No handler of a synchronisation or scheduling event lowers a clock component,
provided a `ThreadStart` names a thread without a clock. -/
theorem handle_clocksGrow (s s' : Verifier) (rnd : Finset thread_t → thread_t) (ev : VEvent)
    (hf : ev.startsFresh s = true) (h : s.handle rnd ev = some s') : clocksGrow s s' := by
  cases ev with
  | ThreadStart curr parent =>
    simp only [VEvent.startsFresh, Option.isNone_iff_eq_none] at hf
    obtain ⟨⟨new, hn⟩, -⟩ := ThreadStart_vc s s' curr parent h
    exact clocksGrow_update_new s s' curr new hf hn
  | ThreadExit curr => exact clocksGrow_of_eq s s' (ThreadExit_frame s s' rnd curr h).1
  | PostponeThread curr =>
    simp only [Verifier.handle, Option.map_eq_some', Prod.exists, exists_and_right,
      exists_eq_right] at h
    obtain ⟨b, hb⟩ := h
    exact clocksGrow_of_eq s s' (PostponeThread_frame s s' rnd curr b hb).1
  | WakeUpPostponeThread caller thd =>
    exact clocksGrow_of_eq s s' (WakeUpPostponeThread_frame s s' thd h).1
  | WakeUpPostponeThreadSet caller pp_thds =>
    exact clocksGrow_of_eq s s' (WakeUpPostponeThreadSet_frame s s' pp_thds h).1
  | BeforePthreadJoin curr child =>
    exact clocksGrow_of_eq s s' (BeforePthreadJoin_frame s s' rnd curr h).1
  | AfterPthreadJoin curr child =>
    obtain ⟨vc, cvc, h1, -, h3⟩ := AfterPthreadJoin_eq s s' curr child h
    subst h3
    exact clocksGrow_setVc s curr vc _ h1
      (fun x => le_trans (Join_le_left vc cvc x) (Increment_le _ curr x))
  | AfterPthreadCreate curr child =>
    obtain ⟨vc, h1, h3⟩ := AfterPthreadCreate_eq s s' curr h
    subst h3
    exact clocksGrow_setVc s curr vc _ h1 (fun x => Increment_le _ curr x)
  | BeforePthreadMutexLock curr addr =>
    exact clocksGrow_of_eq s s' (BeforePthreadMutexLock_frame s s' curr addr h).1
  | AfterPthreadMutexLock curr addr =>
    obtain ⟨vc, h1, h2, -⟩ := AfterPthreadMutexLock_vc s s' curr addr h
    exact clocksGrow_update s s' curr vc _ h1 (fun x => Join_le_left _ _ x) h2
  | BeforePthreadMutexUnlock curr addr =>
    obtain ⟨vc, h1, h2, -⟩ := BeforePthreadMutexUnlock_vc s s' curr addr h
    exact clocksGrow_update s s' curr vc _ h1 (fun x => Increment_le _ curr x) h2
  | AfterPthreadMutexUnlock curr addr =>
    exact clocksGrow_of_eq s s' (AfterPthreadMutexUnlock_frame s s' curr addr h).1
  | BeforePthreadMutexTryLock curr addr =>
    exact clocksGrow_of_eq s s' (BeforePthreadMutexLock_frame s s' curr addr h).1
  | AfterPthreadMutexTryLock curr addr ret_val =>
    simp only [Verifier.handle, Verifier.AfterPthreadMutexTryLock] at h
    split at h
    · obtain ⟨vc, h1, h2, -⟩ := AfterPthreadMutexLock_vc s s' curr addr h
      exact clocksGrow_update s s' curr vc _ h1 (fun x => Join_le_left _ _ x) h2
    · simp only [Option.some.injEq] at h
      subst h
      exact clocksGrow_of_eq s s rfl
  | BeforePthreadRwlockRdlock curr addr =>
    exact clocksGrow_of_eq s s' (BeforePthreadRwlockRdlock_frame s s' curr addr h).1
  | AfterPthreadRwlockRdlock curr addr =>
    obtain ⟨vc, new, h1, h2, h3, -⟩ := AfterPthreadRwlockRdlock_vc s s' curr addr h
    exact clocksGrow_update s s' curr vc new h1 h2 h3
  | BeforePthreadRwlockWrlock curr addr =>
    exact clocksGrow_of_eq s s' (BeforePthreadRwlockWrlock_frame s s' curr addr h).1
  | AfterPthreadRwlockWrlock curr addr =>
    obtain ⟨vc, new, h1, h2, h3, -⟩ := AfterPthreadRwlockWrlock_vc s s' curr addr h
    exact clocksGrow_update s s' curr vc new h1 h2 h3
  | BeforePthreadRwlockUnlock curr addr =>
    obtain ⟨vc, h1, h2, -⟩ := BeforePthreadRwlockUnlock_vc s s' curr addr h
    exact clocksGrow_update s s' curr vc _ h1 (fun x => Increment_le _ curr x) h2
  | AfterPthreadRwlockUnlock curr addr =>
    exact clocksGrow_of_eq s s' (AfterPthreadRwlockUnlock_frame s s' curr addr h).1
  | BeforePthreadRwlockTryRdlock curr addr =>
    exact clocksGrow_of_eq s s' (BeforePthreadRwlockRdlock_frame s s' curr addr h).1
  | AfterPthreadRwlockTryRdlock curr addr ret_val =>
    simp only [Verifier.handle, Verifier.AfterPthreadRwlockTryRdlock] at h
    split at h
    · obtain ⟨vc, new, h1, h2, h3, -⟩ := AfterPthreadRwlockRdlock_vc s s' curr addr h
      exact clocksGrow_update s s' curr vc new h1 h2 h3
    · simp only [Option.some.injEq] at h
      subst h
      exact clocksGrow_of_eq s s rfl
  | BeforePthreadRwlockTryWrlock curr addr =>
    exact clocksGrow_of_eq s s' (BeforePthreadRwlockWrlock_frame s s' curr addr h).1
  | AfterPthreadRwlockTryWrlock curr addr ret_val =>
    simp only [Verifier.handle, Verifier.AfterPthreadRwlockTryWrlock] at h
    split at h
    · obtain ⟨vc, new, h1, h2, h3, -⟩ := AfterPthreadRwlockWrlock_vc s s' curr addr h
      exact clocksGrow_update s s' curr vc new h1 h2 h3
    · simp only [Option.some.injEq] at h
      subst h
      exact clocksGrow_of_eq s s rfl

/-- The clock stored in a mutex meta is only rewritten by `BeforePthreadMutexUnlock` on
that mutex. -/
theorem handle_mutexClock (s s' : Verifier) (rnd : Finset thread_t → thread_t) (ev : VEvent)
    (a : address_t) (hne : ∀ c, ev ≠ VEvent.BeforePthreadMutexUnlock c a)
    (h : s.handle rnd ev = some s') : s'.mutexClock a = s.mutexClock a := by
  cases ev with
  | ThreadStart curr parent =>
    exact mutexClock_of_table s s' (ThreadStart_vc s s' curr parent h).2 a
  | ThreadExit curr => exact mutexClock_of_table s s' (ThreadExit_frame s s' rnd curr h).2 a
  | PostponeThread curr =>
    simp only [Verifier.handle, Option.map_eq_some', Prod.exists, exists_and_right,
      exists_eq_right] at h
    obtain ⟨b, hb⟩ := h
    exact mutexClock_of_table s s' (PostponeThread_frame s s' rnd curr b hb).2 a
  | WakeUpPostponeThread caller thd =>
    exact mutexClock_of_table s s' (WakeUpPostponeThread_frame s s' thd h).2.1 a
  | WakeUpPostponeThreadSet caller pp_thds =>
    exact mutexClock_of_table s s' (WakeUpPostponeThreadSet_frame s s' pp_thds h).2 a
  | BeforePthreadJoin curr child =>
    exact mutexClock_of_table s s' (BeforePthreadJoin_frame s s' rnd curr h).2 a
  | AfterPthreadJoin curr child =>
    obtain ⟨vc, cvc, -, -, h3⟩ := AfterPthreadJoin_eq s s' curr child h
    subst h3
    rfl
  | AfterPthreadCreate curr child =>
    obtain ⟨vc, -, h3⟩ := AfterPthreadCreate_eq s s' curr h
    subst h3
    rfl
  | BeforePthreadMutexLock curr addr =>
    exact (BeforePthreadMutexLock_frame s s' curr addr h).2 a
  | AfterPthreadMutexLock curr addr =>
    obtain ⟨vc, -, -, h3, -⟩ := AfterPthreadMutexLock_vc s s' curr addr h
    exact h3 a
  | BeforePthreadMutexUnlock curr addr =>
    obtain ⟨vc, -, -, -, h3, -⟩ := BeforePthreadMutexUnlock_vc s s' curr addr h
    apply h3 a
    intro ha
    exact hne curr (by rw [ha])
  | AfterPthreadMutexUnlock curr addr =>
    exact (AfterPthreadMutexUnlock_frame s s' curr addr h).2 a
  | BeforePthreadMutexTryLock curr addr =>
    exact (BeforePthreadMutexLock_frame s s' curr addr h).2 a
  | AfterPthreadMutexTryLock curr addr ret_val =>
    simp only [Verifier.handle, Verifier.AfterPthreadMutexTryLock] at h
    split at h
    · obtain ⟨vc, -, -, h3, -⟩ := AfterPthreadMutexLock_vc s s' curr addr h
      exact h3 a
    · simp only [Option.some.injEq] at h
      subst h
      rfl
  | BeforePthreadRwlockRdlock curr addr =>
    exact mutexClock_of_table s s' (BeforePthreadRwlockRdlock_frame s s' curr addr h).2 a
  | AfterPthreadRwlockRdlock curr addr =>
    obtain ⟨vc, new, -, -, -, h4⟩ := AfterPthreadRwlockRdlock_vc s s' curr addr h
    exact mutexClock_of_table s s' h4 a
  | BeforePthreadRwlockWrlock curr addr =>
    exact mutexClock_of_table s s' (BeforePthreadRwlockWrlock_frame s s' curr addr h).2 a
  | AfterPthreadRwlockWrlock curr addr =>
    obtain ⟨vc, new, -, -, -, h4⟩ := AfterPthreadRwlockWrlock_vc s s' curr addr h
    exact mutexClock_of_table s s' h4 a
  | BeforePthreadRwlockUnlock curr addr =>
    obtain ⟨vc, -, -, h3, -⟩ := BeforePthreadRwlockUnlock_vc s s' curr addr h
    exact mutexClock_of_table s s' h3 a
  | AfterPthreadRwlockUnlock curr addr =>
    exact mutexClock_of_table s s' (AfterPthreadRwlockUnlock_frame s s' curr addr h).2 a
  | BeforePthreadRwlockTryRdlock curr addr =>
    exact mutexClock_of_table s s' (BeforePthreadRwlockRdlock_frame s s' curr addr h).2 a
  | AfterPthreadRwlockTryRdlock curr addr ret_val =>
    simp only [Verifier.handle, Verifier.AfterPthreadRwlockTryRdlock] at h
    split at h
    · obtain ⟨vc, new, -, -, -, h4⟩ := AfterPthreadRwlockRdlock_vc s s' curr addr h
      exact mutexClock_of_table s s' h4 a
    · simp only [Option.some.injEq] at h
      subst h
      rfl
  | BeforePthreadRwlockTryWrlock curr addr =>
    exact mutexClock_of_table s s' (BeforePthreadRwlockWrlock_frame s s' curr addr h).2 a
  | AfterPthreadRwlockTryWrlock curr addr ret_val =>
    simp only [Verifier.handle, Verifier.AfterPthreadRwlockTryWrlock] at h
    split at h
    · obtain ⟨vc, new, -, -, -, h4⟩ := AfterPthreadRwlockWrlock_vc s s' curr addr h
      exact mutexClock_of_table s s' h4 a
    · simp only [Option.some.injEq] at h
      subst h
      rfl
theorem run_cons (s : Verifier) (rnd : Finset thread_t → thread_t) (ev : VEvent)
    (rest : List VEvent) (s' : Verifier) (h : s.run rnd (ev :: rest) = some s') :
    ∃ s1, s.handle rnd ev = some s1 ∧ s1.run rnd rest = some s' := by
  simp only [Verifier.run] at h
  cases hh : s.handle rnd ev with
  | none => simp [hh] at h
  | some s1 => exact ⟨s1, rfl, by simpa [hh] using h⟩

/-- Along a run whose `ThreadStart` events name fresh threads, no clock component
decreases. -/
theorem run_clocksGrow (rnd : Finset thread_t → thread_t) (evs : List VEvent) :
    ∀ s s' : Verifier, s.freshRun rnd evs = true → s.run rnd evs = some s' →
      clocksGrow s s' := by
  induction evs with
  | nil =>
    intro s s' _ h
    simp only [Verifier.run, Option.some.injEq] at h
    subst h
    exact clocksGrow_of_eq s s rfl
  | cons ev rest ih =>
    intro s s' hf h
    obtain ⟨s1, h1, h2⟩ := run_cons s rnd ev rest s' h
    simp only [Verifier.freshRun, h1, Bool.and_eq_true] at hf
    exact clocksGrow_trans s s1 s' (handle_clocksGrow s s1 rnd ev hf.1 h1) (ih s1 s' hf.2 h2)

/-- Along a run without `BeforePthreadMutexUnlock` on a mutex, the clock stored in its
meta stays the same. -/
theorem run_mutexClock (rnd : Finset thread_t → thread_t) (a : address_t)
    (evs : List VEvent) :
    ∀ s s' : Verifier, (∀ ev ∈ evs, ev.unlocks a = false) → s.run rnd evs = some s' →
      s'.mutexClock a = s.mutexClock a := by
  induction evs with
  | nil =>
    intro s s' _ h
    simp only [Verifier.run, Option.some.injEq] at h
    subst h
    rfl
  | cons ev rest ih =>
    intro s s' hu h
    obtain ⟨s1, h1, h2⟩ := run_cons s rnd ev rest s' h
    have hev : ∀ c, ev ≠ VEvent.BeforePthreadMutexUnlock c a := by
      intro c hc
      have := hu ev (List.mem_cons_self _ _)
      rw [hc] at this
      simp [VEvent.unlocks] at this
    rw [ih s1 s' (fun e he => hu e (List.mem_cons_of_mem _ he)) h2]
    exact handle_mutexClock s s1 rnd ev a hev h1

/-- C18: thread t1 with clock V handles `BeforePthreadMutexUnlock` on mutex m; after any
events that hold no other `BeforePthreadMutexUnlock` on m, thread t2 (with clock W by
then) handles `AfterPthreadMutexLock` on m. After the unlock the meta of m holds V and
the clock of t1 is V with the own component one higher and the others unchanged; the
lock handler returns, the clock of t2 is then the pointwise maximum of W and V, the
meta still holds V and t2 is the owner. -/
theorem C18_unlock_then_lock_transfers_clock (s s1 s2 : Verifier)
    (RandomThread : Finset thread_t → thread_t) (t1 t2 : thread_t) (m : address_t)
    (V W : VectorClock) (mid : List VEvent)
    (hV : s.thd_vc_map_ t1 = some V)
    (hunlock : s.handle RandomThread (VEvent.BeforePthreadMutexUnlock t1 m) = some s1)
    (hmid : ∀ ev ∈ mid, ev.unlocks m = false)
    (hrun : s1.run RandomThread mid = some s2)
    (hW : s2.thd_vc_map_ t2 = some W) :
    s1.mutexClock m = V ∧
    (∃ V1, s1.thd_vc_map_ t1 = some V1 ∧ V1.GetClock t1 = V.GetClock t1 + 1 ∧
      ∀ x, x ≠ t1 → V1.GetClock x = V.GetClock x) ∧
    ∃ s3, s2.handle RandomThread (VEvent.AfterPthreadMutexLock t2 m) = some s3 ∧
      s3.thd_vc_map_ t2 = some (fun x => max (W.GetClock x) (V.GetClock x)) ∧
      s3.mutexClock m = V ∧ s3.mutexOwner m = t2 := by
  obtain ⟨vc, h1, h2, h3, -, -⟩ := BeforePthreadMutexUnlock_vc s s1 t1 m hunlock
  rw [hV] at h1
  cases h1
  have hm2 : s2.mutexClock m = V := by
    rw [run_mutexClock RandomThread m mid s1 s2 hmid hrun]; exact h3
  refine ⟨h3, ⟨V.Increment t1, by rw [h2]; simp, Increment_self V t1,
    fun x hx => Increment_other V t1 x hx⟩, ?_⟩
  have hsome : ∃ s3, s2.AfterPthreadMutexLock t2 m = some s3 := by
    rw [AfterPthreadMutexLock_eq s2 t2 m W hW]
    exact ⟨_, rfl⟩
  obtain ⟨s3, hs3⟩ := hsome
  obtain ⟨vc2, g1, g2, g3, g4⟩ := AfterPthreadMutexLock_vc s2 s3 t2 m hs3
  rw [hW] at g1
  cases g1
  refine ⟨s3, hs3, ?_, ?_, g4⟩
  · rw [g2, hm2]
    simp only [Function.update_same]
    rfl
  · rw [g3 m]; exact hm2

/-- C19, the claim as stated fails: thread 1 starts and handles `AfterPthreadCreate`,
its own component is then 2; `AfterPthreadMutexLock` on a fresh mutex, its next
synchronisation event, leaves the component at 2. -/
theorem C19_counterexample :
    ∃ s1 s2 vc1 vc2,
      Verifier.init.run (fun _ => 0)
        [VEvent.ThreadStart 1 none, VEvent.AfterPthreadCreate 1 2] = some s1 ∧
      s1.handle (fun _ => 0) (VEvent.AfterPthreadMutexLock 1 9) = some s2 ∧
      s1.thd_vc_map_ 1 = some vc1 ∧ s2.thd_vc_map_ 1 = some vc2 ∧
      ¬ (vc1.GetClock 1 < vc2.GetClock 1) :=
  ⟨_, _, _, _, rfl, rfl, rfl, rfl, by decide⟩

/-- C19, amended: let thread t have the clock vc0 (for instance right after its previous
synchronisation event). After any run whose `ThreadStart` events name fresh threads,
a synchronisation event of t that is handled leaves t with a clock whose own component
is not smaller than in vc0, and strictly greater when the handler is one of
`AfterPthreadCreate`, `AfterPthreadJoin`, `BeforePthreadMutexUnlock`,
`BeforePthreadRwlockUnlock`; the lock-acquire handlers `AfterPthreadMutexLock`,
`AfterPthreadRwlockRdlock` and `AfterPthreadRwlockWrlock` only join. -/
theorem C19_own_component_grows_on_release_events (s0 s1 s2 : Verifier)
    (RandomThread : Finset thread_t → thread_t) (mid : List VEvent) (ev : VEvent)
    (vc0 : VectorClock)
    (h0 : s0.thd_vc_map_ ev.thread = some vc0)
    (hfresh : s0.freshRun RandomThread mid = true)
    (hrun : s0.run RandomThread mid = some s1)
    (hsync : ev.increments = true ∨ ev.joinsOnly = true)
    (hstep : s1.handle RandomThread ev = some s2) :
    ∃ vc2, s2.thd_vc_map_ ev.thread = some vc2 ∧
      vc0.GetClock ev.thread ≤ vc2.GetClock ev.thread ∧
      (ev.increments = true → vc0.GetClock ev.thread < vc2.GetClock ev.thread) := by
  obtain ⟨vc1, hvc1, hle1⟩ := run_clocksGrow RandomThread mid s0 s1 hfresh hrun _ _ h0
  have hfr : ev.startsFresh s1 = true := by
    cases ev <;> simp [VEvent.increments, VEvent.joinsOnly] at hsync <;> rfl
  obtain ⟨vc2, hvc2, hle2⟩ := handle_clocksGrow s1 s2 RandomThread ev hfr hstep _ _ hvc1
  refine ⟨vc2, hvc2, le_trans (hle1 _) (hle2 _), ?_⟩
  intro hinc
  have key : vc1 ev.thread < vc2 ev.thread := by
    cases ev <;> simp [VEvent.increments] at hinc
    case AfterPthreadJoin curr child =>
      obtain ⟨vc, cvc, e1, -, e3⟩ := AfterPthreadJoin_eq s1 s2 curr child hstep
      subst e3
      simp only [VEvent.thread] at hvc1 hvc2 ⊢
      rw [e1] at hvc1
      cases hvc1
      simp only [Verifier.UnblockThread, Verifier.setVc, Function.update_same,
        Option.some.injEq] at hvc2
      rw [← hvc2, Increment_self]
      exact Nat.lt_succ_of_le (Join_le_left _ _ _)
    case AfterPthreadCreate curr child =>
      obtain ⟨vc, e1, e3⟩ := AfterPthreadCreate_eq s1 s2 curr hstep
      subst e3
      simp only [VEvent.thread] at hvc1 hvc2 ⊢
      rw [e1] at hvc1
      cases hvc1
      simp only [Verifier.setVc, Function.update_same, Option.some.injEq] at hvc2
      rw [← hvc2, Increment_self]
      exact Nat.lt_succ_self _
    case BeforePthreadMutexUnlock curr addr =>
      obtain ⟨vc, e1, e2, -⟩ := BeforePthreadMutexUnlock_vc s1 s2 curr addr hstep
      simp only [VEvent.thread] at hvc1 hvc2 ⊢
      rw [e1] at hvc1
      cases hvc1
      rw [e2] at hvc2
      simp only [Function.update_same, Option.some.injEq] at hvc2
      rw [← hvc2, Increment_self]
      exact Nat.lt_succ_self _
    case BeforePthreadRwlockUnlock curr addr =>
      obtain ⟨vc, e1, e2, -⟩ := BeforePthreadRwlockUnlock_vc s1 s2 curr addr hstep
      simp only [VEvent.thread] at hvc1 hvc2 ⊢
      rw [e1] at hvc1
      cases hvc1
      rw [e2] at hvc2
      simp only [Function.update_same, Option.some.injEq] at hvc2
      rw [← hvc2, Increment_self]
      exact Nat.lt_succ_self _
  exact lt_of_le_of_lt (hle1 _) key
/-! ## `PostponeThread` -/

theorem PostponeThread_only_thread (s : Verifier) (rnd : Finset thread_t → thread_t)
    (t : thread_t) (h : s.avail_thd_set_.card = 1 ∧ s.pp_thd_set_ = ∅) :
    s.PostponeThread rnd t = some (s, false) := by
  unfold Verifier.PostponeThread
  rw [if_pos h]

theorem PostponeThread_others_available (s : Verifier) (rnd : Finset thread_t → thread_t)
    (t : thread_t) (h : ¬ (s.avail_thd_set_.card = 1 ∧ s.pp_thd_set_ = ∅))
    (hne : s.avail_thd_set_.erase t ≠ ∅) (hs : s.thd_smp_map_ t ≠ none) :
    s.PostponeThread rnd t =
      some ({ s with
        pp_thd_set_ := insert t s.pp_thd_set_
        avail_thd_set_ := s.avail_thd_set_.erase t }, true) := by
  unfold Verifier.PostponeThread
  rw [if_neg h]
  simp only [hne, if_false]
  cases hc : s.thd_smp_map_ t with
  | none => exact absurd hc hs
  | some c => rfl

theorem PostponeThread_wakes_chosen (s : Verifier) (rnd : Finset thread_t → thread_t)
    (t : thread_t) (c : Nat) (h : ¬ (s.avail_thd_set_.card = 1 ∧ s.pp_thd_set_ = ∅))
    (he : s.avail_thd_set_.erase t = ∅)
    (hw : s.thd_smp_map_ (rnd (insert t s.pp_thd_set_)) = some c)
    (hs : s.thd_smp_map_ t ≠ none) :
    s.PostponeThread rnd t =
      some ({ s with
        thd_smp_map_ :=
          Function.update s.thd_smp_map_ (rnd (insert t s.pp_thd_set_)) (some (c + 1))
        pp_thd_set_ := (insert t s.pp_thd_set_).erase (rnd (insert t s.pp_thd_set_))
        avail_thd_set_ := insert (rnd (insert t s.pp_thd_set_)) (s.avail_thd_set_.erase t) },
        true) := by
  unfold Verifier.PostponeThread
  rw [if_neg h]
  have hpp : insert t s.pp_thd_set_ ≠ ∅ := Finset.insert_ne_empty _ _
  simp only [he, if_true, Verifier.ChooseRandomThreadAfterAllUnavailable, hpp, if_false,
    Verifier.WakeUpPostponeThread]
  generalize rnd (insert t s.pp_thd_set_) = w at hw ⊢
  simp only [hw]
  by_cases hwt : t = w
  · subst hwt
    simp
  · cases hc : s.thd_smp_map_ t with
    | none => exact absurd hc hs
    | some c0 => simp [Function.update, hwt, hc]

/-- `VerifierState.PostponeThread` is `Verifier.PostponeThread` on the scheduling part
between the lock and the unlock of `internal_lock_`, followed by the unlock of
`verify_lock_`. -/
theorem VerifierState_PostponeThread_eq (s : VerifierState)
    (rnd : Finset thread_t → thread_t) (t : thread_t) :
    s.PostponeThread rnd t =
      match s.internal_lock_.Lock t with
      | none => none
      | some locked =>
        match s.toVerifier.PostponeThread rnd t with
        | none => none
        | some r =>
          some ({ s with
            toVerifier := r.1
            internal_lock_ := locked.Unlock t
            verify_lock_ := s.verify_lock_.Unlock t }, r.2) := by
  unfold VerifierState.PostponeThread Verifier.PostponeThread
  cases hl : s.internal_lock_.Lock t with
  | none => rfl
  | some locked =>
    by_cases h : s.avail_thd_set_.card = 1 ∧ s.pp_thd_set_ = ∅
    · simp [h]
    · by_cases he : s.avail_thd_set_.erase t = ∅
      · simp only [h, he, if_false, if_true]
        cases hch : Verifier.ChooseRandomThreadAfterAllUnavailable
            { thd_vc_map_ := s.thd_vc_map_, thd_smp_map_ := s.thd_smp_map_,
              avail_thd_set_ := ∅, pp_thd_set_ := insert t s.pp_thd_set_,
              blk_thd_set_ := s.blk_thd_set_, mutex_meta_table_ := s.mutex_meta_table_,
              rwlock_meta_table_ := s.rwlock_meta_table_ } rnd with
        | none => rfl
        | some v =>
          cases hsm : v.thd_smp_map_ t <;> simp [hsm]
      · cases hsm : s.thd_smp_map_ t <;> simp [h, he, hsm]
/-- C13, the code at a filtered address: with the threads 1 and 2 started and the region
0x1000..0x1008 registered, thread 1 writes (and reads) 4 bytes at 0x2000, outside every
region. `ChooseRandomThreadBeforeExecute` returns at once, but `ProcessReadOrWrite` runs:
a meta is created, it is put into the sets of statement 17 and of thread 1, thread 1
is postponed and waits, and `verify_lock_`, never acquired, is unlocked. -/
theorem C13_filtered_access_is_processed :
    (exSetup exTwoThreads).FilterAccess 8192 = true ∧
    (∃ s', (exSetup exTwoThreads).BeforeMemWrite (fun _ => 0) false [] 1 17 8192 4
        = some (s', true) ∧
      (s'.meta_table_ 8192).isSome = true ∧ s'.next_meta_id_ = 1 ∧
      s'.pstmt_metas_map_ = [(17, some {0})] ∧ s'.thd_metas_map_ = [(1, some {0})] ∧
      s'.avail_thd_set_ = {2} ∧ s'.pp_thd_set_ = {1} ∧ s'.verify_lock_.misuse = [1]) ∧
    (∃ s', (exSetup exTwoThreads).BeforeMemRead (fun _ => 0) false [] 1 17 8192 4
        = some (s', true) ∧
      (s'.meta_table_ 8192).isSome = true ∧ s'.next_meta_id_ = 1 ∧
      s'.pstmt_metas_map_ = [(17, some {0})] ∧ s'.thd_metas_map_ = [(1, some {0})] ∧
      s'.avail_thd_set_ = {2} ∧ s'.pp_thd_set_ = {1} ∧ s'.verify_lock_.misuse = [1]) :=
  ⟨rfl, ⟨_, rfl, rfl, rfl, by decide, by decide, by decide, by decide, rfl⟩,
    ⟨_, rfl, rfl, rfl, by decide, by decide, by decide, by decide, rfl⟩⟩

/-- C14, the code when the chooser first picks another thread: with the threads 1 and 2
available, thread 1 accesses the monitored address 0x1000. With the outcomes 2, 1 the
function returns with `verify_lock_` free; with the outcomes 2, 2, 1 it has moreover
unlocked `verify_lock_` once while not holding it. -/
theorem C14_retry_returns_without_verify_lock :
    (exSetup exTwoThreads).FilterAccess 4096 = false ∧
    ((exSetup exTwoThreads).ChooseRandomThreadBeforeExecute [1] 4096 1).map
      (fun s => s.verify_lock_) = some { holder := some 1, misuse := [] } ∧
    ((exSetup exTwoThreads).ChooseRandomThreadBeforeExecute [2, 1] 4096 1).map
      (fun s => s.verify_lock_) = some { holder := none, misuse := [] } ∧
    ((exSetup exTwoThreads).ChooseRandomThreadBeforeExecute [2, 2, 1] 4096 1).map
      (fun s => s.verify_lock_) = some { holder := none, misuse := [1] } := by
  refine ⟨rfl, ?_, ?_, ?_⟩ <;> decide
theorem Mutex_Lock_free (m : Mutex) (t : thread_t) (h : m.holder = none) :
    m.Lock t = some { m with holder := some t } := by
  unfold Mutex.Lock
  rw [h]

theorem Mutex_Unlock_holder (m : Mutex) (t : thread_t) : (m.Unlock t).holder = none := by
  unfold Mutex.Unlock
  split <;> rfl

/-- C12: `PostponeThread(t)` with `internal_lock_` free, a semaphore registered for t
and for every postponed thread, and a chooser that picks a member of the postponed
set, returns or reaches the wait with both locks free. If t is the only available
thread and nobody is postponed, the sets and semaphores are unchanged and t does not
wait. Otherwise t waits, having moved from the available to the postponed set; and if
that emptied the available set, one thread w of the postponed set (possibly t) has been
moved to the available set and its semaphore has been posted once. -/
theorem C12_PostponeThread_effect (s : VerifierState)
    (RandomThread : Finset thread_t → thread_t) (t : thread_t)
    (hlock : s.internal_lock_.holder = none)
    (hsmp : ∀ u ∈ insert t s.pp_thd_set_, s.thd_smp_map_ u ≠ none)
    (hrnd : RandomThread (insert t s.pp_thd_set_) ∈ insert t s.pp_thd_set_) :
    ∃ s' waits, s.PostponeThread RandomThread t = some (s', waits) ∧
      s'.internal_lock_.holder = none ∧ s'.verify_lock_.holder = none ∧
      (s.avail_thd_set_.card = 1 ∧ s.pp_thd_set_ = ∅ →
        waits = false ∧ s'.avail_thd_set_ = s.avail_thd_set_ ∧
        s'.pp_thd_set_ = s.pp_thd_set_ ∧ s'.thd_smp_map_ = s.thd_smp_map_) ∧
      (¬ (s.avail_thd_set_.card = 1 ∧ s.pp_thd_set_ = ∅) →
        waits = true ∧
        (s.avail_thd_set_.erase t ≠ ∅ →
          s'.avail_thd_set_ = s.avail_thd_set_.erase t ∧
          s'.pp_thd_set_ = insert t s.pp_thd_set_ ∧ s'.thd_smp_map_ = s.thd_smp_map_) ∧
        (s.avail_thd_set_.erase t = ∅ →
          ∃ w ∈ insert t s.pp_thd_set_, ∃ c, s.thd_smp_map_ w = some c ∧
            s'.avail_thd_set_ = {w} ∧ s'.pp_thd_set_ = (insert t s.pp_thd_set_).erase w ∧
            s'.thd_smp_map_ = Function.update s.thd_smp_map_ w (some (c + 1)))) := by
  have hst : s.thd_smp_map_ t ≠ none := hsmp t (Finset.mem_insert_self _ _)
  rw [VerifierState_PostponeThread_eq, Mutex_Lock_free _ _ hlock]
  by_cases h : s.avail_thd_set_.card = 1 ∧ s.pp_thd_set_ = ∅
  · rw [PostponeThread_only_thread s.toVerifier RandomThread t h]
    refine ⟨_, _, rfl, Mutex_Unlock_holder _ _, Mutex_Unlock_holder _ _, ?_, ?_⟩
    · intro _; exact ⟨rfl, rfl, rfl, rfl⟩
    · intro hn; exact absurd h hn
  · by_cases he : s.avail_thd_set_.erase t = ∅
    · cases hc : s.thd_smp_map_ (RandomThread (insert t s.pp_thd_set_)) with
      | none => exact absurd hc (hsmp _ hrnd)
      | some c =>
        rw [PostponeThread_wakes_chosen s.toVerifier RandomThread t c h he hc hst]
        refine ⟨_, _, rfl, Mutex_Unlock_holder _ _, Mutex_Unlock_holder _ _, ?_, ?_⟩
        · intro hy; exact absurd hy h
        · intro _
          refine ⟨rfl, fun hne => absurd he hne, fun _ => ?_⟩
          refine ⟨_, hrnd, c, hc, ?_, rfl, rfl⟩
          show insert _ (s.avail_thd_set_.erase t) = _
          rw [he]
          rfl
    · rw [PostponeThread_others_available s.toVerifier RandomThread t h he hst]
      refine ⟨_, _, rfl, Mutex_Unlock_holder _ _, Mutex_Unlock_holder _ _, ?_, ?_⟩
      · intro hy; exact absurd hy h
      · intro _
        exact ⟨rfl, fun _ => ⟨rfl, rfl, rfl⟩, fun hy => absurd hy he⟩
/-! ## `RacedMeta`: the kind rules -/

/-- A snapshot whose epoch is not above the clock entry is passed over by the history
scan. -/
theorem historyStep_ordered (type : RaceEventType) (inst : Inst) (curr u : thread_t)
    (clk : timestamp_t) (st : ScanState) (ss : MetaSnapshot) (hclk : ss.thd_clk ≤ clk) :
    historyStep type inst curr u clk st ss = st := by
  unfold historyStep
  have h : ¬ (ss.thd_clk > clk) := not_lt.mpr hclk
  simp [h]

theorem ite_Choose_nonempty (x s' : Verifier) (rnd : Finset thread_t → thread_t)
    (hcov : x.covered)
    (h : (if x.avail_thd_set_ = ∅ then x.ChooseRandomThreadAfterAllUnavailable rnd
      else some x) = some s')
    (t : thread_t) (hlive : s'.live t) (hblk : t ∉ s'.blk_thd_set_) :
    s'.avail_thd_set_ ≠ ∅ := by
  by_cases he : x.avail_thd_set_ = ∅
  · rw [if_pos he] at h
    unfold Verifier.ChooseRandomThreadAfterAllUnavailable at h
    by_cases hp : x.pp_thd_set_ = ∅
    · rw [if_pos hp] at h
      simp only [Option.some.injEq] at h
      subst h
      rcases hcov t hlive with h1 | h1 | h1
      · rw [he] at h1; simp at h1
      · rw [hp] at h1; simp at h1
      · exact absurd h1 hblk
    · rw [if_neg hp] at h
      have f := WakeUpPostponeThread_frame x s' _ h
      rw [f.2.2.2.2.1]
      exact Finset.insert_ne_empty _ _
  · rw [if_neg he] at h
    simp only [Option.some.injEq] at h
    subst h
    exact he

theorem covered_exit (s : Verifier) (curr : thread_t) (pp : Finset thread_t)
    (hpp : ∀ u, u ≠ curr → u ∈ s.pp_thd_set_ → u ∈ pp) (hcov : s.covered) :
    Verifier.covered
      { s with
        thd_smp_map_ := Function.update s.thd_smp_map_ curr none
        avail_thd_set_ := s.avail_thd_set_.erase curr
        pp_thd_set_ := pp } := by
  intro u hu
  simp only [Verifier.live] at hu
  have hne : u ≠ curr := by
    intro e
    rw [e] at hu
    simp at hu
  have hl : s.live u := by
    simpa [Verifier.live, Function.update, hne] using hu
  rcases hcov u hl with h1 | h1 | h1
  · exact Or.inl (Finset.mem_erase.mpr ⟨hne, h1⟩)
  · exact Or.inr (Or.inl (hpp u hne h1))
  · exact Or.inr (Or.inr h1)

theorem covered_BlockThread (s : Verifier) (curr : thread_t) (hcov : s.covered) :
    (s.BlockThread curr).covered := by
  intro u hu
  have hl : s.live u := hu
  by_cases hne : u = curr
  · exact Or.inr (Or.inr (by simp [Verifier.BlockThread, hne]))
  · rcases hcov u hl with h1 | h1 | h1
    · exact Or.inl (by simp [Verifier.BlockThread, hne, h1])
    · exact Or.inr (Or.inl h1)
    · exact Or.inr (Or.inr (by simp [Verifier.BlockThread, h1]))

theorem covered_postpone (s : Verifier) (curr : thread_t) (hcov : s.covered) :
    Verifier.covered
      { s with
        pp_thd_set_ := insert curr s.pp_thd_set_
        avail_thd_set_ := s.avail_thd_set_.erase curr } := by
  intro u hu
  have hl : s.live u := hu
  by_cases hne : u = curr
  · exact Or.inr (Or.inl (by simp [hne]))
  · rcases hcov u hl with h1 | h1 | h1
    · exact Or.inl (Finset.mem_erase.mpr ⟨hne, h1⟩)
    · exact Or.inr (Or.inl (Finset.mem_insert_of_mem h1))
    · exact Or.inr (Or.inr h1)

theorem ThreadExit_nonempty (s s' : Verifier) (rnd : Finset thread_t → thread_t)
    (curr : thread_t) (hcov : s.covered) (h : s.ThreadExit rnd curr = some s')
    (t : thread_t) (hlive : s'.live t) (hblk : t ∉ s'.blk_thd_set_) :
    s'.avail_thd_set_ ≠ ∅ := by
  unfold Verifier.ThreadExit at h
  by_cases hc : curr ∈ s.pp_thd_set_
  · simp only [hc, if_true] at h
    exact ite_Choose_nonempty
      { s with
        thd_smp_map_ := Function.update s.thd_smp_map_ curr none
        avail_thd_set_ := s.avail_thd_set_.erase curr
        pp_thd_set_ := s.pp_thd_set_.erase curr } s' rnd
      (covered_exit s curr _ (fun u hu hm => Finset.mem_erase.mpr ⟨hu, hm⟩) hcov) h t hlive hblk
  · simp only [hc, if_false] at h
    exact ite_Choose_nonempty
      { s with
        thd_smp_map_ := Function.update s.thd_smp_map_ curr none
        avail_thd_set_ := s.avail_thd_set_.erase curr } s' rnd
      (covered_exit s curr _ (fun u _ hm => hm) hcov) h t hlive hblk

theorem BeforePthreadJoin_nonempty (s s' : Verifier) (rnd : Finset thread_t → thread_t)
    (curr : thread_t) (hcov : s.covered) (h : s.BeforePthreadJoin rnd curr = some s')
    (t : thread_t) (hlive : s'.live t) (hblk : t ∉ s'.blk_thd_set_) :
    s'.avail_thd_set_ ≠ ∅ := by
  unfold Verifier.BeforePthreadJoin at h
  exact ite_Choose_nonempty (s.BlockThread curr) s' rnd (covered_BlockThread s curr hcov) h t
    hlive hblk

theorem PostponeThread_nonempty (s s' : Verifier) (rnd : Finset thread_t → thread_t)
    (curr : thread_t) (b : Bool) (hcov : s.covered)
    (h : s.PostponeThread rnd curr = some (s', b))
    (t : thread_t) (hlive : s'.live t) (hblk : t ∉ s'.blk_thd_set_) :
    s'.avail_thd_set_ ≠ ∅ := by
  unfold Verifier.PostponeThread at h
  split at h
  · next hc =>
    simp only [Option.some.injEq, Prod.mk.injEq] at h
    rw [← h.1]
    intro he
    rw [he] at hc
    simp at hc
  · simp only [] at h
    split at h
    · simp at h
    · next s1 hs1 =>
      split at h
      · simp at h
      · simp only [Option.some.injEq, Prod.mk.injEq] at h
        rw [← h.1] at hlive hblk ⊢
        exact ite_Choose_nonempty
          { s with
            pp_thd_set_ := insert curr s.pp_thd_set_
            avail_thd_set_ := s.avail_thd_set_.erase curr } s1 rnd
          (covered_postpone s curr hcov) hs1 t hlive hblk
theorem wakeUpEach_avail_mono (l : List thread_t) :
    ∀ s s' : Verifier, s.wakeUpEach l = some s' → s.avail_thd_set_ ⊆ s'.avail_thd_set_ := by
  induction l with
  | nil =>
    intro s s' h
    simp only [Verifier.wakeUpEach, Option.some.injEq] at h
    subst h
    exact Finset.Subset.refl _
  | cons a rest ih =>
    intro s s' h
    simp only [Verifier.wakeUpEach] at h
    cases hw : s.WakeUpPostponeThread a with
    | none => simp [hw] at h
    | some s1 =>
      simp only [hw] at h
      have f := WakeUpPostponeThread_frame s s1 a hw
      intro x hx
      exact ih s1 s' h (by rw [f.2.2.2.2.1]; exact Finset.mem_insert_of_mem hx)

theorem wakeUpEach_nonempty (l : List thread_t) (hl : l ≠ []) (s s' : Verifier)
    (h : s.wakeUpEach l = some s') : s'.avail_thd_set_ ≠ ∅ := by
  cases l with
  | nil => exact absurd rfl hl
  | cons a rest =>
    simp only [Verifier.wakeUpEach] at h
    cases hw : s.WakeUpPostponeThread a with
    | none => simp [hw] at h
    | some s1 =>
      simp only [hw] at h
      have f := WakeUpPostponeThread_frame s s1 a hw
      have ha : a ∈ s'.avail_thd_set_ :=
        wakeUpEach_avail_mono rest s1 s' h (by rw [f.2.2.2.2.1]; exact Finset.mem_insert_self _ _)
      intro he
      rw [he] at ha
      simp at ha

theorem BeforePthreadMutexLock_nonempty (s s' : Verifier) (curr : thread_t)
    (addr : address_t)
    (hown : (s.GetMutexMeta addr).2.owner ≠ 0 ∧ (s.GetMutexMeta addr).2.owner ∈ s.pp_thd_set_)
    (h : s.BeforePthreadMutexLock curr addr = some s') : s'.avail_thd_set_ ≠ ∅ := by
  unfold Verifier.BeforePthreadMutexLock at h
  simp only [] at h
  rw [if_pos hown.1] at h
  have hpp : ((s.GetMutexMeta addr).1.BlockThread curr).pp_thd_set_ = s.pp_thd_set_ :=
    (GetMutexMeta_sets s addr).2.1
  by_cases he : ((s.GetMutexMeta addr).1.BlockThread curr).avail_thd_set_ = ∅
  · rw [if_pos ⟨he, by rw [hpp]; exact hown.2⟩] at h
    have f := WakeUpPostponeThread_frame _ s' _ h
    rw [f.2.2.2.2.1]
    exact Finset.insert_ne_empty _ _
  · rw [if_neg (fun hc => he hc.1)] at h
    simp only [Option.some.injEq] at h
    rw [← h]
    exact he

theorem BeforePthreadRwlockRdlock_nonempty (s s' : Verifier) (curr : thread_t)
    (addr : address_t)
    (hown : (s.GetRwlockMeta addr).2.wrlock_owner ≠ 0 ∧
      (s.GetRwlockMeta addr).2.wrlock_owner ∈ s.pp_thd_set_)
    (h : s.BeforePthreadRwlockRdlock curr addr = some s') : s'.avail_thd_set_ ≠ ∅ := by
  unfold Verifier.BeforePthreadRwlockRdlock at h
  simp only [] at h
  rw [if_pos hown.1] at h
  have hpp : ((s.GetRwlockMeta addr).1.BlockThread curr).pp_thd_set_ = s.pp_thd_set_ :=
    (GetRwlockMeta_sets s addr).2.1
  by_cases he : ((s.GetRwlockMeta addr).1.BlockThread curr).avail_thd_set_ = ∅
  · rw [if_pos ⟨he, by rw [hpp]; exact hown.2⟩] at h
    have f := WakeUpPostponeThread_frame _ s' _ h
    rw [f.2.2.2.2.1]
    exact Finset.insert_ne_empty _ _
  · rw [if_neg (fun hc => he hc.1)] at h
    simp only [Option.some.injEq] at h
    rw [← h]
    exact he

theorem BeforePthreadRwlockWrlock_nonempty (s s' : Verifier) (curr : thread_t)
    (addr : address_t) (hown : (s.GetRwlockMeta addr).2.rdlock_thd_set ≠ ∅)
    (h : s.BeforePthreadRwlockWrlock curr addr = some s') : s'.avail_thd_set_ ≠ ∅ := by
  unfold Verifier.BeforePthreadRwlockWrlock at h
  simp only [] at h
  rw [if_pos hown] at h
  by_cases he : ((s.GetRwlockMeta addr).1.BlockThread curr).avail_thd_set_ = ∅
  · rw [if_pos he] at h
    refine wakeUpEach_nonempty _ ?_ _ s' h
    intro hnil
    apply hown
    apply Finset.eq_empty_of_forall_not_mem
    intro x hx
    have hm := (Finset.mem_sort (fun a b : thread_t => a ≤ b)).mpr hx
    rw [hnil] at hm
    simp at hm
  · rw [if_neg he] at h
    simp only [Option.some.injEq] at h
    rw [← h]
    exact he

/-- C11, the claim as stated fails: the threads 1 and 2 start, thread 2 is postponed,
thread 1 announces the lock of the free mutex 9. Afterwards thread 2 is live and not
blocked, and the available set is empty. -/
theorem C11_counterexample :
    ∃ s', Verifier.init.run (fun _ => 0)
        [VEvent.ThreadStart 1 none, VEvent.ThreadStart 2 (some 1), VEvent.PostponeThread 2,
         VEvent.BeforePthreadMutexLock 1 9] = some s' ∧
      s'.live 2 ∧ 2 ∉ s'.blk_thd_set_ ∧ s'.pp_thd_set_ = {2} ∧ s'.avail_thd_set_ = ∅ :=
  ⟨_, rfl, by decide, by decide, by decide, by decide⟩

/-- C11, amended: in a state where every live thread is available, postponed or
blocked, after `ThreadExit`, `BeforePthreadJoin` and `PostponeThread`, and after
`BeforePthreadMutexLock` on a mutex whose owner is postponed,
`BeforePthreadRwlockRdlock` on a rwlock whose writer owner is postponed and
`BeforePthreadRwlockWrlock` on a rwlock with reader owners, the available set is not
empty when some live thread is not blocked. The three lock handlers wake nobody else:
when the lock has no postponed owner the available set may be left empty. -/
theorem C11_avail_nonempty_after_waking_handlers (s s' : Verifier)
    (RandomThread : Finset thread_t → thread_t) (ev : VEvent) (t : thread_t)
    (hcov : s.covered) (hev : ev.wakesWhenEmpty s = true)
    (hstep : s.handle RandomThread ev = some s')
    (hlive : s'.live t) (hblk : t ∉ s'.blk_thd_set_) :
    s'.avail_thd_set_ ≠ ∅ := by
  cases ev <;> simp only [VEvent.wakesWhenEmpty, Bool.false_eq_true, decide_eq_true_eq] at hev
  case ThreadExit curr => exact ThreadExit_nonempty s s' RandomThread curr hcov hstep t hlive hblk
  case BeforePthreadJoin curr child =>
    exact BeforePthreadJoin_nonempty s s' RandomThread curr hcov hstep t hlive hblk
  case PostponeThread curr =>
    simp only [Verifier.handle, Option.map_eq_some', Prod.exists, exists_and_right,
      exists_eq_right] at hstep
    obtain ⟨b, hb⟩ := hstep
    exact PostponeThread_nonempty s s' RandomThread curr b hcov hb t hlive hblk
  case BeforePthreadMutexLock curr addr =>
    exact BeforePthreadMutexLock_nonempty s s' curr addr hev hstep
  case BeforePthreadRwlockRdlock curr addr =>
    exact BeforePthreadRwlockRdlock_nonempty s s' curr addr hev hstep
  case BeforePthreadRwlockWrlock curr addr =>
    exact BeforePthreadRwlockWrlock_nonempty s s' curr addr hev hstep
/-! ## What the memory path leaves unchanged -/

theorem memFrame_refl (s : VerifierState) : memFrame s s := ⟨rfl, rfl, rfl, rfl, rfl⟩

theorem memFrame_trans (a b c : VerifierState) (h1 : memFrame a b) (h2 : memFrame b c) :
    memFrame a c :=
  ⟨h2.1.trans h1.1, h2.2.1.trans h1.2.1, h2.2.2.1.trans h1.2.2.1,
    h2.2.2.2.1.trans h1.2.2.2.1, h2.2.2.2.2.trans h1.2.2.2.2⟩

theorem GetMeta_memFrame (s : VerifierState) (iaddr : address_t) :
    memFrame s (s.GetMeta iaddr).1 ∧
    (s.GetMeta iaddr).1.pstmt_metas_map_ = s.pstmt_metas_map_ ∧
    (s.GetMeta iaddr).1.thd_metas_map_ = s.thd_metas_map_ ∧
    (s.GetMeta iaddr).1.prace_db_ = s.prace_db_ ∧
    (s.GetMeta iaddr).1.printed = s.printed := by
  unfold VerifierState.GetMeta
  cases s.meta_table_ iaddr with
  | none => exact ⟨⟨rfl, rfl, rfl, rfl, rfl⟩, rfl, rfl, rfl, rfl⟩
  | some m => exact ⟨⟨rfl, rfl, rfl, rfl, rfl⟩, rfl, rfl, rfl, rfl⟩

theorem racedUnit_memFrame (s s' : VerifierState) (first second : PStmt) (inst : Inst)
    (curr : thread_t) (type : RaceEventType) (curr_vc : VectorClock) (flag flag' : Bool)
    (pp pp' : Finset thread_t) (iaddr : address_t)
    (h : s.racedUnit first second inst curr type curr_vc flag pp iaddr = some (s', flag', pp')) :
    memFrame s s' ∧ s'.prace_db_ = s.prace_db_ := by
  unfold VerifierState.racedUnit at h
  simp only [] at h
  split at h
  · simp at h
  · split at h
    · simp only [Option.some.injEq, Prod.mk.injEq] at h
      rw [← h.1]
      have g := GetMeta_memFrame s iaddr
      exact ⟨⟨g.1.1, g.1.2.1, g.1.2.2.1, g.1.2.2.2.1, g.1.2.2.2.2⟩, g.2.2.2.1⟩
    · simp at h

theorem racedUnits_memFrame (first second : PStmt) (inst : Inst) (curr : thread_t)
    (type : RaceEventType) (curr_vc : VectorClock) (l : List address_t) :
    ∀ (s s' : VerifierState) (flag flag' : Bool) (pp pp' : Finset thread_t),
      VerifierState.racedUnits first second inst curr type curr_vc s flag pp l =
        some (s', flag', pp') →
      memFrame s s' ∧ s'.prace_db_ = s.prace_db_ := by
  induction l with
  | nil =>
    intro s s' flag flag' pp pp' h
    simp only [VerifierState.racedUnits, Option.some.injEq, Prod.mk.injEq] at h
    rw [← h.1]
    exact ⟨memFrame_refl s, rfl⟩
  | cons a rest ih =>
    intro s s' flag flag' pp pp' h
    simp only [VerifierState.racedUnits] at h
    split at h
    · simp at h
    · next s1 f1 p1 h1 =>
      have g1 := racedUnit_memFrame s s1 first second inst curr type curr_vc flag f1 pp p1 a h1
      have g2 := ih s1 s' f1 flag' p1 pp' h
      exact ⟨memFrame_trans s s1 s' g1.1 g2.1, g2.2.trans g1.2⟩

theorem RacedMeta_memFrame (s s' : VerifierState) (first : PStmt)
    (start_addr end_addr : address_t) (second : PStmt) (inst : Inst) (curr : thread_t)
    (type : RaceEventType) (pp pp' : Finset thread_t)
    (h : s.RacedMeta first start_addr end_addr second inst curr type pp = some (s', pp')) :
    memFrame s s' := by
  unfold VerifierState.RacedMeta at h
  split at h
  · simp only [Option.some.injEq, Prod.mk.injEq] at h
    rw [← h.1]; exact memFrame_refl s
  · simp only [Option.some.injEq, Prod.mk.injEq] at h
    rw [← h.1]; exact memFrame_refl s
  · simp only [] at h
    split at h
    · simp at h
    · split at h
      · simp at h
      · split at h
        · simp at h
        · next s1 f1 p1 h1 =>
          have g := (racedUnits_memFrame first second inst curr type _ _ _ s1 _ f1 _ p1 h1).1
          split at h
          · simp only [Option.some.injEq, Prod.mk.injEq] at h
            rw [← h.1]
            exact ⟨g.1, g.2.1, g.2.2.1, g.2.2.2.1, g.2.2.2.2⟩
          · simp only [Option.some.injEq, Prod.mk.injEq] at h
            rw [← h.1]
            exact ⟨g.1, g.2.1, g.2.2.1, g.2.2.2.1, g.2.2.2.2⟩

theorem racedAll_memFrame (start_addr end_addr : address_t) (pstmt : PStmt) (inst : Inst)
    (curr : thread_t) (type : RaceEventType) (l : List PStmt) :
    ∀ (s s' : VerifierState) (pp pp' : Finset thread_t),
      VerifierState.racedAll start_addr end_addr pstmt inst curr type s pp l = some (s', pp') →
      memFrame s s' := by
  induction l with
  | nil =>
    intro s s' pp pp' h
    simp only [VerifierState.racedAll, Option.some.injEq, Prod.mk.injEq] at h
    rw [← h.1]
    exact memFrame_refl s
  | cons a rest ih =>
    intro s s' pp pp' h
    simp only [VerifierState.racedAll] at h
    split at h
    · simp at h
    · next s1 p1 h1 =>
      exact memFrame_trans s s1 s'
        (RacedMeta_memFrame s s1 a start_addr end_addr pstmt inst curr type pp p1 h1)
        (ih s1 s' p1 pp' h)

theorem recordUnits_memFrame (pstmt : PStmt) (inst : Inst) (curr : thread_t)
    (type : RaceEventType) (l : List address_t) :
    ∀ (s s' : VerifierState),
      VerifierState.recordUnits pstmt inst curr type s l = some s' → memFrame s s' := by
  induction l with
  | nil =>
    intro s s' h
    simp only [VerifierState.recordUnits, Option.some.injEq] at h
    rw [← h]
    exact memFrame_refl s
  | cons a rest ih =>
    intro s s' h
    simp only [VerifierState.recordUnits] at h
    split at h
    · simp at h
    · split at h
      · have g := GetMeta_memFrame s a
        have g2 := ih _ s' h
        exact ⟨g2.1.trans g.1.1, g2.2.1.trans g.1.2.1, g2.2.2.1.trans g.1.2.2.1,
          g2.2.2.2.1.trans g.1.2.2.2.1, g2.2.2.2.2.trans g.1.2.2.2.2⟩
      · simp at h
theorem VerifierState_PostponeThread_vc (s s' : VerifierState)
    (rnd : Finset thread_t → thread_t) (t : thread_t) (w : Bool)
    (h : s.PostponeThread rnd t = some (s', w)) :
    s'.thd_vc_map_ = s.thd_vc_map_ ∧ s'.printed = s.printed ∧ s'.prace_db_ = s.prace_db_ ∧
    s'.meta_table_ = s.meta_table_ := by
  rw [VerifierState_PostponeThread_eq] at h
  cases hl : s.internal_lock_.Lock t with
  | none => simp [hl] at h
  | some locked =>
    cases hp : s.toVerifier.PostponeThread rnd t with
    | none => simp [hl, hp] at h
    | some r =>
      simp only [hl, hp, Option.some.injEq, Prod.mk.injEq] at h
      rw [← h.1]
      exact ⟨(PostponeThread_frame s.toVerifier r.1 rnd t r.2 hp).1, rfl, rfl, rfl⟩

theorem HandleRace_vc (s s' : VerifierState) (rnd : Finset thread_t → thread_t)
    (coin : Bool) (pp_thds : Finset thread_t) (t : thread_t) (w : Bool)
    (h : s.HandleRace rnd coin pp_thds t = some (s', w)) :
    s'.thd_vc_map_ = s.thd_vc_map_ ∧ s'.printed = s.printed ∧ s'.prace_db_ = s.prace_db_ ∧
    s'.meta_table_ = s.meta_table_ := by
  unfold VerifierState.HandleRace at h
  split at h
  · split at h
    · simp at h
    · next v hv =>
      have f := WakeUpPostponeThreadSet_frame s.toVerifier v pp_thds hv
      have g := VerifierState_PostponeThread_vc _ s' rnd t w h
      exact ⟨g.1.trans f.1, g.2.1, g.2.2.1, g.2.2.2⟩
  · simp only [Option.some.injEq, Prod.mk.injEq] at h
    rw [← h.1]
    exact ⟨rfl, rfl, rfl, rfl⟩

/-- `ProcessReadOrWrite` leaves every clock as it is. -/
theorem ProcessReadOrWrite_vc (s s' : VerifierState) (rnd : Finset thread_t → thread_t)
    (coin : Bool) (t : thread_t) (inst : Inst) (addr : address_t) (size : Nat)
    (type : RaceEventType) (w : Bool)
    (h : s.ProcessReadOrWrite rnd coin t inst addr size type = some (s', w)) :
    s'.thd_vc_map_ = s.thd_vc_map_ := by
  unfold VerifierState.ProcessReadOrWrite at h
  simp only [] at h
  split at h
  · simp at h
  · split at h
    · split at h
      · simp at h
      · next s1 h1 =>
        have g := recordUnits_memFrame _ _ _ _ _ _ s1 h1
        have g2 := VerifierState_PostponeThread_vc s1 s' rnd t w h
        rw [g2.1, g.1]
    · split at h
      · simp at h
      · next s1 pp1 h1 =>
        have g := racedAll_memFrame _ _ _ _ _ _ _ _ s1 _ pp1 h1
        split at h
        · rw [(HandleRace_vc s1 s' rnd coin pp1 t w h).1, g.1]
        · unfold VerifierState.HandleNoRace at h
          rw [(VerifierState_PostponeThread_vc s1 s' rnd t w h).1, g.1]

theorem ChooseRandomThreadBeforeExecute_base (s s' : VerifierState)
    (outcomes : List thread_t) (addr : address_t) (t : thread_t)
    (h : s.ChooseRandomThreadBeforeExecute outcomes addr t = some s') :
    s'.toVerifier = s.toVerifier := by
  unfold VerifierState.ChooseRandomThreadBeforeExecute at h
  split at h
  · simp only [Option.some.injEq] at h
    rw [← h]
  · split at h
    · simp at h
    · split at h
      · split at h
        · simp at h
        · simp only [Option.some.injEq] at h
          rw [← h]
      · simp only [Option.some.injEq] at h
        rw [← h]

/-- No handler lowers a clock component, provided a `ThreadStart` names a thread
without a clock. -/
theorem step_clocksGrow (s s' : VerifierState) (rnd : Finset thread_t → thread_t)
    (ev : Event) (hf : ev.startsFresh s = true) (h : s.step rnd ev = some s') :
    clocksGrow s.toVerifier s'.toVerifier := by
  cases ev with
  | sync e =>
    simp only [VerifierState.step, VerifierState.sync] at h
    cases hh : s.toVerifier.handle rnd e with
    | none => simp [hh] at h
    | some v =>
      simp only [hh, Option.some.injEq] at h
      rw [← h]
      exact handle_clocksGrow s.toVerifier v rnd e hf hh
  | AllocAddrRegion addr size =>
    simp only [VerifierState.step, Option.some.injEq] at h
    rw [← h]
    exact clocksGrow_of_eq _ _ rfl
  | BeforeMemRead curr inst addr size outcomes coin =>
    simp only [VerifierState.step, Option.map_eq_some', Prod.exists, exists_and_right,
      exists_eq_right] at h
    obtain ⟨w, hw⟩ := h
    unfold VerifierState.BeforeMemRead at hw
    split at hw
    · simp at hw
    · next s1 h1 =>
      apply clocksGrow_of_eq
      rw [ProcessReadOrWrite_vc s1 s' rnd coin curr inst addr size _ w hw,
        ChooseRandomThreadBeforeExecute_base s s1 outcomes addr curr h1]
  | BeforeMemWrite curr inst addr size outcomes coin =>
    simp only [VerifierState.step, Option.map_eq_some', Prod.exists, exists_and_right,
      exists_eq_right] at h
    obtain ⟨w, hw⟩ := h
    unfold VerifierState.BeforeMemWrite at hw
    split at hw
    · simp at hw
    · next s1 h1 =>
      apply clocksGrow_of_eq
      rw [ProcessReadOrWrite_vc s1 s' rnd coin curr inst addr size _ w hw,
        ChooseRandomThreadBeforeExecute_base s s1 outcomes addr curr h1]

/-- C20: along every sequence of events of the verifier (thread, synchronisation and
scheduling handlers, region registrations, memory reads and writes) in which each
`ThreadStart` names a thread that has no clock yet, a thread that has a clock keeps
one, and no component of it decreases; in particular not its own component. -/
theorem C20_clock_components_never_decrease (RandomThread : Finset thread_t → thread_t)
    (evs : List Event) (s s' : VerifierState)
    (hfresh : s.freshRunAll RandomThread evs = true)
    (hrun : s.runAll RandomThread evs = some s')
    (t : thread_t) (vc : VectorClock) (hvc : s.thd_vc_map_ t = some vc) :
    ∃ vc', s'.thd_vc_map_ t = some vc' ∧ (∀ x, vc.GetClock x ≤ vc'.GetClock x) ∧
      vc.GetClock t ≤ vc'.GetClock t := by
  have key : ∀ (evs : List Event) (s s' : VerifierState),
      s.freshRunAll RandomThread evs = true → s.runAll RandomThread evs = some s' →
      clocksGrow s.toVerifier s'.toVerifier := by
    intro evs
    induction evs with
    | nil =>
      intro s s' _ h
      simp only [VerifierState.runAll, Option.some.injEq] at h
      rw [← h]
      exact clocksGrow_of_eq _ _ rfl
    | cons ev rest ih =>
      intro s s' hf h
      simp only [VerifierState.runAll] at h
      cases hs : s.step RandomThread ev with
      | none => simp [hs] at h
      | some s1 =>
        simp only [hs] at h
        simp only [VerifierState.freshRunAll, hs, Bool.and_eq_true] at hf
        exact clocksGrow_trans _ _ _ (step_clocksGrow s s1 RandomThread ev hf.1 hs)
          (ih s1 s' hf.2 h)
  obtain ⟨vc', h1, h2⟩ := key evs s s' hfresh hrun t vc hvc
  exact ⟨vc', h1, h2, h2 t⟩
/-! ## `RacedMeta` on a single unit with one postponed thread -/

theorem mapFind_mapEnsureSet_of_some (m : List (Nat × Option MetaSet)) (k j : Nat)
    (v : Option MetaSet) (h : mapFind m j = some v) :
    mapFind (mapEnsureSet m k) j = some v := by
  unfold mapEnsureSet
  cases hk : mapFind m k with
  | none =>
    have hne : k ≠ j := by
      intro e
      rw [e, h] at hk
      simp at hk
    simp only []
    rw [mapFind_mapSet_ne m k j _ hne]
    exact h
  | some _ => exact h

/-- The history scan passes over a vector whose snapshots all have an epoch not above
the clock entry. -/
theorem historyScan_all_ordered (type : RaceEventType) (inst : Inst) (curr u : thread_t)
    (clk : timestamp_t) (st : ScanState) (vec : List MetaSnapshot)
    (h : ∀ ss ∈ vec, ss.thd_clk ≤ clk) :
    historyScan type inst curr u clk st vec = st := by
  unfold historyScan
  induction vec with
  | nil => rfl
  | cons ss rest ih =>
    simp only [List.foldl_cons]
    rw [historyStep_ordered type inst curr u clk st ss (h ss (List.mem_cons_self _ _))]
    exact ih (fun x hx => h x (List.mem_cons_of_mem _ hx))

/-- C17, the claim as stated fails: after `exOrderedWrites` the write of thread 1 to the
unit at 0x1000 (epoch 1) is ordered before thread 2 by unlock and lock of mutex 9: the
clock of thread 2 holds 1 for thread 1. Thread 1 is postponed at a later access, so the
write of thread 2 to the unit, with instruction 25, is checked against that snapshot
without any clock comparison, and a write/write race is printed. -/
theorem C17_counterexample :
    ∃ s1 s2 vc2 m,
      (exSetup Verifier.init).runAll (fun _ => 0) exOrderedWrites = some s1 ∧
      s1.thd_vc_map_ 2 = some vc2 ∧ s1.meta_table_ 4096 = some m ∧
      m.meta_ss_map 1 =
        some [{ thd_clk := 1, type := RaceEventType.RACE_EVENT_WRITE, inst := 17 }] ∧
      1 ≤ vc2.GetClock 1 ∧ (1 : thread_t) ∈ s1.pp_thd_set_ ∧ s1.printed = [] ∧
      s1.step (fun _ => 0) (Event.BeforeMemWrite 2 25 4096 4 [2] true) = some s2 ∧
      s2.printed =
        [{ addr := 4096, race_type := RaceType.WRITETOWRITE, t1 := 1, i1 := 17, t2 := 2,
           i2 := 25 }] :=
  ⟨_, _, _, _, rfl, rfl, rfl, rfl, by decide, by decide, rfl, rfl, by decide⟩
/-- C17, amended: in `RacedMeta` the history scan passes over every snapshot whose epoch
is not above the entry of its thread in the clock of the current thread; so the loop
body for a thread u that is not postponed and whose snapshots on the meta all have such
an epoch changes nothing: no race is printed, no pair is added to the raced set, the
flag and `pp_thds` stay as they are. (The check of the last snapshot of a postponed
thread compares no clocks.) -/
theorem C17_history_scan_respects_clock (pp : Finset thread_t) (curr_vc : VectorClock)
    (type : RaceEventType) (inst : Inst) (curr u : thread_t) (st : ScanState)
    (metas : Option MetaSet) (vec : List MetaSnapshot)
    (hnot : u ∉ pp) (hvec : st.meta.meta_ss_map u = some vec)
    (hord : ∀ ss ∈ vec, ss.thd_clk ≤ curr_vc.GetClock u) :
    threadStep pp curr_vc type inst curr st (u, metas) = some st ∧
    (∀ (st0 : ScanState) (ss : MetaSnapshot) (clk : timestamp_t), ss.thd_clk ≤ clk →
      historyStep type inst curr u clk st0 ss = st0) ∧
    (∀ (st0 : ScanState) (l : List MetaSnapshot) (clk : timestamp_t),
      (∀ ss ∈ l, ss.thd_clk ≤ clk) → historyScan type inst curr u clk st0 l = st0) := by
  refine ⟨?_, fun st0 ss clk h => historyStep_ordered type inst curr u clk st0 ss h,
    fun st0 l clk h => historyScan_all_ordered type inst curr u clk st0 l h⟩
  unfold threadStep
  simp only [hnot, false_and, if_false, hvec]
  split
  · rw [historyScan_all_ordered type inst curr u _ st vec hord]
  · rfl

/-- C18 at a concrete input: with the threads 1 and 2 started, thread 1 unlocks mutex
9, the unlock returns, thread 2 announces its lock and then acquires the mutex. -/
theorem C18_unlock_then_lock_transfers_clock_witness :
    ∃ s1 s2 : Verifier,
      exTwoThreads.thd_vc_map_ 1 = some (VectorClock.empty.Increment 1) ∧
      exTwoThreads.handle (fun _ => 0) (VEvent.BeforePthreadMutexUnlock 1 9) = some s1 ∧
      (∀ ev ∈ [VEvent.AfterPthreadMutexUnlock 1 9, VEvent.BeforePthreadMutexLock 2 9],
        ev.unlocks 9 = false) ∧
      s1.run (fun _ => 0)
        [VEvent.AfterPthreadMutexUnlock 1 9, VEvent.BeforePthreadMutexLock 2 9] = some s2 ∧
      s2.thd_vc_map_ 2 =
        some ((VectorClock.empty.Increment 2).Join (VectorClock.empty.Increment 1)) ∧
      (s1.mutexClock 9 = VectorClock.empty.Increment 1 ∧
      (∃ V1, s1.thd_vc_map_ 1 = some V1 ∧
        V1.GetClock 1 = (VectorClock.empty.Increment 1).GetClock 1 + 1 ∧
        ∀ x, x ≠ 1 → V1.GetClock x = (VectorClock.empty.Increment 1).GetClock x) ∧
      ∃ s3, s2.handle (fun _ => 0) (VEvent.AfterPthreadMutexLock 2 9) = some s3 ∧
        s3.thd_vc_map_ 2 = some (fun x =>
          max (((VectorClock.empty.Increment 2).Join (VectorClock.empty.Increment 1)).GetClock x)
            ((VectorClock.empty.Increment 1).GetClock x)) ∧
        s3.mutexClock 9 = VectorClock.empty.Increment 1 ∧ s3.mutexOwner 9 = 2) :=
  ⟨_, _, rfl, rfl, by simp [VEvent.unlocks], rfl, rfl,
    C18_unlock_then_lock_transfers_clock exTwoThreads _ _ (fun _ => 0) 1 2 9
      (VectorClock.empty.Increment 1)
      ((VectorClock.empty.Increment 2).Join (VectorClock.empty.Increment 1))
      [VEvent.AfterPthreadMutexUnlock 1 9, VEvent.BeforePthreadMutexLock 2 9]
      rfl rfl (by simp [VEvent.unlocks]) rfl rfl⟩

/-- C19 at a concrete input: thread 1 has started, handles `AfterPthreadCreate` and
then `BeforePthreadMutexUnlock` on mutex 9. -/
theorem C19_own_component_grows_on_release_events_witness :
    ∃ s1 s2 : Verifier,
      exStarted.thd_vc_map_ (VEvent.BeforePthreadMutexUnlock 1 9).thread =
        some (VectorClock.empty.Increment 1) ∧
      exStarted.freshRun (fun _ => 0) [VEvent.AfterPthreadCreate 1 2] = true ∧
      exStarted.run (fun _ => 0) [VEvent.AfterPthreadCreate 1 2] = some s1 ∧
      ((VEvent.BeforePthreadMutexUnlock 1 9).increments = true ∨
        (VEvent.BeforePthreadMutexUnlock 1 9).joinsOnly = true) ∧
      s1.handle (fun _ => 0) (VEvent.BeforePthreadMutexUnlock 1 9) = some s2 ∧
      ∃ vc2, s2.thd_vc_map_ (VEvent.BeforePthreadMutexUnlock 1 9).thread = some vc2 ∧
        (VectorClock.empty.Increment 1).GetClock (VEvent.BeforePthreadMutexUnlock 1 9).thread ≤
          vc2.GetClock (VEvent.BeforePthreadMutexUnlock 1 9).thread ∧
        ((VEvent.BeforePthreadMutexUnlock 1 9).increments = true →
          (VectorClock.empty.Increment 1).GetClock (VEvent.BeforePthreadMutexUnlock 1 9).thread <
            vc2.GetClock (VEvent.BeforePthreadMutexUnlock 1 9).thread) :=
  ⟨_, _, rfl, rfl, rfl, Or.inl rfl, rfl,
    C19_own_component_grows_on_release_events exStarted _ _ (fun _ => 0)
      [VEvent.AfterPthreadCreate 1 2] (VEvent.BeforePthreadMutexUnlock 1 9)
      (VectorClock.empty.Increment 1) rfl rfl rfl (Or.inl rfl) rfl⟩
/-- C12 at a concrete input: thread 1 is postponed, thread 2 is the only available
thread and is postponed in turn; the chooser picks thread 1. -/
theorem C12_PostponeThread_effect_witness :
    (exSetup exOnePostponed).internal_lock_.holder = none ∧
    (∀ u ∈ insert 2 (exSetup exOnePostponed).pp_thd_set_,
      (exSetup exOnePostponed).thd_smp_map_ u ≠ none) ∧
    (fun _ => 1) (insert 2 (exSetup exOnePostponed).pp_thd_set_) ∈
      insert 2 (exSetup exOnePostponed).pp_thd_set_ ∧
    ∃ s' waits, (exSetup exOnePostponed).PostponeThread (fun _ => 1) 2 = some (s', waits) ∧
      s'.internal_lock_.holder = none ∧ s'.verify_lock_.holder = none ∧
      ((exSetup exOnePostponed).avail_thd_set_.card = 1 ∧
          (exSetup exOnePostponed).pp_thd_set_ = ∅ →
        waits = false ∧ s'.avail_thd_set_ = (exSetup exOnePostponed).avail_thd_set_ ∧
        s'.pp_thd_set_ = (exSetup exOnePostponed).pp_thd_set_ ∧
        s'.thd_smp_map_ = (exSetup exOnePostponed).thd_smp_map_) ∧
      (¬ ((exSetup exOnePostponed).avail_thd_set_.card = 1 ∧
          (exSetup exOnePostponed).pp_thd_set_ = ∅) →
        waits = true ∧
        ((exSetup exOnePostponed).avail_thd_set_.erase 2 ≠ ∅ →
          s'.avail_thd_set_ = (exSetup exOnePostponed).avail_thd_set_.erase 2 ∧
          s'.pp_thd_set_ = insert 2 (exSetup exOnePostponed).pp_thd_set_ ∧
          s'.thd_smp_map_ = (exSetup exOnePostponed).thd_smp_map_) ∧
        ((exSetup exOnePostponed).avail_thd_set_.erase 2 = ∅ →
          ∃ w ∈ insert 2 (exSetup exOnePostponed).pp_thd_set_, ∃ c,
            (exSetup exOnePostponed).thd_smp_map_ w = some c ∧
            s'.avail_thd_set_ = {w} ∧
            s'.pp_thd_set_ = (insert 2 (exSetup exOnePostponed).pp_thd_set_).erase w ∧
            s'.thd_smp_map_ =
              Function.update (exSetup exOnePostponed).thd_smp_map_ w (some (c + 1)))) :=
  ⟨rfl, by decide, by decide,
    C12_PostponeThread_effect (exSetup exOnePostponed) (fun _ => 1) 2 rfl (by decide)
      (by decide)⟩
/-- C11 at a concrete input: thread 1 is postponed, thread 2 is the only available
thread and is postponed in turn; the chooser picks thread 1, which becomes available. -/
theorem C11_avail_nonempty_after_waking_handlers_witness :
    exOnePostponed.covered ∧
    (VEvent.PostponeThread 2).wakesWhenEmpty exOnePostponed = true ∧
    (∃ s', exOnePostponed.handle (fun _ => 1) (VEvent.PostponeThread 2) = some s' ∧
      s'.live 1 ∧ 1 ∉ s'.blk_thd_set_ ∧ s'.avail_thd_set_ ≠ ∅) := by
  have hcov : exOnePostponed.covered := by
    intro u hu
    by_cases h2 : u = 2
    · subst h2; exact Or.inl (by decide)
    · by_cases h1 : u = 1
      · subst h1; exact Or.inr (Or.inl (by decide))
      · exact absurd (by simp [exOnePostponed, exTwoThreads, Function.update, h1, h2]) hu
  exact ⟨hcov, rfl, _, rfl, by decide, by decide,
    C11_avail_nonempty_after_waking_handlers exOnePostponed _ (fun _ => 1)
      (VEvent.PostponeThread 2) 1 hcov rfl rfl (by decide) (by decide)⟩
/-- C20 at a concrete input: thread 1 has started; it creates thread 2, thread 2 starts,
thread 1 writes the unit at 0x1000 and is postponed, thread 2 writes the same unit. -/
theorem C20_clock_components_never_decrease_witness :
    ∃ s' : VerifierState,
      (exSetup exStarted).freshRunAll (fun _ => 0)
        [Event.sync (VEvent.AfterPthreadCreate 1 2), Event.sync (VEvent.ThreadStart 2 (some 1)),
         Event.BeforeMemWrite 1 17 4096 4 [1] false,
         Event.BeforeMemWrite 2 25 4096 4 [2] true] = true ∧
      (exSetup exStarted).runAll (fun _ => 0)
        [Event.sync (VEvent.AfterPthreadCreate 1 2), Event.sync (VEvent.ThreadStart 2 (some 1)),
         Event.BeforeMemWrite 1 17 4096 4 [1] false,
         Event.BeforeMemWrite 2 25 4096 4 [2] true] = some s' ∧
      (exSetup exStarted).thd_vc_map_ 1 = some (VectorClock.empty.Increment 1) ∧
      ∃ vc', s'.thd_vc_map_ 1 = some vc' ∧
        (∀ x, (VectorClock.empty.Increment 1).GetClock x ≤ vc'.GetClock x) ∧
        (VectorClock.empty.Increment 1).GetClock 1 ≤ vc'.GetClock 1 :=
  ⟨_, rfl, rfl, rfl,
    C20_clock_components_never_decrease (fun _ => 0)
      [Event.sync (VEvent.AfterPthreadCreate 1 2), Event.sync (VEvent.ThreadStart 2 (some 1)),
       Event.BeforeMemWrite 1 17 4096 4 [1] false,
       Event.BeforeMemWrite 2 25 4096 4 [2] true]
      (exSetup exStarted) _ rfl rfl 1 (VectorClock.empty.Increment 1) rfl⟩

/-- C17 at a concrete input: thread 1 has written the unit at epoch 1 and is not
postponed; thread 2, whose clock holds 2 for thread 1, writes the unit. -/
theorem C17_history_scan_respects_clock_witness :
    (1 : thread_t) ∉ (∅ : Finset thread_t) ∧
    exScan.meta.meta_ss_map 1 =
      some [{ thd_clk := 1, type := RaceEventType.RACE_EVENT_WRITE, inst := 17 }] ∧
    (∀ ss ∈ [({ thd_clk := 1, type := RaceEventType.RACE_EVENT_WRITE, inst := 17 } :
        MetaSnapshot)], ss.thd_clk ≤ exChildClock.GetClock 1) ∧
    threadStep ∅ exChildClock RaceEventType.RACE_EVENT_WRITE 25 2 exScan (1, some {0}) =
      some exScan :=
  ⟨by decide, rfl, by decide,
    (C17_history_scan_respects_clock ∅ exChildClock RaceEventType.RACE_EVENT_WRITE 25 2 1
      exScan (some {0})
      [{ thd_clk := 1, type := RaceEventType.RACE_EVENT_WRITE, inst := 17 }]
      (by decide) rfl (by decide)).1⟩

/-! ## `ThreadStart` and the try-lock handlers -/

/-- The exact result of `ThreadStart` for a thread without a semaphore; `vc` is the
clock built for it. -/
theorem ThreadStart_fresh_eq (s : Verifier) (c : thread_t) (parent : Option thread_t)
    (hsmp : s.thd_smp_map_ c = none) :
    s.ThreadStart c parent =
      (match parent with
        | none => some (VectorClock.empty.Increment c)
        | some p =>
          match s.thd_vc_map_ p with
          | none => none
          | some pvc => some ((VectorClock.empty.Increment c).Join pvc)).map
        (fun vc =>
          { thd_vc_map_ := Function.update s.thd_vc_map_ c (some vc)
            thd_smp_map_ := Function.update s.thd_smp_map_ c (some 0)
            avail_thd_set_ := insert c s.avail_thd_set_
            pp_thd_set_ := s.pp_thd_set_
            blk_thd_set_ := s.blk_thd_set_
            mutex_meta_table_ := s.mutex_meta_table_
            rwlock_meta_table_ := s.rwlock_meta_table_ }) := by
  have hsm : ∀ v : VectorClock, (s.setVc c v).thd_smp_map_ c = none := fun _ => hsmp
  unfold Verifier.ThreadStart
  cases parent with
  | none =>
    simp only [hsm, Option.map_some']
    rfl
  | some p =>
    cases hp : s.thd_vc_map_ p with
    | none => simp only [hp, Option.map_none']
    | some pvc =>
      simp only [hp, hsm, Option.map_some']
      rfl

/-- C21: `ThreadStart(c, p)` for a thread c that has neither a clock nor a semaphore,
p being `INVALID` or a thread with a clock, returns. Afterwards the clock of c is 1 at c
and 0 elsewhere when p is `INVALID`; for a valid p it agrees with the clock of p
everywhere but at c, where it is the maximum of 1 and the entry of p; c is available,
its semaphore is registered with count 0, the postponed and blocked sets and the clock
of every other thread (p among them) are unchanged. -/
theorem C21_ThreadStart_effect (s : Verifier) (c : thread_t) (parent : Option thread_t)
    (hvc : s.thd_vc_map_ c = none) (hsmp : s.thd_smp_map_ c = none)
    (hparent : ∀ p, parent = some p → s.thd_vc_map_ p ≠ none) :
    ∃ s' vc, s.ThreadStart c parent = some s' ∧ s'.thd_vc_map_ c = some vc ∧
      (parent = none → vc.GetClock c = 1 ∧ ∀ x, x ≠ c → vc.GetClock x = 0) ∧
      (∀ p pvc, parent = some p → s.thd_vc_map_ p = some pvc →
        p ≠ c ∧ s'.thd_vc_map_ p = some pvc ∧
        (∀ x, x ≠ c → vc.GetClock x = pvc.GetClock x) ∧
        vc.GetClock c = max 1 (pvc.GetClock c)) ∧
      s'.avail_thd_set_ = insert c s.avail_thd_set_ ∧ s'.thd_smp_map_ c = some 0 ∧
      s'.pp_thd_set_ = s.pp_thd_set_ ∧ s'.blk_thd_set_ = s.blk_thd_set_ ∧
      ∀ t, t ≠ c → s'.thd_vc_map_ t = s.thd_vc_map_ t ∧
        s'.thd_smp_map_ t = s.thd_smp_map_ t := by
  rw [ThreadStart_fresh_eq s c parent hsmp]
  cases parent with
  | none =>
    refine ⟨_, VectorClock.empty.Increment c, rfl, ?_, ?_, ?_, ?_, ?_, ?_, ?_, ?_⟩
    · simp
    · intro _
      refine ⟨by simp [VectorClock.GetClock, VectorClock.Increment, VectorClock.empty], ?_⟩
      intro x hx
      simp [VectorClock.GetClock, VectorClock.Increment, VectorClock.empty, Function.update, hx]
    · intro p pvc hp
      cases hp
    · rfl
    · simp
    · rfl
    · rfl
    · intro t ht
      simp [Function.update, ht]
  | some p =>
    cases hp : s.thd_vc_map_ p with
    | none => exact absurd hp (hparent p rfl)
    | some pvc =>
      have hpc : p ≠ c := by
        intro e
        rw [e, hvc] at hp
        cases hp
      simp only [hp, Option.map_some']
      refine ⟨_, (VectorClock.empty.Increment c).Join pvc, rfl, ?_, ?_, ?_, ?_, ?_, ?_, ?_, ?_⟩
      · simp
      · intro h
        cases h
      · intro q qvc hq hqv
        cases hq
        rw [hp] at hqv
        cases hqv
        refine ⟨hpc, ?_, ?_, ?_⟩
        · simp [Function.update, hpc, hp]
        · intro x hx
          simp [VectorClock.GetClock, VectorClock.Join, VectorClock.Increment,
            VectorClock.empty, Function.update, hx]
        · simp [VectorClock.GetClock, VectorClock.Join, VectorClock.Increment,
            VectorClock.empty]
      · rfl
      · simp
      · rfl
      · rfl
      · intro t ht
        simp [Function.update, ht]

/-- C23: for a return value other than 0 the three After-try-lock handlers return the
state as it is (every clock, the mutex owner, the rwlock owners and the reference
count among it); for the return value 0 each is the corresponding After-lock handler. -/
theorem C23_try_lock_after_handlers (s : Verifier) (curr : thread_t) (addr : address_t)
    (ret_val : Int) :
    (ret_val ≠ 0 →
      s.AfterPthreadMutexTryLock curr addr ret_val = some s ∧
      s.AfterPthreadRwlockTryRdlock curr addr ret_val = some s ∧
      s.AfterPthreadRwlockTryWrlock curr addr ret_val = some s) ∧
    (ret_val = 0 →
      s.AfterPthreadMutexTryLock curr addr ret_val = s.AfterPthreadMutexLock curr addr ∧
      s.AfterPthreadRwlockTryRdlock curr addr ret_val = s.AfterPthreadRwlockRdlock curr addr ∧
      s.AfterPthreadRwlockTryWrlock curr addr ret_val =
        s.AfterPthreadRwlockWrlock curr addr) := by
  unfold Verifier.AfterPthreadMutexTryLock Verifier.AfterPthreadRwlockTryRdlock
    Verifier.AfterPthreadRwlockTryWrlock
  refine ⟨fun h => ?_, fun h => ?_⟩
  · simp only [h, if_false, and_self]
  · simp only [h, if_true, and_self]

/-- C29, the code at a failed try-lock: thread 1 is the only thread, it is available;
after `BeforePthreadMutexTryLock` and `AfterPthreadMutexTryLock` with the return value
16 (and likewise for the two rwlock pairs) it is blocked and not available. With the
return value 0 it is available again. -/
theorem C29_failed_try_lock_leaves_thread_blocked :
    (1 : thread_t) ∈ exStarted.avail_thd_set_ ∧
    (∃ s', exStarted.run (fun _ => 0)
        [VEvent.BeforePthreadMutexTryLock 1 9, VEvent.AfterPthreadMutexTryLock 1 9 16] =
        some s' ∧ s'.avail_thd_set_ = ∅ ∧ s'.blk_thd_set_ = {1}) ∧
    (∃ s', exStarted.run (fun _ => 0)
        [VEvent.BeforePthreadRwlockTryRdlock 1 9, VEvent.AfterPthreadRwlockTryRdlock 1 9 16] =
        some s' ∧ s'.avail_thd_set_ = ∅ ∧ s'.blk_thd_set_ = {1}) ∧
    (∃ s', exStarted.run (fun _ => 0)
        [VEvent.BeforePthreadRwlockTryWrlock 1 9, VEvent.AfterPthreadRwlockTryWrlock 1 9 16] =
        some s' ∧ s'.avail_thd_set_ = ∅ ∧ s'.blk_thd_set_ = {1}) ∧
    (∃ s', exStarted.run (fun _ => 0)
        [VEvent.BeforePthreadMutexTryLock 1 9, VEvent.AfterPthreadMutexTryLock 1 9 0] =
        some s' ∧ s'.avail_thd_set_ = {1} ∧ s'.blk_thd_set_ = ∅) :=
  ⟨by decide, ⟨_, rfl, by decide, by decide⟩, ⟨_, rfl, by decide, by decide⟩,
    ⟨_, rfl, by decide, by decide⟩, ⟨_, rfl, by decide, by decide⟩⟩

/-! ## The execution control -/

theorem loadStaticProfile_stuck (fuel : Nat) :
    ∀ (strm : IStream) (acc : List (List Char)), strm.failbit = true →
      strm.eofbit = false → loadStaticProfile fuel strm acc = none := by
  induction fuel with
  | zero => intro strm acc _ _; rfl
  | succ n ih =>
    intro strm acc hf he
    simp only [loadStaticProfile, he, Bool.false_eq_true, if_false, IStream.getline, hf,
      Bool.or_false, if_true, bufferStartsAlpha]
    exact ih _ acc rfl rfl

/-- C25, the code on a profile that cannot be read: when the file cannot be opened the
loop that loads `static_profile_` never ends, whatever number of iterations is allowed;
the same holds for a file that holds one line of 200 letters. A file of three short
lines is loaded as claimed. -/
theorem C25_unreadable_profile_loop_never_ends :
    (∀ fuel, loadStaticProfile fuel (IStream.openFile none) [] = none) ∧
    (∀ fuel, loadStaticProfile fuel (IStream.openFile (some (List.replicate 200 'a'))) [] =
      none) ∧
    loadStaticProfile 5
      (IStream.openFile (some ['a', 'b', Char.ofNat 10, '1', 'x', Char.ofNat 10, 'c',
        Char.ofNat 10])) [] = some [['a', 'b'], ['c']] := by
  refine ⟨?_, ?_, by decide⟩
  · intro fuel
    exact loadStaticProfile_stuck fuel _ [] rfl rfl
  · intro fuel
    cases fuel with
    | zero => rfl
    | succ n =>
      have hstep : ((IStream.openFile (some (List.replicate 200 'a'))).getline 200).1.failbit =
          true ∧
          ((IStream.openFile (some (List.replicate 200 'a'))).getline 200).1.eofbit =
            false := by decide
      simp only [loadStaticProfile]
      have he : (IStream.openFile (some (List.replicate 200 'a'))).eofbit = false := rfl
      simp only [he, Bool.false_eq_true, if_false]
      split
      · exact loadStaticProfile_stuck n _ _ hstep.1 hstep.2
      · exact loadStaticProfile_stuck n _ _ hstep.1 hstep.2
/-! ## History reduction keeps the races -/

/-- An entry that races is covered by every entry that is not older and whose lock set
is contained in its lock set. -/
theorem raceCond_dominated (c : timestamp_t) (M : LockSet) (p q : EpochLockSetPair)
    (hp : raceCond c M p = true) (he : p.1 ≤ q.1) (hl : q.2 ⊆ p.2) :
    raceCond c M q = true := by
  rw [raceCond_eq] at hp ⊢
  simp only [decide_eq_true_eq] at hp ⊢
  refine ⟨lt_of_lt_of_le hp.1 he, ?_⟩
  apply Finset.eq_empty_of_forall_not_mem
  intro x hx
  have hx2 : x ∈ p.2 ∩ M := by
    rw [Finset.mem_inter] at hx ⊢
    exact ⟨hl hx.1, hx.2⟩
  rw [hp.2] at hx2
  simp at hx2

theorem any_skipCond_true (e : timestamp_t) (L : LockSet) (v : EpochLockSetPairVector)
    (h : v.any (skipCond e L) = true) : ∃ p ∈ v, p.1 = e ∧ p.2 ⊆ L := by
  rw [List.any_eq_true] at h
  obtain ⟨p, hp, hc⟩ := h
  exact ⟨p, hp, (skipCond_iff e L p).mp hc⟩

/-- An old entry survives the erase loop or is covered by the new entry. -/
theorem filter_erase_or_dominated (e : timestamp_t) (L : LockSet)
    (v : EpochLockSetPairVector) (p : EpochLockSetPair) (hp : p ∈ v) :
    p ∈ v.filter (fun x => !eraseCond e L x) ∨ (p.1 ≤ e ∧ L ⊆ p.2) := by
  by_cases h : eraseCond e L p = true
  · right
    rw [eraseCond_eq] at h
    simpa using h
  · left
    rw [List.mem_filter]
    exact ⟨hp, by simpa using h⟩

/-- C27: `update_on_write` and `update_on_read` of thread u with the epoch e never lose
a race. For every view c and lock set M of a later access of another thread: if the
new access would race, an entry kept in the histories of u races (a writer entry for a
write, a reader or writer entry for a read); every old writer entry that races is kept
or covered by a kept writer entry that races; every old reader entry that races is kept
or covered by a kept reader or writer entry that races (the later access checked
against reader entries is a write, which is checked against both histories);
`update_on_read` keeps every writer entry. -/
theorem C27_history_reduction_keeps_races (self : MultiLockHb) (e : timestamp_t)
    (u : thread_t) (L : LockSet) (meta : MlMeta) (c : timestamp_t) (M : LockSet) :
    ((raceCond c M (e, L) = true →
        ∃ q ∈ historyOf (self.update_on_write e u L meta).writer_elspvec_map u,
          raceCond c M q = true) ∧
      (∀ p ∈ historyOf meta.writer_elspvec_map u, raceCond c M p = true →
        ∃ q ∈ historyOf (self.update_on_write e u L meta).writer_elspvec_map u,
          raceCond c M q = true) ∧
      (∀ p ∈ historyOf meta.reader_elspvec_map u, raceCond c M p = true →
        ∃ q ∈ historyOf (self.update_on_write e u L meta).reader_elspvec_map u ++
            historyOf (self.update_on_write e u L meta).writer_elspvec_map u,
          raceCond c M q = true)) ∧
    ((raceCond c M (e, (self.update_on_read e u L meta).1) = true →
        ∃ q ∈ historyOf (self.update_on_read e u L meta).2.reader_elspvec_map u ++
            historyOf (self.update_on_read e u L meta).2.writer_elspvec_map u,
          raceCond c M q = true) ∧
      (∀ p ∈ historyOf meta.writer_elspvec_map u,
        p ∈ historyOf (self.update_on_read e u L meta).2.writer_elspvec_map u) ∧
      (∀ p ∈ historyOf meta.reader_elspvec_map u, raceCond c M p = true →
        ∃ q ∈ historyOf (self.update_on_read e u L meta).2.reader_elspvec_map u,
          raceCond c M q = true)) := by
  refine ⟨?_, ?_⟩
  · rw [update_on_write_writer, update_on_write_reader]
    by_cases hs : (historyOf meta.writer_elspvec_map u).any (skipCond e L) = true
    · have hif : ¬ (u = u ∧ (historyOf meta.writer_elspvec_map u).any (skipCond e L) = false) := by
        rw [hs]; simp
      rw [if_neg hif, if_neg hif]
      refine ⟨?_, ?_, ?_⟩
      · intro hr
        obtain ⟨p, hp, hpe, hpl⟩ := any_skipCond_true e L _ hs
        exact ⟨p, hp, raceCond_dominated c M (e, L) p hr (le_of_eq hpe.symm) hpl⟩
      · intro p hp hr
        exact ⟨p, hp, hr⟩
      · intro p hp hr
        exact ⟨p, List.mem_append_left _ hp, hr⟩
    · have hs2 : (historyOf meta.writer_elspvec_map u).any (skipCond e L) = false := by
        simpa using hs
      rw [if_pos ⟨rfl, hs2⟩, if_pos ⟨rfl, hs2⟩]
      have hnew : ((e, L) : EpochLockSetPair) ∈
          (historyOf meta.writer_elspvec_map u).filter (fun x => !eraseCond e L x) ++
            [(e, L)] := List.mem_append_right _ (List.mem_singleton_self _)
      refine ⟨?_, ?_, ?_⟩
      · intro hr
        exact ⟨(e, L), hnew, hr⟩
      · intro p hp hr
        rcases filter_erase_or_dominated e L _ p hp with h | h
        · exact ⟨p, List.mem_append_left _ h, hr⟩
        · exact ⟨(e, L), hnew, raceCond_dominated c M p (e, L) hr h.1 h.2⟩
      · intro p hp hr
        rcases filter_erase_or_dominated e L _ p hp with h | h
        · exact ⟨p, List.mem_append_left _ h, hr⟩
        · exact ⟨(e, L), List.mem_append_right _ hnew,
            raceCond_dominated c M p (e, L) hr h.1 h.2⟩
  · rw [update_on_read_writer, update_on_read_reader, update_on_read_lockset]
    generalize L ∪ locksetOf self.curr_reader_lockset_table_ u = L1
    by_cases hs : readSkipped meta e u L1 = true
    · have hif : ¬ (u = u ∧ readSkipped meta e u L1 = false) := by
        rw [hs]; simp
      rw [if_neg hif]
      refine ⟨?_, fun p hp => hp, fun p hp hr => ⟨p, hp, hr⟩⟩
      intro hr
      unfold readSkipped at hs
      rw [Bool.or_eq_true] at hs
      rcases hs with hs | hs
      · obtain ⟨p, hp, hpe, hpl⟩ := any_skipCond_true e L1 _ hs
        exact ⟨p, List.mem_append_left _ hp,
          raceCond_dominated c M (e, L1) p hr (le_of_eq hpe.symm) hpl⟩
      · obtain ⟨p, hp, hpe, hpl⟩ := any_skipCond_true e L1 _ hs
        exact ⟨p, List.mem_append_right _ hp,
          raceCond_dominated c M (e, L1) p hr (le_of_eq hpe.symm) hpl⟩
    · have hs2 : readSkipped meta e u L1 = false := by simpa using hs
      rw [if_pos ⟨rfl, hs2⟩]
      have hnew : ((e, L1) : EpochLockSetPair) ∈
          (historyOf meta.reader_elspvec_map u).filter (fun x => !eraseCond e L1 x) ++
            [(e, L1)] := List.mem_append_right _ (List.mem_singleton_self _)
      refine ⟨fun hr => ⟨(e, L1), List.mem_append_left _ hnew, hr⟩, fun p hp => hp, ?_⟩
      intro p hp hr
      rcases filter_erase_or_dominated e L1 _ p hp with h | h
      · exact ⟨p, List.mem_append_left _ h, hr⟩
      · exact ⟨(e, L1), hnew, raceCond_dominated c M p (e, L1) hr h.1 h.2⟩
/-! ## The locks on the paths of ProcessReadOrWrite -/

/-- `PostponeThread` entered with `internal_lock_` free leaves it as it was and calls
`VerifyUnlock` once. -/
theorem VerifierState_PostponeThread_locks (s s' : VerifierState)
    (rnd : Finset thread_t → thread_t) (t : thread_t) (w : Bool)
    (hi : s.internal_lock_.holder = none)
    (h : s.PostponeThread rnd t = some (s', w)) :
    s'.internal_lock_ = s.internal_lock_ ∧ s'.verify_lock_ = s.verify_lock_.Unlock t := by
  rw [VerifierState_PostponeThread_eq, Mutex_Lock_free _ t hi] at h
  simp only [] at h
  cases hp : s.toVerifier.PostponeThread rnd t with
  | none => simp [hp] at h
  | some r =>
    simp only [hp, Option.some.injEq, Prod.mk.injEq] at h
    rw [← h.1]
    refine ⟨?_, rfl⟩
    show Mutex.Unlock _ t = s.internal_lock_
    unfold Mutex.Unlock
    simp only [if_true]
    cases hm : s.internal_lock_ with
    | mk holder misuse =>
      rw [hm] at hi
      simp only at hi
      simp [hi]

theorem HandleRace_locks (s s' : VerifierState) (rnd : Finset thread_t → thread_t)
    (coin : Bool) (pp_thds : Finset thread_t) (t : thread_t) (w : Bool)
    (hi : s.internal_lock_.holder = none)
    (h : s.HandleRace rnd coin pp_thds t = some (s', w)) :
    s'.internal_lock_ = s.internal_lock_ ∧ s'.verify_lock_ = s.verify_lock_.Unlock t := by
  unfold VerifierState.HandleRace at h
  split at h
  · split at h
    · simp at h
    · next v hv =>
      exact VerifierState_PostponeThread_locks { s with toVerifier := v } s' rnd t w hi h
  · simp only [Option.some.injEq, Prod.mk.injEq] at h
    rw [← h.1]
    exact ⟨rfl, rfl⟩

/-- The locks after `ProcessReadOrWrite` entered with `internal_lock_` free. -/
theorem ProcessReadOrWrite_locks (s s' : VerifierState) (rnd : Finset thread_t → thread_t)
    (coin : Bool) (t : thread_t) (inst : Inst) (addr : address_t) (size : Nat)
    (type : RaceEventType) (w : Bool)
    (hi : s.internal_lock_.holder = none)
    (h : s.ProcessReadOrWrite rnd coin t inst addr size type = some (s', w)) :
    s'.internal_lock_ = s.internal_lock_ ∧ s'.verify_lock_ = s.verify_lock_.Unlock t := by
  unfold VerifierState.ProcessReadOrWrite at h
  simp only [] at h
  split at h
  · simp at h
  · split at h
    · split at h
      · simp at h
      · next s1 h1 =>
        have g := recordUnits_memFrame _ _ _ _ _ _ s1 h1
        have hi1 : s1.internal_lock_.holder = none := by rw [g.2.2.2.1]; exact hi
        have g2 := VerifierState_PostponeThread_locks s1 s' rnd t w hi1 h
        rw [g2.1, g2.2, g.2.2.2.1, g.2.2.2.2]
        exact ⟨rfl, rfl⟩
    · split at h
      · simp at h
      · next s1 pp1 h1 =>
        have g := racedAll_memFrame _ _ _ _ _ _ _ _ s1 _ pp1 h1
        have hi1 : s1.internal_lock_.holder = none := by rw [g.2.2.2.1]; exact hi
        split at h
        · have g2 := HandleRace_locks s1 s' rnd coin pp1 t w hi1 h
          rw [g2.1, g2.2, g.2.2.2.1, g.2.2.2.2]
          exact ⟨rfl, rfl⟩
        · unfold VerifierState.HandleNoRace at h
          have g2 := VerifierState_PostponeThread_locks s1 s' rnd t w hi1 h
          rw [g2.1, g2.2, g.2.2.2.1, g.2.2.2.2]
          exact ⟨rfl, rfl⟩

/-- C26: `ProcessReadOrWrite` entered by thread t with `verify_lock_` held by t and
`internal_lock_` free: on every path to the point where t returns or starts to wait on
its semaphore, `verify_lock_` has been released exactly once (it is free and no unlock
by a thread that does not hold it has been made) and `internal_lock_` is free, with no
such unlock either. -/
theorem C26_ProcessReadOrWrite_releases_the_locks (s s' : VerifierState)
    (rnd : Finset thread_t → thread_t) (coin : Bool) (t : thread_t) (inst : Inst)
    (addr : address_t) (size : Nat) (type : RaceEventType) (w : Bool)
    (hv : s.verify_lock_.holder = some t)
    (hi : s.internal_lock_.holder = none)
    (h : s.ProcessReadOrWrite rnd coin t inst addr size type = some (s', w)) :
    s'.verify_lock_ = { holder := none, misuse := s.verify_lock_.misuse } ∧
    s'.internal_lock_ = { holder := none, misuse := s.internal_lock_.misuse } := by
  have g := ProcessReadOrWrite_locks s s' rnd coin t inst addr size type w hi h
  rw [g.1, g.2]
  constructor
  · unfold Mutex.Unlock
    rw [if_pos hv]
  · cases hm : s.internal_lock_ with
    | mk holder misuse =>
      rw [hm] at hi
      simp only at hi
      simp [hi]

/-! ## The reference count and the clocks of a rwlock -/

theorem rwlockMeta_setRwlockMeta (s : Verifier) (addr : address_t) (m : RwlockMeta) :
    (s.setRwlockMeta addr m).rwlockMeta addr = m := by
  simp [Verifier.rwlockMeta, Verifier.GetRwlockMeta, Verifier.setRwlockMeta]

theorem rwlockMeta_of_table (s s' : Verifier) (addr : address_t)
    (h : s'.rwlock_meta_table_ = s.rwlock_meta_table_) :
    s'.rwlockMeta addr = s.rwlockMeta addr := by
  unfold Verifier.rwlockMeta Verifier.GetRwlockMeta
  rw [h]
  cases s.rwlock_meta_table_ addr <;> rfl

theorem GetRwlockMeta_vc (s : Verifier) (addr : address_t) :
    (s.GetRwlockMeta addr).1.thd_vc_map_ = s.thd_vc_map_ := (GetRwlockMeta_sets s addr).2.2.1

/-- The exact effect of `BeforePthreadRwlockUnlock` on the clocks and on the meta. -/
theorem BeforePthreadRwlockUnlock_meta (s : Verifier) (t : thread_t) (rw : address_t)
    (V : VectorClock) (h : s.thd_vc_map_ t = some V) :
    ∃ s', s.BeforePthreadRwlockUnlock t rw = some s' ∧
      s'.thd_vc_map_ = Function.update s.thd_vc_map_ t (some (V.Increment t)) ∧
      (s'.rwlockMeta rw).ref = (s.rwlockMeta rw).ref - 1 ∧
      ((s.rwlockMeta rw).ref - 1 ≠ 0 →
        (s'.rwlockMeta rw).vc = (s.rwlockMeta rw).vc ∧
        (s'.rwlockMeta rw).wait_vc = (s.rwlockMeta rw).wait_vc.Join V) ∧
      ((s.rwlockMeta rw).ref - 1 = 0 →
        (s'.rwlockMeta rw).vc = (s.rwlockMeta rw).wait_vc.Join V ∧
        (s'.rwlockMeta rw).wait_vc = VectorClock.empty) := by
  unfold Verifier.BeforePthreadRwlockUnlock
  simp only [GetRwlockMeta_vc, h]
  refine ⟨_, rfl, ?_, ?_⟩
  · simp [Verifier.setVc, Verifier.setRwlockMeta, GetRwlockMeta_vc]
  · have e : ∀ (x : Verifier) (vc : VectorClock), (x.setVc t vc).rwlockMeta rw = x.rwlockMeta rw :=
      fun x vc => rwlockMeta_of_table x _ rw rfl
    rw [e, rwlockMeta_setRwlockMeta]
    by_cases h0 : (s.rwlockMeta rw).ref - 1 = 0
    · have h0' : (s.GetRwlockMeta rw).2.ref - 1 = 0 := h0
      rw [if_pos h0']
      exact ⟨rfl, fun hn => absurd h0 hn, fun _ => ⟨rfl, rfl⟩⟩
    · have h0' : ¬ (s.GetRwlockMeta rw).2.ref - 1 = 0 := h0
      rw [if_neg h0']
      exact ⟨rfl, fun _ => ⟨rfl, rfl⟩, fun hn => absurd hn h0⟩

/-- The exact effect of an acquisition (`AfterPthreadRwlockRdlock` or
`AfterPthreadRwlockWrlock`) on the reference count and the clocks. -/
theorem acquireEvent_meta (s : Verifier) (rnd : Finset thread_t → thread_t) (rw : address_t)
    (a : thread_t × Bool) (V : VectorClock) (h : s.thd_vc_map_ a.1 = some V) :
    ∃ s', s.handle rnd (acquireEvent rw a) = some s' ∧
      (s'.rwlockMeta rw).ref = (s.rwlockMeta rw).ref + 1 ∧
      (s'.rwlockMeta rw).vc = (s.rwlockMeta rw).vc ∧
      (s'.rwlockMeta rw).wait_vc = (s.rwlockMeta rw).wait_vc ∧
      s'.thd_vc_map_ = Function.update s.thd_vc_map_ a.1 (some (V.Join (s.rwlockMeta rw).vc)) := by
  obtain ⟨t, w⟩ := a
  cases w with
  | true =>
    simp only [acquireEvent, if_true, Verifier.handle]
    rw [AfterPthreadRwlockWrlock_eq s t rw V h]
    have hU : ((s.UnblockThread t).GetRwlockMeta rw).2 = s.rwlockMeta rw :=
      rwlockMeta_of_table s (s.UnblockThread t) rw rfl
    refine ⟨_, rfl, ?_, ?_, ?_, ?_⟩
    · rw [rwlockMeta_setRwlockMeta, hU]
    · rw [rwlockMeta_setRwlockMeta, hU]
    · rw [rwlockMeta_setRwlockMeta, hU]
    · simp only [Verifier.setRwlockMeta, Verifier.setVc, GetRwlockMeta_vc, hU]
      rfl
  | false =>
    simp only [acquireEvent, Bool.false_eq_true, if_false, Verifier.handle]
    rw [AfterPthreadRwlockRdlock_eq s t rw V h]
    refine ⟨_, rfl, ?_, ?_, ?_, ?_⟩
    · rw [rwlockMeta_setRwlockMeta]; rfl
    · rw [rwlockMeta_setRwlockMeta]; rfl
    · rw [rwlockMeta_setRwlockMeta]; rfl
    · simp only [Verifier.setRwlockMeta, Verifier.setVc, Verifier.UnblockThread,
        GetRwlockMeta_vc]
      rfl

/-- A sequence of acquisitions by threads that have clocks: each adds one to the
reference count; the clocks of the rwlock stay. -/
theorem acquire_run (rnd : Finset thread_t → thread_t) (rw : address_t)
    (acq : List (thread_t × Bool)) :
    ∀ s : Verifier, (∀ a ∈ acq, s.thd_vc_map_ a.1 ≠ none) →
      ∃ s1, s.run rnd (acq.map (acquireEvent rw)) = some s1 ∧
        (s1.rwlockMeta rw).ref = (s.rwlockMeta rw).ref + acq.length ∧
        (s1.rwlockMeta rw).vc = (s.rwlockMeta rw).vc ∧
        (s1.rwlockMeta rw).wait_vc = (s.rwlockMeta rw).wait_vc ∧
        (∀ t, s.thd_vc_map_ t ≠ none → s1.thd_vc_map_ t ≠ none) := by
  induction acq with
  | nil =>
    intro s _
    exact ⟨s, rfl, by simp, rfl, rfl, fun _ h => h⟩
  | cons a rest ih =>
    intro s hvc
    cases hV : s.thd_vc_map_ a.1 with
    | none => exact absurd hV (hvc a (List.mem_cons_self _ _))
    | some V =>
      obtain ⟨s', h1, h2, h3, h4, h5⟩ := acquireEvent_meta s rnd rw a V hV
      have keep : ∀ t, s.thd_vc_map_ t ≠ none → s'.thd_vc_map_ t ≠ none := by
        intro t ht
        rw [h5]
        by_cases e : t = a.1
        · rw [e]; simp
        · rw [Function.update_noteq e]; exact ht
      obtain ⟨s1, g1, g2, g3, g4, g5⟩ :=
        ih s' (fun b hb => keep b.1 (hvc b (List.mem_cons_of_mem _ hb)))
      refine ⟨s1, ?_, ?_, g3.trans h3, g4.trans h4, fun t ht => g5 t (keep t ht)⟩
      · simp only [List.map_cons, Verifier.run, h1]
        exact g1
      · rw [g2, h2, List.length_cons]
        push_cast
        ring

theorem joinClocks_congr (s s' : Verifier) (start : VectorClock) (thds : List thread_t)
    (h : ∀ t ∈ thds, s'.thd_vc_map_ t = s.thd_vc_map_ t) :
    s'.joinClocks start thds = s.joinClocks start thds := by
  unfold Verifier.joinClocks
  apply List.foldl_ext
  intro acc t ht
  unfold Verifier.clockOf
  rw [h t ht]

/-- A sequence of unlocks by distinct threads that have clocks, not longer than the
reference count: each subtracts one from the count and increments the own component of
the thread; while the count stays positive the released clock stays and the clocks of
the threads are joined into `wait_vc`; the unlock that brings the count to 0 moves the
join to the released clock and clears `wait_vc`. -/
theorem unlock_run (rnd : Finset thread_t → thread_t) (rw : address_t) (us : List thread_t) :
    ∀ s : Verifier, us.Nodup → (∀ t ∈ us, s.thd_vc_map_ t ≠ none) →
      (us.length : Int) ≤ (s.rwlockMeta rw).ref →
      ∃ s2, s.run rnd (us.map (fun t => VEvent.BeforePthreadRwlockUnlock t rw)) = some s2 ∧
        (s2.rwlockMeta rw).ref = (s.rwlockMeta rw).ref - us.length ∧
        (∀ t ∈ us, ∃ V, s.thd_vc_map_ t = some V ∧ s2.thd_vc_map_ t = some (V.Increment t)) ∧
        (∀ t, t ∉ us → s2.thd_vc_map_ t = s.thd_vc_map_ t) ∧
        ((us.length : Int) < (s.rwlockMeta rw).ref →
          (s2.rwlockMeta rw).vc = (s.rwlockMeta rw).vc ∧
          (s2.rwlockMeta rw).wait_vc = s.joinClocks (s.rwlockMeta rw).wait_vc us) ∧
        (us ≠ [] → (us.length : Int) = (s.rwlockMeta rw).ref →
          (s2.rwlockMeta rw).vc = s.joinClocks (s.rwlockMeta rw).wait_vc us ∧
          (s2.rwlockMeta rw).wait_vc = VectorClock.empty) := by
  induction us with
  | nil =>
    intro s _ _ _
    exact ⟨s, rfl, by simp, fun t ht => absurd ht (List.not_mem_nil t), fun _ _ => rfl,
      fun _ => ⟨rfl, rfl⟩, fun h => absurd rfl h⟩
  | cons t rest ih =>
    intro s hnd hvc hlen
    rw [List.nodup_cons] at hnd
    rw [List.length_cons] at hlen
    push_cast at hlen
    cases hV : s.thd_vc_map_ t with
    | none => exact absurd hV (hvc t (List.mem_cons_self _ _))
    | some V =>
      obtain ⟨s1, h1, h2, h3, h4, h5⟩ := BeforePthreadRwlockUnlock_meta s t rw V hV
      have other : ∀ u, u ≠ t → s1.thd_vc_map_ u = s.thd_vc_map_ u := by
        intro u hu
        rw [h2, Function.update_noteq hu]
      have hrest : ∀ u ∈ rest, u ≠ t := fun u hu e => hnd.1 (e ▸ hu)
      have hlen1 : (rest.length : Int) ≤ (s1.rwlockMeta rw).ref := by rw [h3]; omega
      obtain ⟨s2, g1, g2, g3, g4, g5, g6⟩ := ih s1 hnd.2
        (fun u hu => by rw [other u (hrest u hu)]; exact hvc u (List.mem_cons_of_mem _ hu)) hlen1
      have hjoin : ∀ W, s1.joinClocks W rest = s.joinClocks W rest :=
        fun W => joinClocks_congr s s1 W rest (fun u hu => other u (hrest u hu))
      have hcons : s.joinClocks (s.rwlockMeta rw).wait_vc (t :: rest) =
          s.joinClocks ((s.rwlockMeta rw).wait_vc.Join V) rest := by
        simp only [Verifier.joinClocks, List.foldl_cons, Verifier.clockOf, hV, Option.getD_some]
      refine ⟨s2, ?_, ?_, ?_, ?_, ?_, ?_⟩
      · simp only [List.map_cons, Verifier.run, Verifier.handle, h1]
        exact g1
      · rw [g2, h3, List.length_cons]
        push_cast
        ring
      · intro u hu
        rw [List.mem_cons] at hu
        rcases hu with hu | hu
        · subst hu
          refine ⟨V, hV, ?_⟩
          rw [g4 u hnd.1, h2, Function.update_same]
        · obtain ⟨W, hW1, hW2⟩ := g3 u hu
          rw [other u (hrest u hu)] at hW1
          exact ⟨W, hW1, hW2⟩
      · intro u hu
        rw [List.mem_cons, not_or] at hu
        rw [g4 u hu.2, other u hu.1]
      · intro hlt
        rw [List.length_cons] at hlt
        push_cast at hlt
        have hne : (s.rwlockMeta rw).ref - 1 ≠ 0 := by omega
        have hlt1 : (rest.length : Int) < (s1.rwlockMeta rw).ref := by rw [h3]; omega
        obtain ⟨a1, a2⟩ := g5 hlt1
        obtain ⟨b1, b2⟩ := h4 hne
        rw [a1, a2, b1, b2, hjoin, hcons]
        exact ⟨rfl, rfl⟩
      · intro _ heq
        rw [List.length_cons] at heq
        push_cast at heq
        by_cases h0 : (s.rwlockMeta rw).ref - 1 = 0
        · have hr : rest = [] := by
            apply List.eq_nil_of_length_eq_zero
            omega
          subst hr
          simp only [List.map_nil, Verifier.run, Option.some.injEq] at g1
          subst g1
          obtain ⟨b1, b2⟩ := h5 h0
          rw [b1, b2, hcons]
          exact ⟨rfl, rfl⟩
        · have hne : rest ≠ [] := by
            intro hr
            subst hr
            simp only [List.length_nil] at heq
            omega
          have heq1 : (rest.length : Int) = (s1.rwlockMeta rw).ref := by rw [h3]; omega
          obtain ⟨a1, a2⟩ := g6 hne heq1
          obtain ⟨b1, b2⟩ := h4 h0
          rw [a1, a2, b2, hjoin, hcons]
          exact ⟨rfl, rfl⟩

/-- C22: the rwlock rw is fully released (`ref` 0, `wait_vc` empty); k ≥ 1 threads that
have clocks acquire it, each by `AfterPthreadRwlockRdlock` or `AfterPthreadRwlockWrlock`
(`acq`), and then release it in the order `us`. The acquisitions return and bring `ref`
to k. The first i unlocks (`BeforePthreadRwlockUnlock`) return for every i ≤ k; after
them `ref` is k - i, the i threads have incremented their own components and no other
clock has changed (so each thread unlocks with the clock it has after the acquisitions).
While i < k the released clock `vc` is unchanged and `wait_vc` is the join of the clocks
of the i threads; after the last unlock `vc` is the join of the clocks of the k threads
and `wait_vc` is empty. -/
theorem C22_rwlock_release_cycle (s : Verifier) (rnd : Finset thread_t → thread_t)
    (rw : address_t) (acq : List (thread_t × Bool)) (us : List thread_t)
    (hk : acq ≠ []) (hnd : us.Nodup) (hperm : us.Perm (acq.map Prod.fst))
    (hvc : ∀ a ∈ acq, s.thd_vc_map_ a.1 ≠ none)
    (href : (s.rwlockMeta rw).ref = 0)
    (hwait : (s.rwlockMeta rw).wait_vc = VectorClock.empty) :
    ∃ s1, s.run rnd (acq.map (acquireEvent rw)) = some s1 ∧
      (s1.rwlockMeta rw).ref = acq.length ∧
      ∀ i, i ≤ us.length →
        ∃ s2, s1.run rnd ((us.take i).map (fun t => VEvent.BeforePthreadRwlockUnlock t rw)) =
            some s2 ∧
          (s2.rwlockMeta rw).ref = (acq.length : Int) - i ∧
          (∀ t ∈ us.take i, ∃ V, s1.thd_vc_map_ t = some V ∧
            s2.thd_vc_map_ t = some (V.Increment t)) ∧
          (∀ t, t ∉ us.take i → s2.thd_vc_map_ t = s1.thd_vc_map_ t) ∧
          (i < us.length →
            (s2.rwlockMeta rw).vc = (s1.rwlockMeta rw).vc ∧
            (s2.rwlockMeta rw).wait_vc = s1.joinClocks VectorClock.empty (us.take i)) ∧
          (i = us.length →
            (s2.rwlockMeta rw).vc = s1.joinClocks VectorClock.empty us ∧
            (s2.rwlockMeta rw).wait_vc = VectorClock.empty) := by
  obtain ⟨s1, h1, h2, _, h4, h5⟩ := acquire_run rnd rw acq s hvc
  have hlen : us.length = acq.length := by
    rw [hperm.length_eq, List.length_map]
  have hpos : 0 < acq.length := List.length_pos.mpr hk
  rw [href, zero_add] at h2
  rw [hwait] at h4
  refine ⟨s1, h1, h2, ?_⟩
  intro i hi
  have hvc1 : ∀ t ∈ us.take i, s1.thd_vc_map_ t ≠ none := by
    intro t ht
    have hm : t ∈ acq.map Prod.fst := hperm.subset (List.mem_of_mem_take ht)
    rw [List.mem_map] at hm
    obtain ⟨a, ha, rfl⟩ := hm
    exact h5 a.1 (hvc a ha)
  have hli : (us.take i).length = i := by
    rw [List.length_take]; omega
  have hle : (((us.take i).length : Nat) : Int) ≤ (s1.rwlockMeta rw).ref := by
    rw [hli, h2]; omega
  obtain ⟨s2, g1, g2, g3, g4, g5, g6⟩ :=
    unlock_run rnd rw (us.take i) s1 (List.Nodup.sublist (List.take_sublist i us) hnd) hvc1 hle
  rw [hli, h2] at g2 g5 g6
  rw [h4] at g5 g6
  refine ⟨s2, g1, g2, g3, g4, ?_, ?_⟩
  · intro hlt
    exact g5 (by omega)
  · intro heq
    have htake : us.take i = us := by
      rw [heq]; exact List.take_length us
    have hne : us.take i ≠ [] := by
      rw [htake]
      intro hn
      rw [hn] at hlen
      simp only [List.length_nil] at hlen
      omega
    have h6 := g6 hne (by omega)
    rw [htake] at h6
    exact h6

/-! ## No clock knows more about a thread than the thread itself -/

theorem rwlockMeta_GetRwlockMeta (s : Verifier) (addr a : address_t) :
    (s.GetRwlockMeta addr).1.rwlockMeta a = s.rwlockMeta a := by
  unfold Verifier.rwlockMeta Verifier.GetRwlockMeta
  cases h : s.rwlock_meta_table_ addr with
  | none =>
    by_cases ha : a = addr
    · subst ha; simp [h]
    · simp only [Function.update_noteq ha]
      cases s.rwlock_meta_table_ a <;> rfl
  | some m => rfl

theorem rwlockMeta_setRwlockMeta_ne (s : Verifier) (addr a : address_t) (m : RwlockMeta)
    (ha : a ≠ addr) : (s.setRwlockMeta addr m).rwlockMeta a = s.rwlockMeta a := by
  unfold Verifier.rwlockMeta Verifier.GetRwlockMeta Verifier.setRwlockMeta
  simp only [Function.update_noteq ha]
  cases s.rwlock_meta_table_ a <;> rfl

theorem ThreadStart_rw (s s' : Verifier) (curr : thread_t) (parent : Option thread_t)
    (h : s.ThreadStart curr parent = some s') :
    s'.rwlock_meta_table_ = s.rwlock_meta_table_ := by
  unfold Verifier.ThreadStart at h
  cases parent with
  | none =>
    simp only [Option.some.injEq] at h
    subst h
    cases hs : (s.setVc curr (VectorClock.empty.Increment curr)).thd_smp_map_ curr <;>
      simp [Verifier.setVc]
  | some p =>
    cases hp : s.thd_vc_map_ p with
    | none => simp [hp] at h
    | some pvc =>
      simp only [hp, Option.some.injEq] at h
      subst h
      cases hs : (s.setVc curr ((VectorClock.empty.Increment curr).Join pvc)).thd_smp_map_
        curr <;> simp [Verifier.setVc]

theorem ThreadExit_rw (s s' : Verifier) (rnd : Finset thread_t → thread_t)
    (curr : thread_t) (h : s.ThreadExit rnd curr = some s') :
    s'.rwlock_meta_table_ = s.rwlock_meta_table_ := by
  unfold Verifier.ThreadExit at h
  by_cases hc : curr ∈ s.pp_thd_set_
  · simp only [hc, if_true] at h
    exact (ite_Choose_frame
      { s with
        thd_smp_map_ := Function.update s.thd_smp_map_ curr none
        avail_thd_set_ := s.avail_thd_set_.erase curr
        pp_thd_set_ := s.pp_thd_set_.erase curr } s' rnd h).2.2.1
  · simp only [hc, if_false] at h
    exact (ite_Choose_frame
      { s with
        thd_smp_map_ := Function.update s.thd_smp_map_ curr none
        avail_thd_set_ := s.avail_thd_set_.erase curr } s' rnd h).2.2.1

theorem PostponeThread_rw (s s' : Verifier) (rnd : Finset thread_t → thread_t)
    (curr : thread_t) (b : Bool) (h : s.PostponeThread rnd curr = some (s', b)) :
    s'.rwlock_meta_table_ = s.rwlock_meta_table_ := by
  unfold Verifier.PostponeThread at h
  split at h
  · simp only [Option.some.injEq, Prod.mk.injEq] at h
    rw [← h.1]
  · simp only [] at h
    split at h
    · simp at h
    · next s1 hs1 =>
      have f := ite_Choose_frame
        { s with
          pp_thd_set_ := insert curr s.pp_thd_set_
          avail_thd_set_ := s.avail_thd_set_.erase curr } s1 rnd hs1
      split at h
      · simp at h
      · simp only [Option.some.injEq, Prod.mk.injEq] at h
        rw [← h.1]
        exact f.2.2.1

theorem BeforePthreadJoin_rw (s s' : Verifier) (rnd : Finset thread_t → thread_t)
    (curr : thread_t) (h : s.BeforePthreadJoin rnd curr = some s') :
    s'.rwlock_meta_table_ = s.rwlock_meta_table_ := by
  unfold Verifier.BeforePthreadJoin at h
  exact (ite_Choose_frame (s.BlockThread curr) s' rnd h).2.2.1

theorem BeforePthreadMutexLock_rw (s s' : Verifier) (curr : thread_t) (addr : address_t)
    (h : s.BeforePthreadMutexLock curr addr = some s') :
    s'.rwlock_meta_table_ = s.rwlock_meta_table_ := by
  unfold Verifier.BeforePthreadMutexLock at h
  have key : ∀ s1 : Verifier, s1 = (s.GetMutexMeta addr).1.BlockThread curr →
      s1.rwlock_meta_table_ = s.rwlock_meta_table_ := by
    intro s1 hs1
    subst hs1
    exact (GetMutexMeta_frame s addr).1
  simp only [] at h
  split at h
  · split at h
    · exact (WakeUpPostponeThread_frame _ s' _ h).2.2.1.trans (key _ rfl)
    · simp only [Option.some.injEq] at h
      exact key s' h.symm
  · simp only [Option.some.injEq] at h
    exact key s' h.symm

theorem AfterPthreadMutexLock_rw (s s' : Verifier) (curr : thread_t) (addr : address_t)
    (h : s.AfterPthreadMutexLock curr addr = some s') :
    s'.rwlock_meta_table_ = s.rwlock_meta_table_ := by
  cases hv : s.thd_vc_map_ curr with
  | none => rw [AfterPthreadMutexLock_none s curr addr hv] at h; simp at h
  | some vc =>
    rw [AfterPthreadMutexLock_eq s curr addr vc hv] at h
    simp only [Option.some.injEq] at h
    subst h
    exact (GetMutexMeta_frame s addr).1

theorem BeforePthreadMutexUnlock_rw (s s' : Verifier) (curr : thread_t) (addr : address_t)
    (h : s.BeforePthreadMutexUnlock curr addr = some s') :
    s'.rwlock_meta_table_ = s.rwlock_meta_table_ := by
  cases hv : s.thd_vc_map_ curr with
  | none => rw [BeforePthreadMutexUnlock_none s curr addr hv] at h; simp at h
  | some vc =>
    rw [BeforePthreadMutexUnlock_eq s curr addr vc hv] at h
    simp only [Option.some.injEq] at h
    subst h
    exact (GetMutexMeta_frame s addr).1

theorem AfterPthreadMutexUnlock_rw (s s' : Verifier) (curr : thread_t) (addr : address_t)
    (h : s.AfterPthreadMutexUnlock curr addr = some s') :
    s'.rwlock_meta_table_ = s.rwlock_meta_table_ := by
  unfold Verifier.AfterPthreadMutexUnlock at h
  simp only [Option.some.injEq] at h
  subst h
  exact (GetMutexMeta_frame s addr).1

theorem BeforePthreadRwlockRdlock_rw (s s' : Verifier) (curr : thread_t) (addr : address_t)
    (h : s.BeforePthreadRwlockRdlock curr addr = some s') (a : address_t) :
    s'.rwlockMeta a = s.rwlockMeta a := by
  unfold Verifier.BeforePthreadRwlockRdlock at h
  have key : ∀ s1 : Verifier, s1 = (s.GetRwlockMeta addr).1.BlockThread curr →
      s1.rwlockMeta a = s.rwlockMeta a := by
    intro s1 hs1
    subst hs1
    exact (rwlockMeta_of_table (s.GetRwlockMeta addr).1
      ((s.GetRwlockMeta addr).1.BlockThread curr) a rfl).trans
      (rwlockMeta_GetRwlockMeta s addr a)
  simp only [] at h
  split at h
  · split at h
    · exact (rwlockMeta_of_table _ s' a (WakeUpPostponeThread_frame _ s' _ h).2.2.1).trans
        (key _ rfl)
    · simp only [Option.some.injEq] at h
      exact key s' h.symm
  · simp only [Option.some.injEq] at h
    exact key s' h.symm

theorem BeforePthreadRwlockWrlock_rw (s s' : Verifier) (curr : thread_t) (addr : address_t)
    (h : s.BeforePthreadRwlockWrlock curr addr = some s') (a : address_t) :
    s'.rwlockMeta a = s.rwlockMeta a := by
  unfold Verifier.BeforePthreadRwlockWrlock at h
  have key : ∀ s1 : Verifier, s1 = (s.GetRwlockMeta addr).1.BlockThread curr →
      s1.rwlockMeta a = s.rwlockMeta a := by
    intro s1 hs1
    subst hs1
    exact (rwlockMeta_of_table (s.GetRwlockMeta addr).1
      ((s.GetRwlockMeta addr).1.BlockThread curr) a rfl).trans
      (rwlockMeta_GetRwlockMeta s addr a)
  simp only [] at h
  split at h
  · split at h
    · exact (rwlockMeta_of_table _ s' a (wakeUpEach_frame _ _ s' h).2.2.1).trans (key _ rfl)
    · simp only [Option.some.injEq] at h
      exact key s' h.symm
  · simp only [Option.some.injEq] at h
    exact key s' h.symm

/-- A stored meta with the clocks of the old one leaves the clocks of every rwlock. -/
theorem rwlockClocks_setRwlockMeta (s0 s : Verifier) (addr a : address_t) (m : RwlockMeta)
    (hs : ∀ b, s.rwlockMeta b = s0.rwlockMeta b)
    (hvc : m.vc = (s0.rwlockMeta addr).vc) (hw : m.wait_vc = (s0.rwlockMeta addr).wait_vc) :
    ((s.setRwlockMeta addr m).rwlockMeta a).vc = (s0.rwlockMeta a).vc ∧
    ((s.setRwlockMeta addr m).rwlockMeta a).wait_vc = (s0.rwlockMeta a).wait_vc := by
  by_cases ha : a = addr
  · subst ha
    rw [rwlockMeta_setRwlockMeta]
    exact ⟨hvc, hw⟩
  · rw [rwlockMeta_setRwlockMeta_ne s addr a m ha, hs a]
    exact ⟨rfl, rfl⟩

theorem AfterPthreadRwlockRdlock_rw (s s' : Verifier) (curr : thread_t) (addr : address_t)
    (h : s.AfterPthreadRwlockRdlock curr addr = some s') (a : address_t) :
    (s'.rwlockMeta a).vc = (s.rwlockMeta a).vc ∧
    (s'.rwlockMeta a).wait_vc = (s.rwlockMeta a).wait_vc := by
  cases hv : s.thd_vc_map_ curr with
  | none => rw [AfterPthreadRwlockRdlock_none s curr addr hv] at h; simp at h
  | some vc =>
    rw [AfterPthreadRwlockRdlock_eq s curr addr vc hv] at h
    simp only [Option.some.injEq] at h
    subst h
    apply rwlockClocks_setRwlockMeta s
    · intro b
      exact (rwlockMeta_of_table (s.GetRwlockMeta addr).1
        (((s.GetRwlockMeta addr).1.setVc curr
          (vc.Join (s.GetRwlockMeta addr).2.vc)).UnblockThread curr) b rfl).trans
        (rwlockMeta_GetRwlockMeta s addr b)
    · rfl
    · rfl

theorem AfterPthreadRwlockWrlock_rw (s s' : Verifier) (curr : thread_t) (addr : address_t)
    (h : s.AfterPthreadRwlockWrlock curr addr = some s') (a : address_t) :
    (s'.rwlockMeta a).vc = (s.rwlockMeta a).vc ∧
    (s'.rwlockMeta a).wait_vc = (s.rwlockMeta a).wait_vc := by
  cases hv : s.thd_vc_map_ curr with
  | none => rw [AfterPthreadRwlockWrlock_none s curr addr hv] at h; simp at h
  | some vc =>
    rw [AfterPthreadRwlockWrlock_eq s curr addr vc hv] at h
    simp only [Option.some.injEq] at h
    subst h
    have hU : ∀ b, (s.UnblockThread curr).rwlockMeta b = s.rwlockMeta b :=
      fun b => rwlockMeta_of_table s (s.UnblockThread curr) b rfl
    apply rwlockClocks_setRwlockMeta s
    · intro b
      exact (rwlockMeta_of_table ((s.UnblockThread curr).GetRwlockMeta addr).1
        (((s.UnblockThread curr).GetRwlockMeta addr).1.setVc curr
          (vc.Join ((s.UnblockThread curr).GetRwlockMeta addr).2.vc)) b rfl).trans
        ((rwlockMeta_GetRwlockMeta (s.UnblockThread curr) addr b).trans (hU b))
    · show ((s.UnblockThread curr).rwlockMeta addr).vc = (s.rwlockMeta addr).vc
      rw [hU]
    · show ((s.UnblockThread curr).rwlockMeta addr).wait_vc = (s.rwlockMeta addr).wait_vc
      rw [hU]

theorem AfterPthreadRwlockUnlock_rw (s s' : Verifier) (curr : thread_t) (addr : address_t)
    (h : s.AfterPthreadRwlockUnlock curr addr = some s') (a : address_t) :
    (s'.rwlockMeta a).vc = (s.rwlockMeta a).vc ∧
    (s'.rwlockMeta a).wait_vc = (s.rwlockMeta a).wait_vc := by
  unfold Verifier.AfterPthreadRwlockUnlock at h
  simp only [Option.some.injEq] at h
  subst h
  apply rwlockClocks_setRwlockMeta s
  · intro b
    exact rwlockMeta_GetRwlockMeta s addr b
  · rfl
  · rfl

theorem BeforePthreadRwlockUnlock_rw (s s' : Verifier) (curr : thread_t) (addr : address_t)
    (h : s.BeforePthreadRwlockUnlock curr addr = some s') (a : address_t) (ha : a ≠ addr) :
    s'.rwlockMeta a = s.rwlockMeta a := by
  unfold Verifier.BeforePthreadRwlockUnlock at h
  simp only [GetRwlockMeta_vc] at h
  cases hv : s.thd_vc_map_ curr with
  | none => simp [hv] at h
  | some vc =>
    simp only [hv, Option.some.injEq] at h
    subst h
    have e : ∀ (x : Verifier) (v : VectorClock), (x.setVc curr v).rwlockMeta a = x.rwlockMeta a :=
      fun x v => rwlockMeta_of_table x (x.setVc curr v) a rfl
    rw [e, rwlockMeta_setRwlockMeta_ne _ addr a _ ha, rwlockMeta_GetRwlockMeta]

theorem ownClock_mono (s s' : Verifier) (h : clocksGrow s s') (u : thread_t) :
    s.ownClock u ≤ s'.ownClock u := by
  unfold Verifier.ownClock Verifier.clockOf
  cases hu : s.thd_vc_map_ u with
  | none => exact Nat.zero_le _
  | some vc =>
    obtain ⟨vc', h1, h2⟩ := h u vc hu
    rw [h1]
    exact h2 u

theorem ownClock_of_some (s : Verifier) (u : thread_t) (vc : VectorClock)
    (h : s.thd_vc_map_ u = some vc) : s.ownClock u = vc u := by
  unfold Verifier.ownClock Verifier.clockOf
  rw [h]
  rfl

/-- The step of the invariant: the clocks grow, the clock map is unchanged or one clock
is replaced by a clock that is bounded outside its own component, and the clocks of the
mutexes and rwlocks are bounded by the own components before the step. -/
theorem knowsNoMore_step (s s' : Verifier) (hinv : s.knowsNoMore) (hg : clocksGrow s s')
    (hthd : s'.thd_vc_map_ = s.thd_vc_map_ ∨
      ∃ curr new, s'.thd_vc_map_ = Function.update s.thd_vc_map_ curr (some new) ∧
        ∀ u, u ≠ curr → new u ≤ s.ownClock u)
    (hmx : ∀ a u, (s'.mutexClock a) u ≤ s.ownClock u)
    (hrw : ∀ a u, (s'.rwlockMeta a).vc u ≤ s.ownClock u ∧
      (s'.rwlockMeta a).wait_vc u ≤ s.ownClock u) : s'.knowsNoMore := by
  intro u
  have mono := ownClock_mono s s' hg
  refine ⟨?_, fun a => le_trans (hmx a u) (mono u),
    fun a => ⟨le_trans (hrw a u).1 (mono u), le_trans (hrw a u).2 (mono u)⟩⟩
  intro t vc' ht
  rcases hthd with he | ⟨curr, new, he, hnew⟩
  · rw [he] at ht
    exact le_trans ((hinv u).1 t vc' ht) (mono u)
  · rw [he] at ht
    by_cases htc : t = curr
    · subst htc
      rw [Function.update_same] at ht
      cases ht
      by_cases hu : u = t
      · subst hu
        rw [ownClock_of_some s' u vc' (by rw [he, Function.update_same])]
        exact le_refl _
      · exact le_trans (hnew u hu) (mono u)
    · rw [Function.update_noteq htc] at ht
      exact le_trans ((hinv u).1 t vc' ht) (mono u)

/-- The clock that `ThreadStart` builds. -/
theorem ThreadStart_new (s s' : Verifier) (curr : thread_t) (parent : Option thread_t)
    (h : s.ThreadStart curr parent = some s') :
    ∃ new, s'.thd_vc_map_ = Function.update s.thd_vc_map_ curr (some new) ∧
      (new = VectorClock.empty.Increment curr ∨
        ∃ p pvc, s.thd_vc_map_ p = some pvc ∧
          new = (VectorClock.empty.Increment curr).Join pvc) := by
  unfold Verifier.ThreadStart at h
  cases parent with
  | none =>
    simp only [Option.some.injEq] at h
    subst h
    refine ⟨VectorClock.empty.Increment curr, ?_, Or.inl rfl⟩
    cases hs : (s.setVc curr (VectorClock.empty.Increment curr)).thd_smp_map_ curr <;>
      simp [Verifier.setVc]
  | some p =>
    cases hp : s.thd_vc_map_ p with
    | none => simp [hp] at h
    | some pvc =>
      simp only [hp, Option.some.injEq] at h
      subst h
      refine ⟨(VectorClock.empty.Increment curr).Join pvc, ?_, Or.inr ⟨p, pvc, hp, rfl⟩⟩
      cases hs : (s.setVc curr ((VectorClock.empty.Increment curr).Join pvc)).thd_smp_map_
        curr <;> simp [Verifier.setVc]

theorem Join_bound (a b : VectorClock) (u : thread_t) (n : Nat) (ha : a u ≤ n) (hb : b u ≤ n) :
    a.Join b u ≤ n := max_le ha hb

theorem AfterPthreadRwlockRdlock_new (s s' : Verifier) (curr : thread_t) (addr : address_t)
    (h : s.AfterPthreadRwlockRdlock curr addr = some s') :
    ∃ vc, s.thd_vc_map_ curr = some vc ∧
      s'.thd_vc_map_ = Function.update s.thd_vc_map_ curr
        (some (vc.Join (s.rwlockMeta addr).vc)) := by
  obtain ⟨vc, _, hv, -⟩ := AfterPthreadRwlockRdlock_vc s s' curr addr h
  obtain ⟨s2, e, -, -, -, e2⟩ := acquireEvent_meta s (fun _ => 0) addr (curr, false) vc hv
  have e3 : s.AfterPthreadRwlockRdlock curr addr = some s2 := e
  rw [h] at e3
  cases e3
  exact ⟨vc, hv, e2⟩

theorem AfterPthreadRwlockWrlock_new (s s' : Verifier) (curr : thread_t) (addr : address_t)
    (h : s.AfterPthreadRwlockWrlock curr addr = some s') :
    ∃ vc, s.thd_vc_map_ curr = some vc ∧
      s'.thd_vc_map_ = Function.update s.thd_vc_map_ curr
        (some (vc.Join (s.rwlockMeta addr).vc)) := by
  obtain ⟨vc, _, hv, -⟩ := AfterPthreadRwlockWrlock_vc s s' curr addr h
  obtain ⟨s2, e, -, -, -, e2⟩ := acquireEvent_meta s (fun _ => 0) addr (curr, true) vc hv
  have e3 : s.AfterPthreadRwlockWrlock curr addr = some s2 := e
  rw [h] at e3
  cases e3
  exact ⟨vc, hv, e2⟩

/-- The effect of every handler on the clock map, for a state with the invariant. -/
theorem handle_thd (s s' : Verifier) (rnd : Finset thread_t → thread_t) (ev : VEvent)
    (hinv : s.knowsNoMore) (h : s.handle rnd ev = some s') :
    s'.thd_vc_map_ = s.thd_vc_map_ ∨
      ∃ curr new, s'.thd_vc_map_ = Function.update s.thd_vc_map_ curr (some new) ∧
        ∀ u, u ≠ curr → new u ≤ s.ownClock u := by
  have inc : ∀ (curr : thread_t) (vc : VectorClock), s.thd_vc_map_ curr = some vc →
      ∀ u, u ≠ curr → vc.Increment curr u ≤ s.ownClock u := by
    intro curr vc hv u hu
    rw [Increment_other vc curr u hu]
    exact (hinv u).1 curr vc hv
  have mlock : ∀ (curr : thread_t) (addr : address_t),
      s.AfterPthreadMutexLock curr addr = some s' →
      ∃ curr new, s'.thd_vc_map_ = Function.update s.thd_vc_map_ curr (some new) ∧
        ∀ u, u ≠ curr → new u ≤ s.ownClock u := by
    intro curr addr h
    obtain ⟨vc, h1, h2, -⟩ := AfterPthreadMutexLock_vc s s' curr addr h
    exact ⟨curr, _, h2, fun u _ =>
      Join_bound _ _ u _ ((hinv u).1 curr vc h1) ((hinv u).2.1 addr)⟩
  have rdlock : ∀ (curr : thread_t) (addr : address_t),
      s.AfterPthreadRwlockRdlock curr addr = some s' →
      ∃ curr new, s'.thd_vc_map_ = Function.update s.thd_vc_map_ curr (some new) ∧
        ∀ u, u ≠ curr → new u ≤ s.ownClock u := by
    intro curr addr h
    obtain ⟨vc, h1, h2⟩ := AfterPthreadRwlockRdlock_new s s' curr addr h
    exact ⟨curr, _, h2, fun u _ =>
      Join_bound _ _ u _ ((hinv u).1 curr vc h1) ((hinv u).2.2 addr).1⟩
  have wrlock : ∀ (curr : thread_t) (addr : address_t),
      s.AfterPthreadRwlockWrlock curr addr = some s' →
      ∃ curr new, s'.thd_vc_map_ = Function.update s.thd_vc_map_ curr (some new) ∧
        ∀ u, u ≠ curr → new u ≤ s.ownClock u := by
    intro curr addr h
    obtain ⟨vc, h1, h2⟩ := AfterPthreadRwlockWrlock_new s s' curr addr h
    exact ⟨curr, _, h2, fun u _ =>
      Join_bound _ _ u _ ((hinv u).1 curr vc h1) ((hinv u).2.2 addr).1⟩
  cases ev with
  | ThreadStart curr parent =>
    right
    obtain ⟨new, h1, h2⟩ := ThreadStart_new s s' curr parent h
    refine ⟨curr, new, h1, ?_⟩
    intro u hu
    have h0 : VectorClock.empty.Increment curr u = 0 := by
      rw [Increment_other _ curr u hu]; rfl
    rcases h2 with rfl | ⟨p, pvc, hp, rfl⟩
    · rw [h0]; exact Nat.zero_le _
    · exact Join_bound _ _ u _ (by rw [h0]; exact Nat.zero_le _) ((hinv u).1 p pvc hp)
  | ThreadExit curr => exact Or.inl (ThreadExit_frame s s' rnd curr h).1
  | PostponeThread curr =>
    simp only [Verifier.handle, Option.map_eq_some', Prod.exists, exists_and_right,
      exists_eq_right] at h
    obtain ⟨b, hb⟩ := h
    exact Or.inl (PostponeThread_frame s s' rnd curr b hb).1
  | WakeUpPostponeThread caller thd => exact Or.inl (WakeUpPostponeThread_frame s s' thd h).1
  | WakeUpPostponeThreadSet caller pp_thds =>
    exact Or.inl (WakeUpPostponeThreadSet_frame s s' pp_thds h).1
  | BeforePthreadJoin curr child => exact Or.inl (BeforePthreadJoin_frame s s' rnd curr h).1
  | AfterPthreadJoin curr child =>
    obtain ⟨vc, cvc, h1, h2, h3⟩ := AfterPthreadJoin_eq s s' curr child h
    subst h3
    refine Or.inr ⟨curr, (vc.Join cvc).Increment curr, rfl, ?_⟩
    intro u hu
    rw [Increment_other _ curr u hu]
    exact Join_bound _ _ u _ ((hinv u).1 curr vc h1) ((hinv u).1 child cvc h2)
  | AfterPthreadCreate curr child =>
    obtain ⟨vc, h1, h3⟩ := AfterPthreadCreate_eq s s' curr h
    subst h3
    exact Or.inr ⟨curr, vc.Increment curr, rfl, inc curr vc h1⟩
  | BeforePthreadMutexLock curr addr =>
    exact Or.inl (BeforePthreadMutexLock_frame s s' curr addr h).1
  | AfterPthreadMutexLock curr addr => exact Or.inr (mlock curr addr h)
  | BeforePthreadMutexUnlock curr addr =>
    obtain ⟨vc, h1, h2, -⟩ := BeforePthreadMutexUnlock_vc s s' curr addr h
    exact Or.inr ⟨curr, _, h2, inc curr vc h1⟩
  | AfterPthreadMutexUnlock curr addr =>
    exact Or.inl (AfterPthreadMutexUnlock_frame s s' curr addr h).1
  | BeforePthreadMutexTryLock curr addr =>
    exact Or.inl (BeforePthreadMutexLock_frame s s' curr addr h).1
  | AfterPthreadMutexTryLock curr addr ret_val =>
    simp only [Verifier.handle, Verifier.AfterPthreadMutexTryLock] at h
    split at h
    · exact Or.inr (mlock curr addr h)
    · simp only [Option.some.injEq] at h
      subst h
      exact Or.inl rfl
  | BeforePthreadRwlockRdlock curr addr =>
    exact Or.inl (BeforePthreadRwlockRdlock_frame s s' curr addr h).1
  | AfterPthreadRwlockRdlock curr addr => exact Or.inr (rdlock curr addr h)
  | BeforePthreadRwlockWrlock curr addr =>
    exact Or.inl (BeforePthreadRwlockWrlock_frame s s' curr addr h).1
  | AfterPthreadRwlockWrlock curr addr => exact Or.inr (wrlock curr addr h)
  | BeforePthreadRwlockUnlock curr addr =>
    obtain ⟨vc, h1, h2, -⟩ := BeforePthreadRwlockUnlock_vc s s' curr addr h
    exact Or.inr ⟨curr, _, h2, inc curr vc h1⟩
  | AfterPthreadRwlockUnlock curr addr =>
    exact Or.inl (AfterPthreadRwlockUnlock_frame s s' curr addr h).1
  | BeforePthreadRwlockTryRdlock curr addr =>
    exact Or.inl (BeforePthreadRwlockRdlock_frame s s' curr addr h).1
  | AfterPthreadRwlockTryRdlock curr addr ret_val =>
    simp only [Verifier.handle, Verifier.AfterPthreadRwlockTryRdlock] at h
    split at h
    · exact Or.inr (rdlock curr addr h)
    · simp only [Option.some.injEq] at h
      subst h
      exact Or.inl rfl
  | BeforePthreadRwlockTryWrlock curr addr =>
    exact Or.inl (BeforePthreadRwlockWrlock_frame s s' curr addr h).1
  | AfterPthreadRwlockTryWrlock curr addr ret_val =>
    simp only [Verifier.handle, Verifier.AfterPthreadRwlockTryWrlock] at h
    split at h
    · exact Or.inr (wrlock curr addr h)
    · simp only [Option.some.injEq] at h
      subst h
      exact Or.inl rfl

/-- The clocks of a rwlock are only rewritten by `BeforePthreadRwlockUnlock` on that
rwlock. -/
theorem handle_rwlockClocks (s s' : Verifier) (rnd : Finset thread_t → thread_t) (ev : VEvent)
    (a : address_t) (hne : ∀ c, ev ≠ VEvent.BeforePthreadRwlockUnlock c a)
    (h : s.handle rnd ev = some s') :
    (s'.rwlockMeta a).vc = (s.rwlockMeta a).vc ∧
    (s'.rwlockMeta a).wait_vc = (s.rwlockMeta a).wait_vc := by
  have tbl : s'.rwlock_meta_table_ = s.rwlock_meta_table_ →
      (s'.rwlockMeta a).vc = (s.rwlockMeta a).vc ∧
      (s'.rwlockMeta a).wait_vc = (s.rwlockMeta a).wait_vc := by
    intro e
    rw [rwlockMeta_of_table s s' a e]
    exact ⟨rfl, rfl⟩
  have whole : s'.rwlockMeta a = s.rwlockMeta a →
      (s'.rwlockMeta a).vc = (s.rwlockMeta a).vc ∧
      (s'.rwlockMeta a).wait_vc = (s.rwlockMeta a).wait_vc := by
    intro e
    rw [e]
    exact ⟨rfl, rfl⟩
  cases ev with
  | ThreadStart curr parent => exact tbl (ThreadStart_rw s s' curr parent h)
  | ThreadExit curr => exact tbl (ThreadExit_rw s s' rnd curr h)
  | PostponeThread curr =>
    simp only [Verifier.handle, Option.map_eq_some', Prod.exists, exists_and_right,
      exists_eq_right] at h
    obtain ⟨b, hb⟩ := h
    exact tbl (PostponeThread_rw s s' rnd curr b hb)
  | WakeUpPostponeThread caller thd => exact tbl (WakeUpPostponeThread_frame s s' thd h).2.2.1
  | WakeUpPostponeThreadSet caller pp_thds =>
    exact tbl (wakeUpEach_frame _ s s' h).2.2.1
  | BeforePthreadJoin curr child => exact tbl (BeforePthreadJoin_rw s s' rnd curr h)
  | AfterPthreadJoin curr child =>
    obtain ⟨vc, cvc, -, -, h3⟩ := AfterPthreadJoin_eq s s' curr child h
    subst h3
    exact tbl rfl
  | AfterPthreadCreate curr child =>
    obtain ⟨vc, -, h3⟩ := AfterPthreadCreate_eq s s' curr h
    subst h3
    exact tbl rfl
  | BeforePthreadMutexLock curr addr => exact tbl (BeforePthreadMutexLock_rw s s' curr addr h)
  | AfterPthreadMutexLock curr addr => exact tbl (AfterPthreadMutexLock_rw s s' curr addr h)
  | BeforePthreadMutexUnlock curr addr =>
    exact tbl (BeforePthreadMutexUnlock_rw s s' curr addr h)
  | AfterPthreadMutexUnlock curr addr =>
    exact tbl (AfterPthreadMutexUnlock_rw s s' curr addr h)
  | BeforePthreadMutexTryLock curr addr =>
    exact tbl (BeforePthreadMutexLock_rw s s' curr addr h)
  | AfterPthreadMutexTryLock curr addr ret_val =>
    simp only [Verifier.handle, Verifier.AfterPthreadMutexTryLock] at h
    split at h
    · exact tbl (AfterPthreadMutexLock_rw s s' curr addr h)
    · simp only [Option.some.injEq] at h
      subst h
      exact tbl rfl
  | BeforePthreadRwlockRdlock curr addr =>
    exact whole (BeforePthreadRwlockRdlock_rw s s' curr addr h a)
  | AfterPthreadRwlockRdlock curr addr => exact AfterPthreadRwlockRdlock_rw s s' curr addr h a
  | BeforePthreadRwlockWrlock curr addr =>
    exact whole (BeforePthreadRwlockWrlock_rw s s' curr addr h a)
  | AfterPthreadRwlockWrlock curr addr => exact AfterPthreadRwlockWrlock_rw s s' curr addr h a
  | BeforePthreadRwlockUnlock curr addr =>
    apply whole
    apply BeforePthreadRwlockUnlock_rw s s' curr addr h a
    intro ha
    exact hne curr (by rw [ha])
  | AfterPthreadRwlockUnlock curr addr => exact AfterPthreadRwlockUnlock_rw s s' curr addr h a
  | BeforePthreadRwlockTryRdlock curr addr =>
    exact whole (BeforePthreadRwlockRdlock_rw s s' curr addr h a)
  | AfterPthreadRwlockTryRdlock curr addr ret_val =>
    simp only [Verifier.handle, Verifier.AfterPthreadRwlockTryRdlock] at h
    split at h
    · exact AfterPthreadRwlockRdlock_rw s s' curr addr h a
    · simp only [Option.some.injEq] at h
      subst h
      exact tbl rfl
  | BeforePthreadRwlockTryWrlock curr addr =>
    exact whole (BeforePthreadRwlockWrlock_rw s s' curr addr h a)
  | AfterPthreadRwlockTryWrlock curr addr ret_val =>
    simp only [Verifier.handle, Verifier.AfterPthreadRwlockTryWrlock] at h
    split at h
    · exact AfterPthreadRwlockWrlock_rw s s' curr addr h a
    · simp only [Option.some.injEq] at h
      subst h
      exact tbl rfl

theorem handle_mutex_bound (s s' : Verifier) (rnd : Finset thread_t → thread_t) (ev : VEvent)
    (hinv : s.knowsNoMore) (h : s.handle rnd ev = some s') (a : address_t) (u : thread_t) :
    (s'.mutexClock a) u ≤ s.ownClock u := by
  by_cases hx : ∃ c, ev = VEvent.BeforePthreadMutexUnlock c a
  · obtain ⟨c, rfl⟩ := hx
    obtain ⟨vc, h1, -, h3, -⟩ := BeforePthreadMutexUnlock_vc s s' c a h
    rw [h3]
    exact (hinv u).1 c vc h1
  · rw [handle_mutexClock s s' rnd ev a (fun c hc => hx ⟨c, hc⟩) h]
    exact (hinv u).2.1 a

theorem handle_rwlock_bound (s s' : Verifier) (rnd : Finset thread_t → thread_t) (ev : VEvent)
    (hinv : s.knowsNoMore) (h : s.handle rnd ev = some s') (a : address_t) (u : thread_t) :
    (s'.rwlockMeta a).vc u ≤ s.ownClock u ∧ (s'.rwlockMeta a).wait_vc u ≤ s.ownClock u := by
  by_cases hx : ∃ c, ev = VEvent.BeforePthreadRwlockUnlock c a
  · obtain ⟨c, rfl⟩ := hx
    obtain ⟨vc, h1, -⟩ := BeforePthreadRwlockUnlock_vc s s' c a h
    obtain ⟨s2, e1, -, -, e4, e5⟩ := BeforePthreadRwlockUnlock_meta s c a vc h1
    have e : s.BeforePthreadRwlockUnlock c a = some s' := h
    rw [e] at e1
    cases e1
    have hj : ((s.rwlockMeta a).wait_vc.Join vc) u ≤ s.ownClock u :=
      Join_bound _ _ u _ ((hinv u).2.2 a).2 ((hinv u).1 c vc h1)
    by_cases h0 : (s.rwlockMeta a).ref - 1 = 0
    · obtain ⟨a1, a2⟩ := e5 h0
      rw [a1, a2]
      exact ⟨hj, Nat.zero_le _⟩
    · obtain ⟨a1, a2⟩ := e4 h0
      rw [a1, a2]
      exact ⟨((hinv u).2.2 a).1, hj⟩
  · obtain ⟨a1, a2⟩ := handle_rwlockClocks s s' rnd ev a (fun c hc => hx ⟨c, hc⟩) h
    rw [a1, a2]
    exact (hinv u).2.2 a

/-- Every handler keeps the invariant, provided a `ThreadStart` names a thread without
a clock. -/
theorem handle_knowsNoMore (s s' : Verifier) (rnd : Finset thread_t → thread_t) (ev : VEvent)
    (hinv : s.knowsNoMore) (hf : ev.startsFresh s = true) (h : s.handle rnd ev = some s') :
    s'.knowsNoMore :=
  knowsNoMore_step s s' hinv (handle_clocksGrow s s' rnd ev hf h) (handle_thd s s' rnd ev hinv h)
    (handle_mutex_bound s s' rnd ev hinv h) (handle_rwlock_bound s s' rnd ev hinv h)

theorem run_knowsNoMore (rnd : Finset thread_t → thread_t) (evs : List VEvent) :
    ∀ s s' : Verifier, s.knowsNoMore → s.freshRun rnd evs = true → s.run rnd evs = some s' →
      s'.knowsNoMore := by
  induction evs with
  | nil =>
    intro s s' hinv _ h
    simp only [Verifier.run, Option.some.injEq] at h
    rw [← h]
    exact hinv
  | cons ev rest ih =>
    intro s s' hinv hf h
    obtain ⟨s1, h1, h2⟩ := run_cons s rnd ev rest s' h
    simp only [Verifier.freshRun, h1, Bool.and_eq_true] at hf
    exact ih s1 s' (handle_knowsNoMore s s1 rnd ev hinv hf.1 h1) hf.2 h2

theorem init_knowsNoMore : Verifier.init.knowsNoMore := by
  intro u
  refine ⟨?_, fun a => Nat.zero_le _, fun a => ⟨Nat.zero_le _, Nat.zero_le _⟩⟩
  intro t vc h
  simp [Verifier.init] at h

/-- C28: in every state that the verifier reaches from its initial state by handling
events (`ThreadStart`, `AfterPthreadCreate`, `AfterPthreadJoin`, the mutex and rwlock
handlers, and the scheduling events), each `ThreadStart` naming a thread that has no
clock yet, no clock knows more about a thread than the thread itself: for threads
t ≠ u the u-component of the clock of t is at most the own component of the clock of u
(0 when u has no clock), and so are the u-components of `vc` of every mutex meta and of
`vc` and `wait_vc` of every rwlock meta. -/
theorem C28_no_clock_knows_more_than_the_thread (rnd : Finset thread_t → thread_t)
    (evs : List VEvent) (s' : Verifier)
    (hf : Verifier.init.freshRun rnd evs = true)
    (h : Verifier.init.run rnd evs = some s') :
    (∀ t u vc, t ≠ u → s'.thd_vc_map_ t = some vc →
      vc.GetClock u ≤ (s'.clockOf u).GetClock u) ∧
    (∀ a mm u, s'.mutex_meta_table_ a = some mm →
      mm.vc.GetClock u ≤ (s'.clockOf u).GetClock u) ∧
    (∀ a rm u, s'.rwlock_meta_table_ a = some rm →
      rm.vc.GetClock u ≤ (s'.clockOf u).GetClock u ∧
      rm.wait_vc.GetClock u ≤ (s'.clockOf u).GetClock u) := by
  have hinv := run_knowsNoMore rnd evs Verifier.init s' init_knowsNoMore hf h
  refine ⟨fun t u vc _ ht => (hinv u).1 t vc ht, ?_, ?_⟩
  · intro a mm u hm
    have e : s'.mutexClock a = mm.vc := by
      unfold Verifier.mutexClock
      rw [hm]
    rw [← e]
    exact (hinv u).2.1 a
  · intro a rm u hm
    have e : s'.rwlockMeta a = rm := by
      unfold Verifier.rwlockMeta Verifier.GetRwlockMeta
      rw [hm]
    rw [← e]
    exact (hinv u).2.2 a

/-! ## The snapshot history is not drained -/

theorem setsKept_refl (m : List (Nat × Option MetaSet)) : setsKept m m :=
  fun _ metas h => ⟨metas, h, Finset.Subset.refl _⟩

theorem setsKept_trans (a b c : List (Nat × Option MetaSet)) (h1 : setsKept a b)
    (h2 : setsKept b c) : setsKept a c := by
  intro k metas h
  obtain ⟨m1, e1, s1⟩ := h1 k metas h
  obtain ⟨m2, e2, s2⟩ := h2 k m1 e1
  exact ⟨m2, e2, Finset.Subset.trans s1 s2⟩

theorem metaKept_refl (m : Verifier.Meta) : metaKept m m :=
  ⟨rfl, fun _ l h => ⟨l, h, List.prefix_refl l⟩⟩

theorem metaKept_trans (a b c : Verifier.Meta) (h1 : metaKept a b) (h2 : metaKept b c) :
    metaKept a c := by
  refine ⟨h2.1.trans h1.1, ?_⟩
  intro t l h
  obtain ⟨l1, e1, p1⟩ := h1.2 t l h
  obtain ⟨l2, e2, p2⟩ := h2.2 t l1 e1
  exact ⟨l2, e2, List.IsPrefix.trans p1 p2⟩

theorem snapshotsKept_refl (tbl : address_t → Option Verifier.Meta) : snapshotsKept tbl tbl :=
  fun _ m h => ⟨m, h, metaKept_refl m⟩

theorem snapshotsKept_trans (a b c : address_t → Option Verifier.Meta)
    (h1 : snapshotsKept a b) (h2 : snapshotsKept b c) : snapshotsKept a c := by
  intro x m h
  obtain ⟨m1, e1, k1⟩ := h1 x m h
  obtain ⟨m2, e2, k2⟩ := h2 x m1 e1
  exact ⟨m2, e2, metaKept_trans m m1 m2 k1 k2⟩

theorem historyKept_refl (s : VerifierState) : historyKept s s :=
  ⟨setsKept_refl _, setsKept_refl _, snapshotsKept_refl _⟩

theorem historyKept_trans (a b c : VerifierState) (h1 : historyKept a b)
    (h2 : historyKept b c) : historyKept a c :=
  ⟨setsKept_trans _ _ _ h1.1 h2.1, setsKept_trans _ _ _ h1.2.1 h2.2.1,
    snapshotsKept_trans _ _ _ h1.2.2 h2.2.2⟩

theorem historyKept_of_eq (s s' : VerifierState)
    (h1 : s'.pstmt_metas_map_ = s.pstmt_metas_map_) (h2 : s'.thd_metas_map_ = s.thd_metas_map_)
    (h3 : s'.meta_table_ = s.meta_table_) : historyKept s s' := by
  unfold historyKept
  rw [h1, h2, h3]
  exact historyKept_refl s

theorem setsKept_mapEnsureSet (m : List (Nat × Option MetaSet)) (k : Nat) :
    setsKept m (mapEnsureSet m k) :=
  fun j metas h => ⟨metas, mapFind_mapEnsureSet_of_some m k j _ h, Finset.Subset.refl _⟩

theorem setsKept_metasInsert (m m' : List (Nat × Option MetaSet)) (k id : Nat)
    (h : metasInsert m k id = some m') : setsKept m m' := by
  unfold metasInsert at h
  split at h
  · next metas hk =>
    simp only [Option.some.injEq] at h
    subst h
    intro j ms hj
    by_cases e : k = j
    · subst e
      rw [hk] at hj
      simp only [Option.some.injEq] at hj
      subst hj
      exact ⟨insert id metas, mapFind_mapSet_self m k _, Finset.subset_insert _ _⟩
    · exact ⟨ms, by rw [mapFind_mapSet_ne m k j _ e]; exact hj, Finset.Subset.refl _⟩
  · simp at h

theorem metaKept_AddMetaSnapshot (m : Verifier.Meta) (t : thread_t) (ss : MetaSnapshot) :
    metaKept m (m.AddMetaSnapshot t ss) := by
  refine ⟨rfl, ?_⟩
  intro u l h
  unfold Verifier.Meta.AddMetaSnapshot
  by_cases e : u = t
  · subst e
    simp only [Function.update_same, h, Option.getD_some]
    exact ⟨l ++ [ss], rfl, List.prefix_append l [ss]⟩
  · simp only [Function.update_noteq e]
    exact ⟨l, h, List.prefix_refl l⟩

theorem record_sameSnaps (st : ScanState) (rt : RaceType) (thd : thread_t) (i1 : Inst)
    (curr : thread_t) (inst : Inst) :
    sameSnaps st.meta (st.record rt thd i1 curr inst).meta := ⟨rfl, rfl⟩

theorem postponedCheck_sameSnaps (type : RaceEventType) (inst : Inst) (curr thd : thread_t)
    (ss : MetaSnapshot) (st : ScanState) :
    sameSnaps st.meta (postponedCheck type inst curr thd ss st).meta := by
  unfold postponedCheck
  dsimp only
  split_ifs <;> exact ⟨rfl, rfl⟩

theorem historyStep_sameSnaps (type : RaceEventType) (inst : Inst) (curr thd : thread_t)
    (clk : timestamp_t) (st : ScanState) (ss : MetaSnapshot) :
    sameSnaps st.meta (historyStep type inst curr thd clk st ss).meta := by
  unfold historyStep
  dsimp only
  split_ifs <;> exact ⟨rfl, rfl⟩

theorem sameSnaps_refl (m : Verifier.Meta) : sameSnaps m m := ⟨rfl, rfl⟩

theorem sameSnaps_trans (a b c : Verifier.Meta) (h1 : sameSnaps a b) (h2 : sameSnaps b c) :
    sameSnaps a c := ⟨h2.1.trans h1.1, h2.2.trans h1.2⟩

theorem historyScan_sameSnaps (type : RaceEventType) (inst : Inst) (curr thd : thread_t)
    (clk : timestamp_t) (l : List MetaSnapshot) :
    ∀ st : ScanState, sameSnaps st.meta (historyScan type inst curr thd clk st l).meta := by
  induction l with
  | nil => intro st; exact ⟨rfl, rfl⟩
  | cons ss rest ih =>
    intro st
    have h1 := historyStep_sameSnaps type inst curr thd clk st ss
    have h2 := ih (historyStep type inst curr thd clk st ss)
    unfold historyScan at h2 ⊢
    simp only [List.foldl_cons]
    exact sameSnaps_trans _ _ _ h1 h2

theorem threadStep_sameSnaps (pp : Finset thread_t) (curr_vc : VectorClock)
    (type : RaceEventType) (inst : Inst) (curr : thread_t) (st st' : ScanState)
    (iter : thread_t × Option MetaSet)
    (h : threadStep pp curr_vc type inst curr st iter = some st') :
    sameSnaps st.meta st'.meta := by
  unfold threadStep at h
  dsimp only at h
  have tail : ∀ st1 : ScanState, sameSnaps st.meta st1.meta →
      (if iter.1 ≠ curr ∧ (match iter.2 with
          | none => false
          | some metas => decide (st.meta.id ∈ metas)) = true then
        match st1.meta.meta_ss_map iter.1 with
        | none => none
        | some meta_ss_vec =>
          some (historyScan type inst curr iter.1 (curr_vc.GetClock iter.1) st1 meta_ss_vec)
      else some st1) = some st' → sameSnaps st.meta st'.meta := by
    intro st1 h1 h2
    split at h2
    · split at h2
      · simp at h2
      · simp only [Option.some.injEq] at h2
        rw [← h2]
        exact sameSnaps_trans _ _ _ h1 (historyScan_sameSnaps _ _ _ _ _ _ st1)
    · simp only [Option.some.injEq] at h2
      rw [← h2]
      exact h1
  split at h
  · simp at h
  · next st1 hc =>
    simp only [Option.some.injEq] at h
    rw [← h]
    split at hc
    · split at hc
      · simp at hc
      · split at hc
        · simp only [Option.some.injEq, Prod.mk.injEq] at hc
          rw [← hc.1]
          exact sameSnaps_refl _
        · simp at hc
    · simp at hc
  · next st1 hc =>
    have h1 : sameSnaps st.meta st1.meta := by
      split at hc
      · split at hc
        · simp at hc
        · split at hc
          · simp at hc
          · simp only [Option.some.injEq, Prod.mk.injEq] at hc
            rw [← hc.1]
            exact postponedCheck_sameSnaps _ _ _ _ _ _
      · simp only [Option.some.injEq, Prod.mk.injEq] at hc
        rw [← hc.1]
        exact sameSnaps_refl _
    exact tail st1 h1 h

theorem scanThreads_sameSnaps (pp : Finset thread_t) (curr_vc : VectorClock)
    (type : RaceEventType) (inst : Inst) (curr : thread_t)
    (l : List (thread_t × Option MetaSet)) :
    ∀ st st' : ScanState, scanThreads pp curr_vc type inst curr st l = some st' →
      sameSnaps st.meta st'.meta := by
  induction l with
  | nil =>
    intro st st' h
    simp only [scanThreads, Option.some.injEq] at h
    rw [← h]
    exact sameSnaps_refl _
  | cons iter rest ih =>
    intro st st' h
    simp only [scanThreads] at h
    split at h
    · simp at h
    · next st1 h1 =>
      exact sameSnaps_trans _ _ _ (threadStep_sameSnaps pp curr_vc type inst curr st st1 iter h1)
        (ih st1 st' h)

theorem GetMeta_kept (s : VerifierState) (a : address_t) :
    (s.GetMeta a).1.pstmt_metas_map_ = s.pstmt_metas_map_ ∧
    (s.GetMeta a).1.thd_metas_map_ = s.thd_metas_map_ ∧
    snapshotsKept s.meta_table_ (s.GetMeta a).1.meta_table_ ∧
    (s.GetMeta a).1.meta_table_ a = some (s.GetMeta a).2 := by
  unfold VerifierState.GetMeta
  cases h : s.meta_table_ a with
  | none =>
    refine ⟨rfl, rfl, ?_, by simp⟩
    intro x m hx
    have hne : x ≠ a := by
      intro e
      rw [e, h] at hx
      simp at hx
    exact ⟨m, by simp [Function.update_noteq hne, hx], metaKept_refl m⟩
  | some m => exact ⟨rfl, rfl, snapshotsKept_refl _, h⟩

theorem snapshotsKept_update (tbl : address_t → Option Verifier.Meta) (a : address_t)
    (m0 m : Verifier.Meta) (h0 : tbl a = some m0) (hk : metaKept m0 m) :
    snapshotsKept tbl (Function.update tbl a (some m)) := by
  intro x mx hx
  by_cases e : x = a
  · subst e
    rw [h0] at hx
    simp only [Option.some.injEq] at hx
    subst hx
    exact ⟨m, by simp, hk⟩
  · exact ⟨mx, by rw [Function.update_noteq e]; exact hx, metaKept_refl mx⟩

theorem metaKept_of_sameSnaps (m m' : Verifier.Meta) (h : sameSnaps m m') : metaKept m m' := by
  refine ⟨h.1, ?_⟩
  intro t l hl
  rw [h.2]
  exact ⟨l, hl, List.prefix_refl l⟩

theorem racedUnit_kept (s s' : VerifierState) (first second : PStmt) (inst : Inst)
    (curr : thread_t) (type : RaceEventType) (curr_vc : VectorClock) (flag flag' : Bool)
    (pp pp' : Finset thread_t) (iaddr : address_t)
    (h : s.racedUnit first second inst curr type curr_vc flag pp iaddr = some (s', flag', pp')) :
    historyKept s s' := by
  unfold VerifierState.racedUnit at h
  simp only [] at h
  have g := GetMeta_kept s iaddr
  split at h
  · simp at h
  · next st1 hsc =>
    have hs : sameSnaps (s.GetMeta iaddr).2 st1.meta := by
      split at hsc
      · exact scanThreads_sameSnaps _ _ _ _ _ _ _ st1 hsc
      · simp only [Option.some.injEq] at hsc
        rw [← hsc]
        exact sameSnaps_refl _
    split at h
    · next pm tm hp ht =>
      simp only [Option.some.injEq, Prod.mk.injEq] at h
      rw [← h.1]
      refine ⟨?_, ?_, ?_⟩
      · have k := setsKept_metasInsert _ _ _ _ hp
        rw [g.1] at k
        exact k
      · have k := setsKept_metasInsert _ _ _ _ ht
        rw [g.2.1] at k
        exact k
      · exact snapshotsKept_trans _ _ _ g.2.2.1
          (snapshotsKept_update _ iaddr _ _ g.2.2.2
            (metaKept_trans _ _ _ (metaKept_of_sameSnaps _ _ hs)
              (metaKept_AddMetaSnapshot _ _ _)))
    · simp at h

theorem racedUnits_kept (first second : PStmt) (inst : Inst) (curr : thread_t)
    (type : RaceEventType) (curr_vc : VectorClock) (l : List address_t) :
    ∀ (s s' : VerifierState) (flag flag' : Bool) (pp pp' : Finset thread_t),
      VerifierState.racedUnits first second inst curr type curr_vc s flag pp l =
        some (s', flag', pp') → historyKept s s' := by
  induction l with
  | nil =>
    intro s s' flag flag' pp pp' h
    simp only [VerifierState.racedUnits, Option.some.injEq, Prod.mk.injEq] at h
    rw [← h.1]
    exact historyKept_refl s
  | cons a rest ih =>
    intro s s' flag flag' pp pp' h
    simp only [VerifierState.racedUnits] at h
    split at h
    · simp at h
    · next s1 f1 p1 h1 =>
      exact historyKept_trans s s1 s'
        (racedUnit_kept s s1 first second inst curr type curr_vc flag f1 pp p1 a h1)
        (ih s1 s' f1 flag' p1 pp' h)

theorem RacedMeta_kept (s s' : VerifierState) (first : PStmt)
    (start_addr end_addr : address_t) (second : PStmt) (inst : Inst) (curr : thread_t)
    (type : RaceEventType) (pp pp' : Finset thread_t)
    (h : s.RacedMeta first start_addr end_addr second inst curr type pp = some (s', pp')) :
    historyKept s s' := by
  unfold VerifierState.RacedMeta at h
  split at h
  · simp only [Option.some.injEq, Prod.mk.injEq] at h
    rw [← h.1]; exact historyKept_refl s
  · simp only [Option.some.injEq, Prod.mk.injEq] at h
    rw [← h.1]; exact historyKept_refl s
  · simp only [] at h
    split at h
    · simp at h
    · split at h
      · simp at h
      · split at h
        · simp at h
        · next s1 f1 p1 h1 =>
          have g := racedUnits_kept first second inst curr type _ _ _ s1 _ f1 _ p1 h1
          have g0 : historyKept s s1 :=
            ⟨setsKept_trans _ _ _ (setsKept_mapEnsureSet _ second) g.1,
              setsKept_trans _ _ _ (setsKept_mapEnsureSet _ curr) g.2.1, g.2.2⟩
          split at h
          · simp only [Option.some.injEq, Prod.mk.injEq] at h
            rw [← h.1]
            exact g0
          · simp only [Option.some.injEq, Prod.mk.injEq] at h
            rw [← h.1]
            exact g0

theorem racedAll_kept (start_addr end_addr : address_t) (pstmt : PStmt) (inst : Inst)
    (curr : thread_t) (type : RaceEventType) (l : List PStmt) :
    ∀ (s s' : VerifierState) (pp pp' : Finset thread_t),
      VerifierState.racedAll start_addr end_addr pstmt inst curr type s pp l = some (s', pp') →
      historyKept s s' := by
  induction l with
  | nil =>
    intro s s' pp pp' h
    simp only [VerifierState.racedAll, Option.some.injEq, Prod.mk.injEq] at h
    rw [← h.1]
    exact historyKept_refl s
  | cons a rest ih =>
    intro s s' pp pp' h
    simp only [VerifierState.racedAll] at h
    split at h
    · simp at h
    · next s1 p1 h1 =>
      exact historyKept_trans s s1 s'
        (RacedMeta_kept s s1 a start_addr end_addr pstmt inst curr type pp p1 h1)
        (ih s1 s' p1 pp' h)

theorem recordUnits_kept (pstmt : PStmt) (inst : Inst) (curr : thread_t)
    (type : RaceEventType) (l : List address_t) :
    ∀ (s s' : VerifierState),
      VerifierState.recordUnits pstmt inst curr type s l = some s' → historyKept s s' := by
  induction l with
  | nil =>
    intro s s' h
    simp only [VerifierState.recordUnits, Option.some.injEq] at h
    rw [← h]
    exact historyKept_refl s
  | cons a rest ih =>
    intro s s' h
    simp only [VerifierState.recordUnits] at h
    have g := GetMeta_kept s a
    split at h
    · simp at h
    · split at h
      · next pm tm hp ht =>
        have g2 := ih _ s' h
        refine historyKept_trans s _ s' ⟨?_, ?_, ?_⟩ g2
        · have k := setsKept_metasInsert _ _ _ _ hp
          rw [g.1] at k
          exact k
        · have k := setsKept_metasInsert _ _ _ _ ht
          rw [g.2.1] at k
          exact k
        · exact snapshotsKept_trans _ _ _ g.2.2.1
            (snapshotsKept_update _ a _ _ g.2.2.2 (metaKept_AddMetaSnapshot _ _ _))
      · simp at h

theorem VerifierState_PostponeThread_kept (s s' : VerifierState)
    (rnd : Finset thread_t → thread_t) (t : thread_t) (w : Bool)
    (h : s.PostponeThread rnd t = some (s', w)) : historyKept s s' := by
  rw [VerifierState_PostponeThread_eq] at h
  cases hl : s.internal_lock_.Lock t with
  | none => simp [hl] at h
  | some locked =>
    cases hp : s.toVerifier.PostponeThread rnd t with
    | none => simp [hl, hp] at h
    | some r =>
      simp only [hl, hp, Option.some.injEq, Prod.mk.injEq] at h
      rw [← h.1]
      exact historyKept_of_eq s _ rfl rfl rfl

theorem HandleRace_kept (s s' : VerifierState) (rnd : Finset thread_t → thread_t)
    (coin : Bool) (pp_thds : Finset thread_t) (t : thread_t) (w : Bool)
    (h : s.HandleRace rnd coin pp_thds t = some (s', w)) : historyKept s s' := by
  unfold VerifierState.HandleRace at h
  split at h
  · split at h
    · simp at h
    · next v hv =>
      exact VerifierState_PostponeThread_kept { s with toVerifier := v } s' rnd t w h
  · simp only [Option.some.injEq, Prod.mk.injEq] at h
    rw [← h.1]
    exact historyKept_of_eq s _ rfl rfl rfl

/-- `ProcessReadOrWrite` drains nothing. -/
theorem ProcessReadOrWrite_kept (s s' : VerifierState) (rnd : Finset thread_t → thread_t)
    (coin : Bool) (t : thread_t) (inst : Inst) (addr : address_t) (size : Nat)
    (type : RaceEventType) (w : Bool)
    (h : s.ProcessReadOrWrite rnd coin t inst addr size type = some (s', w)) :
    historyKept s s' := by
  unfold VerifierState.ProcessReadOrWrite at h
  simp only [] at h
  split at h
  · simp at h
  · split at h
    · split at h
      · simp at h
      · next s1 h1 =>
        have g := recordUnits_kept _ _ _ _ _ _ s1 h1
        have g0 : historyKept s s1 :=
          ⟨setsKept_trans _ _ _ (setsKept_mapEnsureSet _ _) g.1,
            setsKept_trans _ _ _ (setsKept_mapEnsureSet _ _) g.2.1, g.2.2⟩
        exact historyKept_trans s s1 s' g0 (VerifierState_PostponeThread_kept s1 s' rnd t w h)
    · split at h
      · simp at h
      · next s1 pp1 h1 =>
        have g := racedAll_kept _ _ _ _ _ _ _ _ s1 _ pp1 h1
        split at h
        · exact historyKept_trans s s1 s' g (HandleRace_kept s1 s' rnd coin pp1 t w h)
        · unfold VerifierState.HandleNoRace at h
          exact historyKept_trans s s1 s' g (VerifierState_PostponeThread_kept s1 s' rnd t w h)

theorem freeUnits_effect (l : List address_t) :
    ∀ s : VerifierState,
      (s.freeUnits l).pstmt_metas_map_ = s.pstmt_metas_map_ ∧
      (s.freeUnits l).thd_metas_map_ = s.thd_metas_map_ ∧
      (s.freeUnits l).filter_ = s.filter_ ∧
      (∀ a, a ∈ l → (s.freeUnits l).meta_table_ a = none) ∧
      (∀ a, a ∉ l → (s.freeUnits l).meta_table_ a = s.meta_table_ a) := by
  induction l with
  | nil =>
    intro s
    exact ⟨rfl, rfl, rfl, fun a ha => absurd ha (List.not_mem_nil a), fun _ _ => rfl⟩
  | cons x rest ih =>
    intro s
    simp only [VerifierState.freeUnits]
    obtain ⟨h1, h2, h3, h4, h5⟩ :=
      ih { s with meta_table_ := Function.update s.meta_table_ x none }
    refine ⟨h1, h2, h3, ?_, ?_⟩
    · intro a ha
      by_cases hr : a ∈ rest
      · exact h4 a hr
      · rw [h5 a hr]
        rw [List.mem_cons] at ha
        rcases ha with ha | ha
        · subst ha; simp
        · exact absurd ha hr
    · intro a ha
      rw [List.mem_cons, not_or] at ha
      rw [h5 a ha.2]
      simp [Function.update_noteq ha.1]

/-- C24, counterexample: thread 1 has written the unit at 0x1000 with instruction 17
and is postponed; thread 2 writes the unit with instruction 25. The pair (17, 25) is
confirmed: the race is printed and the pair leaves the open set. The snapshots of both
threads are still on the meta (number 0) of the unit, and the meta is still a member of
the sets of the statements 17 and 25 and of the threads 1 and 2. After
`FreeAddrRegion(0x1000)` the unit has no meta in `meta_table_` and the region is gone,
but the sets of statement 17 and of thread 1 still hold the freed meta. -/
theorem C24_counterexample :
    (exFirstPostponed.ProcessReadOrWrite (fun _ => 0) true 2 25 4096 4
      RaceEventType.RACE_EVENT_WRITE).isSome = true ∧
    ((17, 25) : PStmt × PStmt) ∈ exFirstPostponed.prace_db_.relation ∧
    ((17, 25) : PStmt × PStmt) ∉ exConfirmed.prace_db_.relation ∧
    exConfirmed.printed =
      [{ addr := 4096, race_type := RaceType.WRITETOWRITE, t1 := 1, i1 := 17,
         t2 := 2, i2 := 25 }] ∧
    (exConfirmed.meta_table_ 4096).map (fun m => (m.id, m.meta_ss_map 1, m.meta_ss_map 2)) =
      some (0, some [{ thd_clk := 2, type := RaceEventType.RACE_EVENT_WRITE, inst := 17 }],
        some [{ thd_clk := 1, type := RaceEventType.RACE_EVENT_WRITE, inst := 25 }]) ∧
    mapFind exConfirmed.pstmt_metas_map_ 17 = some (some {0}) ∧
    mapFind exConfirmed.pstmt_metas_map_ 25 = some (some {0}) ∧
    mapFind exConfirmed.thd_metas_map_ 1 = some (some {0}) ∧
    mapFind exConfirmed.thd_metas_map_ 2 = some (some {0}) ∧
    ((exConfirmed.FreeAddrRegion 4096).meta_table_ 4096).isNone = true ∧
    (exConfirmed.FreeAddrRegion 4096).filter_ = [] ∧
    mapFind (exConfirmed.FreeAddrRegion 4096).pstmt_metas_map_ 17 = some (some {0}) ∧
    mapFind (exConfirmed.FreeAddrRegion 4096).thd_metas_map_ 1 = some (some {0}) := by
  decide

/-- C24, amended: the snapshot history is not drained. `ProcessReadOrWrite` (also when
it confirms a pair) loses no member of a set of `pstmt_metas_map_` or `thd_metas_map_`,
no meta of `meta_table_` and no snapshot of a meta. `FreeAddrRegion(freed)` leaves both
maps of sets as they are; for `freed` other than 0 it erases from `meta_table_` the
metas of the units of the region that starts at `freed`, and no other meta. -/
theorem C24_history_is_never_drained (s s1 : VerifierState)
    (rnd : Finset thread_t → thread_t) (coin : Bool) (t : thread_t) (inst : Inst)
    (addr : address_t) (size : Nat) (type : RaceEventType) (w : Bool) (freed : address_t)
    (h : s.ProcessReadOrWrite rnd coin t inst addr size type = some (s1, w)) :
    historyKept s s1 ∧
    (s1.FreeAddrRegion freed).pstmt_metas_map_ = s1.pstmt_metas_map_ ∧
    (s1.FreeAddrRegion freed).thd_metas_map_ = s1.thd_metas_map_ ∧
    (freed ≠ 0 →
      ∀ a ∈ unitAddrs (UNIT_DOWN_ALIGN freed s1.unit_size_)
          (UNIT_UP_ALIGN (freed + (removeRegion s1.filter_ freed).2) s1.unit_size_)
          s1.unit_size_,
        (s1.FreeAddrRegion freed).meta_table_ a = none) ∧
    (∀ a, a ∉ unitAddrs (UNIT_DOWN_ALIGN freed s1.unit_size_)
          (UNIT_UP_ALIGN (freed + (removeRegion s1.filter_ freed).2) s1.unit_size_)
          s1.unit_size_ →
        (s1.FreeAddrRegion freed).meta_table_ a = s1.meta_table_ a) := by
  refine ⟨ProcessReadOrWrite_kept s s1 rnd coin t inst addr size type w h, ?_⟩
  unfold VerifierState.FreeAddrRegion
  by_cases h0 : freed = 0
  · rw [if_pos h0]
    exact ⟨rfl, rfl, fun hn => absurd h0 hn, fun _ _ => rfl⟩
  · rw [if_neg h0]
    obtain ⟨e1, e2, -, e4, e5⟩ := freeUnits_effect
      (unitAddrs (UNIT_DOWN_ALIGN freed s1.unit_size_)
        (UNIT_UP_ALIGN (freed + (removeRegion s1.filter_ freed).2) s1.unit_size_)
        s1.unit_size_)
      { s1 with filter_ := (removeRegion s1.filter_ freed).1 }
    exact ⟨e1, e2, fun _ => e4, e5⟩

/-! ## The theorems of the third part at concrete inputs -/

/-- C21 at a concrete input: the main thread 1 has started and starts thread 2. -/
theorem C21_ThreadStart_effect_witness :
    exStarted.thd_vc_map_ 2 = none ∧ exStarted.thd_smp_map_ 2 = none ∧
    (∀ p, some (1 : thread_t) = some p → exStarted.thd_vc_map_ p ≠ none) ∧
    ∃ s' vc, exStarted.ThreadStart 2 (some 1) = some s' ∧ s'.thd_vc_map_ 2 = some vc ∧
      (some (1 : thread_t) = none → vc.GetClock 2 = 1 ∧ ∀ x, x ≠ 2 → vc.GetClock x = 0) ∧
      (∀ p pvc, some (1 : thread_t) = some p → exStarted.thd_vc_map_ p = some pvc →
        p ≠ 2 ∧ s'.thd_vc_map_ p = some pvc ∧
        (∀ x, x ≠ 2 → vc.GetClock x = pvc.GetClock x) ∧
        vc.GetClock 2 = max 1 (pvc.GetClock 2)) ∧
      s'.avail_thd_set_ = insert 2 exStarted.avail_thd_set_ ∧ s'.thd_smp_map_ 2 = some 0 ∧
      s'.pp_thd_set_ = exStarted.pp_thd_set_ ∧ s'.blk_thd_set_ = exStarted.blk_thd_set_ ∧
      ∀ t, t ≠ 2 → s'.thd_vc_map_ t = exStarted.thd_vc_map_ t ∧
        s'.thd_smp_map_ t = exStarted.thd_smp_map_ t :=
  have hp : ∀ p, some (1 : thread_t) = some p → exStarted.thd_vc_map_ p ≠ none := by
    intro p h
    cases h
    simp [exStarted, Verifier.setVc]
  ⟨rfl, rfl, hp, C21_ThreadStart_effect exStarted 2 (some 1) rfl rfl hp⟩
/-- C26 at concrete inputs: thread 2 holds `verify_lock_` and writes the unit at 0x1000
with the second statement of the pair while thread 1 is postponed at the first (the
path through `HandleRace`); and thread 1 holds the lock and makes the first access of
the pair (the path of a first statement, through `PostponeThread`). -/
theorem C26_ProcessReadOrWrite_releases_the_locks_witness :
    (∃ s' w, ({ exFirstPostponed with verify_lock_ := { holder := some 2, misuse := [] } } :
          VerifierState).ProcessReadOrWrite (fun _ => 0) true 2 25 4096 4
          RaceEventType.RACE_EVENT_WRITE = some (s', w) ∧
      s'.verify_lock_ = { holder := none, misuse := [] } ∧
      s'.internal_lock_ = { holder := none, misuse := [] }) ∧
    (∃ s' w, ({ exSetup exStarted with verify_lock_ := { holder := some 1, misuse := [] } } :
          VerifierState).ProcessReadOrWrite (fun _ => 0) false 1 17 4096 4
          RaceEventType.RACE_EVENT_WRITE = some (s', w) ∧
      s'.verify_lock_ = { holder := none, misuse := [] } ∧
      s'.internal_lock_ = { holder := none, misuse := [] }) := by
  refine ⟨?_, ?_⟩
  · obtain ⟨r, hr⟩ := Option.isSome_iff_exists.mp
      (show (({ exFirstPostponed with verify_lock_ := { holder := some 2, misuse := [] } } :
          VerifierState).ProcessReadOrWrite (fun _ => 0) true 2 25 4096 4
          RaceEventType.RACE_EVENT_WRITE).isSome = true from by decide)
    exact ⟨r.1, r.2, hr, C26_ProcessReadOrWrite_releases_the_locks _ r.1 (fun _ => 0) true 2 25
      4096 4 RaceEventType.RACE_EVENT_WRITE r.2 rfl rfl hr⟩
  · obtain ⟨r, hr⟩ := Option.isSome_iff_exists.mp
      (show (({ exSetup exStarted with verify_lock_ := { holder := some 1, misuse := [] } } :
          VerifierState).ProcessReadOrWrite (fun _ => 0) false 1 17 4096 4
          RaceEventType.RACE_EVENT_WRITE).isSome = true from by decide)
    exact ⟨r.1, r.2, hr, C26_ProcessReadOrWrite_releases_the_locks _ r.1 (fun _ => 0) false 1 17
      4096 4 RaceEventType.RACE_EVENT_WRITE r.2 rfl rfl hr⟩
/-- C22 at a concrete input: the threads 1 and 2 have started; both acquire the rwlock 7
as readers; thread 2 unlocks first, then thread 1. -/
theorem C22_rwlock_release_cycle_witness :
    ([((1 : thread_t), false), (2, false)] : List (thread_t × Bool)) ≠ [] ∧
    ([2, 1] : List thread_t).Nodup ∧
    ([2, 1] : List thread_t).Perm
      (([((1 : thread_t), false), (2, false)] : List (thread_t × Bool)).map Prod.fst) ∧
    (∀ a ∈ ([((1 : thread_t), false), (2, false)] : List (thread_t × Bool)),
      exTwoThreads.thd_vc_map_ a.1 ≠ none) ∧
    (exTwoThreads.rwlockMeta 7).ref = 0 ∧
    (exTwoThreads.rwlockMeta 7).wait_vc = VectorClock.empty ∧
    ∃ s1, exTwoThreads.run (fun _ => 0)
        (([((1 : thread_t), false), (2, false)] : List (thread_t × Bool)).map
          (acquireEvent 7)) = some s1 ∧
      (s1.rwlockMeta 7).ref =
        (([((1 : thread_t), false), (2, false)] : List (thread_t × Bool)).length : Int) ∧
      ∀ i, i ≤ ([2, 1] : List thread_t).length →
        ∃ s2, s1.run (fun _ => 0) ((([2, 1] : List thread_t).take i).map
            (fun t => VEvent.BeforePthreadRwlockUnlock t 7)) = some s2 ∧
          (s2.rwlockMeta 7).ref =
            (([((1 : thread_t), false), (2, false)] : List (thread_t × Bool)).length : Int) - i ∧
          (∀ t ∈ ([2, 1] : List thread_t).take i, ∃ V, s1.thd_vc_map_ t = some V ∧
            s2.thd_vc_map_ t = some (V.Increment t)) ∧
          (∀ t, t ∉ ([2, 1] : List thread_t).take i → s2.thd_vc_map_ t = s1.thd_vc_map_ t) ∧
          (i < ([2, 1] : List thread_t).length →
            (s2.rwlockMeta 7).vc = (s1.rwlockMeta 7).vc ∧
            (s2.rwlockMeta 7).wait_vc =
              s1.joinClocks VectorClock.empty (([2, 1] : List thread_t).take i)) ∧
          (i = ([2, 1] : List thread_t).length →
            (s2.rwlockMeta 7).vc = s1.joinClocks VectorClock.empty [2, 1] ∧
            (s2.rwlockMeta 7).wait_vc = VectorClock.empty) :=
  have hvc : ∀ a ∈ ([((1 : thread_t), false), (2, false)] : List (thread_t × Bool)),
      exTwoThreads.thd_vc_map_ a.1 ≠ none := by
    intro a ha
    simp only [List.mem_cons, List.mem_singleton, List.not_mem_nil, or_false] at ha
    rcases ha with rfl | rfl <;> simp [exTwoThreads, Verifier.setVc]
  ⟨by simp, by decide, by decide, hvc, rfl, rfl,
    C22_rwlock_release_cycle exTwoThreads (fun _ => 0) 7 [(1, false), (2, false)] [2, 1]
      (by simp) (by decide) (by decide) hvc rfl rfl⟩
/-- C28 at a concrete input: the run `exLockRun` from the initial state. -/
theorem C28_no_clock_knows_more_than_the_thread_witness :
    ∃ s' : Verifier,
      Verifier.init.freshRun (fun _ => 0) exLockRun = true ∧
      Verifier.init.run (fun _ => 0) exLockRun = some s' ∧
      (∀ t u vc, t ≠ u → s'.thd_vc_map_ t = some vc →
        vc.GetClock u ≤ (s'.clockOf u).GetClock u) ∧
      (∀ a mm u, s'.mutex_meta_table_ a = some mm →
        mm.vc.GetClock u ≤ (s'.clockOf u).GetClock u) ∧
      (∀ a rm u, s'.rwlock_meta_table_ a = some rm →
        rm.vc.GetClock u ≤ (s'.clockOf u).GetClock u ∧
        rm.wait_vc.GetClock u ≤ (s'.clockOf u).GetClock u) :=
  ⟨_, rfl, rfl, C28_no_clock_knows_more_than_the_thread (fun _ => 0) exLockRun _ rfl rfl⟩
/-- C24 (amended) at a concrete input: thread 2 writes the unit at 0x1000 with
instruction 25 while thread 1 is postponed at instruction 17, the pair is confirmed;
then the region at 0x1000 is freed. -/
theorem C24_history_is_never_drained_witness :
    ∃ s1 w, exFirstPostponed.ProcessReadOrWrite (fun _ => 0) true 2 25 4096 4
        RaceEventType.RACE_EVENT_WRITE = some (s1, w) ∧
      historyKept exFirstPostponed s1 ∧
      (s1.FreeAddrRegion 4096).pstmt_metas_map_ = s1.pstmt_metas_map_ ∧
      (s1.FreeAddrRegion 4096).thd_metas_map_ = s1.thd_metas_map_ ∧
      ((4096 : address_t) ≠ 0 →
        ∀ a ∈ unitAddrs (UNIT_DOWN_ALIGN 4096 s1.unit_size_)
            (UNIT_UP_ALIGN (4096 + (removeRegion s1.filter_ 4096).2) s1.unit_size_)
            s1.unit_size_,
          (s1.FreeAddrRegion 4096).meta_table_ a = none) ∧
      (∀ a, a ∉ unitAddrs (UNIT_DOWN_ALIGN 4096 s1.unit_size_)
            (UNIT_UP_ALIGN (4096 + (removeRegion s1.filter_ 4096).2) s1.unit_size_)
            s1.unit_size_ →
          (s1.FreeAddrRegion 4096).meta_table_ a = s1.meta_table_ a) := by
  obtain ⟨r, hr⟩ := Option.isSome_iff_exists.mp
    (show (exFirstPostponed.ProcessReadOrWrite (fun _ => 0) true 2 25 4096 4
      RaceEventType.RACE_EVENT_WRITE).isSome = true from by decide)
  exact ⟨r.1, r.2, hr, C24_history_is_never_drained exFirstPostponed r.1 (fun _ => 0) true 2 25
    4096 4 RaceEventType.RACE_EVENT_WRITE r.2 4096 hr⟩

end race
